import Mathlib

/-!
# Verification of the mediabunny HLS core

A shallow embedding, in Lean 4, of the HLS components of the mediabunny
repository: the M3U8 playlist data model, parser (`m3u8-parser.ts`) and writer
(`m3u8-writer.ts`), the virtual-byte-stream segment source
(`hls-variant-input.ts`), the variant-selection logic of `HlsSource`
(`index.ts` in `src/hls`), and the `HlsInput` facade constructor
(`hls-input.ts`).

Modelling conventions:

* JavaScript strings are Lean `String`s; all internal text processing is done
  on `List Char`.  JS `number` values are modelled as exact rationals (`ℚ`) or
  integers (`ℤ`) as appropriate; the IEEE-754 specials (`NaN`, `Infinity`,
  negative zero) and binary-rounding artefacts are outside the model, which is
  noted locally wherever JS could produce them.
* JS `Date` values are represented by their canonical ISO-8601 serialization
  (`toISOString`), i.e. by a `String`; `toISOString` is then the identity and
  the `new Date(s)` applied by the parser to such a canonical string is also
  the identity.
* `Map` objects keyed by numbers or strings are association lists whose `set`
  operation overwrites in place (preserving the original insertion position,
  as JS `Map.set` does), so key uniqueness is preserved from the empty map on.
* Asynchronous code is modelled by explicit state passing; the network is an
  oracle (`FetchEnv`) giving each media sequence number the byte length the
  server would return for it.  Timer-based code (the 100 ms live-edge poll) is
  modelled by its discrete check schedule.
-/

set_option maxHeartbeats 1600000
set_option maxRecDepth 40000

/- `Rat.add`/`Rat.mul`/`Rat.inv` are `@[irreducible]` in Batteries, which
blocks `decide`-style evaluation of the models on concrete playlists; their
reducibility is restored locally (this changes no semantics). -/
attribute [local semireducible] Rat.add Rat.mul Rat.inv

namespace Mediabunny

/-! ## Character and string preliminaries -/

/-- JS whitespace characters relevant to `trim` / `parseInt` / `parseFloat`
(ASCII subset; the playlists in scope contain no exotic Unicode spaces). -/
def isWsChar (c : Char) : Bool :=
  c = ' ' || c = '\t' || c = '\n' || c = '\r' || c = '\x0b' || c = '\x0c'

/-- Decimal digit test. -/
def isDigitChar (c : Char) : Bool :=
  '0' ≤ c && c ≤ '9'

/-- The character class `[A-Z0-9-]` of the attribute-name regex. -/
def isAttrNameChar (c : Char) : Bool :=
  ('A' ≤ c && c ≤ 'Z') || ('0' ≤ c && c ≤ '9') || c = '-'

/-- `String.prototype.trim`, on char lists. -/
def trimChars (l : List Char) : List Char :=
  ((l.dropWhile isWsChar).reverse.dropWhile isWsChar).reverse

/-- `a.startsWith b`, on char lists. -/
def startsWithChars : List Char → List Char → Bool
  | _, [] => true
  | [], _ :: _ => false
  | c :: cs, p :: ps => c = p && startsWithChars cs ps

/-- Splitting on the regex `/\r?\n/`: each `'\n'` ends a line, and a `'\r'`
immediately before the `'\n'` is consumed with it.  A lone `'\r'` stays in
its line. -/
def splitLinesAux : List Char → List Char → List (List Char)
  | acc, [] => [acc.reverse]
  | acc, '\n' :: rest =>
    (match acc with
      | '\r' :: acc' => acc'.reverse
      | _ => acc.reverse) :: splitLinesAux [] rest
  | acc, c :: rest => splitLinesAux (c :: acc) rest

/-- `content.split(/\r?\n/)`. -/
def splitLines (l : List Char) : List (List Char) :=
  splitLinesAux [] l

/-- `a.split(sep)` for a single-character separator (used for `'@'`). -/
def splitOnCharAux (sep : Char) : List Char → List Char → List (List Char)
  | acc, [] => [acc.reverse]
  | acc, c :: rest =>
    if c = sep then acc.reverse :: splitOnCharAux sep [] rest
    else splitOnCharAux sep (c :: acc) rest

/-- `a.split(sep)`, single-character separator. -/
def splitOnChar (sep : Char) (l : List Char) : List (List Char) :=
  splitOnCharAux sep [] l

/-- Substring test (`String.prototype.includes`), on char lists. -/
def containsSub (hay pat : List Char) : Bool :=
  match hay with
  | [] => startsWithChars [] pat
  | _ :: t => startsWithChars hay pat || containsSub t pat

/-! ## JS number parsing -/

/-- Digit value of a digit character. -/
def digitVal (c : Char) : Nat := c.toNat - 48

/-- Character of a digit value (`0 ≤ d ≤ 9`). -/
def digitChar (d : Nat) : Char := Char.ofNat (48 + d)

/-- Numeric value of a digit run (big-endian). -/
def digitsToNat (l : List Char) : Nat :=
  l.foldl (fun acc c => acc * 10 + digitVal c) 0

/-- Reads an optional `+`/`-` sign, returning the sign (as `1` or `-1`) and
the rest. -/
def readSign : List Char → Int × List Char
  | '-' :: rest => (-1, rest)
  | '+' :: rest => (1, rest)
  | l => (1, l)

/-- `parseInt(s, 10)`: skip leading whitespace, optional sign, then the
maximal digit prefix; `none` models `NaN` (no digits at all). -/
def parseIntJS (l : List Char) : Option Int :=
  let l := l.dropWhile isWsChar
  let (sign, l) := readSign l
  let ds := l.takeWhile isDigitChar
  if ds.isEmpty then none
  else some (sign * (digitsToNat ds : Int))

/-- `parseFloat(s)`: skip leading whitespace, optional sign, then the maximal
decimal-literal prefix `digits [. digits] [e/E [sign] digits]`; `none` models
`NaN`.  (The literals `Infinity`/`NaN` are not modelled; no input in scope
produces them.) -/
def parseFloatJS (l : List Char) : Option ℚ :=
  let l := l.dropWhile isWsChar
  let (sign, l) := readSign l
  let intDs := l.takeWhile isDigitChar
  let l₁ := l.drop intDs.length
  let (fracDs, l₂) :=
    match l₁ with
    | '.' :: rest => (rest.takeWhile isDigitChar, rest.drop (rest.takeWhile isDigitChar).length)
    | _ => ([], l₁)
  if intDs.isEmpty && fracDs.isEmpty then none
  else
    let mant : ℚ := (digitsToNat intDs : ℚ) + (digitsToNat fracDs : ℚ) / ((10 : ℚ) ^ fracDs.length)
    let expVal : Int :=
      match l₂ with
      | c :: rest =>
        if c = 'e' || c = 'E' then
          let (esign, rest') := readSign rest
          let eds := rest'.takeWhile isDigitChar
          if eds.isEmpty then 0 else esign * (digitsToNat eds : Int)
        else 0
      | [] => 0
    some ((sign : ℚ) * mant * (10 : ℚ) ^ expVal)

/-! ## JS number formatting -/

/-- Little-endian digit characters of a natural number (`fuel`-bounded
structural recursion; `fuel ≥ n` suffices). -/
def natDigitsAux : Nat → Nat → List Char
  | 0, _ => []
  | fuel + 1, n =>
    if n < 10 then [digitChar n]
    else digitChar (n % 10) :: natDigitsAux fuel (n / 10)

/-- Decimal digit characters of a natural number, as JS `toString` renders
it (plain digits; scientific notation for huge magnitudes is outside the
model). -/
def natToChars (n : Nat) : List Char :=
  (natDigitsAux (n + 1) n).reverse

/-- Decimal rendering of an integer. -/
def intToChars (i : Int) : List Char :=
  if i < 0 then '-' :: natToChars i.natAbs else natToChars i.natAbs

/-- Zero-padding a digit string on the left to the given width. -/
def padLeftZeros (width : Nat) (l : List Char) : List Char :=
  List.replicate (width - l.length) '0' ++ l

/-- JS `Math.round`: floor of `x + 1/2` (round half toward `+∞`). -/
def roundJS (q : ℚ) : Int := ⌊q + 1 / 2⌋

/-- `x.toFixed(3)`: sign of `x`, then the magnitude rounded half-up to three
decimals, rendered with exactly three decimals.  (Exact rational rounding; the
binary-double artefacts of the real `toFixed` are outside the model.) -/
def toFixed3 (q : ℚ) : List Char :=
  let s : List Char := if q < 0 then ['-'] else []
  let n : Nat := (⌊|q| * 1000 + 1 / 2⌋).toNat
  s ++ natToChars (n / 1000) ++ '.' :: padLeftZeros 3 (natToChars (n % 1000))

/-- Whether the regex `\.?0+$` matches at the start of `l` (reaching the end
of the string). -/
def zeroSuffixAt (l : List Char) : Bool :=
  match l with
  | '.' :: rest => !rest.isEmpty && rest.all (· = '0')
  | _ => !l.isEmpty && l.all (· = '0')

/-- `s.replace(/\.?0+$/, '')`: remove the leftmost (hence maximal) match of
an optional dot followed by trailing zeros at the end of the string. -/
def trimZeroSuffix : List Char → List Char
  | [] => []
  | c :: rest =>
    if zeroSuffixAt (c :: rest) then []
    else c :: trimZeroSuffix rest

/-- `formatDuration` of the writer: `duration.toFixed(3)` with the trailing
zeros (and a bare dot) trimmed, falling back to `"0"` when everything was
trimmed away. -/
def formatDuration (q : ℚ) : List Char :=
  let t := trimZeroSuffix (toFixed3 q)
  if t.isEmpty then ['0'] else t

/-- JS `Number.prototype.toString` for the decimal rationals in scope:
minimal decimal form (integer part, then fractional digits without trailing
zeros).  Defined totally by rounding at nine fractional digits; on the
canonical values used by the theorems the value is exact and agrees with JS. -/
def qToChars (q : ℚ) : List Char :=
  let s : List Char := if q < 0 then ['-'] else []
  let n : Nat := (⌊|q| * 1000000000 + 1 / 2⌋).toNat
  let ipart := natToChars (n / 1000000000)
  let fpart := trimZeroSuffix (padLeftZeros 9 (natToChars (n % 1000000000)))
  if fpart.isEmpty then s ++ ipart else s ++ ipart ++ '.' :: fpart

/-! ## M3U8 data model (`m3u8-types.ts`)

Optional boolean fields of the TS interfaces (`discontinuity`, `gap`,
`default`, `precise`, …) are modelled as `Bool` with `false` for "absent":
both the parser (which only ever sets them to `true`) and the writer (which
tests them for truthiness) are insensitive to the difference.  Likewise an
absent optional array and a present empty one are identified. -/

/-- A byte range (`ByteRange`): `length`, optional `offset`. -/
structure ByteRange where
  length : Int
  offset : Option Int
  deriving DecidableEq, Repr

/-- An encryption method (`EncryptionKey['method']`). -/
inductive KeyMethod where
  | none
  | aes128
  | sampleAes
  | sampleAesCtr
  deriving DecidableEq, Repr

/-- The wire form of a key method. -/
def KeyMethod.chars : KeyMethod → List Char
  | .none => "NONE".data
  | .aes128 => "AES-128".data
  | .sampleAes => "SAMPLE-AES".data
  | .sampleAesCtr => "SAMPLE-AES-CTR".data

/-- An `EncryptionKey`. -/
structure EncryptionKey where
  method : KeyMethod
  uri : Option String
  iv : Option String
  keyFormat : Option String
  keyFormatVersions : Option String
  deriving DecidableEq, Repr

/-- An `InitSegment` (`EXT-X-MAP`). -/
structure InitSegment where
  uri : String
  byteRange : Option ByteRange
  deriving DecidableEq, Repr

/-- A client-attribute value of an `EXT-X-DATERANGE` (`string | number`). -/
inductive ClientAttrVal where
  | str (s : String)
  | num (q : ℚ)
  deriving DecidableEq, Repr

/-- A `DateRange`.  Date fields hold the ISO-8601 serialization (see the
module conventions). -/
structure DateRange where
  id : String
  startDate : String
  class_ : Option String
  endDate : Option String
  duration : Option ℚ
  plannedDuration : Option ℚ
  scte35Cmd : Option String
  scte35Out : Option String
  scte35In : Option String
  endOnNext : Bool
  clientAttributes : List (String × ClientAttrVal)
  deriving DecidableEq, Repr

/-- A `MediaSegment`. -/
structure MediaSegment where
  duration : ℚ
  title : Option String
  uri : String
  byteRange : Option ByteRange
  discontinuity : Bool
  programDateTime : Option String
  key : Option EncryptionKey
  map : Option InitSegment
  gap : Bool
  bitrate : Option Int
  deriving DecidableEq, Repr

/-- `EXT-X-PLAYLIST-TYPE` values. -/
inductive PlaylistType where
  | vod
  | event
  deriving DecidableEq, Repr

/-- The wire form of a playlist type. -/
def PlaylistType.chars : PlaylistType → List Char
  | .vod => "VOD".data
  | .event => "EVENT".data

/-- An `EXT-X-START` value. -/
structure StartOffset where
  timeOffset : ℚ
  precise : Bool
  deriving DecidableEq, Repr

/-- A `MediaPlaylist`. -/
structure MediaPlaylist where
  version : Int
  targetDuration : Int
  mediaSequence : Int
  discontinuitySequence : Option Int
  playlistType : Option PlaylistType
  endList : Bool
  iFramesOnly : Bool
  independentSegments : Bool
  start : Option StartOffset
  dateRanges : List DateRange
  segments : List MediaSegment
  deriving DecidableEq, Repr

/-- A `MediaRendition['type']`. -/
inductive RenditionType where
  | audio
  | video
  | subtitles
  | closedCaptions
  deriving DecidableEq, Repr

/-- A `MediaRendition` (master playlists). -/
structure MediaRendition where
  type : RenditionType
  groupId : String
  name : String
  uri : Option String
  language : Option String
  assocLanguage : Option String
  default : Bool
  autoselect : Bool
  forced : Bool
  instreamId : Option String
  characteristics : Option String
  channels : Option String
  deriving DecidableEq, Repr

/-- A `VariantStream` (master playlists). -/
structure VariantStream where
  bandwidth : Int
  averageBandwidth : Option Int
  resolution : Option (ℚ × ℚ)
  frameRate : Option ℚ
  codecs : Option String
  audio : Option String
  video : Option String
  subtitles : Option String
  closedCaptions : Option String
  hdcpLevel : Option String
  uri : String
  deriving DecidableEq, Repr

/-- A `SessionDataItem` (master playlists). -/
structure SessionDataItem where
  dataId : String
  value : Option String
  uri : Option String
  language : Option String
  deriving DecidableEq, Repr

/-- A `MasterPlaylist`. -/
structure MasterPlaylist where
  version : Int
  independentSegments : Bool
  variants : List VariantStream
  media : List MediaRendition
  sessionData : List SessionDataItem
  sessionKey : Option EncryptionKey
  deriving DecidableEq, Repr

/-- A `Playlist` (sum of the two). -/
inductive Playlist where
  | master (p : MasterPlaylist)
  | media (p : MediaPlaylist)
  deriving DecidableEq, Repr

/-! ## Attribute-list scanning (`parseAttributeList`)

The TS code repeatedly `exec`s the global regex
`([A-Z0-9-]+)=(?:"([^"]*)"|([^,]*))` and collects the matches into a `Map`.
The model scans positions left to right: at each position it attempts the
match exactly as the (backtracking-free, as analysed below) regex would:

* the greedy key run `[A-Z0-9-]+` cannot backtrack usefully, because `'='`
  is outside the class — so a match needs the maximal run followed by `'='`;
* after `'='`, the quoted alternative applies iff the value starts with `'"'`
  and a closing `'"'` exists; otherwise the unquoted alternative `[^,]*`
  (possibly empty) applies.

On failure the scanner advances one position, which is the `lastIndex`
behaviour of `exec` on a global regex. -/

/-- Attempts the attribute regex at the head of `l`.  Returns the key, the
value and the unconsumed rest. -/
def attrMatchAt (l : List Char) : Option (List Char × List Char × List Char) :=
  let key := l.takeWhile isAttrNameChar
  if key.isEmpty then none
  else
    match l.drop key.length with
    | '=' :: afterEq =>
      match afterEq with
      | '"' :: inner =>
        let v := inner.takeWhile (· ≠ '"')
        match inner.drop v.length with
        | '"' :: rest => some (key, v, rest)
        | _ =>
          -- no closing quote: the unquoted alternative matches from `afterEq`
          let v' := afterEq.takeWhile (· ≠ ',')
          some (key, v', afterEq.drop v'.length)
      | _ =>
        let v := afterEq.takeWhile (· ≠ ',')
        some (key, v, afterEq.drop v.length)
    | _ => none

/-- Scans all attribute matches left to right (fuel-bounded; `fuel ≥ l.length`
suffices since every step consumes at least one character). -/
def scanAttrsAux : Nat → List Char → List (List Char × List Char)
  | 0, _ => []
  | fuel + 1, l =>
    match attrMatchAt l with
    | some (key, v, rest) => (key, v) :: scanAttrsAux fuel rest
    | none =>
      match l with
      | [] => []
      | _ :: t => scanAttrsAux fuel t

/-- All attribute matches of a line's argument text. -/
def scanAttrs (l : List Char) : List (List Char × List Char) :=
  scanAttrsAux (l.length + 1) l

/-- `Map.set` on an association list: overwrite in place, else append. -/
def mapSet (k v : List Char) : List (List Char × List Char) → List (List Char × List Char)
  | [] => [(k, v)]
  | (k', v') :: rest => if k' = k then (k, v) :: rest else (k', v') :: mapSet k v rest

/-- The attribute `Map` of a line: all matches collected with `Map.set`. -/
def attrMap (l : List Char) : List (List Char × List Char) :=
  (scanAttrs l).foldl (fun m kv => mapSet kv.1 kv.2 m) []

/-- `Map.get`: `none` models `undefined`. -/
def mapGet (k : List Char) : List (List Char × List Char) → Option (List Char)
  | [] => none
  | (k', v) :: rest => if k' = k then some v else mapGet k rest

/-- `attrs.get(k)` followed by a JS truthiness test: a present-but-empty
string is falsy, so it is treated like an absent attribute.  Used to model
the pervasive `const x = attrs.get('K'); if (x) … ` pattern. -/
def mapGetTruthy (k : List Char) (m : List (List Char × List Char)) : Option (List Char) :=
  match mapGet k m with
  | some v => if v.isEmpty then none else some v
  | none => none

/-! ## The M3U8 parser (`m3u8-parser.ts`) -/

/-- The distinct failure sites of the parser (each corresponds to exactly one
`throw new M3U8ParseError(…)` in the source). -/
inductive PErrKind where
  /-- `'Missing #EXTM3U header'` (thrown without a line number). -/
  | header
  /-- `'EXT-X-STREAM-INF missing BANDWIDTH'`. -/
  | streamInfBandwidth
  /-- `'EXT-X-MEDIA missing or invalid TYPE'`. -/
  | renditionTypeBad
  /-- `'EXT-X-MEDIA missing GROUP-ID'`. -/
  | renditionGroupId
  /-- `'EXT-X-MEDIA missing NAME'`. -/
  | renditionName
  /-- `'EXT-X-SESSION-DATA missing DATA-ID'`. -/
  | sessionDataId
  /-- `'EXT-X-KEY missing or invalid METHOD'` (also used for `EXT-X-SESSION-KEY`). -/
  | keyMethodBad
  /-- `'EXT-X-MAP missing URI'`. -/
  | mapUri
  /-- `'EXT-X-DATERANGE missing ID'`. -/
  | dateRangeId
  /-- `'EXT-X-DATERANGE missing START-DATE'`. -/
  | dateRangeStartDate
  deriving DecidableEq, Repr

/-- An `M3U8ParseError`: the failure site and the optional 1-based line
number it was constructed with. -/
structure PErr where
  kind : PErrKind
  line : Option Nat
  deriving DecidableEq, Repr

/-- `parseByteRange(str, lastEnd)`.  (`parseInt` returning `NaN` is outside
the numeric model and falls back to `0`; every input used by the theorems
parses.) -/
def parseByteRangeM (str : List Char) (lastEnd : Int) : ByteRange :=
  let parts := splitOnChar '@' str
  let length := (parseIntJS (parts.headD [])).getD 0
  let offset : Int :=
    match parts.drop 1 with
    | p1 :: _ => (parseIntJS p1).getD 0
    | [] => lastEnd
  { length := length, offset := some offset }

/-- Decoding the `METHOD` enum. -/
def decodeKeyMethod (v : List Char) : Option KeyMethod :=
  if v = "NONE".data then some .none
  else if v = "AES-128".data then some .aes128
  else if v = "SAMPLE-AES".data then some .sampleAes
  else if v = "SAMPLE-AES-CTR".data then some .sampleAesCtr
  else none

/-- Strips one leading `0x`/`0X` from an IV value. -/
def stripIvHex (v : List Char) : List Char :=
  if startsWithChars v "0x".data || startsWithChars v "0X".data then v.drop 2 else v

/-- `parseKey(str, lineNumber)`. -/
def parseKeyM (args : List Char) (ln : Nat) : Except PErr EncryptionKey := do
  let attrs := attrMap args
  let method ←
    match mapGetTruthy "METHOD".data attrs with
    | some v =>
      match decodeKeyMethod v with
      | some m => pure m
      | none => throw ⟨.keyMethodBad, some ln⟩
    | none => throw ⟨.keyMethodBad, some ln⟩
  let iv := (mapGetTruthy "IV".data attrs).map (fun v => String.mk (stripIvHex v))
  pure
    { method := method
      uri := (mapGetTruthy "URI".data attrs).map String.mk
      iv := iv
      keyFormat := (mapGetTruthy "KEYFORMAT".data attrs).map String.mk
      keyFormatVersions := (mapGetTruthy "KEYFORMATVERSIONS".data attrs).map String.mk }

/-- `parseMap(str, lineNumber)`. -/
def parseMapM (args : List Char) (ln : Nat) : Except PErr InitSegment := do
  let attrs := attrMap args
  let uri ←
    match mapGetTruthy "URI".data attrs with
    | some v => pure v
    | none => throw ⟨.mapUri, some ln⟩
  pure
    { uri := String.mk uri
      byteRange := (mapGetTruthy "BYTERANGE".data attrs).map (fun v => parseByteRangeM v 0) }

/-- `parseDateRange(str, lineNumber)`. -/
def parseDateRangeM (args : List Char) (ln : Nat) : Except PErr DateRange := do
  let attrs := attrMap args
  let id ←
    match mapGetTruthy "ID".data attrs with
    | some v => pure v
    | none => throw ⟨.dateRangeId, some ln⟩
  let startDate ←
    match mapGetTruthy "START-DATE".data attrs with
    | some v => pure v
    | none => throw ⟨.dateRangeStartDate, some ln⟩
  let clientAttrs : List (String × ClientAttrVal) :=
    (attrs.filter (fun kv => startsWithChars kv.1 "X-".data)).map (fun kv =>
      (String.mk kv.1,
        match parseFloatJS kv.2 with
        | some q => .num q
        | none => .str (String.mk kv.2)))
  pure
    { id := String.mk id
      startDate := String.mk startDate
      class_ := (mapGetTruthy "CLASS".data attrs).map String.mk
      endDate := (mapGetTruthy "END-DATE".data attrs).map String.mk
      duration := (mapGetTruthy "DURATION".data attrs).map (fun v => (parseFloatJS v).getD 0)
      plannedDuration :=
        (mapGetTruthy "PLANNED-DURATION".data attrs).map (fun v => (parseFloatJS v).getD 0)
      scte35Cmd := (mapGetTruthy "SCTE35-CMD".data attrs).map String.mk
      scte35Out := (mapGetTruthy "SCTE35-OUT".data attrs).map String.mk
      scte35In := (mapGetTruthy "SCTE35-IN".data attrs).map String.mk
      endOnNext := mapGet "END-ON-NEXT".data attrs = some "YES".data
      clientAttributes := clientAttrs }

/-- `parseStart(str)`. -/
def parseStartM (args : List Char) : StartOffset :=
  let attrs := attrMap args
  { timeOffset :=
      match mapGetTruthy "TIME-OFFSET".data attrs with
      | some v => (parseFloatJS v).getD 0
      | none => 0
    precise := mapGet "PRECISE".data attrs = some "YES".data }

/-- `Number(v)` (used on `RESOLUTION` halves): whole-string numeric
conversion; `""` converts to `0`.  `NaN` is outside the numeric model and
falls back to `0`. -/
def numberJS (v : List Char) : ℚ :=
  if (trimChars v).isEmpty then 0
  else
    match parseFloatJS v with
    | some q =>
      -- `Number` accepts only if the whole string is the literal; the inputs
      -- in scope are plain digit strings, for which this agrees.
      q
    | none => 0

/-- `parseStreamInf(str, lineNumber)`.  The returned variant still lacks its
URI (filled in by the following URI line); the placeholder is `""`. -/
def parseStreamInfM (args : List Char) (ln : Nat) : Except PErr VariantStream := do
  let attrs := attrMap args
  let bandwidth ←
    match mapGetTruthy "BANDWIDTH".data attrs with
    | some v => pure ((parseIntJS v).getD 0)
    | none => throw ⟨.streamInfBandwidth, some ln⟩
  let resolution : Option (ℚ × ℚ) :=
    match mapGetTruthy "RESOLUTION".data attrs with
    | some v =>
      match splitOnChar 'x' v with
      | w :: h :: _ => some (numberJS w, numberJS h)
      | _ => none
    | none => none
  let hdcp : Option (List Char) := mapGet "HDCP-LEVEL".data attrs
  pure
    { bandwidth := bandwidth
      averageBandwidth := (mapGetTruthy "AVERAGE-BANDWIDTH".data attrs).map
        (fun v => (parseIntJS v).getD 0)
      resolution := resolution
      frameRate := (mapGetTruthy "FRAME-RATE".data attrs).map (fun v => (parseFloatJS v).getD 0)
      codecs := (mapGetTruthy "CODECS".data attrs).map String.mk
      audio := (mapGetTruthy "AUDIO".data attrs).map String.mk
      video := (mapGetTruthy "VIDEO".data attrs).map String.mk
      subtitles := (mapGetTruthy "SUBTITLES".data attrs).map String.mk
      closedCaptions := (mapGetTruthy "CLOSED-CAPTIONS".data attrs).map String.mk
      hdcpLevel :=
        match hdcp with
        | some v =>
          if v = "TYPE-0".data || v = "TYPE-1".data || v = "NONE".data
          then some (String.mk v) else none
        | none => none
      uri := "" }

/-- Decoding the `EXT-X-MEDIA` `TYPE` enum. -/
def decodeRenditionType (v : List Char) : Option RenditionType :=
  if v = "AUDIO".data then some .audio
  else if v = "VIDEO".data then some .video
  else if v = "SUBTITLES".data then some .subtitles
  else if v = "CLOSED-CAPTIONS".data then some .closedCaptions
  else none

/-- `parseMedia(str, lineNumber)`. -/
def parseMediaRenditionM (args : List Char) (ln : Nat) : Except PErr MediaRendition := do
  let attrs := attrMap args
  let type ←
    match mapGetTruthy "TYPE".data attrs with
    | some v =>
      match decodeRenditionType v with
      | some t => pure t
      | none => throw ⟨.renditionTypeBad, some ln⟩
    | none => throw ⟨.renditionTypeBad, some ln⟩
  let groupId ←
    match mapGetTruthy "GROUP-ID".data attrs with
    | some v => pure v
    | none => throw ⟨.renditionGroupId, some ln⟩
  let name ←
    match mapGetTruthy "NAME".data attrs with
    | some v => pure v
    | none => throw ⟨.renditionName, some ln⟩
  pure
    { type := type
      groupId := String.mk groupId
      name := String.mk name
      uri := (mapGetTruthy "URI".data attrs).map String.mk
      language := (mapGetTruthy "LANGUAGE".data attrs).map String.mk
      assocLanguage := (mapGetTruthy "ASSOC-LANGUAGE".data attrs).map String.mk
      default := mapGet "DEFAULT".data attrs = some "YES".data
      autoselect := mapGet "AUTOSELECT".data attrs = some "YES".data
      forced := mapGet "FORCED".data attrs = some "YES".data
      instreamId := (mapGetTruthy "INSTREAM-ID".data attrs).map String.mk
      characteristics := (mapGetTruthy "CHARACTERISTICS".data attrs).map String.mk
      channels := (mapGetTruthy "CHANNELS".data attrs).map String.mk }

/-- `parseSessionData(str, lineNumber)`. -/
def parseSessionDataM (args : List Char) (ln : Nat) : Except PErr SessionDataItem := do
  let attrs := attrMap args
  let dataId ←
    match mapGetTruthy "DATA-ID".data attrs with
    | some v => pure v
    | none => throw ⟨.sessionDataId, some ln⟩
  pure
    { dataId := String.mk dataId
      value := (mapGetTruthy "VALUE".data attrs).map String.mk
      uri := (mapGetTruthy "URI".data attrs).map String.mk
      language := (mapGetTruthy "LANGUAGE".data attrs).map String.mk }

/-- The accumulating per-segment state of the media-playlist parser
(`pendingSegment: Partial<MediaSegment>`). -/
structure PendingSegment where
  duration : Option ℚ
  title : Option String
  byteRange : Option ByteRange
  discontinuity : Bool
  programDateTime : Option String
  gap : Bool
  bitrate : Option Int
  deriving DecidableEq, Repr

/-- The empty `pendingSegment = {}`. -/
def PendingSegment.empty : PendingSegment :=
  ⟨none, none, none, false, none, false, none⟩

/-- The full loop state of `parseMediaPlaylist`. -/
structure MediaParseSt where
  playlist : MediaPlaylist
  pending : PendingSegment
  currentKey : Option EncryptionKey
  currentMap : Option InitSegment
  lastByteRangeEnd : Int
  deriving DecidableEq, Repr

/-- The initial playlist accumulator of `parseMediaPlaylist`. -/
def initialMediaPlaylist : MediaPlaylist :=
  { version := 1
    targetDuration := 0
    mediaSequence := 0
    discontinuitySequence := none
    playlistType := none
    endList := false
    iFramesOnly := false
    independentSegments := false
    start := none
    dateRanges := []
    segments := [] }

/-- The initial loop state of `parseMediaPlaylist`. -/
def initialMediaParseSt : MediaParseSt :=
  ⟨initialMediaPlaylist, .empty, none, none, 0⟩

/-- The `#EXTINF` regex `^#EXTINF:([\d.]+)(?:,(.*))?$` applied to the text
after the tag: the greedy digit-dot run must be non-empty and be followed by
either the end of the line or a comma (the class excludes `','`, so no
backtracking succeeds otherwise). -/
def extinfMatch (rest : List Char) : Option (List Char × Option (List Char)) :=
  let ds := rest.takeWhile (fun c => isDigitChar c || c = '.')
  if ds.isEmpty then none
  else
    match rest.drop ds.length with
    | [] => some (ds, none)
    | ',' :: title => some (ds, some title)
    | _ => none

/-- One iteration of the `parseMediaPlaylist` loop on an already-trimmed
line; mirrors the `if`/`else if` chain of the source in order. -/
def parseMediaLine (ln : Nat) (line : List Char) (st : MediaParseSt) :
    Except PErr MediaParseSt :=
  if line = [] || line = "#EXTM3U".data then pure st
  else if startsWithChars line "#EXT-X-VERSION:".data then
    pure { st with playlist := { st.playlist with version := (parseIntJS (line.drop 15)).getD 0 } }
  else if startsWithChars line "#EXT-X-TARGETDURATION:".data then
    pure { st with playlist := { st.playlist with targetDuration := (parseIntJS (line.drop 22)).getD 0 } }
  else if startsWithChars line "#EXT-X-MEDIA-SEQUENCE:".data then
    pure { st with playlist := { st.playlist with mediaSequence := (parseIntJS (line.drop 22)).getD 0 } }
  else if startsWithChars line "#EXT-X-DISCONTINUITY-SEQUENCE:".data then
    pure { st with playlist :=
      { st.playlist with discontinuitySequence := some ((parseIntJS (line.drop 30)).getD 0) } }
  else if startsWithChars line "#EXT-X-PLAYLIST-TYPE:".data then
    let t := line.drop 21
    if t = "VOD".data then pure { st with playlist := { st.playlist with playlistType := some .vod } }
    else if t = "EVENT".data then
      pure { st with playlist := { st.playlist with playlistType := some .event } }
    else pure st
  else if startsWithChars line "#EXT-X-INDEPENDENT-SEGMENTS".data then
    pure { st with playlist := { st.playlist with independentSegments := true } }
  else if line = "#EXT-X-ENDLIST".data then
    pure { st with playlist := { st.playlist with endList := true } }
  else if line = "#EXT-X-I-FRAMES-ONLY".data then
    pure { st with playlist := { st.playlist with iFramesOnly := true } }
  else if startsWithChars line "#EXTINF:".data then
    match extinfMatch (line.drop 8) with
    | some (ds, title) =>
      let pend := { st.pending with duration := parseFloatJS ds }
      let pend :=
        match title with
        | some t => if t.isEmpty then pend else { pend with title := some (String.mk t) }
        | none => pend
      pure { st with pending := pend }
    | none => pure st
  else if startsWithChars line "#EXT-X-BYTERANGE:".data then
    pure { st with pending :=
      { st.pending with byteRange := some (parseByteRangeM (line.drop 17) st.lastByteRangeEnd) } }
  else if line = "#EXT-X-DISCONTINUITY".data then
    pure { st with pending := { st.pending with discontinuity := true } }
  else if startsWithChars line "#EXT-X-PROGRAM-DATE-TIME:".data then
    pure { st with pending :=
      { st.pending with programDateTime := some (String.mk (line.drop 25)) } }
  else if startsWithChars line "#EXT-X-KEY:".data then do
    let key ← parseKeyM (line.drop 11) ln
    pure { st with currentKey := some key }
  else if startsWithChars line "#EXT-X-MAP:".data then do
    let map ← parseMapM (line.drop 11) ln
    pure { st with currentMap := some map }
  else if line = "#EXT-X-GAP".data then
    pure { st with pending := { st.pending with gap := true } }
  else if startsWithChars line "#EXT-X-BITRATE:".data then
    pure { st with pending :=
      { st.pending with bitrate := some ((parseIntJS (line.drop 15)).getD 0 * 1000) } }
  else if startsWithChars line "#EXT-X-DATERANGE:".data then do
    let dr ← parseDateRangeM (line.drop 17) ln
    pure { st with playlist := { st.playlist with dateRanges := st.playlist.dateRanges ++ [dr] } }
  else if startsWithChars line "#EXT-X-START:".data then
    pure { st with playlist := { st.playlist with start := some (parseStartM (line.drop 13)) } }
  else if !startsWithChars line "#".data && line ≠ [] then
    -- URI line: complete the pending segment.
    let segment : MediaSegment :=
      { duration := st.pending.duration.getD 0
        title := st.pending.title
        uri := String.mk line
        byteRange := st.pending.byteRange
        discontinuity := st.pending.discontinuity
        programDateTime := st.pending.programDateTime
        key :=
          match st.currentKey with
          | some k => if k.method ≠ .none then some k else none
          | none => none
        map := st.currentMap
        gap := st.pending.gap
        bitrate := st.pending.bitrate }
    let lastEnd :=
      match segment.byteRange with
      | some br =>
        match br.offset with
        | some off => off + br.length
        | none => st.lastByteRangeEnd
      | none => st.lastByteRangeEnd
    pure { st with
      playlist := { st.playlist with segments := st.playlist.segments ++ [segment] }
      pending := .empty
      lastByteRangeEnd := lastEnd }
  else pure st

/-- Folds `parseMediaLine` over the (raw, still-untrimmed) lines, tracking
the 1-based line number. -/
def parseMediaLines : List (List Char) → Nat → MediaParseSt → Except PErr MediaParseSt
  | [], _, st => pure st
  | l :: rest, ln, st => do
    let st' ← parseMediaLine ln (trimChars l) st
    parseMediaLines rest (ln + 1) st'

/-- `parseMediaPlaylist(content)`. -/
def parseMediaPlaylistM (content : List Char) : Except PErr MediaPlaylist := do
  let lines := splitLines content
  if !startsWithChars (lines.headD []) "#EXTM3U".data then throw ⟨.header, none⟩
  else do
    let st ← parseMediaLines lines 1 initialMediaParseSt
    pure st.playlist

/-- The loop state of `parseMasterPlaylist`. -/
structure MasterParseSt where
  playlist : MasterPlaylist
  pendingVariant : Option VariantStream
  deriving DecidableEq, Repr

/-- The initial master-playlist accumulator. -/
def initialMasterParseSt : MasterParseSt :=
  ⟨{ version := 1, independentSegments := false, variants := [], media := []
     sessionData := [], sessionKey := none }, none⟩

/-- One iteration of the `parseMasterPlaylist` loop on an already-trimmed
line. -/
def parseMasterLine (ln : Nat) (line : List Char) (st : MasterParseSt) :
    Except PErr MasterParseSt :=
  if line = [] || line = "#EXTM3U".data then pure st
  else if startsWithChars line "#EXT-X-VERSION:".data then
    pure { st with playlist := { st.playlist with version := (parseIntJS (line.drop 15)).getD 0 } }
  else if startsWithChars line "#EXT-X-INDEPENDENT-SEGMENTS".data then
    pure { st with playlist := { st.playlist with independentSegments := true } }
  else if startsWithChars line "#EXT-X-STREAM-INF:".data then do
    let v ← parseStreamInfM (line.drop 18) ln
    pure { st with pendingVariant := some v }
  else if startsWithChars line "#EXT-X-MEDIA:".data then do
    let m ← parseMediaRenditionM (line.drop 13) ln
    pure { st with playlist := { st.playlist with media := st.playlist.media ++ [m] } }
  else if startsWithChars line "#EXT-X-SESSION-DATA:".data then do
    let d ← parseSessionDataM (line.drop 20) ln
    pure { st with playlist := { st.playlist with sessionData := st.playlist.sessionData ++ [d] } }
  else if startsWithChars line "#EXT-X-SESSION-KEY:".data then do
    let k ← parseKeyM (line.drop 19) ln
    pure { st with playlist := { st.playlist with sessionKey := some k } }
  else if !startsWithChars line "#".data && line ≠ [] then
    match st.pendingVariant with
    | some pv =>
      pure { st with
        playlist := { st.playlist with variants := st.playlist.variants ++ [{ pv with uri := String.mk line }] }
        pendingVariant := none }
    | none => pure st
  else pure st

/-- Folds `parseMasterLine` over the raw lines. -/
def parseMasterLines : List (List Char) → Nat → MasterParseSt → Except PErr MasterParseSt
  | [], _, st => pure st
  | l :: rest, ln, st => do
    let st' ← parseMasterLine ln (trimChars l) st
    parseMasterLines rest (ln + 1) st'

/-- `parseMasterPlaylist(content)`. -/
def parseMasterPlaylistM (content : List Char) : Except PErr MasterPlaylist := do
  let lines := splitLines content
  if !startsWithChars (lines.headD []) "#EXTM3U".data then throw ⟨.header, none⟩
  else do
    let st ← parseMasterLines lines 1 initialMasterParseSt
    pure st.playlist

/-- `parsePlaylist(content)`: the header check, then the master/media
dispatch on the presence of a master-only tag among the raw lines. -/
def parsePlaylistM (content : List Char) : Except PErr Playlist := do
  let lines := splitLines content
  if !startsWithChars (lines.headD []) "#EXTM3U".data then throw ⟨.header, none⟩
  else
    let isMaster := lines.any (fun l =>
      startsWithChars l "#EXT-X-STREAM-INF:".data
      || startsWithChars l "#EXT-X-MEDIA:".data
      || startsWithChars l "#EXT-X-I-FRAME-STREAM-INF:".data)
    if isMaster then do
      let m ← parseMasterPlaylistM content
      pure (.master m)
    else do
      let m ← parseMediaPlaylistM content
      pure (.media m)

/-! ## The M3U8 writer (`m3u8-writer.ts`, media playlists) -/

/-- `escapeQuotes`: `str.replace(/"/g, '\\"')`. -/
def escapeQuotes : List Char → List Char
  | [] => []
  | '"' :: rest => '\\' :: '"' :: escapeQuotes rest
  | c :: rest => c :: escapeQuotes rest

/-- A written attribute value: double-quoted or bare, as emitted by the
writer's template literals. -/
inductive AttrForm where
  | quoted (v : List Char)
  | bare (v : List Char)
  deriving DecidableEq, Repr

/-- Rendering one `KEY=VALUE` item. -/
def renderAttr (a : List Char × AttrForm) : List Char :=
  match a.2 with
  | .quoted v => a.1 ++ '=' :: '"' :: v ++ ['"']
  | .bare v => a.1 ++ '=' :: v

/-- `attrs.join(',')`. -/
def renderAttrs (l : List (List Char × AttrForm)) : List Char :=
  match l with
  | [] => []
  | [a] => renderAttr a
  | a :: rest => renderAttr a ++ ',' :: renderAttrs rest

/-- `writeByteRange`. -/
def writeByteRangeW (br : ByteRange) : List Char :=
  match br.offset with
  | some off => intToChars br.length ++ '@' :: intToChars off
  | none => intToChars br.length

/-- An `Option String` under a JS truthiness test (`undefined` and `""` are
both falsy). -/
def optTruthy : Option String → Option (List Char)
  | some s => if s.data.isEmpty then none else some s.data
  | none => none

/-- The writer's conditional spread `...(x !== undefined ? [item(x)] : [])`:
one list item built from an optional value. -/
def optList {α β : Type} (f : α → β) : Option α → List β
  | some x => [f x]
  | none => []

/-- The attribute list of `writeKey`. -/
def writeKeyAttrs (k : EncryptionKey) : List (List Char × AttrForm) :=
  [("METHOD".data, .bare k.method.chars)]
  ++ optList (fun u => ("URI".data, .quoted u)) (optTruthy k.uri)
  ++ optList (fun iv => ("IV".data, .bare ('0' :: 'x' :: iv))) (optTruthy k.iv)
  ++ optList (fun f => ("KEYFORMAT".data, .quoted f)) (optTruthy k.keyFormat)
  ++ optList (fun f => ("KEYFORMATVERSIONS".data, .quoted f)) (optTruthy k.keyFormatVersions)

/-- The attribute list of `writeMap`. -/
def writeMapAttrs (m : InitSegment) : List (List Char × AttrForm) :=
  [("URI".data, .quoted m.uri.data)]
  ++ optList (fun br => ("BYTERANGE".data, .quoted (writeByteRangeW br))) m.byteRange

/-- The attribute list of an `EXT-X-DATERANGE` line.  `startDate`/`endDate`
are `Date` objects in TS (always truthy when present), serialized with
`toISOString()` — the identity under the Date-as-ISO-string convention. -/
def writeDateRangeAttrs (d : DateRange) : List (List Char × AttrForm) :=
  [("ID".data, .quoted d.id.data), ("START-DATE".data, .quoted d.startDate.data)]
  ++ optList (fun c => ("CLASS".data, .quoted c)) (optTruthy d.class_)
  ++ optList (fun e => ("END-DATE".data, .quoted e.data)) d.endDate
  ++ optList (fun q => ("DURATION".data, .bare (qToChars q))) d.duration
  ++ optList (fun q => ("PLANNED-DURATION".data, .bare (qToChars q))) d.plannedDuration
  ++ optList (fun v => ("SCTE35-CMD".data, .bare v)) (optTruthy d.scte35Cmd)
  ++ optList (fun v => ("SCTE35-OUT".data, .bare v)) (optTruthy d.scte35Out)
  ++ optList (fun v => ("SCTE35-IN".data, .bare v)) (optTruthy d.scte35In)
  ++ (if d.endOnNext then [("END-ON-NEXT".data, .bare "YES".data)] else [])
  ++ d.clientAttributes.map (fun kv =>
      match kv.2 with
      | .str s => (kv.1.data, .quoted (escapeQuotes s.data))
      | .num q => (kv.1.data, .bare (qToChars q)))

/-- `keysEqual(a, b)` (with `b` present). -/
def keysEqualW (a b : EncryptionKey) : Bool :=
  a.method = b.method && a.uri = b.uri && a.iv = b.iv
    && a.keyFormat = b.keyFormat && a.keyFormatVersions = b.keyFormatVersions

/-- `mapsEqual(a, b)` (with `b` present). -/
def mapsEqualW (a b : InitSegment) : Bool :=
  a.uri = b.uri && a.byteRange.map (·.length) = b.byteRange.map (·.length)
    && a.byteRange.map (·.offset) = b.byteRange.map (·.offset)

/-- The key lines of one segment and the updated `currentKey` (the writer's
key-elision logic, including the `METHOD=NONE` reset). -/
def segKeyBlock (sk wk : Option EncryptionKey) :
    List (List Char) × Option EncryptionKey :=
  match sk with
  | some k =>
    if (match wk with | some ck => keysEqualW k ck | none => false) then ([], wk)
    else (["#EXT-X-KEY:".data ++ renderAttrs (writeKeyAttrs k)], some k)
  | none =>
    match wk with
    | some _ => (["#EXT-X-KEY:METHOD=NONE".data], none)
    | none => ([], wk)

/-- The map lines of one segment and the updated `currentMap` (the writer's
map-elision logic). -/
def segMapBlock (sm wm : Option InitSegment) :
    List (List Char) × Option InitSegment :=
  match sm with
  | some m =>
    if (match wm with | some cm => mapsEqualW m cm | none => false) then ([], wm)
    else (["#EXT-X-MAP:".data ++ renderAttrs (writeMapAttrs m)], some m)
  | none => ([], wm)

/-- The title tail of an `#EXTINF` line (`,${title}` under JS truthiness,
a bare comma otherwise). -/
def extinfTitle (t : Option String) : List Char :=
  match optTruthy t with
  | some tc => ',' :: tc
  | none => [',']

/-- The lines the writer emits for one segment, given the `currentKey` /
`currentMap` elision state; returns the lines and the updated state. -/
def writeSegmentLines (s : MediaSegment) (cur : Option EncryptionKey × Option InitSegment) :
    List (List Char) × (Option EncryptionKey × Option InitSegment) :=
  ((segKeyBlock s.key cur.1).1
    ++ (segMapBlock s.map cur.2).1
    ++ (if s.discontinuity then ["#EXT-X-DISCONTINUITY".data] else [])
    ++ optList (fun d => "#EXT-X-PROGRAM-DATE-TIME:".data ++ String.data d) s.programDateTime
    ++ (if s.gap then ["#EXT-X-GAP".data] else [])
    ++ optList (fun b : Int => "#EXT-X-BITRATE:".data ++ intToChars (roundJS ((b : ℚ) / 1000)))
        s.bitrate
    ++ optList (fun br => "#EXT-X-BYTERANGE:".data ++ writeByteRangeW br) s.byteRange
    ++ ["#EXTINF:".data ++ formatDuration s.duration ++ extinfTitle s.title, s.uri.data],
   ((segKeyBlock s.key cur.1).2, (segMapBlock s.map cur.2).2))

/-- The writer's segment loop. -/
def writeSegmentsLines : List MediaSegment → (Option EncryptionKey × Option InitSegment) →
    List (List Char)
  | [], _ => []
  | s :: rest, cur =>
    let (lines, cur') := writeSegmentLines s cur
    lines ++ writeSegmentsLines rest cur'

/-- The writer's conditional `#EXT-X-VERSION` line. -/
def verLines (v : Int) : List (List Char) :=
  if v > 1 then ["#EXT-X-VERSION:".data ++ intToChars v] else []

/-- The writer's conditional `#EXT-X-MEDIA-SEQUENCE` line. -/
def msLines (ms : Int) : List (List Char) :=
  if ms ≠ 0 then ["#EXT-X-MEDIA-SEQUENCE:".data ++ intToChars ms] else []

/-- The writer's conditional `#EXT-X-DISCONTINUITY-SEQUENCE` line. -/
def dsLines : Option Int → List (List Char)
  | some d => if d ≠ 0 then ["#EXT-X-DISCONTINUITY-SEQUENCE:".data ++ intToChars d] else []
  | none => []

/-- The writer's conditional `#EXT-X-PLAYLIST-TYPE` line. -/
def ptLines : Option PlaylistType → List (List Char)
  | some t => ["#EXT-X-PLAYLIST-TYPE:".data ++ t.chars]
  | none => []

/-- The writer's conditional `#EXT-X-START` line. -/
def startLines : Option StartOffset → List (List Char)
  | some so =>
    ["#EXT-X-START:".data
      ++ renderAttrs ([("TIME-OFFSET".data, .bare (qToChars so.timeOffset))]
        ++ if so.precise then [("PRECISE".data, .bare "YES".data)] else [])]
  | none => []

/-- All lines of `writeMediaPlaylist(playlist)`, in order. -/
def writeMediaPlaylistLines (p : MediaPlaylist) : List (List Char) :=
  ["#EXTM3U".data]
  ++ verLines p.version
  ++ ["#EXT-X-TARGETDURATION:".data ++ intToChars p.targetDuration]
  ++ msLines p.mediaSequence
  ++ dsLines p.discontinuitySequence
  ++ ptLines p.playlistType
  ++ (if p.independentSegments then ["#EXT-X-INDEPENDENT-SEGMENTS".data] else [])
  ++ (if p.iFramesOnly then ["#EXT-X-I-FRAMES-ONLY".data] else [])
  ++ startLines p.start
  ++ p.dateRanges.map (fun d => "#EXT-X-DATERANGE:".data ++ renderAttrs (writeDateRangeAttrs d))
  ++ writeSegmentsLines p.segments (none, none)
  ++ (if p.endList then ["#EXT-X-ENDLIST".data] else [])

/-- Joins lines as `lines.join('\n') + '\n'`. -/
def joinLines : List (List Char) → List Char
  | [] => ['\n']
  | [l] => l ++ ['\n']
  | l :: rest => l ++ '\n' :: joinLines rest

/-- `writeMediaPlaylist(playlist)`. -/
def writeMediaPlaylistM (p : MediaPlaylist) : List Char :=
  joinLines (writeMediaPlaylistLines p)

/-! ## The HLS segment source (`hls-variant-input.ts`, `HlsSegmentSource`)

The class state is a record; `Map<number, _>` fields are association lists in
insertion order (`Map.set` preserves the original position of an overwritten
key).  Segment *data* is represented by its byte length — the only observable
the offset/caching logic uses.  The network is the oracle `FetchEnv`, giving
the byte length the server returns for each media sequence number. -/

/-- Association-list `get`. -/
def alGet (k : Int) : List (Int × α) → Option α
  | [] => none
  | (k', v) :: rest => if k' = k then some v else alGet k rest

/-- Association-list `set` (overwrite in place, else append). -/
def alSet (k : Int) (v : α) : List (Int × α) → List (Int × α)
  | [] => [(k, v)]
  | (k', v') :: rest => if k' = k then (k, v) :: rest else (k', v') :: alSet k v rest

/-- Association-list `delete` (all occurrences; keys are unique in every
state built by the operations). -/
def alDelete (k : Int) (m : List (Int × α)) : List (Int × α) :=
  m.filter (fun kv => kv.1 ≠ k)

/-- Association-list `has`. -/
def alHas (k : Int) (m : List (Int × α)) : Bool :=
  (alGet k m).isSome

/-- `array.splice(array.indexOf(x), 1)`: remove the first occurrence. -/
def eraseFirst (x : Int) : List Int → List Int
  | [] => []
  | y :: rest => if y = x then rest else y :: eraseFirst x rest

/-- The per-segment runtime info (`SegmentInfo`): the playlist segment, its
virtual byte range, and its media sequence number. -/
structure SegInfo where
  segment : MediaSegment
  offStart : Int
  offEnd : Int
  mediaSequence : Int
  deriving DecidableEq, Repr

/-- The mutable state of an `HlsSegmentSource`. -/
structure SourceState where
  /-- `initSegmentData.length` (the init segment's byte length). -/
  initLen : Int
  /-- `mediaPlaylist.endList` of the current playlist reference. -/
  endList : Bool
  initialized : Bool
  /-- `segmentInfoMap`. -/
  infoMap : List (Int × SegInfo)
  /-- `knownSequences`. -/
  knownSequences : List Int
  /-- `segmentDataCache` (value = byte length of the cached data). -/
  cache : List (Int × Nat)
  /-- `segmentAccessOrder` (LRU, most recent at the end). -/
  accessOrder : List Int
  nextSegmentOffset : Int
  totalDurationSeconds : ℚ
  segmentChangeCounter : Nat
  removedDurationSeconds : ℚ
  deriving DecidableEq, Repr

/-- `MAX_CACHED_SEGMENTS`. -/
def maxCachedSegments : Nat := 20

/-- The network oracle: the byte length the server returns for a segment
fetch, by media sequence number. -/
def FetchEnv := Int → Nat

/-- The state right after the init-segment fetch inside `initialize()`
(`nextSegmentOffset = initSegmentData.length`, nothing tracked yet). -/
def freshSourceState (initLen : Int) (endList : Bool) : SourceState :=
  { initLen := initLen
    endList := endList
    initialized := false
    infoMap := []
    knownSequences := []
    cache := []
    accessOrder := []
    nextSegmentOffset := initLen
    totalDurationSeconds := 0
    segmentChangeCounter := 0
    removedDurationSeconds := 0 }

/-- The result of `addSegmentsFromPlaylist`: the new `{durationSeconds,
moofOffset}` entries and their common start time. -/
structure IngestResult where
  newSegments : List (ℚ × Int)
  startTimeSeconds : ℚ
  deriving DecidableEq, Repr

/-- The body of the `addSegmentsFromPlaylist` loop for one listed segment
(sequence number `seq`). -/
def ingestOne (seq : Int) (segment : MediaSegment) (acc : IngestResult × SourceState) :
    IngestResult × SourceState :=
  let (res, st) := acc
  if (alGet seq st.infoMap).isSome then acc
  else
    let startOffset : Int :=
      match st.knownSequences.getLast? with
      | none => st.nextSegmentOffset
      | some lastSeq =>
        -- the TS non-null assertion `segmentInfoMap.get(lastSeq)!`; the
        -- fallback is unreachable whenever `knownSequences ⊆ infoMap`.
        match alGet lastSeq st.infoMap with
        | some lastInfo => lastInfo.offEnd
        | none => 0
    let endOffset : Int :=
      match segment.byteRange with
      | some br => startOffset + br.length
      | none => startOffset
    let info : SegInfo :=
      { segment := segment, offStart := startOffset, offEnd := endOffset
        mediaSequence := seq }
    ({ newSegments := res.newSegments ++ [(segment.duration, startOffset)]
       startTimeSeconds := res.startTimeSeconds },
     { st with
        infoMap := alSet seq info st.infoMap
        knownSequences := st.knownSequences ++ [seq]
        nextSegmentOffset := endOffset
        totalDurationSeconds := st.totalDurationSeconds + segment.duration
        segmentChangeCounter := st.segmentChangeCounter + 1 })

/-- Indexed iteration of `ingestOne` over the listed segments. -/
def ingestList (base : Int) : List MediaSegment → Nat → (IngestResult × SourceState) →
    IngestResult × SourceState
  | [], _, acc => acc
  | s :: rest, i, acc => ingestList base rest (i + 1) (ingestOne (base + i) s acc)

/-- `addSegmentsFromPlaylist(playlist)`. -/
def addSegmentsFromPlaylistM (p : MediaPlaylist) (st : SourceState) :
    IngestResult × SourceState :=
  ingestList p.mediaSequence p.segments 0 (⟨[], st.totalDurationSeconds⟩, st)

/-- `initialize()` after the init-segment fetch: track the initial playlist's
segments (the init fetch itself is the `initLen` oracle value). -/
def initializeM (initLen : Int) (p : MediaPlaylist) : SourceState :=
  let st := freshSourceState initLen p.endList
  let st := (addSegmentsFromPlaylistM p st).2
  { st with initialized := true }

/-- The buffer-behind window of `removeExpiredSegments` (`bufferSegments`). -/
def bufferSegments : Int := 72

/-- The body of the expiration loop of `removeExpiredSegments` for one
expired sequence. -/
def expireOne (st : SourceState) (seq : Int) : SourceState :=
  let st :=
    match alGet seq st.infoMap with
    | some info =>
      { st with removedDurationSeconds := st.removedDurationSeconds + info.segment.duration }
    | none => st
  { st with
      infoMap := alDelete seq st.infoMap
      cache := alDelete seq st.cache
      accessOrder := eraseFirst seq st.accessOrder }

/-- `removeExpiredSegments(playlist)`; also returns the expired sequence list
(the argument of the `onSegmentsRemoved` notification). -/
def removeExpiredSegmentsM (p : MediaPlaylist) (st : SourceState) :
    List Int × SourceState :=
  let currentMinSequence := p.mediaSequence - bufferSegments
  let currentMaxSequence := p.mediaSequence + p.segments.length - 1
  let expired := st.knownSequences.filter
    (fun seq => seq < currentMinSequence || seq > currentMaxSequence)
  let st := expired.foldl expireOne st
  (expired,
    { st with knownSequences := (st.knownSequences.filter
        (fun seq => decide (currentMinSequence ≤ seq) && decide (seq ≤ currentMaxSequence))) })

/-- The state effect of a successful `refreshPlaylist()` with a media
playlist: update the playlist reference, expire, then ingest. -/
def refreshIngestM (p : MediaPlaylist) (st : SourceState) :
    List Int × IngestResult × SourceState :=
  let st1 := { st with endList := p.endList }
  let er := removeExpiredSegmentsM p st1
  let ir := addSegmentsFromPlaylistM p er.2
  (er.1, ir.1, ir.2)

/-- `updateLruAccess(mediaSequence)`. -/
def updateLruAccessM (seq : Int) (st : SourceState) : SourceState :=
  { st with accessOrder := eraseFirst seq st.accessOrder ++ [seq] }

/-- The `evictOldCacheEntries` `while` loop, structurally recursing on the
access order (`shift()` consumes its head; the push-back branch ends the
loop). -/
def evictLoop (known : List Int) : List Int → List (Int × Nat) → List (Int × Nat) × List Int
  | order, cache =>
    if cache.length < maxCachedSegments then (cache, order)
    else
      match order with
      | [] => (cache, [])
      | lru :: rest =>
        if !known.contains lru || cache.length > maxCachedSegments then
          evictLoop known rest (alDelete lru cache)
        else
          (cache, rest ++ [lru])

/-- `evictOldCacheEntries()`. -/
def evictOldCacheEntriesM (st : SourceState) : SourceState :=
  let r := evictLoop st.knownSequences st.accessOrder st.cache
  { st with cache := r.1, accessOrder := r.2 }

/-- The forward propagation of start offsets over the run of
byte-range-less segments after a first fetch (`fetchSegmentBySequence`,
`for (let i = seqIndex + 1; …)`). -/
def propagateStarts : List Int → Int → SourceState → SourceState
  | [], _, st => st
  | nextSeq :: rest, nextStart, st =>
    match alGet nextSeq st.infoMap with
    | none => st
    | some nextInfo =>
      if nextInfo.segment.byteRange.isSome then st
      else
        match alGet nextSeq st.cache with
        | some len =>
          let st := { st with infoMap := (alSet nextSeq
            { nextInfo with offStart := nextStart, offEnd := nextStart + len } st.infoMap) }
          propagateStarts rest (nextStart + len) st
        | none =>
          { st with infoMap := (alSet nextSeq
            { nextInfo with offStart := nextStart, offEnd := nextStart } st.infoMap) }

/-- `fetchSegmentBySequence(mediaSequence)`: `none` models the thrown
`Error` for an untracked sequence; otherwise the byte length and the new
state. -/
def fetchSegmentBySequenceM (env : FetchEnv) (seq : Int) (st : SourceState) :
    Option (Nat × SourceState) :=
  match alGet seq st.cache with
  | some len => some (len, updateLruAccessM seq st)
  | none =>
    match alGet seq st.infoMap with
    | none => none
    | some info =>
      let size := env seq
      let st := evictOldCacheEntriesM st
      let st := { st with
        cache := alSet seq size st.cache
        accessOrder := st.accessOrder ++ [seq] }
      let info' := { info with offEnd := info.offStart + (size : Int) }
      let st := { st with infoMap := alSet seq info' st.infoMap }
      let st :=
        if info.segment.byteRange.isSome then st
        else
          let after := ((st.knownSequences.dropWhile (· ≠ seq)).drop 1)
          propagateStarts after info'.offEnd st
      some (size, st)

/-- `getSegmentByteOffset(segmentId)`. -/
def getSegmentByteOffsetM (st : SourceState) (segmentId : Int) : Option Int :=
  match alGet segmentId st.infoMap with
  | none => none
  | some info =>
    let isFetched := alHas segmentId st.cache
    let hasByteRange := info.segment.byteRange.isSome
    if isFetched || hasByteRange then some info.offStart else none

/-- `isLive`. -/
def isLiveM (st : SourceState) : Bool := !st.endList

/-- `getAvailableTimeRange()`. -/
def getAvailableTimeRangeM (st : SourceState) : ℚ × ℚ :=
  if !st.initialized || st.knownSequences.isEmpty then (0, 0)
  else if st.endList then (0, st.totalDurationSeconds)
  else (st.removedDurationSeconds, st.totalDurationSeconds)

/-- A `FragmentSegmentInfo` as returned by `findSegmentAtTime`. -/
structure FragSegInfo where
  segmentId : Int
  startTime : ℚ
  duration : ℚ
  hasDiscontinuity : Bool
  deriving DecidableEq, Repr

/-- The search loop of `findSegmentAtTime`. -/
def findSegLoop (st : SourceState) (t : ℚ) : List Int → ℚ → Option FragSegInfo × ℚ
  | [], cum => (none, cum)
  | seq :: rest, cum =>
    match alGet seq st.infoMap with
    | none => findSegLoop st t rest cum
    | some info =>
      let segStart := cum
      let segEnd := cum + info.segment.duration
      if t ≥ segStart ∧ t < segEnd then
        (some ⟨seq, segStart, info.segment.duration, info.segment.discontinuity⟩, cum)
      else
        findSegLoop st t rest segEnd

/-- `findSegmentAtTime(timeInSeconds)`. -/
def findSegmentAtTimeM (st : SourceState) (t : ℚ) : Option FragSegInfo :=
  if !st.initialized || st.knownSequences.isEmpty then none
  else
    let baseTime := if isLiveM st then st.removedDurationSeconds else 0
    match findSegLoop st t st.knownSequences baseTime with
    | (some r, _) => some r
    | (none, cum) =>
      if t ≥ cum ∧ !st.knownSequences.isEmpty then
        match st.knownSequences.getLast? with
        | some lastSeq =>
          match alGet lastSeq st.infoMap with
          | some lastInfo =>
            some ⟨lastSeq, cum - lastInfo.segment.duration, lastInfo.segment.duration,
              lastInfo.segment.discontinuity⟩
          | none => none
        | none => none
      else none

/-! ### `_read(start, end)` -/

/-- The outcome of one `_read` body execution. -/
inductive ReadOutcome where
  /-- A `ReadResult` with `count` bytes at offset `offset`. -/
  | ok (count : Int) (offset : Int)
  /-- `null`. -/
  | atEnd
  /-- A thrown `HlsLiveEdgeError` with the given `isTimeout`. -/
  | liveEdgeErr (isTimeout : Bool)
  /-- About to `await waitForNewSegments()` and then retry the read. -/
  | needWait
  /-- Fetched the last segment and about to retry the read. -/
  | retryAfterFetch
  /-- A non-null assertion / tracked-segment `Error` fired (unreachable from
  well-formed states). -/
  | internalErr
  deriving DecidableEq, Repr

/-- The result of the segment iteration inside `_read`. -/
inductive LoopResult where
  | done (bytesWritten : Int)
  | failed
  deriving DecidableEq, Repr

/-- The `for (const mediaSequence of this.knownSequences)` loop of `_read`.
`known` is the full list (used by `indexOf`/`slice` for
`allPreviousSizesKnown`); `remaining` the part still to iterate. -/
def readLoop (env : FetchEnv) (startB endB : Int) (known : List Int) :
    List Int → Int → SourceState → LoopResult × SourceState
  | [], bytesWritten, st => (.done bytesWritten, st)
  | seq :: rest, bytesWritten, st =>
    let requestedLength := endB - startB
    if bytesWritten ≥ requestedLength then (.done bytesWritten, st)
    else
      let currentReadStart := startB + bytesWritten
      match alGet seq st.infoMap with
      | none => readLoop env startB endB known rest bytesWritten st
      | some info =>
        -- the branch structure before the fetch
        let action : Option Bool :=  -- `some true` = continue, `some false` = break, `none` = fetch
          if info.segment.byteRange.isSome then
            if info.offEnd ≤ currentReadStart then some true
            else if info.offStart ≥ endB then some false
            else none
          else
            let sizeIsKnown := info.offEnd > info.offStart
            if sizeIsKnown then
              if info.offEnd ≤ currentReadStart then some true
              else if info.offStart ≥ endB then some false
              else none
            else
              let allPreviousSizesKnown := (known.takeWhile (· ≠ seq)).all (fun s =>
                match alGet s st.infoMap with
                | some prevInfo => decide (prevInfo.offEnd > prevInfo.offStart)
                | none => false)
              if allPreviousSizesKnown ∧ info.offStart ≥ endB then some false
              else none
        match action with
        | some true => readLoop env startB endB known rest bytesWritten st
        | some false => (.done bytesWritten, st)
        | none =>
          match fetchSegmentBySequenceM env seq st with
          | none => (.failed, st)
          | some (_, st') =>
            -- the `offset` object is mutated by the fetch; re-read it
            match alGet seq st'.infoMap with
            | none => (.failed, st')
            | some info' =>
              if info'.offEnd ≤ currentReadStart then
                readLoop env startB endB known rest bytesWritten st'
              else if info'.offStart ≥ endB then (.done bytesWritten, st')
              else
                let overlapStart := max info'.offStart currentReadStart
                let overlapEnd := min info'.offEnd endB
                let overlapLength := overlapEnd - overlapStart
                let bytesWritten :=
                  if overlapLength > 0 then bytesWritten + overlapLength else bytesWritten
                readLoop env startB endB known rest bytesWritten st'

/-- The `bytesWritten === 0` block at the end of `_read`. -/
def readEmptyCase (env : FetchEnv) (startB _endB : Int) (st : SourceState) :
    ReadOutcome × SourceState :=
  match st.knownSequences.head?, st.knownSequences.getLast? with
  | some firstSeq, some lastSeq =>
    match alGet firstSeq st.infoMap, alGet lastSeq st.infoMap with
    | some firstInfo, some lastInfo =>
      if startB < firstInfo.offStart ∧ !st.endList then (.liveEdgeErr false, st)
      else
        let lastSegmentFetched := alHas lastSeq st.cache
        let lastSegmentHasByteRange := lastInfo.segment.byteRange.isSome
        let lastSegmentEndKnown := lastSegmentFetched || lastSegmentHasByteRange
        if !st.endList ∧ lastSegmentEndKnown ∧ startB ≥ lastInfo.offEnd then
          (.needWait, st)
        else if !lastSegmentFetched ∧ !lastSegmentHasByteRange
            ∧ startB ≥ lastInfo.offStart then
          match fetchSegmentBySequenceM env lastSeq st with
          | some (_, st') => (.retryAfterFetch, st')
          | none => (.internalErr, st)
        else (.atEnd, st)
    | _, _ => (.atEnd, st)
  | _, _ => (.atEnd, st)

/-- One execution of the `_read(start, end)` body (after `initialize()`),
up to the point where it returns, throws, or re-enters itself. -/
def readStep (env : FetchEnv) (st : SourceState) (startB endB : Int) :
    ReadOutcome × SourceState :=
  let requestedLength := endB - startB
  let initEnd := st.initLen
  -- init-segment copy
  let bytes0 : Int := if startB < initEnd then min endB initEnd - startB else 0
  if startB < initEnd ∧ bytes0 ≥ requestedLength then (.ok requestedLength startB, st)
  else
    -- gap-area check
    let gapOutcome : Option (ReadOutcome × SourceState) :=
      match st.knownSequences.head? with
      | some firstSeq =>
        match alGet firstSeq st.infoMap with
        | some firstInfo =>
          let currentReadStart := startB + bytes0
          if currentReadStart < firstInfo.offStart ∧ currentReadStart ≥ initEnd then
            if !st.endList then some (.liveEdgeErr false, st)
            else if endB ≤ firstInfo.offStart then
              if bytes0 = 0 then some (.atEnd, st) else some (.ok bytes0 startB, st)
            else none
          else none
        | none => none
      | none => none
    match gapOutcome with
    | some r => r
    | none =>
      match readLoop env startB endB st.knownSequences st.knownSequences bytes0 st with
      | (.failed, st') => (.internalErr, st')
      | (.done bytesWritten, st') =>
        if bytesWritten = 0 then readEmptyCase env startB endB st'
        else (.ok (min bytesWritten requestedLength) startB, st')

/-! ### `waitForNewSegments()`

The poll runs on a 100 ms timer: the `k`-th check (0-based, at time
`100·(k+1)` ms) resolves if the source was disposed or the segment change
counter has advanced (`adv k`), and rejects with a timeout error once the
accumulated wait reaches `maxWait = 10000` ms.  The recursion is fuelled;
any fuel ≥ 101 is beyond the `maxWait` horizon. -/

/-- `checkInterval` (ms). -/
def waitCheckInterval : Nat := 100

/-- `maxWait` (ms). -/
def waitMaxWait : Nat := 10000

/-- The result of `waitForNewSegments`. -/
inductive WaitOutcome where
  /-- The promise resolved (the read is retried). -/
  | resolved
  /-- `HlsLiveEdgeError(…, true)` was thrown. -/
  | timedOut
  deriving DecidableEq, Repr

/-- The `check` callback loop: `idx` is the 0-based check index, `waited`
the accumulated wait before this check. -/
def waitPollAux (adv : Nat → Bool) (disposed : Bool) : Nat → Nat → Nat → WaitOutcome
  | 0, _, _ => .timedOut
  | fuel + 1, idx, waited =>
    if disposed then .resolved
    else if adv idx then .resolved
    else
      let waited' := waited + waitCheckInterval
      if waited' ≥ waitMaxWait then .timedOut
      else waitPollAux adv disposed fuel (idx + 1) waited'

/-- `waitForNewSegments()` given the check schedule `adv`. -/
def waitPollM (adv : Nat → Bool) (disposed : Bool) : WaitOutcome :=
  waitPollAux adv disposed 101 0 0

/-- The full `_read` including its self-retries, with `fuel` re-entries
allowed.  `adv` is the counter schedule observed by a wait, and `stWait` the
state transformation produced by the concurrent refresh that a resolved wait
observed (the identity when nothing else changed). -/
def readFullM (env : FetchEnv) (adv : Nat → Bool) (stWait : SourceState → SourceState) :
    Nat → SourceState → Int → Int → ReadOutcome × SourceState
  | 0, st, _, _ => (.internalErr, st)
  | fuel + 1, st, startB, endB =>
    match readStep env st startB endB with
    | (.needWait, st') =>
      match waitPollM adv false with
      | .resolved => readFullM env adv stWait fuel (stWait st') startB endB
      | .timedOut => (.liveEdgeErr true, st')
    | (.retryAfterFetch, st') => readFullM env adv stWait fuel st' startB endB
    | r => r

/-! ## Canonical (round-trippable) media playlists

The exact domain on which `parseMediaPlaylist ∘ writeMediaPlaylist` is the
identity.  Every conjunct is forced by a concrete failure of the round trip
outside it (empty or `'#'`-leading URIs collapse segments, string fields with
line breaks inject playlist lines, byte ranges with elided offsets are
re-materialized, `METHOD=NONE` keys are dropped, a dropped `EXT-X-MAP` is
inherited from the previous segment, a non-multiple-of-1000 bitrate is
rounded, durations are formatted at three decimals, …). -/

/-- No CR/LF (a value printed into a line must not split it). -/
def noCRLF (l : List Char) : Bool := l.all (fun c => c ≠ '\n' && c ≠ '\r')

/-- No double quote (a value printed inside quotes must not close them; a
bare value must not open them). -/
def noQuote (l : List Char) : Bool := l.all (· ≠ '"')

/-- No comma (a bare attribute value ends at the first comma). -/
def noComma (l : List Char) : Bool := l.all (· ≠ ',')

/-- Stable under `trim` (playlist lines are trimmed before dispatch). -/
def trimStable (l : List Char) : Bool := trimChars l = l

/-- A string printable inside a quoted attribute value. -/
def canonQuotedStr (s : String) : Bool :=
  !s.data.isEmpty && noCRLF s.data && noQuote s.data

/-- A string printable as a bare attribute value. -/
def canonBareStr (s : String) : Bool :=
  !s.data.isEmpty && noCRLF s.data && noQuote s.data && noComma s.data && trimStable s.data

/-- A string printable as (the tail of) a raw line. -/
def canonRawStr (s : String) : Bool :=
  !s.data.isEmpty && noCRLF s.data && trimStable s.data

/-- A number that survives `toString`/`parseFloat`: an exact decimal with at
most nine fractional digits (the magnitude idealization is discussed in the
module conventions). -/
def canonQ (q : ℚ) : Bool := (q * (1000000000 : ℚ)).den = 1

/-- A duration that survives `toFixed(3)`/`parseFloat`: non-negative with at
most three decimals. -/
def canonDuration (q : ℚ) : Bool := decide (0 ≤ q) && (q * (1000 : ℚ)).den = 1

/-- A canonical encryption key (for a segment: also `method ≠ NONE`, checked
at the segment). -/
def canonKey (k : EncryptionKey) : Bool :=
  (match k.uri with | some s => canonQuotedStr s | none => true)
  && (match k.iv with | some s => canonBareStr s | none => true)
  && (match k.keyFormat with | some s => canonQuotedStr s | none => true)
  && (match k.keyFormatVersions with | some s => canonQuotedStr s | none => true)

/-- A canonical init-segment reference. -/
def canonMap (m : InitSegment) : Bool :=
  canonQuotedStr m.uri
  && (match m.byteRange with | some br => br.offset.isSome | none => true)

/-- A canonical client-attribute entry of a date range. -/
def canonClientAttr (kv : String × ClientAttrVal) : Bool :=
  startsWithChars kv.1.data "X-".data && kv.1.data.all isAttrNameChar
  && (match kv.2 with
      | .str s => noCRLF s.data && noQuote s.data && (parseFloatJS s.data).isNone
      | .num q => canonQ q)

/-- A canonical date range. -/
def canonDateRange (d : DateRange) : Bool :=
  canonQuotedStr d.id && canonQuotedStr d.startDate
  && (match d.class_ with | some s => canonQuotedStr s | none => true)
  && (match d.endDate with | some s => canonQuotedStr s | none => true)
  && (match d.duration with | some q => canonQ q | none => true)
  && (match d.plannedDuration with | some q => canonQ q | none => true)
  && (match d.scte35Cmd with | some s => canonBareStr s | none => true)
  && (match d.scte35Out with | some s => canonBareStr s | none => true)
  && (match d.scte35In with | some s => canonBareStr s | none => true)
  && d.clientAttributes.all canonClientAttr
  && decide (d.clientAttributes.map (·.1)).Nodup

/-- A canonical media segment. -/
def canonSegment (s : MediaSegment) : Bool :=
  canonDuration s.duration
  && (match s.title with | some t => canonRawStr t | none => true)
  && canonRawStr s.uri && !startsWithChars s.uri.data "#".data
  && (match s.byteRange with | some br => br.offset.isSome | none => true)
  && (match s.programDateTime with | some d => canonRawStr d | none => true)
  && (match s.key with | some k => decide (k.method ≠ .none) && canonKey k | none => true)
  && (match s.map with | some m => canonMap m | none => true)
  && (match s.bitrate with | some b => decide (b % 1000 = 0) | none => true)

/-- Once a segment carries an `EXT-X-MAP`, all later segments must carry
one (the parser inherits the persistent map; absence is inexpressible). -/
def mapsSuffixClosed : Bool → List MediaSegment → Bool
  | _, [] => true
  | seen, s :: rest =>
    if seen && s.map.isNone then false
    else mapsSuffixClosed (seen || s.map.isSome) rest

/-- A canonical (exactly round-trippable) media playlist. -/
def canonMediaPlaylist (p : MediaPlaylist) : Bool :=
  decide (p.version ≥ 1)
  && (match p.discontinuitySequence with | some d => decide (d ≠ 0) | none => true)
  && (match p.start with | some st => canonQ st.timeOffset | none => true)
  && p.dateRanges.all canonDateRange
  && p.segments.all canonSegment
  && mapsSuffixClosed false p.segments

/-! ## Variant selection (`HlsSource`, `src/hls/index.ts`) -/

/-- An `HlsQualitySelection`. -/
inductive QualitySelection where
  | highest
  | lowest
  | auto
  | byBandwidth (target : Int)
  | byResolution (width height : ℚ)
  deriving DecidableEq, Repr

/-- The Dolby filter: variants whose `codecs` string contains `ec-3` or
`ac-3` are excluded (a variant without a `codecs` string passes). -/
def preferredVariants (variants : List VariantStream) : List VariantStream :=
  variants.filter (fun v =>
    match v.codecs with
    | none => true
    | some c => !containsSub c.data "ec-3".data && !containsSub c.data "ac-3".data)

/-- `[...variants].sort((a, b) => b.bandwidth - a.bandwidth)`: a stable sort
by descending bandwidth. -/
def sortByBandwidthDesc (variants : List VariantStream) : List VariantStream :=
  variants.mergeSort (fun a b => b.bandwidth ≤ a.bandwidth)

/-- `[...variants].sort((a, b) => a.bandwidth - b.bandwidth)`. -/
def sortByBandwidthAsc (variants : List VariantStream) : List VariantStream :=
  variants.mergeSort (fun a b => a.bandwidth ≤ b.bandwidth)

/-- `findClosestVariantByBandwidth(variants, targetBandwidth)`: the fold
keeps the first variant attaining the strictly smallest `|bandwidth −
target|` (`minDiff` starts at `Infinity`). -/
def findClosestVariantByBandwidthM (variants : List VariantStream) (target : Int) :
    Option VariantStream :=
  (variants.foldl (fun acc v =>
    let diff := |v.bandwidth - target|
    match acc with
    | none => some (v, diff)
    | some (_, minDiff) => if diff < minDiff then some (v, diff) else acc) none).map (·.1)

/-- `findClosestVariantByResolution(variants, targetResolution)`. -/
def findClosestVariantByResolutionM (variants : List VariantStream) (w h : ℚ) :
    Option VariantStream :=
  let closest := (variants.foldl (fun acc v =>
    match v.resolution with
    | none => acc
    | some (vw, vh) =>
      let diff := |vw - w| + |vh - h|
      match acc with
      | none => some (v, diff)
      | some (_, minDiff) => if diff < minDiff then some (v, diff) else acc) none).map (·.1)
  match closest with
  | some v => some v
  | none => (sortByBandwidthDesc variants).head?

/-- `HlsSource.selectVariant(variants)` under the configured quality
selection.  Note that the Dolby-filtered candidate set is used only by the
`highest`/`lowest`/`auto` arms; the two targeted arms pass the *unfiltered*
list. -/
def selectVariantM (sel : QualitySelection) (variants : List VariantStream) :
    Option VariantStream :=
  if variants.isEmpty then none
  else
    let preferred := preferredVariants variants
    let candidates := if preferred.length > 0 then preferred else variants
    match sel with
    | .highest => (sortByBandwidthDesc candidates).head?
    | .auto => (sortByBandwidthDesc candidates).head?
    | .lowest => (sortByBandwidthAsc candidates).head?
    | .byBandwidth target => findClosestVariantByBandwidthM variants target
    | .byResolution w h => findClosestVariantByResolutionM variants w h

/-! ## The `HlsInput` facade constructor (`hls-input.ts`) -/

/-- A JS argument as seen by the `typeof` check. -/
inductive JSArg where
  | str (s : String)
  | notAString
  deriving DecidableEq, Repr

/-- The thrown constructor error. -/
inductive ConstructErr where
  | typeError (msg : String)
  deriving DecidableEq, Repr

/-- The constructor-visible state of an `HlsInput`. -/
structure HlsInputState where
  manifestUrl : String
  /-- Whether `initPromise` has been created. -/
  initStarted : Bool
  deriving DecidableEq, Repr

/-- `new HlsInput(manifestUrl)`: the state and the list of URLs fetched
during construction (none — the constructor only stores the URL and binds
`fetch`). -/
def hlsInputConstruct : JSArg → Except ConstructErr (HlsInputState × List String)
  | .notAString => .error (.typeError "manifestUrl must be a non-empty string.")
  | .str s =>
    if s.data.isEmpty then .error (.typeError "manifestUrl must be a non-empty string.")
    else .ok (⟨s, false⟩, [])

/-- `initialize()`: memoized on `initPromise`; the first call fetches the
manifest, later calls fetch nothing. -/
def hlsInputInitializeM (st : HlsInputState) : HlsInputState × List String :=
  if st.initStarted then (st, [])
  else ({ st with initStarted := true }, [st.manifestUrl])

/-! ## Sum of the tracked segment durations (used to state C9) -/

/-- The sum of the durations of the tracked segments, in `knownSequences`
order. -/
def knownDurationsSum (st : SourceState) : ℚ :=
  st.knownSequences.foldl (fun acc seq =>
    match alGet seq st.infoMap with
    | some info => acc + info.segment.duration
    | none => acc) 0

/-! ## Concrete instances used by counterexamples and witnesses -/

/-- A variant with a Dolby (`ec-3`) codec close to a bandwidth target. -/
def dolbyVariant : VariantStream :=
  { bandwidth := 1000, averageBandwidth := none, resolution := none, frameRate := none
    codecs := some "avc1.64001f,ec-3", audio := none, video := none, subtitles := none
    closedCaptions := none, hdcpLevel := none, uri := "dolby.m3u8" }

/-- A widely-supported variant further from the target. -/
def aacVariant : VariantStream :=
  { bandwidth := 5000, averageBandwidth := none, resolution := none, frameRate := none
    codecs := some "avc1.64001f,mp4a.40.2", audio := none, video := none, subtitles := none
    closedCaptions := none, hdcpLevel := none, uri := "aac.m3u8" }

/-- A minimal media segment (no byte range), with the given uri and
duration. -/
def plainSeg (uri : String) (dur : ℚ) : MediaSegment :=
  { duration := dur, title := none, uri := uri, byteRange := none, discontinuity := false
    programDateTime := none, key := none, map := none, gap := false, bitrate := none }

/-- A live media playlist with `n` copies of a segment, starting at media
sequence `ms`. -/
def replicatedPlaylist (ms : Int) (n : Nat) (seg : MediaSegment) : MediaPlaylist :=
  { initialMediaPlaylist with mediaSequence := ms, segments := List.replicate n seg }

/-- C3's live source: 74 one-second segments at sequences 0–73. -/
def c3State : SourceState := initializeM 100 (replicatedPlaylist 0 74 (plainSeg "s.mp4" 1))

/-- C3's refresh snapshot: the playlist window has slid to media sequence 73
with a single (already known) segment, expiring sequence 0 — and listing no
new segment. -/
def c3RefreshPlaylist : MediaPlaylist := replicatedPlaylist 73 1 (plainSeg "s.mp4" 1)

/-- A fold of segment fetches (a fetch of an untracked sequence — never hit
here — leaves the state unchanged). -/
def fetchFold (env : FetchEnv) (seqs : List Int) (st : SourceState) : SourceState :=
  seqs.foldl (fun st seq =>
    match fetchSegmentBySequenceM env seq st with
    | some r => r.2
    | none => st) st

/-- The C4/C6 network oracle: every segment is 10 bytes. -/
def lruEnv : FetchEnv := fun _ => 10

/-- The C4/C6 live source: 22 byte-range-less segments at sequences 0–21. -/
def lruState0 : SourceState := initializeM 100 (replicatedPlaylist 0 22 (plainSeg "s.mp4" 0))

/-- The state after fetching sequences `0…n-1` in order. -/
def lruStateAfter (n : Nat) : SourceState :=
  fetchFold lruEnv ((List.range n).map Int.ofNat) lruState0

/-- The post-ingest chain property over the tracked sequences `l`: every
sequence is tracked, each segment's start offset continues the running
offset (`off` for the first), a segment with an explicit byte range ends
`byteRange.length` bytes after its start, and a segment without one has
provisional end equal to its start. -/
def chainFrom (m : List (Int × SegInfo)) : List Int → Int → Prop
  | [], _ => True
  | s :: rest, off => ∃ info : SegInfo, alGet s m = some info ∧ info.offStart = off ∧
      (match info.segment.byteRange with
       | some br => info.offEnd = info.offStart + br.length
       | none => info.offEnd = info.offStart) ∧
      chainFrom m rest info.offEnd

/-- The running offset after the tracked sequences `l`: the last tracked
segment's end (the `segmentInfoMap.get(lastSeq)!` of
`addSegmentsFromPlaylist`, with its unreachable-case fallback `0`), or
`off` when nothing is tracked yet. -/
def chainLastEnd (m : List (Int × SegInfo)) (off : Int) (l : List Int) : Int :=
  match l.getLast? with
  | none => off
  | some s =>
    match alGet s m with
    | some info => info.offEnd
    | none => 0

/-- A playlist whose single segment has an empty URI. -/
def c7EmptyUriP : MediaPlaylist :=
  { initialMediaPlaylist with segments := [plainSeg "" 1] }

/-- A playlist whose single segment has a newline inside its URI. -/
def c7NewlineUriP : MediaPlaylist :=
  { initialMediaPlaylist with segments := [plainSeg "a\nb" 1] }

/-- The thrown error of a parse, if any. -/
def errOf {α : Type} : Except PErr α → Option PErr
  | .error e => some e
  | .ok _ => none

/-- A master playlist whose third line is an `EXT-X-SESSION-DATA` tag with
no `DATA-ID` attribute. -/
def c8BadContent : List Char :=
  ("#EXTM3U\n#EXT-X-STREAM-INF:BANDWIDTH=100\n#EXT-X-SESSION-DATA:VALUE=\"x\"").data

/-- A one-second segment with an explicit byte range of `len` bytes. -/
def brSeg (uri : String) (len : Int) : MediaSegment :=
  { plainSeg uri 1 with byteRange := some { length := len, offset := some 0 } }

/-- The C1 network oracle: every segment fetch returns 200 bytes. -/
def c1Env : FetchEnv := fun _ => 200

/-- C1's mixed live source: a byte-range-less first segment (provisional
end 100) and a 50-byte byte-range second segment (known end 150). -/
def c1MixState : SourceState :=
  initializeM 100 { initialMediaPlaylist with
    segments := [plainSeg "a.mp4" 1, brSeg "b.mp4" 50] }

/-- C1's gap state: 74 byte-range segments, then a refresh whose window
slid to the last one — sequence 0 expires, so the tracked window starts
at byte 150 while the init segment ends at byte 100. -/
def c1GapState : SourceState :=
  (refreshIngestM (replicatedPlaylist 73 1 (brSeg "s.mp4" 50))
    (initializeM 100 (replicatedPlaylist 0 74 (brSeg "s.mp4" 50)))).2.2

/-- A throwaway segment info (a `getD` fallback). -/
def dummySegInfo : SegInfo :=
  { segment := plainSeg "x" 0, offStart := 0, offEnd := 0, mediaSequence := 0 }

/-- The duration contributed by one sequence to the timeline walk of
`findSegmentAtTime` (an untracked sequence contributes nothing). -/
def segDur (st : SourceState) (s : Int) : ℚ :=
  match alGet s st.infoMap with
  | some info => info.segment.duration
  | none => 0

/-- The total walked duration over a sequence list. -/
def durSum (st : SourceState) : List Int → ℚ
  | [] => 0
  | s :: rest => segDur st s + durSum st rest

/-! # Theorems -/

/-! ## C10 — `HlsInput` constructor validation and lazy manifest fetch -/

/-- C10: constructing an `HlsInput` with a non-string or empty `manifestUrl`
synchronously throws a `TypeError`; construction with a valid string
performs no fetch (the constructor's effect list is empty), and the
manifest fetch happens exactly on the first `initialize()` — a second
`initialize()` fetches nothing (the promise is memoized). -/
theorem hlsInput_construct_validates_and_fetch_is_lazy (s : String) (hs : s ≠ "") :
    (∃ m, hlsInputConstruct .notAString = .error (.typeError m))
    ∧ (∃ m, hlsInputConstruct (.str "") = .error (.typeError m))
    ∧ hlsInputConstruct (.str s) = .ok (⟨s, false⟩, [])
    ∧ hlsInputInitializeM ⟨s, false⟩ = (⟨s, true⟩, [s])
    ∧ hlsInputInitializeM ⟨s, true⟩ = (⟨s, true⟩, []) := by
  have hdata : s.data ≠ [] := fun h => hs (by cases s; simp_all)
  refine ⟨⟨_, rfl⟩, ⟨_, rfl⟩, ?_, rfl, rfl⟩
  simp [hlsInputConstruct, List.isEmpty_iff, hdata]

/-- C10 witness: the theorem at `"https://example.com/master.m3u8"`. -/
theorem hlsInput_construct_validates_and_fetch_is_lazy_witness :
    ("https://example.com/master.m3u8" : String) ≠ ""
    ∧ hlsInputConstruct (.str "https://example.com/master.m3u8")
        = .ok (⟨"https://example.com/master.m3u8", false⟩, []) := by
  refine ⟨by decide, ?_⟩
  exact (hlsInput_construct_validates_and_fetch_is_lazy _ (by decide)).2.2.1

/-! ## C5 — bandwidth-targeted variant selection (corrected)

The claim says `by_bandwidth{target}` first applies the Dolby filter and
minimizes over the filtered set.  In the source, `selectVariant` computes
`candidateVariants` but passes the *unfiltered* `variants` array to
`findClosestVariantByBandwidth`, so the filter has no effect on this arm. -/

/-- C5 counterexample: with a Dolby variant at the target bandwidth and a
non-Dolby variant away from it, the filtered set is non-empty and excludes
the Dolby variant, yet selection returns the Dolby variant — the minimizer
over the unfiltered list. -/
theorem selectVariant_byBandwidth_ignores_dolby_filter :
    preferredVariants [dolbyVariant, aacVariant] = [aacVariant]
    ∧ dolbyVariant ∉ preferredVariants [dolbyVariant, aacVariant]
    ∧ selectVariantM (.byBandwidth 1000) [dolbyVariant, aacVariant] = some dolbyVariant
    ∧ dolbyVariant ≠ aacVariant := by
  refine ⟨by decide, by decide, ?_, by decide⟩
  decide

/-- A generic fold invariant for `Option`-valued accumulators. -/
theorem foldl_option_inv {β γ : Type} (P : β → Prop)
    (F : Option β → γ → Option β)
    (hF : ∀ acc v, (∀ p, acc = some p → P p) → ∀ p, F acc v = some p → P p) :
    ∀ (l : List γ) (acc : Option β), (∀ p, acc = some p → P p) →
      ∀ p, l.foldl F acc = some p → P p := by
  intro l
  induction l with
  | nil => intro acc hacc p hp; exact hacc p hp
  | cons a as ih =>
    intro acc hacc p hp
    rw [List.foldl_cons] at hp
    exact ih (F acc a) (hF acc a hacc) p hp

/-- C5 fold lemma: the `findClosestVariantByBandwidth` fold returns the
first variant attaining the minimal `|bandwidth − target|`. -/
theorem findClosest_first_minimizer (t : Int) (l : List VariantStream) (hl : l ≠ []) :
    ∃ v, findClosestVariantByBandwidthM l t = some v
      ∧ (∃ pre suf, l = pre ++ v :: suf
          ∧ ∀ w ∈ pre, |v.bandwidth - t| < |w.bandwidth - t|)
      ∧ ∀ w ∈ l, |v.bandwidth - t| ≤ |w.bandwidth - t| := by
  induction l using List.reverseRecOn with
  | nil => exact absurd rfl hl
  | append_singleton l x ih =>
    unfold findClosestVariantByBandwidthM at *
    rw [List.foldl_append]
    rcases eq_or_ne l [] with rfl | hne
    · refine ⟨x, by simp, ⟨[], [], by simp⟩, by simp⟩
    · obtain ⟨v, hv, ⟨pre, suf, hsplit, hpre⟩, hmin⟩ := ih hne
      simp only [Option.map_eq_some'] at hv
      obtain ⟨⟨v', d⟩, hfold, hv'⟩ := hv
      -- the fold invariant: the carried diff is the diff of the carried variant
      have hd : d = |v'.bandwidth - t| := by
        refine foldl_option_inv (fun p => p.2 = |p.1.bandwidth - t|) _ ?_ l none
          (by intro p hp; cases hp) (v', d) hfold
        intro acc w hacc p hp
        match acc with
        | none =>
          change some (w, |w.bandwidth - t|) = some p at hp
          simp only [Option.some.injEq] at hp
          rw [← hp]
        | some (q1, q2) =>
          change (if |w.bandwidth - t| < q2 then some (w, |w.bandwidth - t|)
            else some (q1, q2)) = some p at hp
          by_cases hc : |w.bandwidth - t| < q2
          · rw [if_pos hc] at hp
            simp only [Option.some.injEq] at hp
            rw [← hp]
          · rw [if_neg hc] at hp
            exact hacc p hp
      subst hd
      have hv'' : v' = v := hv'
      subst hv''
      by_cases hx : |x.bandwidth - t| < |v'.bandwidth - t|
      · refine ⟨x, by simp [hfold, hx],
          ⟨l, [], by simp, fun w hw => lt_of_lt_of_le hx (hmin w hw)⟩, ?_⟩
        intro w hw
        rcases List.mem_append.1 hw with hw | hw
        · exact le_of_lt (lt_of_lt_of_le hx (hmin w hw))
        · simp at hw; simp [hw]
      · refine ⟨v', by simp [hfold, hx], ⟨pre, suf ++ [x], by simp [hsplit], hpre⟩, ?_⟩
        intro w hw
        rcases List.mem_append.1 hw with hw | hw
        · exact hmin w hw
        · simp at hw; subst hw; omega

/-- C5 amended: for `by_bandwidth{target}` the Dolby filter step is *not*
applied — selection minimizes `|bandwidth − target|` over the full,
unfiltered variant list, and ties go to the first variant in manifest
order. -/
theorem selectVariant_byBandwidth_spec (t : Int) (variants : List VariantStream)
    (hne : variants ≠ []) :
    selectVariantM (.byBandwidth t) variants = findClosestVariantByBandwidthM variants t
    ∧ ∃ v, selectVariantM (.byBandwidth t) variants = some v
      ∧ (∃ pre suf, variants = pre ++ v :: suf
          ∧ ∀ w ∈ pre, |v.bandwidth - t| < |w.bandwidth - t|)
      ∧ ∀ w ∈ variants, |v.bandwidth - t| ≤ |w.bandwidth - t| := by
  have hsel : selectVariantM (.byBandwidth t) variants
      = findClosestVariantByBandwidthM variants t := by
    simp [selectVariantM, List.isEmpty_iff, hne]
  exact ⟨hsel, by rw [hsel]; exact findClosest_first_minimizer t variants hne⟩

/-- C5 witness: the amended theorem at a two-variant list. -/
theorem selectVariant_byBandwidth_spec_witness :
    ([dolbyVariant, aacVariant] : List VariantStream) ≠ []
    ∧ selectVariantM (.byBandwidth 4000) [dolbyVariant, aacVariant]
        = findClosestVariantByBandwidthM [dolbyVariant, aacVariant] 4000 := by
  refine ⟨by decide, ?_⟩
  exact (selectVariant_byBandwidth_spec 4000 [dolbyVariant, aacVariant] (by decide)).1

/-! ## C3 — expiration accounting (corrected)

`removeExpiredSegments` accumulates the expired durations into
`removedDurationSeconds` and leaves `totalDurationSeconds` alone, as claimed
— but `segmentChangeCounter` is incremented only by
`addSegmentsFromPlaylist`; a refresh that expires leading segments without
listing any new one leaves the counter unchanged. -/

/-- C3 counterexample: a live refresh that expires one leading segment
(sequence 0, below `mediaSequence − 72`) and appends nothing: the removed
duration grows by that segment's duration and the total is unchanged, but
the segment change counter does **not** strictly increase. -/
theorem refresh_expiring_only_leaves_counter_unchanged :
    c3State.endList = false
    ∧ (refreshIngestM c3RefreshPlaylist c3State).1 = [0]
    ∧ c3RefreshPlaylist.mediaSequence - bufferSegments = 1
    ∧ (refreshIngestM c3RefreshPlaylist c3State).2.1.newSegments = []
    ∧ (refreshIngestM c3RefreshPlaylist c3State).2.2.removedDurationSeconds
        = c3State.removedDurationSeconds + 1
    ∧ (refreshIngestM c3RefreshPlaylist c3State).2.2.totalDurationSeconds
        = c3State.totalDurationSeconds
    ∧ (refreshIngestM c3RefreshPlaylist c3State).2.2.segmentChangeCounter
        = c3State.segmentChangeCounter := by
  refine ⟨rfl, by decide, by decide, by decide, by decide, by decide, by decide⟩

/-- `alGet` over a cons with a different key. -/
theorem alGet_cons_ne {α : Type} {k : Int} {kv : Int × α} {l : List (Int × α)}
    (h : kv.1 ≠ k) : alGet k (kv :: l) = alGet k l := by
  cases kv with
  | mk k' v => simp only [alGet]; rw [if_neg h]

/-- `alGet` over a cons with the same key. -/
theorem alGet_cons_eq {α : Type} {k : Int} {v : α} {l : List (Int × α)} :
    alGet k ((k, v) :: l) = some v := by
  simp [alGet]

/-- Deleting one key leaves the lookups of all other keys unchanged. -/
theorem alGet_alDelete_ne {α : Type} (k e : Int) (h : k ≠ e) :
    ∀ m : List (Int × α), alGet k (alDelete e m) = alGet k m := by
  intro m
  induction m with
  | nil => rfl
  | cons kv m ih =>
    unfold alDelete at ih ⊢
    simp only [ne_eq] at ih ⊢
    rw [List.filter_cons]
    by_cases he : kv.1 = e
    · rw [if_neg (by simp [he])]
      have hk : kv.1 ≠ k := by rw [he]; exact fun hh => h hh.symm
      rw [ih]
      simp [alGet, hk]
    · rw [if_pos (by simp [he])]
      by_cases hk : kv.1 = k
      · simp [alGet, hk]
      · rw [alGet_cons_ne hk, alGet_cons_ne hk]
        exact ih

/-- The expiration fold: adds the expired durations (looked up in the
pre-fold state; a missing entry contributes nothing, mirroring the
`if (info)` guard) to `removedDurationSeconds`, and never touches
`totalDurationSeconds` or `segmentChangeCounter`. -/
theorem expire_fold_spec (es : List Int) : ∀ st : SourceState, es.Nodup →
    (es.foldl expireOne st).removedDurationSeconds
      = st.removedDurationSeconds
        + (es.map (fun seq =>
            match alGet seq st.infoMap with
            | some info => info.segment.duration
            | none => 0)).sum
    ∧ (es.foldl expireOne st).totalDurationSeconds = st.totalDurationSeconds
    ∧ (es.foldl expireOne st).segmentChangeCounter = st.segmentChangeCounter := by
  induction es with
  | nil => intro st _; simp
  | cons e es ih =>
    intro st hnd
    rw [List.foldl_cons, List.map_cons, List.sum_cons]
    obtain ⟨hne, hnd'⟩ := List.nodup_cons.1 hnd
    obtain ⟨ih1, ih2, ih3⟩ := ih (expireOne st e) hnd'
    have hmap : ∀ seq ∈ es,
        alGet seq (expireOne st e).infoMap = alGet seq st.infoMap := by
      intro seq hseq
      have hs : seq ≠ e := fun h => hne (h ▸ hseq)
      have hinfo : (expireOne st e).infoMap = alDelete e st.infoMap := by
        unfold expireOne
        cases alGet e st.infoMap <;> rfl
      rw [hinfo, alGet_alDelete_ne seq e hs]
    have hsum : (es.map (fun seq =>
        match alGet seq (expireOne st e).infoMap with
        | some info => info.segment.duration
        | none => 0)).sum
        = (es.map (fun seq =>
            match alGet seq st.infoMap with
            | some info => info.segment.duration
            | none => 0)).sum := by
      congr 1
      exact List.map_congr_left (fun seq hseq => by rw [hmap seq hseq])
    rw [ih1, hsum, ih2, ih3]
    have hone : (expireOne st e).removedDurationSeconds
        = st.removedDurationSeconds
          + (match alGet e st.infoMap with
             | some info => info.segment.duration
             | none => 0)
        ∧ (expireOne st e).totalDurationSeconds = st.totalDurationSeconds
        ∧ (expireOne st e).segmentChangeCounter = st.segmentChangeCounter := by
      unfold expireOne
      cases alGet e st.infoMap <;> simp
    rw [hone.1, hone.2.1, hone.2.2]
    refine ⟨by ring, rfl, rfl⟩

/-- The ingest loop bumps the counter exactly once per newly tracked
segment. -/
theorem ingest_counter_spec (base : Int) (segs : List MediaSegment) :
    ∀ (i : Nat) (acc : IngestResult × SourceState),
    (ingestList base segs i acc).2.segmentChangeCounter
        + (acc.1.newSegments).length
      = acc.2.segmentChangeCounter + ((ingestList base segs i acc).1.newSegments).length := by
  induction segs with
  | nil => intro i acc; simp [ingestList]
  | cons s rest ih =>
    intro i acc
    rw [ingestList]
    have h := ih (i + 1) (ingestOne (base + i) s acc)
    have hstep : (ingestOne (base + i) s acc).2.segmentChangeCounter
          + acc.1.newSegments.length
        = acc.2.segmentChangeCounter + (ingestOne (base + i) s acc).1.newSegments.length := by
      unfold ingestOne
      by_cases hk : (alGet (base + i) acc.2.infoMap).isSome
      · simp [hk]
      · simp [hk]
        omega
    omega

/-- C3 amended: for every refresh, `removed_duration_seconds` grows by
exactly the sum of the expired segments' durations and
`total_duration_seconds` is unchanged by the expiration — but
`segment_change_counter` is **not** incremented by removal: it grows by
exactly the number of newly appended segments, so a refresh that only
expires leaves it unchanged. -/
theorem refresh_expiration_accounting (p : MediaPlaylist) (st : SourceState)
    (hnd : st.knownSequences.Nodup) :
    (removeExpiredSegmentsM p st).2.removedDurationSeconds
      = st.removedDurationSeconds
        + (((removeExpiredSegmentsM p st).1).map (fun seq =>
            match alGet seq st.infoMap with
            | some info => info.segment.duration
            | none => 0)).sum
    ∧ (removeExpiredSegmentsM p st).2.totalDurationSeconds = st.totalDurationSeconds
    ∧ (removeExpiredSegmentsM p st).2.segmentChangeCounter = st.segmentChangeCounter
    ∧ (refreshIngestM p st).2.2.segmentChangeCounter
      = st.segmentChangeCounter + ((refreshIngestM p st).2.1.newSegments).length := by
  have hndf : (st.knownSequences.filter (fun seq =>
      seq < p.mediaSequence - bufferSegments
        || seq > p.mediaSequence + p.segments.length - 1)).Nodup :=
    hnd.filter _
  obtain ⟨h1, h2, h3⟩ := expire_fold_spec _ st hndf
  refine ⟨?_, ?_, ?_, ?_⟩
  · exact h1
  · exact h2
  · exact h3
  · have h := ingest_counter_spec p.mediaSequence p.segments 0
      (⟨[], (removeExpiredSegmentsM p { st with endList := p.endList }).2.totalDurationSeconds⟩,
        (removeExpiredSegmentsM p { st with endList := p.endList }).2)
    simp only [List.length_nil, Nat.add_zero] at h
    have h3' : (removeExpiredSegmentsM p { st with endList := p.endList }).2.segmentChangeCounter
        = st.segmentChangeCounter := by
      have := (expire_fold_spec _ { st with endList := p.endList } (by simpa using hndf)).2.2
      simpa [removeExpiredSegmentsM] using this
    show (ingestList p.mediaSequence p.segments 0
        (⟨[], (removeExpiredSegmentsM p { st with endList := p.endList }).2.totalDurationSeconds⟩,
          (removeExpiredSegmentsM p { st with endList := p.endList }).2)).2.segmentChangeCounter
      = st.segmentChangeCounter
        + ((ingestList p.mediaSequence p.segments 0
            (⟨[], (removeExpiredSegmentsM p
                { st with endList := p.endList }).2.totalDurationSeconds⟩,
              (removeExpiredSegmentsM p
                { st with endList := p.endList }).2)).1.newSegments).length
    omega

/-- C3 witness: the amended theorem at a small live source (two known
segments, a refresh window that expires both). -/
theorem refresh_expiration_accounting_witness :
    (initializeM 10 (replicatedPlaylist 5 2 (plainSeg "w.mp4" 1))).knownSequences.Nodup
    ∧ (removeExpiredSegmentsM (replicatedPlaylist 79 0 (plainSeg "w.mp4" 1))
        (initializeM 10 (replicatedPlaylist 5 2 (plainSeg "w.mp4" 1)))).2.totalDurationSeconds
      = (initializeM 10 (replicatedPlaylist 5 2 (plainSeg "w.mp4" 1))).totalDurationSeconds := by
  refine ⟨by decide, ?_⟩
  exact (refresh_expiration_accounting (replicatedPlaylist 79 0 (plainSeg "w.mp4" 1))
    (initializeM 10 (replicatedPlaylist 5 2 (plainSeg "w.mp4" 1))) (by decide)).2.1

/-- `alGet` over a cons whose head key differs, component form. -/
theorem alGet_cons_of_ne {α : Type} {k a : Int} (h : a ≠ k) (b : α)
    (l : List (Int × α)) : alGet k ((a, b) :: l) = alGet k l := by
  simp only [alGet]
  rw [if_neg h]

/-- `alSet` over a cons with the same key overwrites in place. -/
theorem alSet_cons_self {α : Type} (k : Int) (v b : α) (rest : List (Int × α)) :
    alSet k v ((k, b) :: rest) = (k, v) :: rest := by
  simp [alSet]

/-- `alSet` over a cons with a different key recurses. -/
theorem alSet_cons_diff {α : Type} {a e : Int} (h : a ≠ e) (v b : α)
    (rest : List (Int × α)) :
    alSet e v ((a, b) :: rest) = (a, b) :: alSet e v rest := by
  simp [alSet, h]

/-- Looking up the key just set. -/
theorem alGet_alSet_eq {α : Type} (k : Int) (v : α) :
    ∀ m : List (Int × α), alGet k (alSet k v m) = some v := by
  intro m
  induction m with
  | nil => simp [alSet, alGet]
  | cons kv rest ih =>
    cases kv with
    | mk a b =>
      by_cases h : a = k
      · subst h; rw [alSet_cons_self, alGet_cons_eq]
      · rw [alSet_cons_diff h, alGet_cons_of_ne h, ih]

/-- Setting one key leaves the lookups of all other keys unchanged. -/
theorem alGet_alSet_ne {α : Type} {k e : Int} (v : α) (h : e ≠ k) :
    ∀ m : List (Int × α), alGet k (alSet e v m) = alGet k m := by
  intro m
  induction m with
  | nil => simp [alSet, alGet, h]
  | cons kv rest ih =>
    cases kv with
    | mk a b =>
      by_cases ha : a = e
      · subst ha
        rw [alSet_cons_self, alGet_cons_of_ne h, alGet_cons_of_ne h]
      · rw [alSet_cons_diff ha]
        by_cases hk : a = k
        · subst hk; rw [alGet_cons_eq, alGet_cons_eq]
        · rw [alGet_cons_of_ne hk, alGet_cons_of_ne hk, ih]

/-- `alSet` never makes a lookup undefined. -/
theorem alGet_alSet_isSome {α : Type} {k : Int} (e : Int) (v : α)
    (m : List (Int × α)) (h : (alGet k m).isSome = true) :
    (alGet k (alSet e v m)).isSome = true := by
  by_cases he : e = k
  · subst he; rw [alGet_alSet_eq]; rfl
  · rw [alGet_alSet_ne v he]; exact h

/-- One `alSet` grows the list by at most one entry. -/
theorem alSet_length_le {α : Type} (k : Int) (v : α) :
    ∀ m : List (Int × α), (alSet k v m).length ≤ m.length + 1 := by
  intro m
  induction m with
  | nil => simp [alSet]
  | cons kv rest ih =>
    cases kv with
    | mk a b =>
      by_cases h : a = k
      · simp [alSet, h]
      · simp only [alSet, if_neg h, List.length_cons]
        omega

/-- `propagateStarts` rewrites only `infoMap`: the data cache is untouched. -/
theorem propagateStarts_cache :
    ∀ (l : List Int) (x : Int) (st : SourceState),
      (propagateStarts l x st).cache = st.cache := by
  intro l
  induction l with
  | nil => intro x st; rfl
  | cons s rest ih =>
    intro x st
    rw [propagateStarts]
    split
    · rfl
    · split
      · rfl
      · split
        · exact ih _ _
        · rfl

/-- `propagateStarts` preserves the definedness of every `infoMap` entry. -/
theorem propagateStarts_infoMap_isSome {k : Int} :
    ∀ (l : List Int) (x : Int) (st : SourceState),
      (alGet k st.infoMap).isSome = true →
      (alGet k (propagateStarts l x st).infoMap).isSome = true := by
  intro l
  induction l with
  | nil => intro x st h; exact h
  | cons s rest ih =>
    intro x st h
    rw [propagateStarts]
    split
    · exact h
    · split
      · exact h
      · split
        · exact ih _ _ (alGet_alSet_isSome _ _ _ h)
        · exact alGet_alSet_isSome _ _ _ h

/-- `getSegmentByteOffset` on an untracked sequence. -/
theorem getSegmentByteOffsetM_of_untracked (st : SourceState) (ms : Int)
    (heq : alGet ms st.infoMap = none) : getSegmentByteOffsetM st ms = none := by
  unfold getSegmentByteOffsetM
  rw [heq]

/-- `getSegmentByteOffset` on a tracked sequence, as a plain conditional. -/
theorem getSegmentByteOffsetM_of_tracked (st : SourceState) (ms : Int)
    (info : SegInfo) (heq : alGet ms st.infoMap = some info) :
    getSegmentByteOffsetM st ms =
      if (alHas ms st.cache || info.segment.byteRange.isSome) = true
      then some info.offStart else none := by
  unfold getSegmentByteOffsetM
  rw [heq]

/-- A tracked segment that is currently cached has a defined byte offset. -/
theorem getSegmentByteOffset_isSome_of_cached (st : SourceState) (ms : Int)
    (h1 : (alGet ms st.infoMap).isSome = true)
    (h2 : alHas ms st.cache = true) :
    (getSegmentByteOffsetM st ms).isSome = true := by
  rcases Option.isSome_iff_exists.mp h1 with ⟨info, heq⟩
  rw [getSegmentByteOffsetM_of_tracked st ms info heq]
  simp [h2]

/-- **C4** counterexample: in the 22-segment live source, sequence 1 is
fetched (it is in the data cache after the first two fetches) and is then
evicted by the LRU cache during the 22nd fetch; although it is still in
`knownSequences`, its byte offset is then `undefined` — refuting "the
offset remains defined for a segment that was fetched and later evicted".
-/
theorem byteOffset_lost_after_eviction :
    alHas 1 (lruStateAfter 2).cache = true ∧
    alHas 1 (lruStateAfter 22).cache = false ∧
    (1 : Int) ∈ (lruStateAfter 22).knownSequences ∧
    getSegmentByteOffsetM (lruStateAfter 22) 1 = none := by
  decide

/-- **C4** (amended): `getSegmentByteOffset(ms)` is defined iff `ms` is
tracked in `segmentInfoMap` and either is CURRENTLY in the segment data
cache or carries an explicit byte range — having been fetched at some
point does not keep the offset defined after eviction.  Immediately after
a successful `fetchSegmentBySequence(ms)` the offset is always defined. -/
theorem getSegmentByteOffset_defined_iff (st : SourceState) (ms : Int)
    (hwf : alHas ms st.cache = true → (alGet ms st.infoMap).isSome = true) :
    ((getSegmentByteOffsetM st ms).isSome = true ↔
      ∃ info : SegInfo, alGet ms st.infoMap = some info ∧
        (alHas ms st.cache = true ∨ info.segment.byteRange.isSome = true)) ∧
    (∀ (env : FetchEnv) (n : Nat) (st' : SourceState),
      fetchSegmentBySequenceM env ms st = some (n, st') →
      (getSegmentByteOffsetM st' ms).isSome = true) := by
  constructor
  · constructor
    · intro h
      cases heq : alGet ms st.infoMap with
      | none => rw [getSegmentByteOffsetM_of_untracked st ms heq] at h; simp at h
      | some info =>
        refine ⟨info, rfl, ?_⟩
        rw [getSegmentByteOffsetM_of_tracked st ms info heq] at h
        split at h
        next hcond => simpa [Bool.or_eq_true] using hcond
        next hcond => simp at h
    · rintro ⟨info, heq, hor⟩
      rw [getSegmentByteOffsetM_of_tracked st ms info heq]
      rcases hor with h | h <;> simp [h]
  · intro env n st' hf
    unfold fetchSegmentBySequenceM at hf
    split at hf
    next len hcache =>
      simp only [Option.some.injEq, Prod.mk.injEq] at hf
      obtain ⟨-, h2⟩ := hf
      subst h2
      have hinfo := hwf (by simp [alHas, hcache])
      apply getSegmentByteOffset_isSome_of_cached
      · exact hinfo
      · simp [alHas, updateLruAccessM, hcache]
    next hcache =>
      split at hf
      next hinfo => exact Option.noConfusion hf
      next info hinfo =>
        simp only [Option.some.injEq, Prod.mk.injEq] at hf
        obtain ⟨-, h2⟩ := hf
        subst h2
        by_cases hbr : info.segment.byteRange.isSome = true
        · rw [if_pos hbr]
          apply getSegmentByteOffset_isSome_of_cached
          · show (alGet ms (alSet ms _ _)).isSome = true
            rw [alGet_alSet_eq]; rfl
          · show (alGet ms (alSet ms _ _)).isSome = true
            rw [alGet_alSet_eq]; rfl
        · rw [if_neg hbr]
          apply getSegmentByteOffset_isSome_of_cached
          · apply propagateStarts_infoMap_isSome
            show (alGet ms (alSet ms _ _)).isSome = true
            rw [alGet_alSet_eq]; rfl
          · show (alGet ms (propagateStarts _ _ _).cache).isSome = true
            rw [propagateStarts_cache]
            show (alGet ms (alSet ms _ _)).isSome = true
            rw [alGet_alSet_eq]; rfl

/-- C4 witness: the amended theorem at the 22-segment live source — right
after the first fetch of sequence 0 its byte offset is defined. -/
theorem getSegmentByteOffset_defined_iff_witness :
    (getSegmentByteOffsetM ((fetchSegmentBySequenceM lruEnv 0 lruState0).getD
        (10, lruState0)).2 0).isSome = true :=
  (getSegmentByteOffset_defined_iff lruState0 0 (by decide)).2 lruEnv 10
    ((fetchSegmentBySequenceM lruEnv 0 lruState0).getD (10, lruState0)).2 (by decide)

/-- One unfolding of the eviction loop on a non-empty access order. -/
theorem evictLoop_cons (known : List Int) (lru : Int) (rest : List Int)
    (cache : List (Int × Nat)) :
    evictLoop known (lru :: rest) cache =
      if cache.length < maxCachedSegments then (cache, lru :: rest)
      else if (!known.contains lru || decide (cache.length > maxCachedSegments)) = true
      then evictLoop known rest (alDelete lru cache)
      else (cache, rest ++ [lru]) := by
  rw [evictLoop]

/-- The eviction loop leaves at most `MAX_CACHED_SEGMENTS` entries whenever
every cached key appears in the access order. -/
theorem evictLoop_length_le (known : List Int) :
    ∀ (order : List Int) (cache : List (Int × Nat)),
      (∀ kv ∈ cache, kv.1 ∈ order) →
      (evictLoop known order cache).1.length ≤ maxCachedSegments := by
  intro order
  induction order with
  | nil =>
    intro cache h
    cases cache with
    | nil => rw [evictLoop]; simp [maxCachedSegments]
    | cons kv rest => exact absurd (h kv (List.mem_cons_self kv rest)) (List.not_mem_nil _)
  | cons lru rest ih =>
    intro cache h
    rw [evictLoop]
    split
    next hlt => simpa using Nat.le_of_lt hlt
    next hge =>
      split
      next hcond =>
        refine ih (alDelete lru cache) (fun kv hkv => ?_)
        rcases List.mem_filter.mp hkv with ⟨hmem, hne⟩
        rcases List.mem_cons.mp (h kv hmem) with h' | h'
        · exact absurd h' (by simpa using hne)
        · exact h'
      next hcond =>
        show cache.length ≤ maxCachedSegments
        simp only [Bool.or_eq_true, Bool.not_eq_true', decide_eq_true_eq, not_or] at hcond
        omega

/-- **C6** counterexample: after the 21st fetch the data cache holds
`MAX_CACHED_SEGMENTS + 1 = 21` entries; and when the least-recently-used
cached sequence is still in `knownSequences` at the limit, the eviction
loop stops outright (`break`) — it does not "try the next least-recently-
used sequence": the no-longer-known sequence 5 cached behind the live head
stays cached and nothing is evicted. -/
theorem cache_exceeds_max_and_evict_stops :
    (lruStateAfter 21).cache.length = maxCachedSegments + 1 ∧
    (evictLoop [0] [0, 5]
        ((List.range maxCachedSegments).map (fun i => ((i : Int), 1)))).1.length
      = maxCachedSegments ∧
    alHas 5 (evictLoop [0] [0, 5]
        ((List.range maxCachedSegments).map (fun i => ((i : Int), 1)))).1 = true := by
  decide

/-- **C6** (amended): whenever every cached key appears in the access order,
`evictOldCacheEntries` leaves at most `MAX_CACHED_SEGMENTS` (20) entries,
and a successful `fetchSegmentBySequence` leaves at most 21 (the fetch
evicts down to 20 first and then inserts, so the cache can briefly hold
21 entries).  Eviction policy: an LRU head no longer in `knownSequences`
is always evicted while the cache is full; a head still in
`knownSequences` is evicted anyway when the cache is OVER the limit; and
at exactly the limit a live head ends the loop (it is rotated to the
most-recent end and no further candidate is tried). -/
theorem cache_eviction_policy (st : SourceState)
    (hwf : ∀ kv ∈ st.cache, kv.1 ∈ st.accessOrder)
    (hlen : st.cache.length ≤ maxCachedSegments + 1) :
    ((evictOldCacheEntriesM st).cache.length ≤ maxCachedSegments) ∧
    (∀ (env : FetchEnv) (seq : Int) (n : Nat) (st' : SourceState),
      fetchSegmentBySequenceM env seq st = some (n, st') →
      st'.cache.length ≤ maxCachedSegments + 1) ∧
    (∀ (known : List Int) (lru : Int) (rest : List Int) (cache : List (Int × Nat)),
      maxCachedSegments ≤ cache.length → known.contains lru = false →
      evictLoop known (lru :: rest) cache = evictLoop known rest (alDelete lru cache)) ∧
    (∀ (known : List Int) (lru : Int) (rest : List Int) (cache : List (Int × Nat)),
      maxCachedSegments < cache.length →
      evictLoop known (lru :: rest) cache = evictLoop known rest (alDelete lru cache)) ∧
    (∀ (known : List Int) (lru : Int) (rest : List Int) (cache : List (Int × Nat)),
      cache.length = maxCachedSegments → known.contains lru = true →
      evictLoop known (lru :: rest) cache = (cache, rest ++ [lru])) := by
  refine ⟨?_, ?_, ?_, ?_, ?_⟩
  · exact evictLoop_length_le st.knownSequences st.accessOrder st.cache hwf
  · intro env seq n st' hf
    unfold fetchSegmentBySequenceM at hf
    split at hf
    next len hcache =>
      simp only [Option.some.injEq, Prod.mk.injEq] at hf
      obtain ⟨-, h2⟩ := hf
      subst h2
      simpa [updateLruAccessM] using hlen
    next hcache =>
      split at hf
      next hinfo => exact Option.noConfusion hf
      next info hinfo =>
        simp only [Option.some.injEq, Prod.mk.injEq] at hf
        obtain ⟨-, h2⟩ := hf
        subst h2
        have hev : (evictOldCacheEntriesM st).cache.length ≤ maxCachedSegments :=
          evictLoop_length_le st.knownSequences st.accessOrder st.cache hwf
        have ha := alSet_length_le seq (env seq) (evictOldCacheEntriesM st).cache
        by_cases hbr : info.segment.byteRange.isSome = true
        · rw [if_pos hbr]
          show (alSet seq (env seq) (evictOldCacheEntriesM st).cache).length
            ≤ maxCachedSegments + 1
          omega
        · rw [if_neg hbr]
          show (propagateStarts _ _ _).cache.length ≤ maxCachedSegments + 1
          rw [propagateStarts_cache]
          show (alSet seq (env seq) (evictOldCacheEntriesM st).cache).length
            ≤ maxCachedSegments + 1
          omega
  · intro known lru rest cache hge hk
    have hc : (!known.contains lru || decide (cache.length > maxCachedSegments)) = true := by
      rw [hk]; rfl
    rw [evictLoop_cons, if_neg (by omega), if_pos hc]
  · intro known lru rest cache hgt
    have hc : (!known.contains lru || decide (cache.length > maxCachedSegments)) = true := by
      rw [decide_eq_true hgt, Bool.or_true]
    rw [evictLoop_cons, if_neg (by omega), if_pos hc]
  · intro known lru rest cache hlen20 hk
    have hc : (!known.contains lru || decide (cache.length > maxCachedSegments)) = false := by
      rw [hk, hlen20]
      simp
    rw [evictLoop_cons, if_neg (by omega), if_neg (by rw [hc]; exact Bool.false_ne_true)]

/-- C6 witness: the amended theorem at the over-full 21-entry cache state
of the 22-segment live source — eviction brings it back to at most 20. -/
theorem cache_eviction_policy_witness :
    (evictOldCacheEntriesM (lruStateAfter 21)).cache.length ≤ maxCachedSegments :=
  (cache_eviction_policy (lruStateAfter 21) (by decide) (by decide)).1

/-- Every sequence in a chain is tracked. -/
theorem chainFrom_mem_isSome (m : List (Int × SegInfo)) :
    ∀ (l : List Int) (off : Int), chainFrom m l off →
      ∀ s ∈ l, (alGet s m).isSome = true := by
  intro l
  induction l with
  | nil => intro off h s hs; exact absurd hs (List.not_mem_nil s)
  | cons a rest ih =>
    intro off h s hs
    obtain ⟨i0, hg0, -, -, hrest⟩ := h
    rcases List.mem_cons.mp hs with h' | h'
    · subst h'; rw [hg0]; rfl
    · exact ih i0.offEnd hrest s h'

/-- A non-empty list has a last element. -/
theorem getLast_cons_isSome {α : Type} (c : α) (cs : List α) :
    ((c :: cs).getLast?).isSome = true := by
  induction cs generalizing c with
  | nil => rfl
  | cons d ds ih => rw [List.getLast?_cons_cons]; exact ih d

/-- Extending a chain by one new segment whose start is the running end. -/
theorem chainFrom_append (newSeq : Int) (info : SegInfo)
    (m m' : List (Int × SegInfo)) :
    ∀ (l : List Int) (off : Int),
      chainFrom m l off →
      (∀ s ∈ l, alGet s m' = alGet s m) →
      alGet newSeq m' = some info →
      info.offStart = chainLastEnd m off l →
      (match info.segment.byteRange with
       | some br => info.offEnd = info.offStart + br.length
       | none => info.offEnd = info.offStart) →
      chainFrom m' (l ++ [newSeq]) off := by
  intro l
  induction l with
  | nil =>
    intro off hc hpres hget hstart hbr
    show chainFrom m' [newSeq] off
    refine ⟨info, hget, ?_, hbr, trivial⟩
    rw [hstart]
    rfl
  | cons s rest ih =>
    intro off hc hpres hget hstart hbr
    obtain ⟨i0, hg0, hs0, hb0, hrest⟩ := hc
    refine ⟨i0, ?_, hs0, hb0, ?_⟩
    · rw [hpres s (List.mem_cons_self s rest)]; exact hg0
    · refine ih i0.offEnd hrest (fun x hx => hpres x (List.mem_cons_of_mem s hx))
        hget ?_ hbr
      rw [hstart]
      cases rest with
      | nil => simp [chainLastEnd, hg0]
      | cons c cs =>
        simp only [chainLastEnd, List.getLast?_cons_cons]
        cases hl : (c :: cs).getLast? with
        | none =>
          have hs := getLast_cons_isSome c cs
          rw [hl] at hs
          exact absurd hs (by decide)
        | some s0 => rfl

/-- The running offset after appending one sequence. -/
theorem chainLastEnd_concat (m : List (Int × SegInfo)) (off x : Int)
    (l : List Int) :
    chainLastEnd m off (l ++ [x]) =
      match alGet x m with
      | some info => info.offEnd
      | none => 0 := by
  unfold chainLastEnd
  rw [List.getLast?_concat]

/-- One `ingestOne` step on an untracked sequence, abstractly. -/
theorem ingestOne_fresh (seq : Int) (s : MediaSegment) (res : IngestResult)
    (st : SourceState) (h : alGet seq st.infoMap = none) :
    ∃ info : SegInfo,
      (ingestOne seq s (res, st)).2.infoMap = alSet seq info st.infoMap ∧
      (ingestOne seq s (res, st)).2.knownSequences = st.knownSequences ++ [seq] ∧
      (ingestOne seq s (res, st)).2.nextSegmentOffset = info.offEnd ∧
      info.segment = s ∧
      info.offStart = (match st.knownSequences.getLast? with
        | none => st.nextSegmentOffset
        | some lastSeq =>
          match alGet lastSeq st.infoMap with
          | some lastInfo => lastInfo.offEnd
          | none => 0) ∧
      (match s.byteRange with
       | some br => info.offEnd = info.offStart + br.length
       | none => info.offEnd = info.offStart) := by
  unfold ingestOne
  dsimp only
  rw [h]
  rw [if_neg (show ¬((none : Option SegInfo).isSome = true) from
    fun hc => Bool.false_ne_true hc)]
  refine ⟨_, rfl, rfl, rfl, rfl, rfl, ?_⟩
  cases hbr : s.byteRange <;> simp [hbr]

/-- The ingest loop preserves and extends the chain invariant. -/
theorem ingestList_chain (base : Int) :
    ∀ (segs : List MediaSegment) (i : Nat) (res : IngestResult) (st : SourceState)
      (off : Int),
      chainFrom st.infoMap st.knownSequences off →
      st.nextSegmentOffset = chainLastEnd st.infoMap off st.knownSequences →
      (∀ j : Nat, i ≤ j → alGet (base + (j : Int)) st.infoMap = none) →
      chainFrom (ingestList base segs i (res, st)).2.infoMap
        (ingestList base segs i (res, st)).2.knownSequences off := by
  intro segs
  induction segs with
  | nil => intro i res st off h1 h2 h3; exact h1
  | cons s rest ih =>
    intro i res st off h1 h2 h3
    obtain ⟨info, hm, hk, hn, hseg, hstart, hbr⟩ :=
      ingestOne_fresh (base + (i : Int)) s res st (h3 i (le_refl i))
    have hne : ∀ x ∈ st.knownSequences, base + (i : Int) ≠ x := by
      intro x hx hxe
      have := chainFrom_mem_isSome st.infoMap st.knownSequences off h1 x hx
      rw [← hxe, h3 i (le_refl i)] at this
      exact Bool.false_ne_true this
    have hstart' : info.offStart = chainLastEnd st.infoMap off st.knownSequences := by
      rw [hstart]
      unfold chainLastEnd
      cases hl : st.knownSequences.getLast? with
      | none => exact h2.trans (by unfold chainLastEnd; rw [hl])
      | some s0 => rfl
    have hc' : chainFrom (ingestOne (base + (i : Int)) s (res, st)).2.infoMap
        (ingestOne (base + (i : Int)) s (res, st)).2.knownSequences off := by
      rw [hm, hk]
      refine chainFrom_append (base + (i : Int)) info st.infoMap _
        st.knownSequences off h1
        (fun x hx => alGet_alSet_ne info (hne x hx) st.infoMap)
        (alGet_alSet_eq _ info st.infoMap) hstart' ?_
      rw [hseg]
      exact hbr
    have hn' : (ingestOne (base + (i : Int)) s (res, st)).2.nextSegmentOffset
        = chainLastEnd (ingestOne (base + (i : Int)) s (res, st)).2.infoMap off
            (ingestOne (base + (i : Int)) s (res, st)).2.knownSequences := by
      rw [hm, hk, hn, chainLastEnd_concat, alGet_alSet_eq]
    have h3' : ∀ j : Nat, i + 1 ≤ j →
        alGet (base + (j : Int)) (ingestOne (base + (i : Int)) s (res, st)).2.infoMap
          = none := by
      intro j hj
      rw [hm, alGet_alSet_ne info (by omega) st.infoMap]
      exact h3 j (by omega)
    exact ih (i + 1) (ingestOne (base + (i : Int)) s (res, st)).1
      (ingestOne (base + (i : Int)) s (res, st)).2 off hc' hn' h3'

/-- **C2**: after the initial ingest of a playlist snapshot, the tracked
segments form a byte-offset chain: the first tracked segment's start is
the init segment's length, every later segment's start is the previous
segment's end, a segment with an explicit byte range has
`end − start = byteRange.length`, and a segment without one has
provisional end equal to its start (until it is fetched). -/
theorem ingest_chain_invariants (initLen : Int) (p : MediaPlaylist) :
    chainFrom (initializeM initLen p).infoMap
      (initializeM initLen p).knownSequences initLen :=
  ingestList_chain p.mediaSequence p.segments 0
    ⟨[], (freshSourceState initLen p.endList).totalDurationSeconds⟩
    (freshSourceState initLen p.endList) initLen trivial rfl
    (fun _ _ => rfl)

/-- `durSum` over the empty list. -/
theorem durSum_nil (st : SourceState) : durSum st [] = 0 := rfl

/-- `durSum` over a cons. -/
theorem durSum_cons (st : SourceState) (s : Int) (rest : List Int) :
    durSum st (s :: rest) = segDur st s + durSum st rest := rfl

/-- `durSum` of nonnegative durations is nonnegative. -/
theorem durSum_nonneg (st : SourceState) :
    ∀ l : List Int, (∀ s ∈ l, 0 ≤ segDur st s) → 0 ≤ durSum st l := by
  intro l
  induction l with
  | nil => intro h; exact le_refl 0
  | cons s rest ih =>
    intro h
    rw [durSum_cons]
    exact add_nonneg (h s (List.mem_cons_self s rest))
      (ih (fun x hx => h x (List.mem_cons_of_mem s hx)))

/-- The last element of a list is a member. -/
theorem getLast_mem_of_eq {α : Type} :
    ∀ (l : List α) (a : α), l.getLast? = some a → a ∈ l := by
  intro l
  induction l with
  | nil => intro a h; exact Option.noConfusion h
  | cons c cs ih =>
    intro a h
    cases cs with
    | nil => simp at h; simp [h]
    | cons d ds =>
      rw [List.getLast?_cons_cons] at h
      exact List.mem_cons_of_mem c (ih a h)

/-- A failed timeline walk of `findSegmentAtTime` ends exactly at the
accumulated duration, and the requested time misses the walked window
entirely. -/
theorem findSegLoop_none (st : SourceState) (t : ℚ) :
    ∀ (l : List Int) (cum : ℚ),
      (findSegLoop st t l cum).1 = none →
      (findSegLoop st t l cum).2 = cum + durSum st l ∧
        (t < cum ∨ cum + durSum st l ≤ t) := by
  intro l
  induction l with
  | nil =>
    intro cum h
    refine ⟨by simp [findSegLoop, durSum_nil], ?_⟩
    rcases lt_or_ge t cum with h' | h'
    · exact Or.inl h'
    · exact Or.inr (by simpa [durSum_nil] using h')
  | cons s rest ih =>
    intro cum h
    cases hg : alGet s st.infoMap with
    | none =>
      simp only [findSegLoop, hg] at h ⊢
      have hsd : segDur st s = 0 := by simp [segDur, hg]
      obtain ⟨h1, h2⟩ := ih cum h
      constructor
      · rw [durSum_cons, hsd, zero_add]; exact h1
      · rw [durSum_cons, hsd, zero_add]; exact h2
    | some info =>
      simp only [findSegLoop, hg] at h ⊢
      by_cases hc : t ≥ cum ∧ t < cum + info.segment.duration
      · rw [if_pos hc] at h
        exact absurd h (by simp)
      · rw [if_neg hc] at h ⊢
        have hsd : segDur st s = info.segment.duration := by simp [segDur, hg]
        obtain ⟨h1, h2⟩ := ih (cum + info.segment.duration) h
        constructor
        · rw [h1, durSum_cons, hsd]; ring
        · rw [durSum_cons, hsd]
          rcases h2 with h2 | h2
          · rcases lt_or_ge t cum with h3 | h3
            · exact Or.inl h3
            · exact absurd ⟨h3, h2⟩ hc
          · refine Or.inr ?_
            calc cum + (info.segment.duration + durSum st rest)
                = cum + info.segment.duration + durSum st rest := by ring
              _ ≤ t := h2

/-- When the requested time is at or past the accumulated end, the
timeline walk fails and ends at the accumulated end. -/
theorem findSegLoop_past_end (st : SourceState) (t : ℚ) :
    ∀ (l : List Int) (cum : ℚ),
      (∀ s ∈ l, 0 ≤ segDur st s) →
      cum + durSum st l ≤ t →
      findSegLoop st t l cum = (none, cum + durSum st l) := by
  intro l
  induction l with
  | nil =>
    intro cum hnn hle
    simp [findSegLoop, durSum_nil]
  | cons s rest ih =>
    intro cum hnn hle
    cases hg : alGet s st.infoMap with
    | none =>
      have hsd : segDur st s = 0 := by simp [segDur, hg]
      simp only [findSegLoop, hg]
      rw [durSum_cons, hsd, zero_add]
      rw [durSum_cons, hsd, zero_add] at hle
      exact ih cum (fun x hx => hnn x (List.mem_cons_of_mem s hx)) hle
    | some info =>
      have hsd : segDur st s = info.segment.duration := by simp [segDur, hg]
      have hrest : 0 ≤ durSum st rest :=
        durSum_nonneg st rest (fun x hx => hnn x (List.mem_cons_of_mem s hx))
      rw [durSum_cons, hsd] at hle ⊢
      simp only [findSegLoop, hg]
      have hnotc : ¬(t ≥ cum ∧ t < cum + info.segment.duration) := by
        rintro ⟨-, hlt⟩
        linarith
      rw [if_neg hnotc]
      have hrec := ih (cum + info.segment.duration)
        (fun x hx => hnn x (List.mem_cons_of_mem s hx)) (by linarith)
      rw [hrec, add_assoc]

/-- **C9**: on an initialized source with at least one known segment (all
tracked, with nonnegative durations and consistent duration bookkeeping),
`findSegmentAtTime(t)` at any `t` at or past the end of the available
time range returns the LAST known segment (with its start time and
duration) rather than `null`; `null` comes back only for times strictly
before the available range's start. -/
theorem findSegmentAtTime_clamps_to_last (st : SourceState)
    (hinit : st.initialized = true)
    (hne : st.knownSequences.isEmpty = false)
    (htr : ∀ s ∈ st.knownSequences, (alGet s st.infoMap).isSome = true)
    (hnn : ∀ s ∈ st.knownSequences, 0 ≤ segDur st s)
    (hsum : (getAvailableTimeRangeM st).1 + durSum st st.knownSequences
      = (getAvailableTimeRangeM st).2) :
    (∀ t : ℚ, (getAvailableTimeRangeM st).2 ≤ t →
      ∃ lastSeq lastInfo, st.knownSequences.getLast? = some lastSeq ∧
        alGet lastSeq st.infoMap = some lastInfo ∧
        findSegmentAtTimeM st t = some ⟨lastSeq,
          (getAvailableTimeRangeM st).2 - lastInfo.segment.duration,
          lastInfo.segment.duration, lastInfo.segment.discontinuity⟩) ∧
    (∀ t : ℚ, findSegmentAtTimeM st t = none →
      t < (getAvailableTimeRangeM st).1) := by
  have hbase : (if isLiveM st then st.removedDurationSeconds else 0)
      = (getAvailableTimeRangeM st).1 := by
    unfold getAvailableTimeRangeM isLiveM
    rw [hinit, hne]
    cases hel : st.endList <;> simp [hel]
  obtain ⟨c, cs, hk⟩ : ∃ c cs, st.knownSequences = c :: cs := by
    cases hkk : st.knownSequences with
    | nil => rw [hkk] at hne; exact absurd hne (by simp)
    | cons c cs => exact ⟨c, cs, rfl⟩
  obtain ⟨lastSeq, hl⟩ := Option.isSome_iff_exists.mp
    (show (st.knownSequences.getLast?).isSome = true by
      rw [hk]; exact getLast_cons_isSome c cs)
  have hmem : lastSeq ∈ st.knownSequences := getLast_mem_of_eq _ lastSeq hl
  obtain ⟨lastInfo, hli⟩ := Option.isSome_iff_exists.mp (htr lastSeq hmem)
  have hsumB : (if isLiveM st then st.removedDurationSeconds else 0)
      + durSum st st.knownSequences = (getAvailableTimeRangeM st).2 := by
    rw [hbase]; exact hsum
  constructor
  · intro t ht
    have hle : (if isLiveM st then st.removedDurationSeconds else 0)
        + durSum st st.knownSequences ≤ t := by
      rw [hsumB]; exact ht
    have hloop := findSegLoop_past_end st t st.knownSequences
      (if isLiveM st then st.removedDurationSeconds else 0) hnn hle
    refine ⟨lastSeq, lastInfo, hl, hli, ?_⟩
    unfold findSegmentAtTimeM
    rw [show (!st.initialized || st.knownSequences.isEmpty) = false by
      rw [hinit, hne]; rfl]
    rw [if_neg (show ¬(false = true) from Bool.false_ne_true)]
    dsimp only
    rw [hloop]
    dsimp only
    rw [if_pos ⟨by rw [← hsumB] at ht; exact hle, by rw [hne]; rfl⟩]
    rw [hl]
    dsimp only
    rw [hli]
    rw [hsumB]
  · intro t hnone
    unfold findSegmentAtTimeM at hnone
    rw [show (!st.initialized || st.knownSequences.isEmpty) = false by
      rw [hinit, hne]; rfl] at hnone
    rw [if_neg (show ¬(false = true) from Bool.false_ne_true)] at hnone
    dsimp only at hnone
    rcases hr : findSegLoop st t st.knownSequences
        (if isLiveM st then st.removedDurationSeconds else 0) with ⟨o, cum⟩
    rw [hr] at hnone
    cases o with
    | some r => exact absurd hnone (by simp)
    | none =>
      dsimp only at hnone
      obtain ⟨hcum, hdisj⟩ := findSegLoop_none st t st.knownSequences
        (if isLiveM st then st.removedDurationSeconds else 0) (by rw [hr])
      rw [hr] at hcum
      dsimp only at hcum
      split at hnone
      next hif =>
        rw [hl] at hnone
        dsimp only at hnone
        rw [hli] at hnone
        exact absurd hnone (by simp)
      next hif =>
        have hlt : t < cum := by
          by_contra hge
          exact hif ⟨le_of_not_lt hge, by rw [hne]; rfl⟩
        rcases hdisj with hd | hd
        · rw [← hbase]; exact hd
        · rw [← hcum] at hd
          exact absurd hlt (not_lt.mpr hd)

/-- C9 witness: the theorem at the 22-segment live source and `t = 0`
(at the end of its zero-length available range). -/
theorem findSegmentAtTime_clamps_to_last_witness :
    ∃ lastSeq lastInfo, lruState0.knownSequences.getLast? = some lastSeq ∧
      alGet lastSeq lruState0.infoMap = some lastInfo ∧
      findSegmentAtTimeM lruState0 0 = some ⟨lastSeq,
        (getAvailableTimeRangeM lruState0).2 - lastInfo.segment.duration,
        lastInfo.segment.duration, lastInfo.segment.discontinuity⟩ :=
  (findSegmentAtTime_clamps_to_last lruState0 (by decide) (by decide)
    (by decide) (by decide) (by decide)).1 0 (by decide)

/-- One unrolling of the wait poll with the source not disposed. -/
theorem waitPollAux_succ (adv : Nat → Bool) (fuel idx waited : Nat) :
    waitPollAux adv false (fuel + 1) idx waited =
      if adv idx then .resolved
      else if waited + waitCheckInterval ≥ waitMaxWait then .timedOut
      else waitPollAux adv false fuel (idx + 1) (waited + waitCheckInterval) := by
  rw [waitPollAux]
  rw [if_neg (show ¬((false : Bool) = true) from Bool.false_ne_true)]

/-- The wait poll from check index `idx` (with `idx + d = 99`) times out
iff no check from `idx` through 99 sees the counter advance. -/
theorem waitPollAux_timeout_iff (adv : Nat → Bool) :
    ∀ (d idx : Nat), idx + d = 99 →
      (waitPollAux adv false (d + 1 + 1) idx (waitCheckInterval * idx) = .timedOut
        ↔ ∀ k, idx ≤ k → k ≤ 99 → adv k = false) := by
  intro d
  induction d with
  | zero =>
    intro idx hidx
    have h99 : idx = 99 := by omega
    subst h99
    rw [waitPollAux_succ]
    cases hadv : adv 99 with
    | false =>
      rw [if_neg (by simp [hadv])]
      rw [if_pos (by unfold waitCheckInterval waitMaxWait; omega)]
      constructor
      · intro _ k hk1 hk2
        have hk : k = 99 := by omega
        subst hk
        exact hadv
      · intro _; rfl
    | true =>
      rw [if_pos (show (true : Bool) = true from rfl)]
      constructor
      · intro h; exact WaitOutcome.noConfusion h
      · intro h
        exact absurd (h 99 le_rfl le_rfl) (by rw [hadv]; exact fun hc => Bool.noConfusion hc)
  | succ d ih =>
    intro idx hidx
    rw [waitPollAux_succ]
    cases hadv : adv idx with
    | false =>
      rw [if_neg (by simp [hadv])]
      rw [if_neg (by unfold waitCheckInterval waitMaxWait; omega)]
      rw [show waitCheckInterval * idx + waitCheckInterval
        = waitCheckInterval * (idx + 1) from by ring]
      have hrec := ih (idx + 1) (by omega)
      constructor
      · intro h k hk1 hk2
        rcases Nat.eq_or_lt_of_le hk1 with he | hl
        · rw [← he]; exact hadv
        · exact hrec.mp h k (by omega) hk2
      · intro h
        exact hrec.mpr (fun k hk1 hk2 => h k (by omega) hk2)
    | true =>
      rw [if_pos (show (true : Bool) = true from rfl)]
      constructor
      · intro h; exact WaitOutcome.noConfusion h
      · intro h
        exact absurd (h idx le_rfl (by omega))
          (by rw [hadv]; exact fun hc => Bool.noConfusion hc)

/-- `waitForNewSegments` times out iff none of its 100 checks (at 100 ms
intervals, up to 10 s) sees the segment change counter advance. -/
theorem waitPollM_timeout_iff (adv : Nat → Bool) :
    waitPollM adv false = .timedOut ↔ ∀ k, k < 100 → adv k = false := by
  have he : waitPollM adv false
      = waitPollAux adv false (99 + 1 + 1) 0 (waitCheckInterval * 0) := rfl
  rw [he, waitPollAux_timeout_iff adv 99 0 (by omega)]
  constructor
  · intro hh k hk; exact hh k (Nat.zero_le k) (by omega)
  · intro hh k _ hk2; exact hh k (by omega)

/-- **C1** counterexample: in the mixed live source the last known
segment's end (150, known upfront from its byte range) is at or below the
read start, yet `_read(150, 300)` does not wait for new segments — it
fetches the byte-range-less first segment, whose revealed 200-byte size
overlaps the request, and returns 150 bytes. -/
theorem read_past_known_end_returns_data :
    isLiveM c1MixState = true ∧
    c1MixState.knownSequences.getLast? = some 1 ∧
    ((alGet 1 c1MixState.infoMap).map (fun i => i.offEnd)) = some 150 ∧
    ((alGet 1 c1MixState.infoMap).map (fun i => i.segment.byteRange.isSome))
      = some true ∧
    (readStep c1Env c1MixState 150 300).1 = .ok 150 150 := by
  decide

/-- **C1** (amended): on a live playlist, a read whose start lies in the
gap area (at or above the init segment's end, below the first known
segment's start) throws `LiveEdgeError(behind_window)`; the
zero-bytes-written epilogue waits for new segments only when the last
known segment's end is known (fetched or byte-ranged) and the start is at
or past it; a waiting read retries after a resolved poll and throws
`LiveEdgeError(timeout)` after a timed-out poll; and the poll times out
iff none of its 100 checks (100 ms apart, 10 s total) sees the counter
advance. -/
theorem read_gap_and_wait_behavior (env : FetchEnv) (st : SourceState)
    (startB endB : Int) (firstSeq lastSeq : Int) (firstInfo lastInfo : SegInfo)
    (hhead : st.knownSequences.head? = some firstSeq)
    (hfirst : alGet firstSeq st.infoMap = some firstInfo)
    (hlastq : st.knownSequences.getLast? = some lastSeq)
    (hlasti : alGet lastSeq st.infoMap = some lastInfo)
    (hlive : st.endList = false) :
    (st.initLen ≤ startB → startB < firstInfo.offStart →
      readStep env st startB endB = (.liveEdgeErr false, st)) ∧
    (¬(startB < firstInfo.offStart) →
      (alHas lastSeq st.cache || lastInfo.segment.byteRange.isSome) = true →
      lastInfo.offEnd ≤ startB →
      readEmptyCase env startB endB st = (.needWait, st)) ∧
    (∀ (adv : Nat → Bool) (stWait : SourceState → SourceState) (fuel : Nat)
      (st' : SourceState),
      readStep env st startB endB = (.needWait, st') →
      readFullM env adv stWait (fuel + 1) st startB endB =
        (match waitPollM adv false with
         | .resolved => readFullM env adv stWait fuel (stWait st') startB endB
         | .timedOut => (.liveEdgeErr true, st'))) ∧
    (∀ adv : Nat → Bool,
      waitPollM adv false = .timedOut ↔ ∀ k, k < 100 → adv k = false) := by
  refine ⟨?_, ?_, ?_, fun adv => waitPollM_timeout_iff adv⟩
  · intro h1 h2
    unfold readStep
    dsimp only
    rw [show (if startB < st.initLen then min endB st.initLen - startB else (0 : Int))
      = 0 from if_neg (not_lt.mpr h1)]
    rw [if_neg (show ¬(startB < st.initLen ∧ (0 : Int) ≥ endB - startB) from
      fun hc => absurd hc.1 (not_lt.mpr h1))]
    rw [hhead]
    dsimp only
    rw [hfirst]
    dsimp only
    rw [add_zero]
    rw [if_pos ⟨h2, h1⟩]
    rw [hlive]
    rw [if_pos (show (!(false : Bool)) = true from rfl)]
  · intro hgap hknown hpast
    unfold readEmptyCase
    rw [hhead, hlastq]
    dsimp only
    rw [hfirst, hlasti]
    dsimp only
    rw [if_neg (show ¬(startB < firstInfo.offStart ∧ (!st.endList) = true) from
      fun hc => hgap hc.1)]
    rw [if_pos ⟨by rw [hlive]; rfl, hknown, hpast⟩]
  · intro adv stWait fuel st' hstep
    simp only [readFullM, hstep]

/-- C1 witness: the amended theorem's gap case at the slid-window live
source — a read starting at byte 120 (past the 100-byte init segment,
before the first tracked segment's start 150) throws
`LiveEdgeError(behind_window)`. -/
theorem read_gap_and_wait_behavior_witness :
    readStep c1Env c1GapState 120 300 = (.liveEdgeErr false, c1GapState) :=
  (read_gap_and_wait_behavior c1Env c1GapState 120 300 1 73
    ((alGet 1 c1GapState.infoMap).getD dummySegInfo)
    ((alGet 73 c1GapState.infoMap).getD dummySegInfo)
    (by decide) (by decide) (by decide) (by decide) (by decide)).1
    (by decide) (by decide)

/-- A failing `Except` bind: the error comes from the first or the second
stage. -/
theorem except_bind_err {α β : Type} (x : Except PErr α) (f : α → Except PErr β)
    (e : PErr) (h : (x >>= f) = .error e) :
    x = .error e ∨ ∃ a, x = .ok a ∧ f a = .error e := by
  cases x with
  | error e' =>
    left
    have hb : ((Except.error e' : Except PErr α) >>= f) = Except.error e' := rfl
    rw [hb] at h
    injection h with h'
    rw [h']
  | ok a => right; exact ⟨a, rfl, h⟩

/-- A `throw` equals exactly its own error. -/
theorem except_throw_err {α : Type} (x e : PErr)
    (h : (throw x : Except PErr α) = .error e) : e = x := by
  injection h with h'
  exact h'.symm

/-- A bind out of `pure` is the continuation. -/
theorem except_pure_bind {α β : Type} (a : α) (f : α → Except PErr β) :
    ((pure a : Except PErr α) >>= f) = f a := rfl

/-- A bind out of `throw` is the error. -/
theorem except_throw_bind {α β : Type} (x : PErr) (f : α → Except PErr β) :
    ((throw x : Except PErr α) >>= f) = Except.error x := rfl

/-- Case analysis on an `if` known to equal a value. -/
theorem ite_eq_elim {α : Type} {P : Prop} {c : Prop} [Decidable c] {t f r : α}
    (h : (if c then t else f) = r)
    (ht : t = r → P) (hf : f = r → P) : P := by
  split at h
  · exact ht h
  · exact hf h

/-- Every `parseKey` failure carries its line number (and is not the header
error). -/
theorem parseKeyM_err (args : List Char) (ln : Nat) (e : PErr)
    (h : parseKeyM args ln = .error e) : e.line = some ln ∧ e.kind ≠ .header := by
  unfold parseKeyM at h
  dsimp only at h
  repeat' first
    | split at h
    | simp only [except_pure_bind, except_throw_bind] at h
  all_goals first
    | exact Except.noConfusion h
    | (injection h with h2; exact h2 ▸ ⟨rfl, by simp⟩)

/-- Every `parseMap` failure carries its line number. -/
theorem parseMapM_err (args : List Char) (ln : Nat) (e : PErr)
    (h : parseMapM args ln = .error e) : e.line = some ln ∧ e.kind ≠ .header := by
  unfold parseMapM at h
  dsimp only at h
  repeat' first
    | split at h
    | simp only [except_pure_bind, except_throw_bind] at h
  all_goals first
    | exact Except.noConfusion h
    | (injection h with h2; exact h2 ▸ ⟨rfl, by simp⟩)

/-- Every `parseDateRange` failure carries its line number. -/
theorem parseDateRangeM_err (args : List Char) (ln : Nat) (e : PErr)
    (h : parseDateRangeM args ln = .error e) :
    e.line = some ln ∧ e.kind ≠ .header := by
  unfold parseDateRangeM at h
  dsimp only at h
  repeat' first
    | split at h
    | simp only [except_pure_bind, except_throw_bind] at h
  all_goals first
    | exact Except.noConfusion h
    | (injection h with h2; exact h2 ▸ ⟨rfl, by simp⟩)

/-- Every `parseStreamInf` failure carries its line number. -/
theorem parseStreamInfM_err (args : List Char) (ln : Nat) (e : PErr)
    (h : parseStreamInfM args ln = .error e) :
    e.line = some ln ∧ e.kind ≠ .header := by
  unfold parseStreamInfM at h
  dsimp only at h
  repeat' first
    | split at h
    | simp only [except_pure_bind, except_throw_bind] at h
  all_goals first
    | exact Except.noConfusion h
    | (injection h with h2; exact h2 ▸ ⟨rfl, by simp⟩)

/-- Every `parseMedia` (rendition) failure carries its line number. -/
theorem parseMediaRenditionM_err (args : List Char) (ln : Nat) (e : PErr)
    (h : parseMediaRenditionM args ln = .error e) :
    e.line = some ln ∧ e.kind ≠ .header := by
  unfold parseMediaRenditionM at h
  dsimp only at h
  repeat' first
    | split at h
    | simp only [except_pure_bind, except_throw_bind] at h
  all_goals first
    | exact Except.noConfusion h
    | (injection h with h2; exact h2 ▸ ⟨rfl, by simp⟩)

/-- Every `parseSessionData` failure carries its line number. -/
theorem parseSessionDataM_err (args : List Char) (ln : Nat) (e : PErr)
    (h : parseSessionDataM args ln = .error e) :
    e.line = some ln ∧ e.kind ≠ .header := by
  unfold parseSessionDataM at h
  dsimp only at h
  repeat' first
    | split at h
    | simp only [except_pure_bind, except_throw_bind] at h
  all_goals first
    | exact Except.noConfusion h
    | (injection h with h2; exact h2 ▸ ⟨rfl, by simp⟩)

/-- Every failure of one media-playlist parser iteration carries that
iteration's line number. -/
theorem parseMediaLine_err (ln : Nat) (line : List Char) (st : MediaParseSt)
    (e : PErr) (h : parseMediaLine ln line st = .error e) :
    e.line = some ln ∧ e.kind ≠ .header := by
  rw [parseMediaLine] at h
  refine ite_eq_elim h
    (fun h => by
      try dsimp only at h
      repeat' split at h
      all_goals exact Except.noConfusion h)
    (fun h => ?_)
  refine ite_eq_elim h
    (fun h => by
      try dsimp only at h
      repeat' split at h
      all_goals exact Except.noConfusion h)
    (fun h => ?_)
  refine ite_eq_elim h
    (fun h => by
      try dsimp only at h
      repeat' split at h
      all_goals exact Except.noConfusion h)
    (fun h => ?_)
  refine ite_eq_elim h
    (fun h => by
      try dsimp only at h
      repeat' split at h
      all_goals exact Except.noConfusion h)
    (fun h => ?_)
  refine ite_eq_elim h
    (fun h => by
      try dsimp only at h
      repeat' split at h
      all_goals exact Except.noConfusion h)
    (fun h => ?_)
  refine ite_eq_elim h
    (fun h => by
      try dsimp only at h
      repeat' split at h
      all_goals exact Except.noConfusion h)
    (fun h => ?_)
  refine ite_eq_elim h
    (fun h => by
      try dsimp only at h
      repeat' split at h
      all_goals exact Except.noConfusion h)
    (fun h => ?_)
  refine ite_eq_elim h
    (fun h => by
      try dsimp only at h
      repeat' split at h
      all_goals exact Except.noConfusion h)
    (fun h => ?_)
  refine ite_eq_elim h
    (fun h => by
      try dsimp only at h
      repeat' split at h
      all_goals exact Except.noConfusion h)
    (fun h => ?_)
  refine ite_eq_elim h
    (fun h => by
      try dsimp only at h
      repeat' split at h
      all_goals exact Except.noConfusion h)
    (fun h => ?_)
  refine ite_eq_elim h
    (fun h => by
      try dsimp only at h
      repeat' split at h
      all_goals exact Except.noConfusion h)
    (fun h => ?_)
  refine ite_eq_elim h
    (fun h => by
      try dsimp only at h
      repeat' split at h
      all_goals exact Except.noConfusion h)
    (fun h => ?_)
  refine ite_eq_elim h
    (fun h => by
      try dsimp only at h
      repeat' split at h
      all_goals exact Except.noConfusion h)
    (fun h => ?_)
  refine ite_eq_elim h
    (fun h => by
      rcases except_bind_err _ _ _ h with h2 | ⟨a, -, h2⟩
      · exact parseKeyM_err _ _ _ h2
      · exact Except.noConfusion h2)
    (fun h => ?_)
  refine ite_eq_elim h
    (fun h => by
      rcases except_bind_err _ _ _ h with h2 | ⟨a, -, h2⟩
      · exact parseMapM_err _ _ _ h2
      · exact Except.noConfusion h2)
    (fun h => ?_)
  refine ite_eq_elim h
    (fun h => by
      try dsimp only at h
      repeat' split at h
      all_goals exact Except.noConfusion h)
    (fun h => ?_)
  refine ite_eq_elim h
    (fun h => by
      try dsimp only at h
      repeat' split at h
      all_goals exact Except.noConfusion h)
    (fun h => ?_)
  refine ite_eq_elim h
    (fun h => by
      rcases except_bind_err _ _ _ h with h2 | ⟨a, -, h2⟩
      · exact parseDateRangeM_err _ _ _ h2
      · exact Except.noConfusion h2)
    (fun h => ?_)
  refine ite_eq_elim h
    (fun h => by
      try dsimp only at h
      repeat' split at h
      all_goals exact Except.noConfusion h)
    (fun h => ?_)
  refine ite_eq_elim h
    (fun h => by
      try dsimp only at h
      repeat' split at h
      all_goals exact Except.noConfusion h)
    (fun h => by
      try dsimp only at h
      repeat' split at h
      all_goals exact Except.noConfusion h)

/-- Every failure of one master-playlist parser iteration carries that
iteration's line number. -/
theorem parseMasterLine_err (ln : Nat) (line : List Char) (st : MasterParseSt)
    (e : PErr) (h : parseMasterLine ln line st = .error e) :
    e.line = some ln ∧ e.kind ≠ .header := by
  rw [parseMasterLine] at h
  refine ite_eq_elim h
    (fun h => by
      try dsimp only at h
      repeat' split at h
      all_goals exact Except.noConfusion h)
    (fun h => ?_)
  refine ite_eq_elim h
    (fun h => by
      try dsimp only at h
      repeat' split at h
      all_goals exact Except.noConfusion h)
    (fun h => ?_)
  refine ite_eq_elim h
    (fun h => by
      try dsimp only at h
      repeat' split at h
      all_goals exact Except.noConfusion h)
    (fun h => ?_)
  refine ite_eq_elim h
    (fun h => by
      rcases except_bind_err _ _ _ h with h2 | ⟨a, -, h2⟩
      · exact parseStreamInfM_err _ _ _ h2
      · exact Except.noConfusion h2)
    (fun h => ?_)
  refine ite_eq_elim h
    (fun h => by
      rcases except_bind_err _ _ _ h with h2 | ⟨a, -, h2⟩
      · exact parseMediaRenditionM_err _ _ _ h2
      · exact Except.noConfusion h2)
    (fun h => ?_)
  refine ite_eq_elim h
    (fun h => by
      rcases except_bind_err _ _ _ h with h2 | ⟨a, -, h2⟩
      · exact parseSessionDataM_err _ _ _ h2
      · exact Except.noConfusion h2)
    (fun h => ?_)
  refine ite_eq_elim h
    (fun h => by
      rcases except_bind_err _ _ _ h with h2 | ⟨a, -, h2⟩
      · exact parseKeyM_err _ _ _ h2
      · exact Except.noConfusion h2)
    (fun h => ?_)
  refine ite_eq_elim h
    (fun h => by
      try dsimp only at h
      repeat' split at h
      all_goals exact Except.noConfusion h)
    (fun h => by
      try dsimp only at h
      repeat' split at h
      all_goals exact Except.noConfusion h)

/-- A media-parse-loop failure carries the 1-based number of one of the
remaining lines. -/
theorem parseMediaLines_err :
    ∀ (ls : List (List Char)) (ln : Nat) (st : MediaParseSt) (e : PErr),
      parseMediaLines ls ln st = .error e →
      e.kind ≠ .header ∧ ∃ n, e.line = some n ∧ ln ≤ n ∧ n < ln + ls.length := by
  intro ls
  induction ls with
  | nil => intro ln st e h; exact Except.noConfusion h
  | cons l rest ih =>
    intro ln st e h
    simp only [parseMediaLines] at h
    rcases except_bind_err _ _ _ h with h' | ⟨a, -, h'⟩
    · obtain ⟨h1, h2⟩ := parseMediaLine_err _ _ _ _ h'
      exact ⟨h2, ln, h1, le_refl ln, by rw [List.length_cons]; omega⟩
    · obtain ⟨h1, n, hn1, hn2, hn3⟩ := ih (ln + 1) a e h'
      exact ⟨h1, n, hn1, by omega, by rw [List.length_cons]; omega⟩

/-- A master-parse-loop failure carries the 1-based number of one of the
remaining lines. -/
theorem parseMasterLines_err :
    ∀ (ls : List (List Char)) (ln : Nat) (st : MasterParseSt) (e : PErr),
      parseMasterLines ls ln st = .error e →
      e.kind ≠ .header ∧ ∃ n, e.line = some n ∧ ln ≤ n ∧ n < ln + ls.length := by
  intro ls
  induction ls with
  | nil => intro ln st e h; exact Except.noConfusion h
  | cons l rest ih =>
    intro ln st e h
    simp only [parseMasterLines] at h
    rcases except_bind_err _ _ _ h with h' | ⟨a, -, h'⟩
    · obtain ⟨h1, h2⟩ := parseMasterLine_err _ _ _ _ h'
      exact ⟨h2, ln, h1, le_refl ln, by rw [List.length_cons]; omega⟩
    · obtain ⟨h1, n, hn1, hn2, hn3⟩ := ih (ln + 1) a e h'
      exact ⟨h1, n, hn1, by omega, by rw [List.length_cons]; omega⟩

/-- A `parseMediaPlaylist` failure past the header check carries an
in-range line number. -/
theorem parseMediaPlaylistM_err (content : List Char) (e : PErr)
    (hsw : startsWithChars ((splitLines content).headD []) "#EXTM3U".data = true)
    (h : parseMediaPlaylistM content = .error e) :
    e.kind ≠ .header ∧
      ∃ n, e.line = some n ∧ 1 ≤ n ∧ n ≤ (splitLines content).length := by
  unfold parseMediaPlaylistM at h
  dsimp only at h
  rw [hsw] at h
  rw [if_neg (show ¬((!(true : Bool)) = true) from by decide)] at h
  rcases except_bind_err _ _ _ h with h' | ⟨a, -, h'⟩
  · obtain ⟨h1, n, hn1, hn2, hn3⟩ :=
      parseMediaLines_err (splitLines content) 1 initialMediaParseSt e h'
    exact ⟨h1, n, hn1, hn2, by omega⟩
  · exact Except.noConfusion h'

/-- A `parseMasterPlaylist` failure past the header check carries an
in-range line number. -/
theorem parseMasterPlaylistM_err (content : List Char) (e : PErr)
    (hsw : startsWithChars ((splitLines content).headD []) "#EXTM3U".data = true)
    (h : parseMasterPlaylistM content = .error e) :
    e.kind ≠ .header ∧
      ∃ n, e.line = some n ∧ 1 ≤ n ∧ n ≤ (splitLines content).length := by
  unfold parseMasterPlaylistM at h
  dsimp only at h
  rw [hsw] at h
  rw [if_neg (show ¬((!(true : Bool)) = true) from by decide)] at h
  rcases except_bind_err _ _ _ h with h' | ⟨a, -, h'⟩
  · obtain ⟨h1, n, hn1, hn2, hn3⟩ :=
      parseMasterLines_err (splitLines content) 1 initialMasterParseSt e h'
    exact ⟨h1, n, hn1, hn2, by omega⟩
  · exact Except.noConfusion h'

/-- A missing `#EXTM3U` opening fails with the header error (and no line
number). -/
theorem parsePlaylistM_header_err (content : List Char)
    (hbad : startsWithChars ((splitLines content).headD []) "#EXTM3U".data
      = false) :
    parsePlaylistM content = .error ⟨.header, none⟩ := by
  unfold parsePlaylistM
  dsimp only
  rw [hbad]
  rw [if_pos (show (!(false : Bool)) = true from rfl)]
  rfl

/-- **C8** counterexample: an `EXT-X-SESSION-DATA` line missing `DATA-ID`
throws an error kind absent from the claim's enumeration (on a playlist
that does start with `#EXTM3U`), and the missing-header error carries NO
line number although the claim says every `ParseError` carries one. -/
theorem parse_sessionData_and_header_errors :
    errOf (parsePlaylistM c8BadContent) = some ⟨.sessionDataId, some 3⟩ ∧
    errOf (parsePlaylistM "junk".data) = some ⟨.header, none⟩ := by
  decide

/-- **C8** (amended): `parsePlaylist` fails with the line-number-less
header error exactly when the opening line does not start with `#EXTM3U`;
every other failure (missing/invalid mandatory attribute, including
`EXT-X-SESSION-DATA`'s `DATA-ID`) carries the 1-based number of an input
line. -/
theorem parse_error_reporting (content : List Char) :
    (startsWithChars ((splitLines content).headD []) "#EXTM3U".data = false →
      parsePlaylistM content = .error ⟨.header, none⟩) ∧
    (∀ e : PErr, parsePlaylistM content = .error e → e.kind ≠ .header →
      ∃ n, e.line = some n ∧ 1 ≤ n ∧ n ≤ (splitLines content).length) ∧
    (∀ e : PErr, parsePlaylistM content = .error e → e.kind = .header →
      e.line = none ∧
        startsWithChars ((splitLines content).headD []) "#EXTM3U".data
          = false) := by
  refine ⟨fun hbad => parsePlaylistM_header_err content hbad, ?_, ?_⟩
  · intro e h hkind
    cases hsw : startsWithChars ((splitLines content).headD []) "#EXTM3U".data with
    | false =>
      rw [parsePlaylistM_header_err content hsw] at h
      injection h with h'
      rw [← h'] at hkind
      exact absurd rfl hkind
    | true =>
      unfold parsePlaylistM at h
      dsimp only at h
      rw [hsw] at h
      rw [if_neg (show ¬((!(true : Bool)) = true) from by decide)] at h
      split at h
      · rcases except_bind_err _ _ _ h with h' | ⟨a, -, h'⟩
        · exact (parseMasterPlaylistM_err content e hsw h').2
        · exact Except.noConfusion h'
      · rcases except_bind_err _ _ _ h with h' | ⟨a, -, h'⟩
        · exact (parseMediaPlaylistM_err content e hsw h').2
        · exact Except.noConfusion h'
  · intro e h hkind
    cases hsw : startsWithChars ((splitLines content).headD []) "#EXTM3U".data with
    | false =>
      rw [parsePlaylistM_header_err content hsw] at h
      injection h with h'
      rw [← h']
      exact ⟨rfl, rfl⟩
    | true =>
      unfold parsePlaylistM at h
      dsimp only at h
      rw [hsw] at h
      rw [if_neg (show ¬((!(true : Bool)) = true) from by decide)] at h
      split at h
      · rcases except_bind_err _ _ _ h with h' | ⟨a, -, h'⟩
        · exact absurd hkind (parseMasterPlaylistM_err content e hsw h').1
        · exact Except.noConfusion h'
      · rcases except_bind_err _ _ _ h with h' | ⟨a, -, h'⟩
        · exact absurd hkind (parseMediaPlaylistM_err content e hsw h').1
        · exact Except.noConfusion h'

/-- C8 witness: the header arm of the amended theorem at a concrete
non-`#EXTM3U` input. -/
theorem parse_error_reporting_witness :
    parsePlaylistM "oops".data = .error ⟨.header, none⟩ :=
  (parse_error_reporting "oops".data).1 (by decide)

/-- **C7** counterexample: writing then parsing is NOT the identity modulo
duration formatting and duplicate-tag collapsing — a segment with an empty
URI vanishes entirely (its URI line is skipped as a blank line), and a
segment whose URI contains a newline splits into two segments; and each
parse result refutes the claimed equivalence for its input. -/
theorem write_parse_drops_or_splits_segments :
    ((parseMediaPlaylistM (writeMediaPlaylistM c7EmptyUriP)).toOption.map
        (fun q => q.segments.length) = some 0) ∧
    c7EmptyUriP.segments.length = 1 ∧
    ((parseMediaPlaylistM (writeMediaPlaylistM c7NewlineUriP)).toOption.map
        (fun q => q.segments.length) = some 2) ∧
    c7NewlineUriP.segments.length = 1 := by
  decide

/-! ### C7 layer 0: string primitives -/

/-- A list starts with itself, whatever follows. -/
theorem startsWith_append_self : ∀ (a r : List Char),
    startsWithChars (a ++ r) a = true := by
  intro a r
  induction a with
  | nil => cases r <;> rfl
  | cons c cs ih => simp [startsWithChars, ih]

/-- A mismatch inside the prefix survives any continuation. -/
theorem startsWith_append_false : ∀ (a p r : List Char),
    startsWithChars a (p.take a.length) = false →
    startsWithChars (a ++ r) p = false := by
  intro a
  induction a with
  | nil =>
    intro p r h
    simp [startsWithChars] at h
  | cons c cs ih =>
    intro p r h
    cases p with
    | nil => simp [startsWithChars] at h
    | cons q qs =>
      rw [List.length_cons, List.take_succ_cons] at h
      by_cases hc : c = q
      · subst hc
        simp only [startsWithChars, decide_eq_true_eq] at h ⊢
        have h' : startsWithChars cs (qs.take cs.length) = false := by
          simpa using h
        simp [ih qs r h']
      · simp [startsWithChars, hc]

/-- Two lists differing inside the first's span are unequal, whatever
follows the first. -/
theorem take_append_ne (a r p : List Char) (h : p.take a.length ≠ a) :
    a ++ r ≠ p := by
  intro he
  rw [← he, List.take_left] at h
  exact h rfl

/-- A head mismatch refutes any longer prefix. -/
theorem startsWith_of_head_ne {l : List Char} {c : Char} (xs : List Char)
    (h : startsWithChars l [c] = false) : startsWithChars l (c :: xs) = false := by
  cases l with
  | nil => rfl
  | cons a as =>
    have h2 : decide (a = c) = false := by
      simpa [startsWithChars] using h
    simp [startsWithChars, h2]

/-- A head mismatch refutes equality with any cons. -/
theorem ne_cons_of_head (l : List Char) (c : Char) (xs : List Char)
    (h : startsWithChars l [c] = false) : l ≠ c :: xs := by
  intro he
  subst he
  simp [startsWithChars] at h

/-- Reducing an `if` with a boolean condition known false. -/
theorem ifb_neg {α : Type} {b : Bool} {x y : α} (h : b = false) :
    (if b = true then x else y) = y := by
  rw [h]
  rfl

/-- Reducing an `if` with a boolean condition known true. -/
theorem ifb_pos {α : Type} {b : Bool} {x y : α} (h : b = true) :
    (if b = true then x else y) = x := by
  rw [h]
  rfl

/-- `takeWhile` over a uniformly-satisfying list. -/
theorem takeWhile_all {p : Char → Bool} :
    ∀ l : List Char, (∀ c ∈ l, p c = true) → l.takeWhile p = l := by
  intro l
  induction l with
  | nil => intro h; rfl
  | cons c cs ih =>
    intro h
    simp [List.takeWhile_cons, h c (List.mem_cons_self c cs),
      ih (fun x hx => h x (List.mem_cons_of_mem c hx))]

/-- `dropWhile` stops immediately on a failing head. -/
theorem dropWhile_head_false {p : Char → Bool} (l : List Char)
    (h : ∀ c, l.head? = some c → p c = false) : l.dropWhile p = l := by
  cases l with
  | nil => rfl
  | cons c cs => simp [List.dropWhile_cons, h c rfl]

/-- `takeWhile` over an append whose second part starts with a failing
character. -/
theorem takeWhile_append_stop {p : Char → Bool} :
    ∀ (a b : List Char), (∀ c ∈ a, p c = true) →
      (∀ c, b.head? = some c → p c = false) →
      (a ++ b).takeWhile p = a := by
  intro a
  induction a with
  | nil =>
    intro b _ hb
    cases b with
    | nil => rfl
    | cons c cs => simp [List.takeWhile_cons, hb c rfl]
  | cons c cs ih =>
    intro b ha hb
    simp [List.takeWhile_cons, ha c (List.mem_cons_self c cs),
      ih b (fun x hx => ha x (List.mem_cons_of_mem c hx)) hb]

/-- A line with non-whitespace first and last characters is `trim`-stable. -/
theorem trimChars_eq_self (l : List Char)
    (h1 : ∀ c, l.head? = some c → isWsChar c = false)
    (h2 : ∀ c, l.getLast? = some c → isWsChar c = false) :
    trimChars l = l := by
  unfold trimChars
  rw [dropWhile_head_false l h1]
  rw [dropWhile_head_false l.reverse (fun c hc => h2 c (by rwa [List.head?_reverse] at hc))]
  exact List.reverse_reverse l

/-! ### C7 layer 1: decimal digit strings -/

/-- `digitVal ∘ digitChar` is the identity below ten. -/
theorem digitVal_digitChar (d : Nat) (h : d < 10) :
    digitVal (digitChar d) = d := by
  interval_cases d <;> rfl

/-- `digitChar` yields digits. -/
theorem isDigitChar_digitChar (d : Nat) (h : d < 10) :
    isDigitChar (digitChar d) = true := by
  interval_cases d <;> rfl

/-- The full specification of `natDigitsAux`: nonempty, digits only, value
(little-endian), magnitude bound, and width bound. -/
theorem natDigitsAux_spec : ∀ (fuel n : Nat), n < fuel →
    natDigitsAux fuel n ≠ [] ∧
    (∀ c ∈ natDigitsAux fuel n, isDigitChar c = true) ∧
    ((natDigitsAux fuel n).foldr (fun c acc => acc * 10 + digitVal c) 0 = n) ∧
    n < 10 ^ (natDigitsAux fuel n).length ∧
    (∀ d, 1 ≤ d → n < 10 ^ d → (natDigitsAux fuel n).length ≤ d) := by
  intro fuel
  induction fuel with
  | zero => intro n h; omega
  | succ fuel ih =>
    intro n h
    rw [natDigitsAux]
    by_cases h10 : n < 10
    · rw [if_pos h10]
      refine ⟨by simp, ?_, ?_, ?_, ?_⟩
      · intro c hc
        rw [List.mem_singleton] at hc
        subst hc
        exact isDigitChar_digitChar n h10
      · simp [digitVal_digitChar n h10]
      · simpa using h10
      · intro d hd _
        have : (10 : ℕ) ^ 1 ≤ 10 ^ d := Nat.pow_le_pow_right (by omega) hd
        simpa using hd
    · rw [if_neg h10]
      have hd : n / 10 < fuel := by
        have : n / 10 < n := Nat.div_lt_self (by omega) (by omega)
        omega
      obtain ⟨ihne, ihdig, ihval, ihlt, ihlen⟩ := ih (n / 10) hd
      refine ⟨by simp, ?_, ?_, ?_, ?_⟩
      · intro c hc
        rcases List.mem_cons.mp hc with hc | hc
        · subst hc; exact isDigitChar_digitChar _ (Nat.mod_lt n (by omega))
        · exact ihdig c hc
      · simp only [List.foldr_cons, ihval]
        rw [digitVal_digitChar _ (Nat.mod_lt n (by omega))]
        omega
      · rw [List.length_cons, pow_succ]
        have h1 : n % 10 < 10 := Nat.mod_lt n (by omega)
        have h2 : n = 10 * (n / 10) + n % 10 := (Nat.div_add_mod n 10).symm.trans (by ring)
        calc n = 10 * (n / 10) + n % 10 := h2
          _ < 10 * (n / 10) + 10 := by omega
          _ = 10 * (n / 10 + 1) := by ring
          _ ≤ 10 * (10 ^ (natDigitsAux fuel (n / 10)).length) := by
              have := ihlt
              omega
          _ = 10 ^ (natDigitsAux fuel (n / 10)).length * 10 := by ring
      · intro d h1 h2
        rw [List.length_cons]
        have hdge : 2 ≤ d := by
          by_contra hlt
          have hd1 : d = 1 := by omega
          subst hd1
          simp at h2
          omega
        have hrec : n / 10 < 10 ^ (d - 1) := by
          have h3 : n < 10 * 10 ^ (d - 1) := by
            have : 10 * 10 ^ (d - 1) = 10 ^ d := by
              rw [← pow_succ']
              congr 1
              omega
            omega
          omega
        have := ihlen (d - 1) (by omega) hrec
        omega

/-- `natToChars` is a nonempty digit string. -/
theorem natToChars_spec (n : Nat) :
    natToChars n ≠ [] ∧ (∀ c ∈ natToChars n, isDigitChar c = true) ∧
      digitsToNat (natToChars n) = n ∧ n < 10 ^ (natToChars n).length ∧
      (∀ d, 1 ≤ d → n < 10 ^ d → (natToChars n).length ≤ d) := by
  obtain ⟨h1, h2, h3, h4, h5⟩ := natDigitsAux_spec (n + 1) n (by omega)
  unfold natToChars digitsToNat
  refine ⟨by simpa using h1, ?_, ?_, by simpa using h4, by simpa using h5⟩
  · intro c hc
    exact h2 c (List.mem_reverse.mp hc)
  · rw [List.foldl_reverse]
    exact h3

/-- Digits are not whitespace. -/
theorem digit_not_ws {c : Char} (h : isDigitChar c = true) : isWsChar c = false := by
  simp only [isDigitChar, Bool.and_eq_true, decide_eq_true_eq] at h
  obtain ⟨h1, h2⟩ := h
  by_contra hne
  rw [Bool.not_eq_false] at hne
  simp only [isWsChar, Bool.or_eq_true, decide_eq_true_eq] at hne
  rcases hne with ((((he | he) | he) | he) | he) | he <;> subst he <;> revert h2 <;>
    revert h1 <;> decide

/-- Digits are not sign characters. -/
theorem digit_not_sign {c : Char} (h : isDigitChar c = true) : c ≠ '-' ∧ c ≠ '+' := by
  simp only [isDigitChar, Bool.and_eq_true, decide_eq_true_eq] at h
  obtain ⟨h1, h2⟩ := h
  constructor <;> (intro he; subst he; revert h2; revert h1; decide)

/-- `readSign` leaves a digit-headed list alone. -/
theorem readSign_digit (c : Char) (cs : List Char) (h : isDigitChar c = true) :
    readSign (c :: cs) = (1, c :: cs) := by
  obtain ⟨h1, h2⟩ := digit_not_sign h
  unfold readSign
  split
  next heq => injection heq with ha _; exact absurd ha h1
  next heq => injection heq with ha _; exact absurd ha h2
  next => rfl

/-- The digit fold from an arbitrary accumulator. -/
theorem digitsToNat_from (l : List Char) : ∀ A : Nat,
    l.foldl (fun acc c => acc * 10 + digitVal c) A = A * 10 ^ l.length + digitsToNat l := by
  induction l with
  | nil => intro A; simp [digitsToNat]
  | cons c cs ih =>
    intro A
    simp only [List.foldl_cons, digitsToNat, List.length_cons]
    rw [ih (A * 10 + digitVal c), ih (0 * 10 + digitVal c)]
    ring

/-- The value of a concatenated digit string. -/
theorem digitsToNat_append (a b : List Char) :
    digitsToNat (a ++ b) = digitsToNat a * 10 ^ b.length + digitsToNat b := by
  unfold digitsToNat
  rw [List.foldl_append, digitsToNat_from b]
  rfl

/-- A zero run has value `0`. -/
theorem digitsToNat_replicate_zero : ∀ z : Nat,
    digitsToNat (List.replicate z '0') = 0 := by
  intro z
  induction z with
  | zero => rfl
  | succ z ih =>
    rw [List.replicate_succ]
    unfold digitsToNat at ih ⊢
    simpa using ih

/-- An all-zero digit string has value `0`. -/
theorem digitsToNat_all_zero (l : List Char) (h : l.all (· = '0') = true) :
    digitsToNat l = 0 := by
  have := List.eq_replicate_of_mem (fun b hb => by
    simpa using List.all_eq_true.mp h b hb)
  rw [this, digitsToNat_replicate_zero]

/-- Leading zeros do not change the value. -/
theorem digitsToNat_padLeftZeros (w : Nat) (l : List Char) :
    digitsToNat (padLeftZeros w l) = digitsToNat l := by
  rw [padLeftZeros, digitsToNat_append, digitsToNat_replicate_zero]
  ring

/-- Padding consists of digits when the payload does. -/
theorem padLeftZeros_digits (w : Nat) (l : List Char)
    (h : ∀ c ∈ l, isDigitChar c = true) :
    ∀ c ∈ padLeftZeros w l, isDigitChar c = true := by
  intro c hc
  rcases List.mem_append.mp hc with hc | hc
  · rw [List.eq_of_mem_replicate hc]; decide
  · exact h c hc

/-- Exact width of a pad. -/
theorem padLeftZeros_length (w : Nat) (l : List Char) (h : l.length ≤ w) :
    (padLeftZeros w l).length = w := by
  simp [padLeftZeros]
  omega

/-- `zeroSuffixAt` on a non-dot head is the all-zero test. -/
theorem zeroSuffixAt_not_dot {d : Char} (hd : d ≠ '.') (X : List Char) :
    zeroSuffixAt (d :: X) = (d :: X).all (· = '0') := by
  unfold zeroSuffixAt
  split
  next heq => injection heq with ha _; exact absurd ha hd
  next => simp

/-- On a digit string, `trimZeroSuffix` strips a zero run, and strips
everything exactly when the string is all zeros. -/
theorem trimZeroSuffix_digits (f : List Char) (hf : ∀ c ∈ f, isDigitChar c = true) :
    (∃ z, f = trimZeroSuffix f ++ List.replicate z '0') ∧
    (trimZeroSuffix f = [] ↔ f.all (· = '0') = true) := by
  induction f with
  | nil => exact ⟨⟨0, rfl⟩, by rw [trimZeroSuffix]; simp⟩
  | cons c cs ih =>
    have hc : c ≠ '.' := by
      have h := hf c (List.mem_cons_self c cs)
      intro he
      subst he
      exact absurd h (by decide)
    have hz := zeroSuffixAt_not_dot hc cs
    rw [trimZeroSuffix, hz]
    cases hall : (c :: cs).all (· = '0') with
    | true =>
      rw [if_pos rfl]
      refine ⟨⟨cs.length + 1, ?_⟩, by simp⟩
      have := List.eq_replicate_of_mem (fun b hb => by
        simpa using List.all_eq_true.mp hall b hb)
      simpa using this
    | false =>
      rw [ifb_neg rfl]
      obtain ⟨⟨z, hzz⟩, _⟩ := ih (fun x hx => hf x (List.mem_cons_of_mem c hx))
      exact ⟨⟨z, by rw [List.cons_append, ← hzz]⟩, by simp⟩

/-- `trimZeroSuffix` over digits-dot-digits: strips the fraction entirely
when it is all zeros, else trims inside the fraction. -/
theorem trimZeroSuffix_digits_dot (idl : List Char) (hid : ∀ c ∈ idl, isDigitChar c = true)
    (f3 : List Char) (hne : f3 ≠ []) :
    trimZeroSuffix (idl ++ '.' :: f3)
      = if f3.all (· = '0') = true then idl else idl ++ '.' :: trimZeroSuffix f3 := by
  induction idl with
  | nil =>
    simp only [List.nil_append]
    rw [trimZeroSuffix]
    have hzz : zeroSuffixAt ('.' :: f3) = f3.all (· = '0') := by
      unfold zeroSuffixAt
      have : f3.isEmpty = false := by
        cases hl : f3 with
        | nil => exact absurd hl hne
        | cons a as => rfl
      simp [this]
    rw [hzz]
  | cons d ds ih =>
    have hd : d ≠ '.' := by
      have h := hid d (List.mem_cons_self d ds)
      intro he
      subst he
      exact absurd h (by decide)
    rw [List.cons_append, trimZeroSuffix, zeroSuffixAt_not_dot hd]
    have hfalse : (d :: (ds ++ '.' :: f3)).all (· = '0') = false := by
      rw [Bool.eq_false_iff]
      intro hall
      have := List.all_eq_true.mp hall '.'
        (by exact List.mem_cons_of_mem d (List.mem_append_right ds (List.mem_cons_self _ _)))
      simp at this
    rw [ifb_neg hfalse, ih (fun x hx => hid x (List.mem_cons_of_mem d hx))]
    cases hall : f3.all (· = '0') <;> simp [hall]

/-- `parseInt` of a plain digit string. -/
theorem parseIntJS_digits (l : List Char) (hne : l ≠ [])
    (hd : ∀ c ∈ l, isDigitChar c = true) :
    parseIntJS l = some (digitsToNat l : Int) := by
  obtain ⟨c, cs, rfl⟩ := List.exists_cons_of_ne_nil hne
  have hc := hd c (List.mem_cons_self c cs)
  have e1 : (c :: cs).dropWhile isWsChar = c :: cs :=
    dropWhile_head_false _ (fun x hx => by
      injection hx with hx; exact hx ▸ digit_not_ws hc)
  have e2 : readSign (c :: cs) = (1, c :: cs) := readSign_digit c cs hc
  have e3 : (c :: cs).takeWhile isDigitChar = c :: cs := takeWhile_all _ hd
  simp only [parseIntJS, e1, e2, e3]
  simp

/-- `parseInt` of a sign-prefixed digit string. -/
theorem parseIntJS_neg_digits (l : List Char) (hne : l ≠ [])
    (hd : ∀ c ∈ l, isDigitChar c = true) :
    parseIntJS ('-' :: l) = some (-(digitsToNat l : Int)) := by
  obtain ⟨c, cs, rfl⟩ := List.exists_cons_of_ne_nil hne
  have e1 : ('-' :: c :: cs).dropWhile isWsChar = '-' :: c :: cs :=
    dropWhile_head_false _ (fun x hx => by
      injection hx with hx; exact hx ▸ (by decide))
  have e2 : readSign ('-' :: c :: cs) = (-1, c :: cs) := rfl
  have e3 : (c :: cs).takeWhile isDigitChar = c :: cs := takeWhile_all _ hd
  simp only [parseIntJS, e1, e2, e3]
  simp

/-- `parseInt` round-trips integer rendering. -/
theorem parseIntJS_intToChars (i : Int) : parseIntJS (intToChars i) = some i := by
  obtain ⟨hne, hdig, hval, _, _⟩ := natToChars_spec i.natAbs
  by_cases hi : i < 0
  · rw [intToChars, if_pos hi, parseIntJS_neg_digits _ hne hdig, hval]
    congr 1
    omega
  · rw [intToChars, if_neg hi, parseIntJS_digits _ hne hdig, hval]
    congr 1
    omega

/-- `parseFloat` of a plain digit string. -/
theorem parseFloatJS_digits (l : List Char) (hne : l ≠ [])
    (hd : ∀ c ∈ l, isDigitChar c = true) :
    parseFloatJS l = some ((digitsToNat l : ℚ)) := by
  obtain ⟨c, cs, rfl⟩ := List.exists_cons_of_ne_nil hne
  have hc := hd c (List.mem_cons_self c cs)
  have e1 : (c :: cs).dropWhile isWsChar = c :: cs :=
    dropWhile_head_false _ (fun x hx => by
      injection hx with hx; exact hx ▸ digit_not_ws hc)
  have e2 : readSign (c :: cs) = (1, c :: cs) := readSign_digit c cs hc
  have e3 : (c :: cs).takeWhile isDigitChar = c :: cs := takeWhile_all _ hd
  have e4 : (c :: cs).drop (c :: cs).length = [] := List.drop_length _
  have e5 : digitsToNat ([] : List Char) = 0 := rfl
  simp only [parseFloatJS, e1, e2, e3, e4, e5]
  norm_num

/-- `parseFloat` of a negated digit string. -/
theorem parseFloatJS_neg_digits (l : List Char) (hne : l ≠ [])
    (hd : ∀ c ∈ l, isDigitChar c = true) :
    parseFloatJS ('-' :: l) = some (-(digitsToNat l : ℚ)) := by
  obtain ⟨c, cs, rfl⟩ := List.exists_cons_of_ne_nil hne
  have e1 : ('-' :: c :: cs).dropWhile isWsChar = '-' :: c :: cs :=
    dropWhile_head_false _ (fun x hx => by
      injection hx with hx; exact hx ▸ (by decide))
  have e2 : readSign ('-' :: c :: cs) = (-1, c :: cs) := rfl
  have e3 : (c :: cs).takeWhile isDigitChar = c :: cs := takeWhile_all _ hd
  have e4 : (c :: cs).drop (c :: cs).length = [] := List.drop_length _
  have e5 : digitsToNat ([] : List Char) = 0 := rfl
  simp only [parseFloatJS, e1, e2, e3, e4, e5]
  norm_num

/-- `parseFloat` of a digits-dot-digits string. -/
theorem parseFloatJS_decimal (ip : List Char) (hipne : ip ≠ [])
    (hip : ∀ c ∈ ip, isDigitChar c = true)
    (fp : List Char) (hfp : ∀ c ∈ fp, isDigitChar c = true) :
    parseFloatJS (ip ++ '.' :: fp)
      = some ((digitsToNat ip : ℚ) + (digitsToNat fp : ℚ) / (10 : ℚ) ^ fp.length) := by
  obtain ⟨c, cs, rfl⟩ := List.exists_cons_of_ne_nil hipne
  have hc := hip c (List.mem_cons_self c cs)
  have hstop : ∀ x, ('.' :: fp).head? = some x → isDigitChar x = false := by
    intro x hx
    injection hx with hx
    exact hx ▸ (by decide)
  have e3 : ((c :: cs) ++ '.' :: fp).takeWhile isDigitChar = c :: cs :=
    takeWhile_append_stop _ _ hip hstop
  have e4 : ((c :: cs) ++ '.' :: fp).drop (c :: cs).length = '.' :: fp := List.drop_left _ _
  have e1 : ((c :: cs) ++ '.' :: fp).dropWhile isWsChar = (c :: cs) ++ '.' :: fp :=
    dropWhile_head_false _ (fun x hx => by
      rw [List.cons_append, List.head?_cons] at hx
      injection hx with hx
      exact hx ▸ digit_not_ws hc)
  have e2 : readSign ((c :: cs) ++ '.' :: fp) = (1, (c :: cs) ++ '.' :: fp) := by
    rw [List.cons_append]
    exact readSign_digit _ _ hc
  have e5 : fp.takeWhile isDigitChar = fp := takeWhile_all _ hfp
  have e6 : fp.drop fp.length = [] := List.drop_length fp
  simp only [parseFloatJS, e1, e2, e3, e4, e5, e6]
  norm_num

/-- `parseFloat` of a negated digits-dot-digits string. -/
theorem parseFloatJS_neg_decimal (ip : List Char) (hipne : ip ≠ [])
    (hip : ∀ c ∈ ip, isDigitChar c = true)
    (fp : List Char) (hfp : ∀ c ∈ fp, isDigitChar c = true) :
    parseFloatJS ('-' :: (ip ++ '.' :: fp))
      = some (-((digitsToNat ip : ℚ) + (digitsToNat fp : ℚ) / (10 : ℚ) ^ fp.length)) := by
  obtain ⟨c, cs, rfl⟩ := List.exists_cons_of_ne_nil hipne
  have hstop : ∀ x, ('.' :: fp).head? = some x → isDigitChar x = false := by
    intro x hx
    injection hx with hx
    exact hx ▸ (by decide)
  have e3 : ((c :: cs) ++ '.' :: fp).takeWhile isDigitChar = c :: cs :=
    takeWhile_append_stop _ _ hip hstop
  have e4 : ((c :: cs) ++ '.' :: fp).drop (c :: cs).length = '.' :: fp := List.drop_left _ _
  have e1 : ('-' :: ((c :: cs) ++ '.' :: fp)).dropWhile isWsChar
      = '-' :: ((c :: cs) ++ '.' :: fp) :=
    dropWhile_head_false _ (fun x hx => by
      injection hx with hx
      exact hx ▸ (by decide))
  have e2 : readSign ('-' :: ((c :: cs) ++ '.' :: fp)) = (-1, (c :: cs) ++ '.' :: fp) := rfl
  have e5 : fp.takeWhile isDigitChar = fp := takeWhile_all _ hfp
  have e6 : fp.drop fp.length = [] := List.drop_length fp
  simp only [parseFloatJS, e1, e2, e3, e4, e5, e6]
  norm_num

/-- Nonemptiness as `isEmpty`. -/
theorem isEmpty_false_of_ne_nil {l : List Char} (h : l ≠ []) : l.isEmpty = false := by
  cases hl : l with
  | nil => exact absurd hl h
  | cons a as => rfl

/-- Floor of an integer plus one half. -/
theorem floor_cast_add_half (k : ℤ) : ⌊(k : ℚ) + 1/2⌋ = k := by
  have h12 : ⌊(1 : ℚ)/2⌋ = 0 := by
    rw [Int.floor_eq_zero_iff, Set.mem_Ico]
    norm_num
  rw [add_comm, Int.floor_add_int, h12, zero_add]

/-- A nonnegative rational with denominator one is the cast of a natural. -/
theorem rat_den_one_nonneg (x : ℚ) (h0 : 0 ≤ x) (hden : x.den = 1) :
    x = (x.num.toNat : ℚ) := by
  have hnum : 0 ≤ x.num := Rat.num_nonneg.mpr h0
  have h2 : (x.num : ℚ) = x := by
    have h1 := Rat.num_div_den x
    rw [hden] at h1
    push_cast at h1
    simpa using h1
  have h3 : x.num = (x.num.toNat : ℤ) := (Int.toNat_of_nonneg hnum).symm
  conv_lhs => rw [← h2]
  exact_mod_cast h3

/-- Transporting a trailing-zero factorization across a division. -/
theorem frac_digits_eq (tot w : ℕ) (TF : List Char) (z : ℕ)
    (hlen : TF.length + z = w)
    (hval : digitsToNat TF * 10 ^ z = tot) :
    (digitsToNat TF : ℚ) / 10 ^ TF.length = (tot : ℚ) / 10 ^ w := by
  rw [div_eq_div_iff (by positivity) (by positivity)]
  have hc : (digitsToNat TF : ℚ) * 10 ^ z = (tot : ℚ) := by
    exact_mod_cast congrArg (fun n : ℕ => (n : ℚ)) hval
  rw [← hlen, pow_add]
  linear_combination (10 : ℚ) ^ TF.length * hc

/-- Splitting a natural along division and remainder, in `ℚ`. -/
theorem nat_div_mod_cast (k w : ℕ) (hw : (w : ℚ) ≠ 0) :
    ((k / w : ℕ) : ℚ) + ((k % w : ℕ) : ℚ) / (w : ℚ) = (k : ℚ) / w := by
  have hnat : k / w * w + k % w = k := Nat.div_add_mod' k w
  rw [eq_div_iff hw, add_mul, div_mul_cancel₀ _ hw, ← Nat.cast_mul, ← Nat.cast_add, hnat]

/-- `formatDuration` of a canonical duration parses back exactly. -/
theorem parseFloatJS_formatDuration (q : ℚ) (h : canonDuration q = true) :
    parseFloatJS (formatDuration q) = some q := by
  have hh := h
  simp only [canonDuration, Bool.and_eq_true, decide_eq_true_eq] at hh
  obtain ⟨h0, hden⟩ := hh
  have hk : q * 1000 = ((q * 1000).num.toNat : ℚ) :=
    rat_den_one_nonneg _ (mul_nonneg h0 (by norm_num)) hden
  have hq : q = (((q * 1000).num.toNat : ℕ) : ℚ) / 1000 := by
    rw [← hk]
    ring
  revert hq hk
  generalize (q * 1000).num.toNat = k
  intro hk hq
  have habs : |q| = q := abs_of_nonneg h0
  have hfloor : ⌊|q| * 1000 + 1/2⌋ = (k : ℤ) := by
    rw [habs, hk]
    exact_mod_cast floor_cast_add_half (k : ℤ)
  have htf : toFixed3 q = natToChars (k / 1000) ++ '.' :: padLeftZeros 3 (natToChars (k % 1000)) := by
    simp only [toFixed3, if_neg (not_lt.mpr h0), hfloor]
    simp
  obtain ⟨hidne, hiddig, hidval, _, _⟩ := natToChars_spec (k / 1000)
  obtain ⟨_, hfdig0, hfval0, _, hflen0⟩ := natToChars_spec (k % 1000)
  have hmod : k % 1000 < 1000 := Nat.mod_lt _ (by omega)
  have hlt3 : k % 1000 < 10 ^ 3 := by
    have : (10 : ℕ) ^ 3 = 1000 := by norm_num
    omega
  have hf3len : (padLeftZeros 3 (natToChars (k % 1000))).length = 3 :=
    padLeftZeros_length _ _ (hflen0 3 (by omega) hlt3)
  have hf3dig := padLeftZeros_digits 3 _ hfdig0
  have hf3val : digitsToNat (padLeftZeros 3 (natToChars (k % 1000))) = k % 1000 := by
    rw [digitsToNat_padLeftZeros, hfval0]
  have hf3ne : padLeftZeros 3 (natToChars (k % 1000)) ≠ [] := by
    intro he
    have := congrArg List.length he
    rw [hf3len] at this
    simp at this
  simp only [formatDuration, htf]
  rw [trimZeroSuffix_digits_dot _ hiddig _ hf3ne]
  cases hall : (padLeftZeros 3 (natToChars (k % 1000))).all (· = '0') with
  | true =>
    rw [if_pos rfl, ifb_neg (isEmpty_false_of_ne_nil hidne)]
    have hmodz : k % 1000 = 0 := by
      rw [← hf3val]
      exact digitsToNat_all_zero _ hall
    rw [parseFloatJS_digits _ hidne hiddig, hidval]
    congr 1
    rw [hq]
    have hdm : k / 1000 * 1000 = k := Nat.div_mul_cancel (Nat.dvd_of_mod_eq_zero hmodz)
    rw [eq_div_iff (by norm_num : (1000 : ℚ) ≠ 0)]
    exact_mod_cast congrArg (fun n : ℕ => (n : ℚ)) hdm
  | false =>
    rw [ifb_neg rfl]
    obtain ⟨⟨z, hzz⟩, hiff⟩ := trimZeroSuffix_digits _ hf3dig
    have htfne : trimZeroSuffix (padLeftZeros 3 (natToChars (k % 1000))) ≠ [] := by
      intro he
      exact absurd (hiff.mp he) (by simp [hall])
    have htfdig : ∀ c ∈ trimZeroSuffix (padLeftZeros 3 (natToChars (k % 1000))),
        isDigitChar c = true := by
      intro c hcc
      exact hf3dig c (hzz ▸ List.mem_append_left _ hcc)
    have hie : (natToChars (k / 1000) ++ '.' ::
        trimZeroSuffix (padLeftZeros 3 (natToChars (k % 1000)))).isEmpty = false := by
      obtain ⟨c, cs, hcc⟩ := List.exists_cons_of_ne_nil hidne
      rw [hcc, List.cons_append]
      rfl
    rw [ifb_neg hie, parseFloatJS_decimal _ hidne hiddig _ htfdig, hidval]
    congr 1
    have hlen : (trimZeroSuffix (padLeftZeros 3 (natToChars (k % 1000)))).length + z = 3 := by
      have hl := congrArg List.length hzz
      rw [hf3len, List.length_append, List.length_replicate] at hl
      omega
    have hval2 : digitsToNat (trimZeroSuffix (padLeftZeros 3 (natToChars (k % 1000)))) * 10 ^ z
        = k % 1000 := by
      conv_rhs => rw [← hf3val, hzz]
      rw [digitsToNat_append, digitsToNat_replicate_zero, List.length_replicate]
      ring
    rw [frac_digits_eq (k % 1000) 3 _ z hlen hval2, hq,
      show ((10 : ℚ) ^ 3 : ℚ) = 1000 from by norm_num]
    exact_mod_cast nat_div_mod_cast k 1000 (by norm_num)

/-- `qToChars` of a canonical number parses back exactly. -/
theorem parseFloatJS_qToChars (q : ℚ) (h : canonQ q = true) :
    parseFloatJS (qToChars q) = some q := by
  simp only [canonQ, decide_eq_true_eq] at h
  have hden : (|q| * 1000000000).den = 1 := by
    rcases abs_cases q with ⟨he, _⟩ | ⟨he, _⟩
    · rw [he]; exact h
    · rw [he, neg_mul, Rat.neg_den]; exact h
  have hk : |q| * 1000000000 = ((|q| * 1000000000).num.toNat : ℚ) :=
    rat_den_one_nonneg _ (mul_nonneg (abs_nonneg q) (by norm_num)) hden
  have hq : |q| = (((|q| * 1000000000).num.toNat : ℕ) : ℚ) / 1000000000 := by
    rw [← hk]
    ring
  revert hq hk
  generalize (|q| * 1000000000).num.toNat = k
  intro hk hq
  have hfloor : ⌊|q| * 1000000000 + 1/2⌋ = (k : ℤ) := by
    rw [hk]
    exact_mod_cast floor_cast_add_half (k : ℤ)
  obtain ⟨hidne, hiddig, hidval, _, _⟩ := natToChars_spec (k / 1000000000)
  obtain ⟨_, hfdig0, hfval0, _, hflen0⟩ := natToChars_spec (k % 1000000000)
  have hmod : k % 1000000000 < 1000000000 := Nat.mod_lt _ (by omega)
  have hlt9 : k % 1000000000 < 10 ^ 9 := by
    have : (10 : ℕ) ^ 9 = 1000000000 := by norm_num
    omega
  have hf9len : (padLeftZeros 9 (natToChars (k % 1000000000))).length = 9 :=
    padLeftZeros_length _ _ (hflen0 9 (by omega) hlt9)
  have hf9dig := padLeftZeros_digits 9 _ hfdig0
  have hf9val : digitsToNat (padLeftZeros 9 (natToChars (k % 1000000000))) = k % 1000000000 := by
    rw [digitsToNat_padLeftZeros, hfval0]
  obtain ⟨⟨z, hzz⟩, hiff⟩ := trimZeroSuffix_digits _ hf9dig
  have hvq : (((k / 1000000000 : ℕ) : ℚ)
      + ((k % 1000000000 : ℕ) : ℚ) / (10 : ℚ) ^ 9) = |q| := by
    rw [hq, show ((10 : ℚ) ^ 9 : ℚ) = 1000000000 from by norm_num]
    exact_mod_cast nat_div_mod_cast k 1000000000 (by norm_num)
  simp only [qToChars, hfloor, Int.toNat_natCast]
  cases hall : (padLeftZeros 9 (natToChars (k % 1000000000))).all (· = '0') with
  | true =>
    have hmodz : k % 1000000000 = 0 := by
      rw [← hf9val]
      exact digitsToNat_all_zero _ hall
    rw [ifb_pos (by rw [hiff.mpr hall]; rfl)]
    have habs : |q| = ((k / 1000000000 : ℕ) : ℚ) := by
      rw [← hvq, hmodz]
      norm_num
    by_cases hneg : q < 0
    · rw [if_pos hneg, List.singleton_append,
        parseFloatJS_neg_digits _ hidne hiddig, hidval]
      congr 1
      rw [← habs, abs_of_neg hneg]
      ring
    · rw [if_neg hneg, List.nil_append, parseFloatJS_digits _ hidne hiddig, hidval]
      rw [← habs, abs_of_nonneg (not_lt.mp hneg)]
  | false =>
    have htfne : trimZeroSuffix (padLeftZeros 9 (natToChars (k % 1000000000))) ≠ [] := by
      intro he
      exact absurd (hiff.mp he) (by simp [hall])
    have htfdig : ∀ c ∈ trimZeroSuffix (padLeftZeros 9 (natToChars (k % 1000000000))),
        isDigitChar c = true := by
      intro c hcc
      exact hf9dig c (hzz ▸ List.mem_append_left _ hcc)
    have hlen : (trimZeroSuffix (padLeftZeros 9 (natToChars (k % 1000000000)))).length + z = 9 := by
      have hl := congrArg List.length hzz
      rw [hf9len, List.length_append, List.length_replicate] at hl
      omega
    have hval2 : digitsToNat (trimZeroSuffix (padLeftZeros 9 (natToChars (k % 1000000000))))
        * 10 ^ z = k % 1000000000 := by
      conv_rhs => rw [← hf9val, hzz]
      rw [digitsToNat_append, digitsToNat_replicate_zero, List.length_replicate]
      ring
    rw [ifb_neg (isEmpty_false_of_ne_nil htfne)]
    by_cases hneg : q < 0
    · rw [if_pos hneg, List.singleton_append, List.cons_append,
        parseFloatJS_neg_decimal _ hidne hiddig _ htfdig, hidval]
      congr 1
      rw [frac_digits_eq (k % 1000000000) 9 _ z hlen hval2, hvq, abs_of_neg hneg]
      ring
    · rw [if_neg hneg, List.nil_append,
        parseFloatJS_decimal _ hidne hiddig _ htfdig, hidval]
      rw [frac_digits_eq (k % 1000000000) 9 _ z hlen hval2, hvq,
        abs_of_nonneg (not_lt.mp hneg)]

/-! ### C7 layer 2: the attribute scanner on writer output -/

/-- `escapeQuotes` is the identity on quote-free strings. -/
theorem escapeQuotes_eq_self : ∀ l : List Char, (∀ c ∈ l, c ≠ '"') →
    escapeQuotes l = l := by
  intro l
  induction l with
  | nil => intro _; rfl
  | cons c cs ih =>
    intro h
    have hc : c ≠ '"' := h c (List.mem_cons_self c cs)
    unfold escapeQuotes
    split
    next _ heq => exact absurd heq (by simp)
    next _ rest2 heq => injection heq with h1 _; exact absurd h1 hc
    next _ c2 rest2 hg heq =>
      injection heq with h1 h2
      rw [← h1, ← h2]
      exact congrArg (c :: ·) (ih (fun x hx => h x (List.mem_cons_of_mem c hx)))

/-- No attribute match on the empty text. -/
theorem attrMatchAt_nil : attrMatchAt [] = none := rfl

/-- No attribute match at a comma. -/
theorem attrMatchAt_comma (R : List Char) : attrMatchAt (',' :: R) = none := by
  have hn : isAttrNameChar ',' = false := by decide
  have e1 : (',' :: R).takeWhile isAttrNameChar = [] := by
    rw [List.takeWhile_cons, hn]
    rfl
  simp only [attrMatchAt, e1]
  rfl

/-- The scanner finds a rendered quoted attribute. -/
theorem attrMatchAt_quoted (k v rest : List Char) (hkne : k ≠ [])
    (hk : ∀ c ∈ k, isAttrNameChar c = true) (hv : ∀ c ∈ v, c ≠ '"') :
    attrMatchAt (k ++ '=' :: '"' :: (v ++ '"' :: rest)) = some (k, v, rest) := by
  have e1 : (k ++ '=' :: '"' :: (v ++ '"' :: rest)).takeWhile isAttrNameChar = k :=
    takeWhile_append_stop _ _ hk (fun x hx => by
      injection hx with hx; exact hx ▸ (by decide))
  have e2 : (k ++ '=' :: '"' :: (v ++ '"' :: rest)).drop k.length
      = '=' :: '"' :: (v ++ '"' :: rest) := List.drop_left _ _
  have e3 : (v ++ '"' :: rest).takeWhile (· ≠ '"') = v :=
    takeWhile_append_stop _ _ (fun c hc => by simp [hv c hc])
      (fun x hx => by injection hx with hx; subst hx; simp)
  have e4 : (v ++ '"' :: rest).drop v.length = '"' :: rest := List.drop_left _ _
  have hke : k.isEmpty = false := isEmpty_false_of_ne_nil hkne
  simp only [attrMatchAt, e1, e2, e3, e4, hke]
  rfl

/-- The scanner finds a rendered bare attribute (ending the text or followed
by a comma). -/
theorem attrMatchAt_bare (k v tail : List Char) (hkne : k ≠ [])
    (hk : ∀ c ∈ k, isAttrNameChar c = true)
    (hvne : v ≠ []) (hvc : ∀ c ∈ v, c ≠ ',')
    (hvq : ∀ c, v.head? = some c → c ≠ '"')
    (htail : tail = [] ∨ ∃ t, tail = ',' :: t) :
    attrMatchAt (k ++ '=' :: (v ++ tail)) = some (k, v, tail) := by
  obtain ⟨c0, v', rfl⟩ := List.exists_cons_of_ne_nil hvne
  have hc0 : c0 ≠ '"' := hvq c0 rfl
  have e1 : (k ++ '=' :: ((c0 :: v') ++ tail)).takeWhile isAttrNameChar = k :=
    takeWhile_append_stop _ _ hk (fun x hx => by
      injection hx with hx; exact hx ▸ (by decide))
  have e2 : (k ++ '=' :: ((c0 :: v') ++ tail)).drop k.length
      = '=' :: ((c0 :: v') ++ tail) := List.drop_left _ _
  have e3 : ((c0 :: v') ++ tail).takeWhile (· ≠ ',') = c0 :: v' := by
    rcases htail with h | ⟨t, h⟩
    · subst h
      rw [List.append_nil]
      exact takeWhile_all _ (fun c hc => by simp [hvc c hc])
    · subst h
      exact takeWhile_append_stop _ _ (fun c hc => by simp [hvc c hc])
        (fun x hx => by injection hx with hx; subst hx; simp)
  have e4 : ((c0 :: v') ++ tail).drop (c0 :: v').length = tail := List.drop_left _ _
  have hke : k.isEmpty = false := isEmpty_false_of_ne_nil hkne
  simp only [attrMatchAt, e1, e2, e3, e4, hke]
  rw [if_neg Bool.false_ne_true]
  split
  next heq =>
    rw [List.cons_append] at heq
    injection heq with h1 _
    exact absurd h1 hc0
  next => rfl

/-- `renderAttrs` unfolded at a cons. -/
theorem renderAttrs_cons (a : List Char × AttrForm) (rest : List (List Char × AttrForm)) :
    renderAttrs (a :: rest)
      = renderAttr a ++ (match rest with | [] => [] | _ :: _ => ',' :: renderAttrs rest) := by
  cases rest with
  | nil => simp [renderAttrs]
  | cons b bs => rfl

/-- A rendered attribute is nonempty. -/
theorem renderAttr_length_pos (a : List Char × AttrForm) (h : a.1 ≠ []) :
    1 ≤ (renderAttr a).length := by
  have := List.length_pos.mpr h
  cases hf : a.2 with
  | quoted v => simp [renderAttr, hf]; omega
  | bare v => simp [renderAttr, hf]; omega

/-- Scanning the empty text. -/
theorem scanAttrsAux_nil (fuel : Nat) (h : 0 < fuel) : scanAttrsAux fuel [] = [] := by
  cases fuel with
  | zero => omega
  | succ f => simp only [scanAttrsAux, attrMatchAt_nil]

/-- The scanner recovers a rendered attribute list exactly. -/
theorem scanAttrsAux_render : ∀ (l : List (List Char × AttrForm)) (fuel : Nat),
    (renderAttrs l).length < fuel →
    (∀ a ∈ l, a.1 ≠ [] ∧ (∀ c ∈ a.1, isAttrNameChar c = true) ∧
      (match a.2 with
       | .quoted v => ∀ c ∈ v, c ≠ '"'
       | .bare v => v ≠ [] ∧ (∀ c ∈ v, c ≠ ',') ∧ ∀ c, v.head? = some c → c ≠ '"')) →
    scanAttrsAux fuel (renderAttrs l)
      = l.map (fun a => (a.1, match a.2 with | .quoted v => v | .bare v => v)) := by
  intro l
  induction l with
  | nil =>
    intro fuel hf _
    exact scanAttrsAux_nil fuel (by simpa [renderAttrs] using hf)
  | cons a rest ih =>
    intro fuel hf hwf
    obtain ⟨hane, hak, haval⟩ := hwf a (List.mem_cons_self a rest)
    have hwfr := fun x hx => hwf x (List.mem_cons_of_mem a hx)
    have hra := renderAttr_length_pos a hane
    obtain ⟨ak, af⟩ := a
    dsimp only at hane hak haval hra
    cases af with
    | quoted v =>
      dsimp only at haval
      cases rest with
      | nil =>
        have hfa : (renderAttr (ak, AttrForm.quoted v)).length < fuel := by
          simpa [renderAttrs] using hf
        cases fuel with
        | zero => omega
        | succ f =>
          have hrw : renderAttrs [(ak, AttrForm.quoted v)]
              = ak ++ '=' :: '"' :: (v ++ '"' :: []) := by
            simp [renderAttrs, renderAttr]
          rw [hrw]
          simp only [scanAttrsAux, attrMatchAt_quoted ak v [] hane hak haval,
            List.map_cons, List.map_nil]
          exact congrArg (fun t => (ak, v) :: t) (scanAttrsAux_nil f (by omega))
      | cons b bs =>
        have hstep : renderAttrs ((ak, AttrForm.quoted v) :: b :: bs)
            = renderAttr (ak, AttrForm.quoted v) ++ ',' :: renderAttrs (b :: bs) := by
          simp [renderAttrs]
        have hlen := congrArg List.length hstep
        rw [List.length_append, List.length_cons] at hlen
        have hrw : renderAttrs ((ak, AttrForm.quoted v) :: b :: bs)
            = ak ++ '=' :: '"' :: (v ++ '"' :: (',' :: renderAttrs (b :: bs))) := by
          rw [hstep]
          simp [renderAttr, List.append_assoc]
        cases fuel with
        | zero => omega
        | succ f =>
          rw [hrw]
          simp only [scanAttrsAux,
            attrMatchAt_quoted ak v (',' :: renderAttrs (b :: bs)) hane hak haval,
            List.map_cons]
          cases f with
          | zero => omega
          | succ f' =>
            simp only [scanAttrsAux, attrMatchAt_comma]
            exact congrArg (fun t => (ak, v) :: t) (ih f' (by omega) hwfr)
    | bare v =>
      dsimp only at haval
      obtain ⟨hvne, hvc, hvq⟩ := haval
      cases rest with
      | nil =>
        have hfa : (renderAttr (ak, AttrForm.bare v)).length < fuel := by
          simpa [renderAttrs] using hf
        cases fuel with
        | zero => omega
        | succ f =>
          have hmatch := attrMatchAt_bare ak v [] hane hak hvne hvc hvq (Or.inl rfl)
          rw [List.append_nil] at hmatch
          have hrw : renderAttrs [(ak, AttrForm.bare v)] = ak ++ '=' :: v := by
            simp [renderAttrs, renderAttr]
          rw [hrw]
          simp only [scanAttrsAux, hmatch, List.map_cons, List.map_nil]
          exact congrArg (fun t => (ak, v) :: t) (scanAttrsAux_nil f (by omega))
      | cons b bs =>
        have hstep : renderAttrs ((ak, AttrForm.bare v) :: b :: bs)
            = renderAttr (ak, AttrForm.bare v) ++ ',' :: renderAttrs (b :: bs) := by
          simp [renderAttrs]
        have hlen := congrArg List.length hstep
        rw [List.length_append, List.length_cons] at hlen
        have hrw : renderAttrs ((ak, AttrForm.bare v) :: b :: bs)
            = ak ++ '=' :: (v ++ (',' :: renderAttrs (b :: bs))) := by
          rw [hstep]
          simp [renderAttr, List.append_assoc]
        cases fuel with
        | zero => omega
        | succ f =>
          rw [hrw]
          simp only [scanAttrsAux,
            attrMatchAt_bare ak v (',' :: renderAttrs (b :: bs)) hane hak hvne hvc hvq
              (Or.inr ⟨renderAttrs (b :: bs), rfl⟩),
            List.map_cons]
          cases f with
          | zero => omega
          | succ f' =>
            simp only [scanAttrsAux, attrMatchAt_comma]
            exact congrArg (fun t => (ak, v) :: t) (ih f' (by omega) hwfr)

/-- `mapSet` with a fresh key appends. -/
theorem mapSet_not_mem (k v : List Char) : ∀ acc : List (List Char × List Char),
    k ∉ acc.map Prod.fst → mapSet k v acc = acc ++ [(k, v)] := by
  intro acc
  induction acc with
  | nil => intro _; rfl
  | cons kv rest ih =>
    intro h
    obtain ⟨k', v'⟩ := kv
    rw [List.map_cons, List.mem_cons] at h
    push_neg at h
    obtain ⟨h1, h2⟩ := h
    simp only [mapSet]
    rw [if_neg (fun he : k' = k => h1 he.symm)]
    rw [ih h2, List.cons_append]

/-- Folding `mapSet` over fresh, duplicate-free pairs appends them all. -/
theorem foldl_mapSet_eq : ∀ (pairs acc : List (List Char × List Char)),
    (∀ kv ∈ pairs, kv.1 ∉ acc.map Prod.fst) →
    (pairs.map Prod.fst).Nodup →
    pairs.foldl (fun m kv => mapSet kv.1 kv.2 m) acc = acc ++ pairs := by
  intro pairs
  induction pairs with
  | nil => intro acc _ _; simp
  | cons kv rest ih =>
    intro acc hfresh hnodup
    rw [List.foldl_cons]
    rw [mapSet_not_mem kv.1 kv.2 acc (hfresh kv (List.mem_cons_self kv rest))]
    rw [List.map_cons, List.nodup_cons] at hnodup
    have hfresh' : ∀ x ∈ rest, x.1 ∉ (acc ++ [(kv.1, kv.2)]).map Prod.fst := by
      intro x hx
      rw [List.map_append, List.mem_append]
      push_neg
      refine ⟨hfresh x (List.mem_cons_of_mem kv hx), ?_⟩
      simp only [List.map_cons, List.map_nil, List.mem_singleton]
      intro he
      exact hnodup.1 (he ▸ List.mem_map_of_mem Prod.fst hx)
    rw [ih (acc ++ [(kv.1, kv.2)]) hfresh' hnodup.2]
    simp

/-- The attribute map of a rendered attribute list is the list itself (for
well-formed, duplicate-free attributes). -/
theorem attrMap_renderAttrs (l : List (List Char × AttrForm))
    (hwf : ∀ a ∈ l, a.1 ≠ [] ∧ (∀ c ∈ a.1, isAttrNameChar c = true) ∧
      (match a.2 with
       | .quoted v => ∀ c ∈ v, c ≠ '"'
       | .bare v => v ≠ [] ∧ (∀ c ∈ v, c ≠ ',') ∧ ∀ c, v.head? = some c → c ≠ '"'))
    (hnodup : (l.map (fun a => a.1)).Nodup) :
    attrMap (renderAttrs l)
      = l.map (fun a => (a.1, match a.2 with | .quoted v => v | .bare v => v)) := by
  have hkeys : ((l.map (fun a =>
      (a.1, match a.2 with | .quoted v => v | .bare v => v))).map Prod.fst).Nodup := by
    rw [List.map_map]
    simpa using hnodup
  have hfresh : ∀ kv ∈ (l.map (fun a =>
      (a.1, match a.2 with | .quoted v => v | .bare v => v))),
      kv.1 ∉ ([] : List (List Char × List Char)).map Prod.fst := by
    intro kv _
    simp
  unfold attrMap scanAttrs
  rw [scanAttrsAux_render l _ (by omega) hwf]
  rw [foldl_mapSet_eq _ [] hfresh hkeys, List.nil_append]

/-- `mapGet` on an absent key. -/
theorem mapGet_of_all_ne (k : List Char) : ∀ B : List (List Char × List Char),
    (∀ kv ∈ B, kv.1 ≠ k) → mapGet k B = none := by
  intro B
  induction B with
  | nil => intro _; rfl
  | cons kv rest ih =>
    intro h
    obtain ⟨k', v'⟩ := kv
    have h1 : k' ≠ k := h (k', v') (List.mem_cons_self _ _)
    simp only [mapGet]
    rw [if_neg h1]
    exact ih (fun x hx => h x (List.mem_cons_of_mem _ hx))

/-- `mapGet` skips entries with other keys. -/
theorem mapGet_skip (k : List Char) : ∀ (A B : List (List Char × List Char)),
    (∀ kv ∈ A, kv.1 ≠ k) → mapGet k (A ++ B) = mapGet k B := by
  intro A
  induction A with
  | nil => intro B _; rfl
  | cons kv rest ih =>
    intro B h
    obtain ⟨k', v'⟩ := kv
    have h1 : k' ≠ k := h (k', v') (List.mem_cons_self _ _)
    rw [List.cons_append]
    simp only [mapGet]
    rw [if_neg h1]
    exact ih B (fun x hx => h x (List.mem_cons_of_mem _ hx))

/-- `mapGet` at the head key. -/
theorem mapGet_cons_self (k v : List Char) (rest : List (List Char × List Char)) :
    mapGet k ((k, v) :: rest) = some v := by
  simp [mapGet]

/-- `mapGet` past a different head key. -/
theorem mapGet_cons_ne {k' k : List Char} (h : k' ≠ k) (v : List Char)
    (rest : List (List Char × List Char)) :
    mapGet k ((k', v) :: rest) = mapGet k rest := by
  simp only [mapGet]
  rw [if_neg h]

/-- Pushing a map through an `optList` block. -/
theorem map_optList {α β γ : Type} (g : β → γ) (f : α → β) (o : Option α) :
    (optList f o).map g = optList (fun x => g (f x)) o := by
  cases o <;> rfl

/-- A property holding at all block values holds on the block. -/
theorem optList_forall {α β : Type} {P : β → Prop} {f : α → β} {o : Option α}
    (h : ∀ x, P (f x)) : ∀ b ∈ optList f o, P b := by
  cases o with
  | none => simp [optList]
  | some x =>
    intro b hb
    rw [show optList f (some x) = [f x] from rfl, List.mem_singleton] at hb
    exact hb ▸ h x

/-- All keys of an `optList` block differ from another key. -/
theorem optList_keys_ne {α : Type} {K' K : List Char} (h : K' ≠ K) (w : α → List Char)
    (o : Option α) : ∀ kv ∈ optList (fun x => (K', w x)) o, kv.1 ≠ K := by
  cases o with
  | none => intro kv hkv; exact absurd hkv (by simp [optList])
  | some x =>
    intro kv hkv
    rw [show optList (fun x => (K', w x)) (some x) = [(K', w x)] from rfl,
      List.mem_singleton] at hkv
    rw [hkv]
    exact h

/-- Membership in an `optList` block. -/
theorem mem_optList {α β : Type} {f : α → β} {o : Option α} {a : β}
    (h : a ∈ optList f o) : ∃ x, o = some x ∧ a = f x := by
  cases o with
  | none => simp [optList] at h
  | some x =>
    rw [show optList f (some x) = [f x] from rfl, List.mem_singleton] at h
    exact ⟨x, rfl, h⟩

/-- `mapGet` at an `optList` block holding the queried key. -/
theorem mapGet_optList_self {α : Type} (K : List Char) (w : α → List Char) (o : Option α)
    (B : List (List Char × List Char)) (hB : ∀ kv ∈ B, kv.1 ≠ K) :
    mapGet K (optList (fun x => (K, w x)) o ++ B) = o.map w := by
  cases o with
  | none => rw [show optList (fun x => (K, w x)) none = [] from rfl, List.nil_append,
      mapGet_of_all_ne K B hB]; rfl
  | some x =>
    rw [show optList (fun x => (K, w x)) (some x) = [(K, w x)] from rfl,
      List.singleton_append, mapGet_cons_self]
    rfl

/-- `String.mk` undoes `String.data`. -/
theorem string_mk_data (s : String) : String.mk s.data = s := rfl

/-- `String.data` is injective. -/
theorem string_data_inj : Function.Injective String.data := by
  intro a b h
  cases a
  cases b
  exact congrArg String.mk h

/-- Heads are members. -/
theorem head?_mem {l : List Char} {c : Char} (h : l.head? = some c) : c ∈ l := by
  cases l with
  | nil => exact Option.noConfusion h
  | cons a as =>
    injection h with h
    exact h ▸ List.mem_cons_self a as

/-- Digits are none of the separator characters. -/
theorem digit_ne_syms {c : Char} (h : isDigitChar c = true) :
    c ≠ ',' ∧ c ≠ '"' ∧ c ≠ '@' ∧ c ≠ '\n' ∧ c ≠ '\r' ∧ c ≠ '#' ∧ c ≠ '.' := by
  simp only [isDigitChar, Bool.and_eq_true, decide_eq_true_eq] at h
  obtain ⟨h1, h2⟩ := h
  refine ⟨?_, ?_, ?_, ?_, ?_, ?_, ?_⟩ <;> (intro he; subst he; revert h2; revert h1; decide)

/-- Character classes of `intToChars`. -/
theorem intToChars_spec (i : Int) :
    intToChars i ≠ [] ∧ (∀ c ∈ intToChars i, isDigitChar c = true ∨ c = '-') := by
  obtain ⟨hne, hdig, _, _, _⟩ := natToChars_spec i.natAbs
  unfold intToChars
  by_cases hi : i < 0
  · rw [if_pos hi]
    refine ⟨by simp, ?_⟩
    intro c hc
    rcases List.mem_cons.mp hc with hc | hc
    · exact Or.inr hc
    · exact Or.inl (hdig c hc)
  · rw [if_neg hi]
    exact ⟨hne, fun c hc => Or.inl (hdig c hc)⟩

/-- Character classes of `qToChars`. -/
theorem qToChars_chars (q : ℚ) :
    ∀ c ∈ qToChars q, isDigitChar c = true ∨ c = '.' ∨ c = '-' := by
  intro c hc
  simp only [qToChars] at hc
  obtain ⟨hfne, hfdig, _, _, hflen⟩ :=
    natToChars_spec ((⌊|q| * 1000000000 + 1 / 2⌋).toNat % 1000000000)
  obtain ⟨_, hidig, _, _, _⟩ := natToChars_spec ((⌊|q| * 1000000000 + 1 / 2⌋).toNat / 1000000000)
  have hpad := padLeftZeros_digits 9 _ hfdig
  obtain ⟨⟨z, hzz⟩, _⟩ := trimZeroSuffix_digits _ hpad
  have htrim : ∀ x ∈ trimZeroSuffix (padLeftZeros 9
      (natToChars ((⌊|q| * 1000000000 + 1 / 2⌋).toNat % 1000000000))), isDigitChar x = true :=
    fun x hx => hpad x (hzz ▸ List.mem_append_left _ hx)
  have hsign : ∀ x ∈ (if q < 0 then ['-'] else ([] : List Char)), x = '-' := by
    intro x hx
    split at hx
    · simpa using hx
    · simp at hx
  split at hc
  · rcases List.mem_append.mp hc with hc | hc
    · exact Or.inr (Or.inr (hsign c hc))
    · exact Or.inl (hidig c hc)
  · rcases List.mem_append.mp hc with hc | hc
    · rcases List.mem_append.mp hc with hc | hc
      · exact Or.inr (Or.inr (hsign c hc))
      · exact Or.inl (hidig c hc)
    · rcases List.mem_cons.mp hc with hc | hc
      · exact Or.inr (Or.inl hc)
      · exact Or.inl (htrim c hc)

/-- `qToChars` output is usable as a bare attribute value. -/
theorem qToChars_bare_ok (q : ℚ) :
    qToChars q ≠ [] ∧ (∀ c ∈ qToChars q, c ≠ ',') ∧
      ∀ c, (qToChars q).head? = some c → c ≠ '"' := by
  refine ⟨?_, ?_, ?_⟩
  · obtain ⟨hine, _, _, _, _⟩ :=
      natToChars_spec ((⌊|q| * 1000000000 + 1 / 2⌋).toNat / 1000000000)
    intro he
    simp only [qToChars] at he
    repeat' split at he
    all_goals try exact hine (List.append_eq_nil.mp he).2
    all_goals
      obtain ⟨h1, h2⟩ := List.append_eq_nil.mp he
      exact absurd h2 (by simp)
  · intro c hc
    rcases qToChars_chars q c hc with h | h | h
    · exact (digit_ne_syms h).1
    · subst h; decide
    · subst h; decide
  · intro c hc
    rcases qToChars_chars q c (head?_mem hc) with h | h | h
    · exact (digit_ne_syms h).2.1
    · subst h; decide
    · subst h; decide

/-! ### C7 layer 3: per-tag round trips -/

/-- Unpacking `canonQuotedStr`. -/
theorem canonQuotedStr_spec (s : String) (h : canonQuotedStr s = true) :
    s.data ≠ [] ∧ (∀ c ∈ s.data, c ≠ '\n' ∧ c ≠ '\r') ∧ (∀ c ∈ s.data, c ≠ '"')
      ∧ s.data.isEmpty = false := by
  simp only [canonQuotedStr, noCRLF, noQuote, Bool.and_eq_true, Bool.not_eq_true',
    List.all_eq_true, decide_eq_true_eq] at h
  obtain ⟨⟨he, hcr⟩, hq⟩ := h
  refine ⟨?_, hcr, hq, he⟩
  intro hnil
  rw [hnil] at he
  exact absurd he (by decide)

/-- Unpacking `canonBareStr`. -/
theorem canonBareStr_spec (s : String) (h : canonBareStr s = true) :
    s.data ≠ [] ∧ (∀ c ∈ s.data, c ≠ '\n' ∧ c ≠ '\r') ∧ (∀ c ∈ s.data, c ≠ '"')
      ∧ (∀ c ∈ s.data, c ≠ ',') ∧ trimChars s.data = s.data ∧ s.data.isEmpty = false := by
  simp only [canonBareStr, noCRLF, noQuote, noComma, trimStable, Bool.and_eq_true,
    Bool.not_eq_true', List.all_eq_true, decide_eq_true_eq] at h
  obtain ⟨⟨⟨⟨he, hcr⟩, hq⟩, hm⟩, ht⟩ := h
  refine ⟨?_, hcr, hq, hm, ht, he⟩
  intro hnil
  rw [hnil] at he
  exact absurd he (by decide)

/-- Unpacking `canonRawStr`. -/
theorem canonRawStr_spec (s : String) (h : canonRawStr s = true) :
    s.data ≠ [] ∧ (∀ c ∈ s.data, c ≠ '\n' ∧ c ≠ '\r') ∧ trimChars s.data = s.data
      ∧ s.data.isEmpty = false := by
  simp only [canonRawStr, noCRLF, trimStable, Bool.and_eq_true,
    Bool.not_eq_true', List.all_eq_true, decide_eq_true_eq] at h
  obtain ⟨⟨he, hcr⟩, ht⟩ := h
  refine ⟨?_, hcr, ht, he⟩
  intro hnil
  rw [hnil] at he
  exact absurd he (by decide)

/-- `optTruthy` of a nonempty string. -/
theorem optTruthy_canon (s : String) (h : s.data.isEmpty = false) :
    optTruthy (some s) = some s.data := by
  simp only [optTruthy]
  rw [ifb_neg h]

/-- Inverting `optTruthy = some`. -/
theorem optTruthy_some_inv {o : Option String} {x : List Char} (h : optTruthy o = some x) :
    ∃ s, o = some s ∧ x = s.data ∧ s.data.isEmpty = false := by
  cases o with
  | none => exact Option.noConfusion h
  | some s =>
    simp only [optTruthy] at h
    by_cases he : s.data.isEmpty = true
    · rw [if_pos he] at h
      exact Option.noConfusion h
    · rw [if_neg he] at h
      injection h with h
      exact ⟨s, rfl, h.symm, Bool.not_eq_true _ ▸ he⟩

/-- Method strings are usable as bare attribute values. -/
theorem methodChars_ok (m : KeyMethod) :
    m.chars ≠ [] ∧ (∀ c ∈ m.chars, c ≠ ',') ∧
      (∀ c, m.chars.head? = some c → c ≠ '"') ∧ m.chars.isEmpty = false := by
  cases m <;> exact ⟨by decide, by decide, fun c hc => by
    injection hc with hc; subst hc; decide, by decide⟩

/-- Decoding a rendered key method. -/
theorem decodeKeyMethod_chars (m : KeyMethod) : decodeKeyMethod m.chars = some m := by
  cases m <;> decide

/-- Keys of an optional attribute block form a sublist of the singleton key. -/
theorem optList_keys_sublist {α : Type} (K : List Char) (g : α → AttrForm) (o : Option α) :
    ((optList (fun x => (K, g x)) o).map (fun a => a.1)).Sublist [K] := by
  cases o with
  | none => simp [optList]
  | some x => simp [optList]

/-- `mapGetTruthy` via `mapGet` and a truthy value. -/
theorem mapGetTruthy_of_get_some {k v : List Char} {m : List (List Char × List Char)}
    (hg : mapGet k m = some v) (hv : v.isEmpty = false) : mapGetTruthy k m = some v := by
  simp only [mapGetTruthy, hg]
  rw [ifb_neg hv]

/-- `mapGetTruthy` of an absent key. -/
theorem mapGetTruthy_of_get_none {k : List Char} {m : List (List Char × List Char)}
    (hg : mapGet k m = none) : mapGetTruthy k m = none := by
  simp only [mapGetTruthy, hg]

/-- The `EXT-X-KEY` attribute round trip. -/
theorem parseKeyM_roundtrip (k : EncryptionKey) (hc : canonKey k = true) (ln : Nat) :
    parseKeyM (renderAttrs (writeKeyAttrs k)) ln = .ok k := by
  obtain ⟨m, uri, iv, kf, kfv⟩ := k
  simp only [canonKey, Bool.and_eq_true] at hc
  obtain ⟨⟨⟨hu, hiv⟩, hkf⟩, hkfv⟩ := hc
  have nMU : ("METHOD".data : List Char) ≠ "URI".data := by decide
  have nMI : ("METHOD".data : List Char) ≠ "IV".data := by decide
  have nMF : ("METHOD".data : List Char) ≠ "KEYFORMAT".data := by decide
  have nMV : ("METHOD".data : List Char) ≠ "KEYFORMATVERSIONS".data := by decide
  have nUI : ("URI".data : List Char) ≠ "IV".data := by decide
  have nUF : ("URI".data : List Char) ≠ "KEYFORMAT".data := by decide
  have nUV : ("URI".data : List Char) ≠ "KEYFORMATVERSIONS".data := by decide
  have nIF : ("IV".data : List Char) ≠ "KEYFORMAT".data := by decide
  have nIV2 : ("IV".data : List Char) ≠ "KEYFORMATVERSIONS".data := by decide
  have nFV : ("KEYFORMAT".data : List Char) ≠ "KEYFORMATVERSIONS".data := by decide
  have hwf : ∀ a ∈ writeKeyAttrs ⟨m, uri, iv, kf, kfv⟩,
      a.1 ≠ [] ∧ (∀ c ∈ a.1, isAttrNameChar c = true) ∧
      (match a.2 with
       | .quoted v => ∀ c ∈ v, c ≠ '"'
       | .bare v => v ≠ [] ∧ (∀ c ∈ v, c ≠ ',') ∧ ∀ c, v.head? = some c → c ≠ '"') := by
    intro a ha
    simp only [writeKeyAttrs, List.append_assoc, List.cons_append, List.nil_append] at ha
    rcases List.mem_cons.mp ha with ha | ha
    · subst ha
      obtain ⟨h1, h2, h3, _⟩ := methodChars_ok m
      dsimp only
      exact ⟨by decide, by decide, h1, h2, h3⟩
    rcases List.mem_append.mp ha with ha | ha
    · obtain ⟨x, hx, rfl⟩ := mem_optList ha
      obtain ⟨s, hs, rfl, _⟩ := optTruthy_some_inv hx
      rw [hs] at hu
      obtain ⟨_, _, hq, _⟩ := canonQuotedStr_spec s hu
      dsimp only
      exact ⟨by decide, by decide, hq⟩
    rcases List.mem_append.mp ha with ha | ha
    · obtain ⟨x, hx, rfl⟩ := mem_optList ha
      obtain ⟨s, hs, rfl, _⟩ := optTruthy_some_inv hx
      rw [hs] at hiv
      obtain ⟨_, _, hq, hm2, _, _⟩ := canonBareStr_spec s hiv
      dsimp only
      refine ⟨by decide, by decide, by simp, ?_, ?_⟩
      · intro c hcc
        rcases List.mem_cons.mp hcc with h | h
        · subst h; decide
        rcases List.mem_cons.mp h with h | h
        · subst h; decide
        · exact hm2 c h
      · intro c hcc
        injection hcc with hcc
        subst hcc
        decide
    rcases List.mem_append.mp ha with ha | ha
    · obtain ⟨x, hx, rfl⟩ := mem_optList ha
      obtain ⟨s, hs, rfl, _⟩ := optTruthy_some_inv hx
      rw [hs] at hkf
      obtain ⟨_, _, hq, _⟩ := canonQuotedStr_spec s hkf
      dsimp only
      exact ⟨by decide, by decide, hq⟩
    · obtain ⟨x, hx, rfl⟩ := mem_optList ha
      obtain ⟨s, hs, rfl, _⟩ := optTruthy_some_inv hx
      rw [hs] at hkfv
      obtain ⟨_, _, hq, _⟩ := canonQuotedStr_spec s hkfv
      dsimp only
      exact ⟨by decide, by decide, hq⟩
  have hnodup : ((writeKeyAttrs ⟨m, uri, iv, kf, kfv⟩).map (fun a => a.1)).Nodup := by
    have hsub : ((writeKeyAttrs ⟨m, uri, iv, kf, kfv⟩).map (fun a => a.1)).Sublist
        ("METHOD".data :: (["URI".data] ++ (["IV".data]
          ++ (["KEYFORMAT".data] ++ ["KEYFORMATVERSIONS".data])))) := by
      simp only [writeKeyAttrs, List.map_append, List.append_assoc, List.map_cons,
        List.map_nil, List.cons_append, List.nil_append]
      exact List.Sublist.cons₂ _ (List.Sublist.append (optList_keys_sublist _ _ _)
        (List.Sublist.append (optList_keys_sublist _ _ _)
          (List.Sublist.append (optList_keys_sublist _ _ _) (optList_keys_sublist _ _ _))))
    exact List.Nodup.sublist hsub (by decide)
  have hattrs : attrMap (renderAttrs (writeKeyAttrs ⟨m, uri, iv, kf, kfv⟩))
      = ("METHOD".data, KeyMethod.chars m)
        :: (optList (fun u => ("URI".data, u)) (optTruthy uri)
          ++ (optList (fun v => ("IV".data, '0' :: 'x' :: v)) (optTruthy iv)
            ++ (optList (fun f => ("KEYFORMAT".data, f)) (optTruthy kf)
              ++ optList (fun f => ("KEYFORMATVERSIONS".data, f)) (optTruthy kfv)))) := by
    rw [attrMap_renderAttrs _ hwf hnodup]
    simp only [writeKeyAttrs, List.map_append, List.append_assoc, List.map_cons,
      List.map_nil, List.cons_append, List.nil_append, map_optList]
  have hMget : mapGet "METHOD".data (attrMap (renderAttrs (writeKeyAttrs ⟨m, uri, iv, kf, kfv⟩)))
      = some (KeyMethod.chars m) := by
    rw [hattrs, mapGet_cons_self]
  have hUget : mapGet "URI".data (attrMap (renderAttrs (writeKeyAttrs ⟨m, uri, iv, kf, kfv⟩)))
      = (optTruthy uri).map (fun u => u) := by
    rw [hattrs, mapGet_cons_ne nMU]
    refine mapGet_optList_self _ _ _ _ ?_
    intro kv hkv
    rcases List.mem_append.mp hkv with h | h
    · exact optList_keys_ne nUI.symm _ _ kv h
    rcases List.mem_append.mp h with h | h
    · exact optList_keys_ne nUF.symm _ _ kv h
    · exact optList_keys_ne nUV.symm _ _ kv h
  have hIVget : mapGet "IV".data (attrMap (renderAttrs (writeKeyAttrs ⟨m, uri, iv, kf, kfv⟩)))
      = (optTruthy iv).map (fun v => '0' :: 'x' :: v) := by
    rw [hattrs, mapGet_cons_ne nMI, mapGet_skip _ _ _ (optList_keys_ne nUI _ _)]
    refine mapGet_optList_self _ _ _ _ ?_
    intro kv hkv
    rcases List.mem_append.mp hkv with h | h
    · exact optList_keys_ne nIF.symm _ _ kv h
    · exact optList_keys_ne nIV2.symm _ _ kv h
  have hKFget : mapGet "KEYFORMAT".data
      (attrMap (renderAttrs (writeKeyAttrs ⟨m, uri, iv, kf, kfv⟩)))
      = (optTruthy kf).map (fun f => f) := by
    rw [hattrs, mapGet_cons_ne nMF, mapGet_skip _ _ _ (optList_keys_ne nUF _ _),
      mapGet_skip _ _ _ (optList_keys_ne nIF _ _)]
    exact mapGet_optList_self _ _ _ _ (optList_keys_ne nFV.symm _ _)
  have hKFVget : mapGet "KEYFORMATVERSIONS".data
      (attrMap (renderAttrs (writeKeyAttrs ⟨m, uri, iv, kf, kfv⟩)))
      = (optTruthy kfv).map (fun f => f) := by
    rw [hattrs, mapGet_cons_ne nMV, mapGet_skip _ _ _ (optList_keys_ne nUV _ _),
      mapGet_skip _ _ _ (optList_keys_ne nIV2 _ _),
      mapGet_skip _ _ _ (optList_keys_ne nFV _ _)]
    have hnil := mapGet_optList_self "KEYFORMATVERSIONS".data (fun f => f) (optTruthy kfv)
      [] (by simp)
    rw [List.append_nil] at hnil
    exact hnil
  have hMT : mapGetTruthy "METHOD".data
      (attrMap (renderAttrs (writeKeyAttrs ⟨m, uri, iv, kf, kfv⟩)))
      = some (KeyMethod.chars m) :=
    mapGetTruthy_of_get_some hMget (methodChars_ok m).2.2.2
  have quotedField : ∀ (K : List Char) (o : Option String),
      (match o with | some s => canonQuotedStr s | none => true) = true →
      mapGet K (attrMap (renderAttrs (writeKeyAttrs ⟨m, uri, iv, kf, kfv⟩)))
        = (optTruthy o).map (fun u => u) →
      (mapGetTruthy K (attrMap (renderAttrs (writeKeyAttrs ⟨m, uri, iv, kf, kfv⟩)))).map
        String.mk = o := by
    intro K o hcan hget
    cases o with
    | none => rw [mapGetTruthy_of_get_none (by rw [hget]; rfl)]; rfl
    | some s =>
      have hs := canonQuotedStr_spec s hcan
      rw [mapGetTruthy_of_get_some (by rw [hget, optTruthy_canon s hs.2.2.2]; rfl) hs.2.2.2]
      simp [string_mk_data]
  have hUf := quotedField "URI".data uri hu hUget
  have hKFf := quotedField "KEYFORMAT".data kf hkf hKFget
  have hKFVf := quotedField "KEYFORMATVERSIONS".data kfv hkfv hKFVget
  have hIVf : (mapGetTruthy "IV".data
      (attrMap (renderAttrs (writeKeyAttrs ⟨m, uri, iv, kf, kfv⟩)))).map
        (fun v => String.mk (stripIvHex v)) = iv := by
    cases iv with
    | none => rw [mapGetTruthy_of_get_none (by rw [hIVget]; rfl)]; rfl
    | some s =>
      have hs := canonBareStr_spec s hiv
      rw [mapGetTruthy_of_get_some
        (by rw [hIVget, optTruthy_canon s hs.2.2.2.2.2]; rfl) (by rfl)]
      have hstrip : stripIvHex ('0' :: 'x' :: s.data) = s.data := by
        have hsw : startsWithChars ('0' :: 'x' :: s.data) "0x".data = true :=
          startsWith_append_self ['0', 'x'] s.data
        simp only [stripIvHex, hsw, Bool.true_or]
        rfl
      simp [hstrip, string_mk_data]
  simp only [parseKeyM, hMT, decodeKeyMethod_chars, except_pure_bind, hUf, hIVf, hKFf, hKFVf]
  rfl

/-- Splitting a separator-free string is the identity. -/
theorem splitOnCharAux_no_sep (sep : Char) : ∀ (l acc : List Char),
    (∀ c ∈ l, c ≠ sep) → splitOnCharAux sep acc l = [acc.reverse ++ l] := by
  intro l
  induction l with
  | nil => intro acc _; simp [splitOnCharAux]
  | cons c cs ih =>
    intro acc h
    have hc : c ≠ sep := h c (List.mem_cons_self c cs)
    simp only [splitOnCharAux]
    rw [if_neg hc, ih (c :: acc) (fun x hx => h x (List.mem_cons_of_mem c hx))]
    simp

/-- Splitting at the single separator occurrence. -/
theorem splitOnCharAux_mid (sep : Char) : ∀ (a b acc : List Char),
    (∀ c ∈ a, c ≠ sep) →
    splitOnCharAux sep acc (a ++ sep :: b) = (acc.reverse ++ a) :: splitOnCharAux sep [] b := by
  intro a
  induction a with
  | nil =>
    intro b acc _
    simp only [List.nil_append, splitOnCharAux]
    simp
  | cons c cs ih =>
    intro b acc h
    have hc : c ≠ sep := h c (List.mem_cons_self c cs)
    rw [List.cons_append]
    simp only [splitOnCharAux]
    rw [if_neg hc, ih b (c :: acc) (fun x hx => h x (List.mem_cons_of_mem c hx))]
    simp

/-- `intToChars` contains no `'@'`. -/
theorem intToChars_no_at (i : Int) : ∀ c ∈ intToChars i, c ≠ '@' := by
  intro c hc
  rcases (intToChars_spec i).2 c hc with h | h
  · exact (digit_ne_syms h).2.2.1
  · subst h; decide

/-- A written explicit byte range parses back exactly. -/
theorem parseByteRangeM_roundtrip (len off : Int) (lastEnd : Int) :
    parseByteRangeM (intToChars len ++ '@' :: intToChars off) lastEnd
      = { length := len, offset := some off } := by
  have hsplit : splitOnChar '@' (intToChars len ++ '@' :: intToChars off)
      = [intToChars len, intToChars off] := by
    unfold splitOnChar
    rw [splitOnCharAux_mid '@' _ _ _ (intToChars_no_at len),
      splitOnCharAux_no_sep '@' _ _ (intToChars_no_at off)]
    simp
  simp only [parseByteRangeM, hsplit, List.headD_cons, List.drop_succ_cons, List.drop_zero,
    parseIntJS_intToChars, Option.getD_some]

/-- `writeByteRange` output is quote-free. -/
theorem writeByteRangeW_no_quote (br : ByteRange) : ∀ c ∈ writeByteRangeW br, c ≠ '"' := by
  intro c hc
  have hint : ∀ (i : Int), c ∈ intToChars i → c ≠ '"' := by
    intro i hi
    rcases (intToChars_spec i).2 c hi with h | h
    · exact (digit_ne_syms h).2.1
    · subst h; decide
  rw [writeByteRangeW] at hc
  rcases hxo : br.offset with _ | o
  · simp only [hxo] at hc
    exact hint br.length hc
  · simp only [hxo] at hc
    rcases List.mem_append.mp hc with h | h
    · exact hint br.length h
    · rcases List.mem_cons.mp h with h | h
      · subst h; decide
      · exact hint o h

/-- The `EXT-X-MAP` attribute round trip. -/
theorem parseMapM_roundtrip (m : InitSegment) (hc : canonMap m = true) (ln : Nat) :
    parseMapM (renderAttrs (writeMapAttrs m)) ln = .ok m := by
  obtain ⟨uri, br⟩ := m
  simp only [canonMap, Bool.and_eq_true] at hc
  obtain ⟨hu, hbr⟩ := hc
  obtain ⟨hune, _, huq, hue⟩ := canonQuotedStr_spec uri hu
  have nUB : ("URI".data : List Char) ≠ "BYTERANGE".data := by decide
  have hwf : ∀ a ∈ writeMapAttrs ⟨uri, br⟩,
      a.1 ≠ [] ∧ (∀ c ∈ a.1, isAttrNameChar c = true) ∧
      (match a.2 with
       | .quoted v => ∀ c ∈ v, c ≠ '"'
       | .bare v => v ≠ [] ∧ (∀ c ∈ v, c ≠ ',') ∧ ∀ c, v.head? = some c → c ≠ '"') := by
    intro a ha
    simp only [writeMapAttrs, List.cons_append, List.nil_append] at ha
    rcases List.mem_cons.mp ha with ha | ha
    · subst ha
      dsimp only
      exact ⟨by decide, by decide, huq⟩
    · obtain ⟨x, hx, rfl⟩ := mem_optList ha
      dsimp only
      exact ⟨by decide, by decide, writeByteRangeW_no_quote x⟩
  have hnodup : ((writeMapAttrs ⟨uri, br⟩).map (fun a => a.1)).Nodup := by
    have hsub : ((writeMapAttrs ⟨uri, br⟩).map (fun a => a.1)).Sublist
        ("URI".data :: ["BYTERANGE".data]) := by
      simp only [writeMapAttrs, List.map_append, List.map_cons, List.map_nil,
        List.cons_append, List.nil_append]
      exact List.Sublist.cons₂ _ (optList_keys_sublist _ _ _)
    exact List.Nodup.sublist hsub (by decide)
  have hattrs : attrMap (renderAttrs (writeMapAttrs ⟨uri, br⟩))
      = ("URI".data, uri.data)
        :: optList (fun b => ("BYTERANGE".data, writeByteRangeW b)) br := by
    rw [attrMap_renderAttrs _ hwf hnodup]
    simp only [writeMapAttrs, List.map_append, List.map_cons, List.map_nil,
      List.cons_append, List.nil_append, map_optList]
  have hUT : mapGetTruthy "URI".data (attrMap (renderAttrs (writeMapAttrs ⟨uri, br⟩)))
      = some uri.data :=
    mapGetTruthy_of_get_some (by rw [hattrs, mapGet_cons_self]) hue
  have hBget : mapGet "BYTERANGE".data (attrMap (renderAttrs (writeMapAttrs ⟨uri, br⟩)))
      = br.map writeByteRangeW := by
    rw [hattrs, mapGet_cons_ne nUB]
    have hnil := mapGet_optList_self "BYTERANGE".data writeByteRangeW br [] (by simp)
    rw [List.append_nil] at hnil
    exact hnil
  have hBf : (mapGetTruthy "BYTERANGE".data
      (attrMap (renderAttrs (writeMapAttrs ⟨uri, br⟩)))).map (fun v => parseByteRangeM v 0)
      = br := by
    cases br with
    | none => rw [mapGetTruthy_of_get_none (by rw [hBget]; rfl)]; rfl
    | some b =>
      obtain ⟨blen, boff⟩ := b
      dsimp only at hbr
      rcases hoff : boff with _ | off
      · rw [hoff] at hbr
        exact absurd hbr (by decide)
      · subst hoff
        have hw : writeByteRangeW ⟨blen, some off⟩
            = intToChars blen ++ '@' :: intToChars off := by
          rw [writeByteRangeW]
        have hne : (writeByteRangeW ⟨blen, some off⟩).isEmpty = false := by
          rw [hw]
          exact isEmpty_false_of_ne_nil (by simp)
        rw [mapGetTruthy_of_get_some (by rw [hBget]; rfl) hne, hw]
        simp only [Option.map_some', parseByteRangeM_roundtrip]
  simp only [parseMapM, hUT, except_pure_bind, hBf]
  rfl

/-- The `EXT-X-START` attribute round trip. -/
theorem parseStartM_roundtrip (st : StartOffset) (hc : canonQ st.timeOffset = true) :
    parseStartM (renderAttrs ([("TIME-OFFSET".data, .bare (qToChars st.timeOffset))]
      ++ if st.precise then [("PRECISE".data, .bare "YES".data)] else [])) = st := by
  obtain ⟨q, pr⟩ := st
  obtain ⟨hne, hnc, hnq⟩ := qToChars_bare_ok q
  cases pr with
  | false =>
    rw [if_neg Bool.false_ne_true, List.append_nil]
    have hwf : ∀ a ∈ [(("TIME-OFFSET".data : List Char), AttrForm.bare (qToChars q))],
        a.1 ≠ [] ∧ (∀ c ∈ a.1, isAttrNameChar c = true) ∧
        (match a.2 with
         | .quoted v => ∀ c ∈ v, c ≠ '"'
         | .bare v => v ≠ [] ∧ (∀ c ∈ v, c ≠ ',') ∧ ∀ c, v.head? = some c → c ≠ '"') := by
      intro a ha
      rw [List.mem_singleton] at ha
      subst ha
      dsimp only
      exact ⟨by decide, by decide, hne, hnc, hnq⟩
    have hnodup : (([(("TIME-OFFSET".data : List Char),
        AttrForm.bare (qToChars q))]).map (fun a => a.1)).Nodup := by
      rw [show ([(("TIME-OFFSET".data : List Char), AttrForm.bare (qToChars q))]).map
        (fun a => a.1) = ["TIME-OFFSET".data] from rfl]
      decide
    have hattrs : attrMap (renderAttrs [(("TIME-OFFSET".data : List Char),
        AttrForm.bare (qToChars q))]) = [("TIME-OFFSET".data, qToChars q)] := by
      rw [attrMap_renderAttrs _ hwf hnodup]
      rfl
    have hTO : mapGetTruthy "TIME-OFFSET".data
        [(("TIME-OFFSET".data : List Char), qToChars q)] = some (qToChars q) :=
      mapGetTruthy_of_get_some (mapGet_cons_self _ _ _) (isEmpty_false_of_ne_nil hne)
    have hPR : mapGet "PRECISE".data [(("TIME-OFFSET".data : List Char), qToChars q)]
        = none := by
      rw [mapGet_cons_ne (by decide)]
      rfl
    simp only [parseStartM, hattrs, hTO, hPR, parseFloatJS_qToChars q hc, Option.getD_some]
    simp
  | true =>
    rw [if_pos rfl]
    have hwf : ∀ a ∈ [(("TIME-OFFSET".data : List Char), AttrForm.bare (qToChars q))]
        ++ [(("PRECISE".data : List Char), AttrForm.bare "YES".data)],
        a.1 ≠ [] ∧ (∀ c ∈ a.1, isAttrNameChar c = true) ∧
        (match a.2 with
         | .quoted v => ∀ c ∈ v, c ≠ '"'
         | .bare v => v ≠ [] ∧ (∀ c ∈ v, c ≠ ',') ∧ ∀ c, v.head? = some c → c ≠ '"') := by
      intro a ha
      rcases List.mem_append.mp ha with ha | ha <;> rw [List.mem_singleton] at ha <;> subst ha
      · dsimp only
        exact ⟨by decide, by decide, hne, hnc, hnq⟩
      · dsimp only
        refine ⟨by decide, by decide, by decide, by decide, ?_⟩
        intro c hcc
        injection hcc with hcc
        subst hcc
        decide
    have hnodup : ((([(("TIME-OFFSET".data : List Char), AttrForm.bare (qToChars q))]
        ++ [(("PRECISE".data : List Char), AttrForm.bare "YES".data)])).map
          (fun a => a.1)).Nodup := by
      rw [show (([(("TIME-OFFSET".data : List Char), AttrForm.bare (qToChars q))]
        ++ [(("PRECISE".data : List Char), AttrForm.bare "YES".data)])).map (fun a => a.1)
        = ["TIME-OFFSET".data, "PRECISE".data] from rfl]
      decide
    have hattrs : attrMap (renderAttrs ([(("TIME-OFFSET".data : List Char),
        AttrForm.bare (qToChars q))] ++ [(("PRECISE".data : List Char),
          AttrForm.bare "YES".data)]))
        = [("TIME-OFFSET".data, qToChars q), ("PRECISE".data, "YES".data)] := by
      rw [attrMap_renderAttrs _ hwf hnodup]
      rfl
    have hTO : mapGetTruthy "TIME-OFFSET".data
        [(("TIME-OFFSET".data : List Char), qToChars q), ("PRECISE".data, "YES".data)]
        = some (qToChars q) :=
      mapGetTruthy_of_get_some (mapGet_cons_self _ _ _) (isEmpty_false_of_ne_nil hne)
    have hPR : mapGet "PRECISE".data
        [(("TIME-OFFSET".data : List Char), qToChars q), ("PRECISE".data, "YES".data)]
        = some "YES".data := by
      rw [mapGet_cons_ne (by decide), mapGet_cons_self]
    simp only [parseStartM, hattrs, hTO, hPR, parseFloatJS_qToChars q hc, Option.getD_some]
    simp

/-- Distinct prefixes refute equality. -/
theorem startsWith_ne (a b p : List Char) (ha : startsWithChars a p = true)
    (hb : startsWithChars b p = false) : a ≠ b := by
  intro he
  rw [he, hb] at ha
  exact Bool.noConfusion ha

/-- A list with a true `startsWithChars` on a cons pattern is nonempty. -/
theorem ne_nil_of_startsWith {l : List Char} {c : Char} {p : List Char}
    (h : startsWithChars l (c :: p) = true) : l ≠ [] := by
  intro he
  rw [he] at h
  exact Bool.noConfusion h

/-- Pushing a map through a conditional block. -/
theorem map_ite_block {α β : Type} (f : α → β) (b : Bool) (x : α) :
    (if b then [x] else ([] : List α)).map f = if b then [f x] else [] := by
  cases b <;> rfl

/-- All keys of a conditional block differ from another key. -/
theorem ite_block_keys_ne {K' K : List Char} (h : K' ≠ K) (b : Bool) (v : List Char) :
    ∀ kv ∈ (if b then [(K', v)] else ([] : List (List Char × List Char))), kv.1 ≠ K := by
  cases b with
  | false => simp
  | true =>
    intro kv hkv
    rw [if_pos rfl, List.mem_singleton] at hkv
    rw [hkv]
    exact h

/-- `mapGet` at a conditional block holding the queried key. -/
theorem mapGet_ite_self (K : List Char) (b : Bool) (v : List Char)
    (B : List (List Char × List Char)) (hB : ∀ kv ∈ B, kv.1 ≠ K) :
    mapGet K ((if b then [(K, v)] else []) ++ B) = if b then some v else none := by
  cases b with
  | false =>
    rw [if_neg Bool.false_ne_true, if_neg Bool.false_ne_true, List.nil_append,
      mapGet_of_all_ne K B hB]
  | true =>
    rw [if_pos rfl, if_pos rfl, List.singleton_append, mapGet_cons_self]

/-- Keys of mapped pairs. -/
theorem map_keys_ne {α : Type} {K : List Char} (l : List α) (key : α → List Char)
    (w : α → List Char) (h : ∀ x ∈ l, key x ≠ K) :
    ∀ kv ∈ l.map (fun x => (key x, w x)), kv.1 ≠ K := by
  intro kv hkv
  obtain ⟨x, hx, rfl⟩ := List.mem_map.mp hkv
  exact h x hx

/-- Filtering an `optList` block with a uniformly-false predicate. -/
theorem filter_optList_false {α : Type} {g : List Char × List Char → Bool}
    {f : α → List Char × List Char} (h : ∀ x, g (f x) = false) (o : Option α) :
    (optList f o).filter g = [] := by
  cases o with
  | none => rfl
  | some x =>
    rw [show optList f (some x) = [f x] from rfl]
    simp [List.filter_cons, h x]

/-- Filtering past a non-matching head. -/
theorem filter_cons_false {α : Type} {g : α → Bool} {a : α} (h : g a = false)
    (l : List α) : (a :: l).filter g = l.filter g := by
  simp [List.filter_cons, h]

/-- Filtering a matching head. -/
theorem filter_cons_true {α : Type} {g : α → Bool} {a : α} (h : g a = true)
    (l : List α) : (a :: l).filter g = a :: l.filter g := by
  simp [List.filter_cons, h]

/-- Filtering a conditional block with a false predicate. -/
theorem filter_ite_false {g : List Char × List Char → Bool}
    {x : List Char × List Char} (h : g x = false) (b : Bool) :
    (if b then [x] else ([] : List (List Char × List Char))).filter g = [] := by
  cases b with
  | false => rfl
  | true =>
    rw [if_pos rfl]
    simp [List.filter_cons, h]

/-- Unpacking `canonClientAttr`. -/
theorem canonClientAttr_spec (kv : String × ClientAttrVal) (h : canonClientAttr kv = true) :
    startsWithChars kv.1.data "X-".data = true ∧ (∀ c ∈ kv.1.data, isAttrNameChar c = true) ∧
    (match kv.2 with
     | .str s => (∀ c ∈ s.data, c ≠ '\n' ∧ c ≠ '\r') ∧ (∀ c ∈ s.data, c ≠ '"')
          ∧ parseFloatJS s.data = none
     | .num q => canonQ q = true) := by
  simp only [canonClientAttr, Bool.and_eq_true, List.all_eq_true, decide_eq_true_eq] at h
  obtain ⟨⟨hx, hkeys⟩, hval⟩ := h
  refine ⟨hx, hkeys, ?_⟩
  cases hkv2 : kv.2 with
  | str s =>
    rw [hkv2] at hval
    simp only [noCRLF, noQuote, Bool.and_eq_true, List.all_eq_true, decide_eq_true_eq,
      Option.isNone_iff_eq_none] at hval
    exact ⟨hval.1.1, hval.1.2, hval.2⟩
  | num q =>
    rw [hkv2] at hval
    exact hval

/-- Keys of a conditional attribute block form a sublist of the singleton key. -/
theorem ite_keys_sublist (K : List Char) (v : AttrForm) (b : Bool) :
    (((if b then [(K, v)] else ([] : List (List Char × AttrForm)))).map
      (fun a => a.1)).Sublist [K] := by
  cases b <;> simp

/-- The `EXT-X-DATERANGE` attribute round trip. -/
theorem parseDateRangeM_roundtrip (d : DateRange) (hc : canonDateRange d = true) (ln : Nat) :
    parseDateRangeM (renderAttrs (writeDateRangeAttrs d)) ln = .ok d := by
  obtain ⟨idS, sdS, cl, ed, du, pd, cmd, out, inn, eon, ca⟩ := d
  simp only [canonDateRange, Bool.and_eq_true, List.all_eq_true, decide_eq_true_eq] at hc
  obtain ⟨⟨⟨⟨⟨⟨⟨⟨⟨⟨hid, hsd⟩, hcl⟩, hed⟩, hdu⟩, hpd⟩, hcmd⟩, hout⟩, hinn⟩, hca⟩, hnodca⟩ := hc
  obtain ⟨_, _, hidq, hide⟩ := canonQuotedStr_spec idS hid
  obtain ⟨_, _, hsdq, hsde⟩ := canonQuotedStr_spec sdS hsd
  have hwf : ∀ a ∈ writeDateRangeAttrs ⟨idS, sdS, cl, ed, du, pd, cmd, out, inn, eon, ca⟩,
      a.1 ≠ [] ∧ (∀ c ∈ a.1, isAttrNameChar c = true) ∧
      (match a.2 with
       | .quoted v => ∀ c ∈ v, c ≠ '"'
       | .bare v => v ≠ [] ∧ (∀ c ∈ v, c ≠ ',') ∧ ∀ c, v.head? = some c → c ≠ '"') := by
    intro a ha
    simp only [writeDateRangeAttrs, List.append_assoc, List.cons_append, List.nil_append] at ha
    rcases List.mem_cons.mp ha with ha | ha
    · subst ha
      dsimp only
      exact ⟨by decide, by decide, hidq⟩
    rcases List.mem_cons.mp ha with ha | ha
    · subst ha
      dsimp only
      exact ⟨by decide, by decide, hsdq⟩
    rcases List.mem_append.mp ha with ha | ha
    · obtain ⟨x, hx, rfl⟩ := mem_optList ha
      obtain ⟨s, hs, rfl, _⟩ := optTruthy_some_inv hx
      rw [hs] at hcl
      obtain ⟨_, _, hq, _⟩ := canonQuotedStr_spec s hcl
      dsimp only
      exact ⟨by decide, by decide, hq⟩
    rcases List.mem_append.mp ha with ha | ha
    · obtain ⟨x, hx, rfl⟩ := mem_optList ha
      rw [hx] at hed
      obtain ⟨_, _, hq, _⟩ := canonQuotedStr_spec x hed
      dsimp only
      exact ⟨by decide, by decide, hq⟩
    rcases List.mem_append.mp ha with ha | ha
    · obtain ⟨x, hx, rfl⟩ := mem_optList ha
      obtain ⟨h1, h2, h3⟩ := qToChars_bare_ok x
      dsimp only
      exact ⟨by decide, by decide, h1, h2, h3⟩
    rcases List.mem_append.mp ha with ha | ha
    · obtain ⟨x, hx, rfl⟩ := mem_optList ha
      obtain ⟨h1, h2, h3⟩ := qToChars_bare_ok x
      dsimp only
      exact ⟨by decide, by decide, h1, h2, h3⟩
    rcases List.mem_append.mp ha with ha | ha
    · obtain ⟨x, hx, rfl⟩ := mem_optList ha
      obtain ⟨s, hs, rfl, _⟩ := optTruthy_some_inv hx
      rw [hs] at hcmd
      obtain ⟨_, _, _, hm2, _, _⟩ := canonBareStr_spec s hcmd
      obtain ⟨h1, _, h3, _, _, _⟩ := canonBareStr_spec s hcmd
      dsimp only
      refine ⟨by decide, by decide, h1, hm2, ?_⟩
      intro c hcc
      exact h3 c (head?_mem hcc)
    rcases List.mem_append.mp ha with ha | ha
    · obtain ⟨x, hx, rfl⟩ := mem_optList ha
      obtain ⟨s, hs, rfl, _⟩ := optTruthy_some_inv hx
      rw [hs] at hout
      obtain ⟨h1, _, h3, hm2, _, _⟩ := canonBareStr_spec s hout
      dsimp only
      refine ⟨by decide, by decide, h1, hm2, ?_⟩
      intro c hcc
      exact h3 c (head?_mem hcc)
    rcases List.mem_append.mp ha with ha | ha
    · obtain ⟨x, hx, rfl⟩ := mem_optList ha
      obtain ⟨s, hs, rfl, _⟩ := optTruthy_some_inv hx
      rw [hs] at hinn
      obtain ⟨h1, _, h3, hm2, _, _⟩ := canonBareStr_spec s hinn
      dsimp only
      refine ⟨by decide, by decide, h1, hm2, ?_⟩
      intro c hcc
      exact h3 c (head?_mem hcc)
    rcases List.mem_append.mp ha with ha | ha
    · -- END-ON-NEXT conditional block
      have hmem : a = (("END-ON-NEXT".data : List Char), AttrForm.bare "YES".data) := by
        cases eon with
        | false => exact absurd ha (by simp)
        | true =>
          rw [if_pos rfl, List.mem_singleton] at ha
          exact ha
      subst hmem
      dsimp only
      refine ⟨by decide, by decide, by decide, by decide, ?_⟩
      intro c hcc
      injection hcc with hcc
      subst hcc
      decide
    · -- client attribute
      obtain ⟨kv, hkv, rfl⟩ := List.mem_map.mp ha
      obtain ⟨hx1, hx2, hx3⟩ := canonClientAttr_spec kv (hca kv hkv)
      obtain ⟨k1, k2⟩ := kv
      cases k2 with
      | str s =>
        dsimp only at hx1 hx2 hx3 ⊢
        obtain ⟨_, hqq, _⟩ := hx3
        rw [escapeQuotes_eq_self s.data hqq]
        exact ⟨ne_nil_of_startsWith hx1, hx2, hqq⟩
      | num q =>
        dsimp only at hx1 hx2 hx3 ⊢
        obtain ⟨h1, h2, h3⟩ := qToChars_bare_ok q
        exact ⟨ne_nil_of_startsWith hx1, hx2, h1, h2, h3⟩
  have hcaKeys : (ca.map (fun kv =>
      match kv.2 with
      | .str s => ((kv.1.data : List Char), AttrForm.quoted (escapeQuotes s.data))
      | .num q => ((kv.1.data : List Char), AttrForm.bare (qToChars q)))).map (fun a => a.1)
      = ca.map (fun kv => (kv.1.data : List Char)) := by
    rw [List.map_map]
    refine List.map_congr_left ?_
    intro kv _
    cases hkv2 : kv.2 <;> simp [hkv2]
  have hcaNodup : (ca.map (fun kv => (kv.1.data : List Char))).Nodup := by
    have h2 := List.Nodup.map string_data_inj hnodca
    rw [List.map_map] at h2
    exact h2
  have hMX : ∀ x ∈ (["ID".data, "START-DATE".data, "CLASS".data, "END-DATE".data,
      "DURATION".data, "PLANNED-DURATION".data, "SCTE35-CMD".data, "SCTE35-OUT".data,
      "SCTE35-IN".data, "END-ON-NEXT".data] : List (List Char)),
      startsWithChars x "X-".data = false := by decide
  have hnodup : ((writeDateRangeAttrs
      ⟨idS, sdS, cl, ed, du, pd, cmd, out, inn, eon, ca⟩).map (fun a => a.1)).Nodup := by
    have hsub : ((writeDateRangeAttrs
        ⟨idS, sdS, cl, ed, du, pd, cmd, out, inn, eon, ca⟩).map (fun a => a.1)).Sublist
        ("ID".data :: ("START-DATE".data :: (["CLASS".data] ++ (["END-DATE".data]
          ++ (["DURATION".data] ++ (["PLANNED-DURATION".data] ++ (["SCTE35-CMD".data]
            ++ (["SCTE35-OUT".data] ++ (["SCTE35-IN".data] ++ (["END-ON-NEXT".data]
              ++ (ca.map (fun kv => (kv.1.data : List Char))))))))))))) := by
      simp only [writeDateRangeAttrs, List.map_append, List.append_assoc, List.map_cons,
        List.map_nil, List.cons_append, List.nil_append]
      rw [hcaKeys]
      exact List.Sublist.cons₂ _ (List.Sublist.cons₂ _
        (List.Sublist.append (optList_keys_sublist _ _ _)
          (List.Sublist.append (optList_keys_sublist _ _ _)
            (List.Sublist.append (optList_keys_sublist _ _ _)
              (List.Sublist.append (optList_keys_sublist _ _ _)
                (List.Sublist.append (optList_keys_sublist _ _ _)
                  (List.Sublist.append (optList_keys_sublist _ _ _)
                    (List.Sublist.append (optList_keys_sublist _ _ _)
                      (List.Sublist.append (ite_keys_sublist _ _ _)
                        (List.Sublist.refl _))))))))))
    refine List.Nodup.sublist hsub ?_
    show ((["ID".data, "START-DATE".data, "CLASS".data, "END-DATE".data,
      "DURATION".data, "PLANNED-DURATION".data, "SCTE35-CMD".data, "SCTE35-OUT".data,
      "SCTE35-IN".data, "END-ON-NEXT".data] : List (List Char))
        ++ ca.map (fun kv => (kv.1.data : List Char))).Nodup
    refine List.Nodup.append (by decide) hcaNodup ?_
    intro x hxm hxc
    obtain ⟨kv, hkv, rfl⟩ := List.mem_map.mp hxc
    have h1 := (canonClientAttr_spec kv (hca kv hkv)).1
    rw [hMX _ hxm] at h1
    exact Bool.noConfusion h1
  have hattrs : attrMap (renderAttrs (writeDateRangeAttrs
      ⟨idS, sdS, cl, ed, du, pd, cmd, out, inn, eon, ca⟩))
      = ("ID".data, idS.data) :: (("START-DATE".data, sdS.data)
        :: (optList (fun c => ("CLASS".data, c)) (optTruthy cl)
          ++ (optList (fun e => ("END-DATE".data, e.data)) ed
            ++ (optList (fun q => ("DURATION".data, qToChars q)) du
              ++ (optList (fun q => ("PLANNED-DURATION".data, qToChars q)) pd
                ++ (optList (fun v => ("SCTE35-CMD".data, v)) (optTruthy cmd)
                  ++ (optList (fun v => ("SCTE35-OUT".data, v)) (optTruthy out)
                    ++ (optList (fun v => ("SCTE35-IN".data, v)) (optTruthy inn)
                      ++ ((if eon then [("END-ON-NEXT".data, "YES".data)] else [])
                        ++ ca.map (fun kv => ((kv.1.data : List Char),
                            match kv.2 with
                            | .str s => escapeQuotes s.data
                            | .num q => qToChars q))))))))))) := by
    have hcamap : List.map ((fun a =>
        (a.1, match a.2 with | AttrForm.quoted v => v | AttrForm.bare v => v)) ∘ fun kv =>
          match kv.2 with
          | ClientAttrVal.str s => (kv.1.data, AttrForm.quoted (escapeQuotes s.data))
          | ClientAttrVal.num q => (kv.1.data, AttrForm.bare (qToChars q))) ca
        = ca.map (fun kv => ((kv.1.data : List Char),
            match kv.2 with
            | .str s => escapeQuotes s.data
            | .num q => qToChars q)) := by
      refine List.map_congr_left ?_
      intro kv _
      cases hkv2 : kv.2 <;> simp [hkv2]
    rw [attrMap_renderAttrs _ hwf hnodup]
    simp only [writeDateRangeAttrs, List.map_append, List.append_assoc, List.map_cons,
      List.map_nil, List.cons_append, List.nil_append, map_optList, map_ite_block,
      List.map_map]
    rw [hcamap]
  have hCAne : ∀ (K : List Char), startsWithChars K "X-".data = false →
      ∀ kv ∈ ca.map (fun kv => ((kv.1.data : List Char),
          match kv.2 with
          | .str s => escapeQuotes s.data
          | .num q => qToChars q)), kv.1 ≠ K := by
    intro K hK
    refine map_keys_ne ca (fun kv => kv.1.data) _ ?_
    intro kv hkv
    exact startsWith_ne _ _ _ (canonClientAttr_spec kv (hca kv hkv)).1 hK
  have hIDT : mapGetTruthy "ID".data (attrMap (renderAttrs (writeDateRangeAttrs
      ⟨idS, sdS, cl, ed, du, pd, cmd, out, inn, eon, ca⟩))) = some idS.data :=
    mapGetTruthy_of_get_some (by rw [hattrs, mapGet_cons_self]) hide
  have hSDT : mapGetTruthy "START-DATE".data (attrMap (renderAttrs (writeDateRangeAttrs
      ⟨idS, sdS, cl, ed, du, pd, cmd, out, inn, eon, ca⟩))) = some sdS.data :=
    mapGetTruthy_of_get_some
      (by rw [hattrs, mapGet_cons_ne (by decide), mapGet_cons_self]) hsde
  have hCL : mapGet "CLASS".data (attrMap (renderAttrs (writeDateRangeAttrs
      ⟨idS, sdS, cl, ed, du, pd, cmd, out, inn, eon, ca⟩)))
      = (optTruthy cl).map (fun u => u) := by
    rw [hattrs, mapGet_cons_ne (by decide), mapGet_cons_ne (by decide)]
    cases hx : optTruthy cl with
    | some c =>
      rw [show optList (fun c => (("CLASS".data : List Char), c)) (some c)
        = [("CLASS".data, c)] from rfl, List.cons_append, mapGet_cons_self]
      rfl
    | none =>
      rw [show optList (fun c => (("CLASS".data : List Char), c)) none = [] from rfl,
        List.nil_append,
        mapGet_skip _ _ _ (optList_keys_ne (by decide) _ _),
        mapGet_skip _ _ _ (optList_keys_ne (by decide) _ _),
        mapGet_skip _ _ _ (optList_keys_ne (by decide) _ _),
        mapGet_skip _ _ _ (optList_keys_ne (by decide) _ _),
        mapGet_skip _ _ _ (optList_keys_ne (by decide) _ _),
        mapGet_skip _ _ _ (optList_keys_ne (by decide) _ _),
        mapGet_skip _ _ _ (ite_block_keys_ne (by decide) _ _)]
      exact mapGet_of_all_ne _ _ (hCAne _ (by decide))
  have hED : mapGet "END-DATE".data (attrMap (renderAttrs (writeDateRangeAttrs
      ⟨idS, sdS, cl, ed, du, pd, cmd, out, inn, eon, ca⟩)))
      = ed.map (fun e => e.data) := by
    rw [hattrs, mapGet_cons_ne (by decide), mapGet_cons_ne (by decide),
      mapGet_skip _ _ _ (optList_keys_ne (by decide) _ _)]
    cases hx : ed with
    | some e =>
      rw [show optList (fun e => (("END-DATE".data : List Char), e.data)) (some e)
        = [("END-DATE".data, e.data)] from rfl, List.cons_append, mapGet_cons_self]
      rfl
    | none =>
      rw [show optList (fun e => (("END-DATE".data : List Char), e.data))
        (none : Option String) = [] from rfl,
        List.nil_append,
        mapGet_skip _ _ _ (optList_keys_ne (by decide) _ _),
        mapGet_skip _ _ _ (optList_keys_ne (by decide) _ _),
        mapGet_skip _ _ _ (optList_keys_ne (by decide) _ _),
        mapGet_skip _ _ _ (optList_keys_ne (by decide) _ _),
        mapGet_skip _ _ _ (optList_keys_ne (by decide) _ _),
        mapGet_skip _ _ _ (ite_block_keys_ne (by decide) _ _)]
      exact mapGet_of_all_ne _ _ (hCAne _ (by decide))
  have hDU : mapGet "DURATION".data (attrMap (renderAttrs (writeDateRangeAttrs
      ⟨idS, sdS, cl, ed, du, pd, cmd, out, inn, eon, ca⟩)))
      = du.map (fun q => qToChars q) := by
    rw [hattrs, mapGet_cons_ne (by decide), mapGet_cons_ne (by decide),
      mapGet_skip _ _ _ (optList_keys_ne (by decide) _ _),
      mapGet_skip _ _ _ (optList_keys_ne (by decide) _ _)]
    cases hx : du with
    | some q =>
      rw [show optList (fun q => (("DURATION".data : List Char), qToChars q)) (some q)
        = [("DURATION".data, qToChars q)] from rfl, List.cons_append, mapGet_cons_self]
      rfl
    | none =>
      rw [show optList (fun q => (("DURATION".data : List Char), qToChars q)) none
        = [] from rfl, List.nil_append,
        mapGet_skip _ _ _ (optList_keys_ne (by decide) _ _),
        mapGet_skip _ _ _ (optList_keys_ne (by decide) _ _),
        mapGet_skip _ _ _ (optList_keys_ne (by decide) _ _),
        mapGet_skip _ _ _ (optList_keys_ne (by decide) _ _),
        mapGet_skip _ _ _ (ite_block_keys_ne (by decide) _ _)]
      exact mapGet_of_all_ne _ _ (hCAne _ (by decide))
  have hPD : mapGet "PLANNED-DURATION".data (attrMap (renderAttrs (writeDateRangeAttrs
      ⟨idS, sdS, cl, ed, du, pd, cmd, out, inn, eon, ca⟩)))
      = pd.map (fun q => qToChars q) := by
    rw [hattrs, mapGet_cons_ne (by decide), mapGet_cons_ne (by decide),
      mapGet_skip _ _ _ (optList_keys_ne (by decide) _ _),
      mapGet_skip _ _ _ (optList_keys_ne (by decide) _ _),
      mapGet_skip _ _ _ (optList_keys_ne (by decide) _ _)]
    cases hx : pd with
    | some q =>
      rw [show optList (fun q => (("PLANNED-DURATION".data : List Char), qToChars q)) (some q)
        = [("PLANNED-DURATION".data, qToChars q)] from rfl, List.cons_append, mapGet_cons_self]
      rfl
    | none =>
      rw [show optList (fun q => (("PLANNED-DURATION".data : List Char), qToChars q)) none
        = [] from rfl, List.nil_append,
        mapGet_skip _ _ _ (optList_keys_ne (by decide) _ _),
        mapGet_skip _ _ _ (optList_keys_ne (by decide) _ _),
        mapGet_skip _ _ _ (optList_keys_ne (by decide) _ _),
        mapGet_skip _ _ _ (ite_block_keys_ne (by decide) _ _)]
      exact mapGet_of_all_ne _ _ (hCAne _ (by decide))
  have hCMD : mapGet "SCTE35-CMD".data (attrMap (renderAttrs (writeDateRangeAttrs
      ⟨idS, sdS, cl, ed, du, pd, cmd, out, inn, eon, ca⟩)))
      = (optTruthy cmd).map (fun u => u) := by
    rw [hattrs, mapGet_cons_ne (by decide), mapGet_cons_ne (by decide),
      mapGet_skip _ _ _ (optList_keys_ne (by decide) _ _),
      mapGet_skip _ _ _ (optList_keys_ne (by decide) _ _),
      mapGet_skip _ _ _ (optList_keys_ne (by decide) _ _),
      mapGet_skip _ _ _ (optList_keys_ne (by decide) _ _)]
    cases hx : optTruthy cmd with
    | some v =>
      rw [show optList (fun v => (("SCTE35-CMD".data : List Char), v)) (some v)
        = [("SCTE35-CMD".data, v)] from rfl, List.cons_append, mapGet_cons_self]
      rfl
    | none =>
      rw [show optList (fun v => (("SCTE35-CMD".data : List Char), v)) none = [] from rfl,
        List.nil_append,
        mapGet_skip _ _ _ (optList_keys_ne (by decide) _ _),
        mapGet_skip _ _ _ (optList_keys_ne (by decide) _ _),
        mapGet_skip _ _ _ (ite_block_keys_ne (by decide) _ _)]
      exact mapGet_of_all_ne _ _ (hCAne _ (by decide))
  have hOUT : mapGet "SCTE35-OUT".data (attrMap (renderAttrs (writeDateRangeAttrs
      ⟨idS, sdS, cl, ed, du, pd, cmd, out, inn, eon, ca⟩)))
      = (optTruthy out).map (fun u => u) := by
    rw [hattrs, mapGet_cons_ne (by decide), mapGet_cons_ne (by decide),
      mapGet_skip _ _ _ (optList_keys_ne (by decide) _ _),
      mapGet_skip _ _ _ (optList_keys_ne (by decide) _ _),
      mapGet_skip _ _ _ (optList_keys_ne (by decide) _ _),
      mapGet_skip _ _ _ (optList_keys_ne (by decide) _ _),
      mapGet_skip _ _ _ (optList_keys_ne (by decide) _ _)]
    cases hx : optTruthy out with
    | some v =>
      rw [show optList (fun v => (("SCTE35-OUT".data : List Char), v)) (some v)
        = [("SCTE35-OUT".data, v)] from rfl, List.cons_append, mapGet_cons_self]
      rfl
    | none =>
      rw [show optList (fun v => (("SCTE35-OUT".data : List Char), v)) none = [] from rfl,
        List.nil_append,
        mapGet_skip _ _ _ (optList_keys_ne (by decide) _ _),
        mapGet_skip _ _ _ (ite_block_keys_ne (by decide) _ _)]
      exact mapGet_of_all_ne _ _ (hCAne _ (by decide))
  have hINN : mapGet "SCTE35-IN".data (attrMap (renderAttrs (writeDateRangeAttrs
      ⟨idS, sdS, cl, ed, du, pd, cmd, out, inn, eon, ca⟩)))
      = (optTruthy inn).map (fun u => u) := by
    rw [hattrs, mapGet_cons_ne (by decide), mapGet_cons_ne (by decide),
      mapGet_skip _ _ _ (optList_keys_ne (by decide) _ _),
      mapGet_skip _ _ _ (optList_keys_ne (by decide) _ _),
      mapGet_skip _ _ _ (optList_keys_ne (by decide) _ _),
      mapGet_skip _ _ _ (optList_keys_ne (by decide) _ _),
      mapGet_skip _ _ _ (optList_keys_ne (by decide) _ _),
      mapGet_skip _ _ _ (optList_keys_ne (by decide) _ _)]
    cases hx : optTruthy inn with
    | some v =>
      rw [show optList (fun v => (("SCTE35-IN".data : List Char), v)) (some v)
        = [("SCTE35-IN".data, v)] from rfl, List.cons_append, mapGet_cons_self]
      rfl
    | none =>
      rw [show optList (fun v => (("SCTE35-IN".data : List Char), v)) none = [] from rfl,
        List.nil_append,
        mapGet_skip _ _ _ (ite_block_keys_ne (by decide) _ _)]
      exact mapGet_of_all_ne _ _ (hCAne _ (by decide))
  have hEON : mapGet "END-ON-NEXT".data (attrMap (renderAttrs (writeDateRangeAttrs
      ⟨idS, sdS, cl, ed, du, pd, cmd, out, inn, eon, ca⟩)))
      = (if eon then some "YES".data else none) := by
    rw [hattrs, mapGet_cons_ne (by decide), mapGet_cons_ne (by decide),
      mapGet_skip _ _ _ (optList_keys_ne (by decide) _ _),
      mapGet_skip _ _ _ (optList_keys_ne (by decide) _ _),
      mapGet_skip _ _ _ (optList_keys_ne (by decide) _ _),
      mapGet_skip _ _ _ (optList_keys_ne (by decide) _ _),
      mapGet_skip _ _ _ (optList_keys_ne (by decide) _ _),
      mapGet_skip _ _ _ (optList_keys_ne (by decide) _ _),
      mapGet_skip _ _ _ (optList_keys_ne (by decide) _ _)]
    exact mapGet_ite_self _ _ _ _ (hCAne _ (by decide))
  have hFILT : (attrMap (renderAttrs (writeDateRangeAttrs
      ⟨idS, sdS, cl, ed, du, pd, cmd, out, inn, eon, ca⟩))).filter
        (fun kv => startsWithChars kv.1 "X-".data)
      = ca.map (fun kv => ((kv.1.data : List Char),
          match kv.2 with
          | .str s => escapeQuotes s.data
          | .num q => qToChars q)) := by
    rw [hattrs,
      filter_cons_false (by exact (by decide :
        startsWithChars ("ID".data : List Char) "X-".data = false)) _,
      filter_cons_false (by exact (by decide :
        startsWithChars ("START-DATE".data : List Char) "X-".data = false)) _]
    simp only [List.filter_append]
    rw [filter_optList_false (by exact fun x => (by decide :
        startsWithChars ("CLASS".data : List Char) "X-".data = false)),
      filter_optList_false (by exact fun x => (by decide :
        startsWithChars ("END-DATE".data : List Char) "X-".data = false)),
      filter_optList_false (by exact fun x => (by decide :
        startsWithChars ("DURATION".data : List Char) "X-".data = false)),
      filter_optList_false (by exact fun x => (by decide :
        startsWithChars ("PLANNED-DURATION".data : List Char) "X-".data = false)),
      filter_optList_false (by exact fun x => (by decide :
        startsWithChars ("SCTE35-CMD".data : List Char) "X-".data = false)),
      filter_optList_false (by exact fun x => (by decide :
        startsWithChars ("SCTE35-OUT".data : List Char) "X-".data = false)),
      filter_optList_false (by exact fun x => (by decide :
        startsWithChars ("SCTE35-IN".data : List Char) "X-".data = false)),
      filter_ite_false (by exact (by decide :
        startsWithChars ("END-ON-NEXT".data : List Char) "X-".data = false)) eon]
    rw [List.filter_eq_self.mpr ?_]
    · simp
    · intro kv hkv
      obtain ⟨x, hx, rfl⟩ := List.mem_map.mp hkv
      exact (canonClientAttr_spec x (hca x hx)).1
  have quotedFieldD : ∀ (K : List Char) (o : Option String),
      (match o with | some s => canonQuotedStr s | none => true) = true →
      mapGet K (attrMap (renderAttrs (writeDateRangeAttrs
        ⟨idS, sdS, cl, ed, du, pd, cmd, out, inn, eon, ca⟩)))
        = (optTruthy o).map (fun u => u) →
      (mapGetTruthy K (attrMap (renderAttrs (writeDateRangeAttrs
        ⟨idS, sdS, cl, ed, du, pd, cmd, out, inn, eon, ca⟩)))).map String.mk = o := by
    intro K o hcan hget
    cases o with
    | none => rw [mapGetTruthy_of_get_none (by rw [hget]; rfl)]; rfl
    | some s =>
      have hs := canonQuotedStr_spec s hcan
      rw [mapGetTruthy_of_get_some (by rw [hget, optTruthy_canon s hs.2.2.2]; rfl) hs.2.2.2]
      simp [string_mk_data]
  have bareFieldD : ∀ (K : List Char) (o : Option String),
      (match o with | some s => canonBareStr s | none => true) = true →
      mapGet K (attrMap (renderAttrs (writeDateRangeAttrs
        ⟨idS, sdS, cl, ed, du, pd, cmd, out, inn, eon, ca⟩)))
        = (optTruthy o).map (fun u => u) →
      (mapGetTruthy K (attrMap (renderAttrs (writeDateRangeAttrs
        ⟨idS, sdS, cl, ed, du, pd, cmd, out, inn, eon, ca⟩)))).map String.mk = o := by
    intro K o hcan hget
    cases o with
    | none => rw [mapGetTruthy_of_get_none (by rw [hget]; rfl)]; rfl
    | some s =>
      have hs := canonBareStr_spec s hcan
      rw [mapGetTruthy_of_get_some
        (by rw [hget, optTruthy_canon s hs.2.2.2.2.2]; rfl) hs.2.2.2.2.2]
      simp [string_mk_data]
  have hCLf := quotedFieldD "CLASS".data cl hcl hCL
  have hCMDf := bareFieldD "SCTE35-CMD".data cmd hcmd hCMD
  have hOUTf := bareFieldD "SCTE35-OUT".data out hout hOUT
  have hINNf := bareFieldD "SCTE35-IN".data inn hinn hINN
  have hEDf : (mapGetTruthy "END-DATE".data (attrMap (renderAttrs (writeDateRangeAttrs
      ⟨idS, sdS, cl, ed, du, pd, cmd, out, inn, eon, ca⟩)))).map String.mk = ed := by
    cases ed with
    | none => rw [mapGetTruthy_of_get_none (by rw [hED]; rfl)]; rfl
    | some e =>
      have hse := canonQuotedStr_spec e hed
      rw [mapGetTruthy_of_get_some (by rw [hED]; rfl) hse.2.2.2]
      simp [string_mk_data]
  have hDUf : (mapGetTruthy "DURATION".data (attrMap (renderAttrs (writeDateRangeAttrs
      ⟨idS, sdS, cl, ed, du, pd, cmd, out, inn, eon, ca⟩)))).map
        (fun v => (parseFloatJS v).getD 0) = du := by
    cases du with
    | none => rw [mapGetTruthy_of_get_none (by rw [hDU]; rfl)]; rfl
    | some q =>
      rw [mapGetTruthy_of_get_some (by rw [hDU]; rfl)
        (isEmpty_false_of_ne_nil (qToChars_bare_ok q).1)]
      simp [parseFloatJS_qToChars q hdu]
  have hPDf : (mapGetTruthy "PLANNED-DURATION".data (attrMap (renderAttrs
      (writeDateRangeAttrs ⟨idS, sdS, cl, ed, du, pd, cmd, out, inn, eon, ca⟩)))).map
        (fun v => (parseFloatJS v).getD 0) = pd := by
    cases pd with
    | none => rw [mapGetTruthy_of_get_none (by rw [hPD]; rfl)]; rfl
    | some q =>
      rw [mapGetTruthy_of_get_some (by rw [hPD]; rfl)
        (isEmpty_false_of_ne_nil (qToChars_bare_ok q).1)]
      simp [parseFloatJS_qToChars q hpd]
  have hEONf : (decide (mapGet "END-ON-NEXT".data (attrMap (renderAttrs (writeDateRangeAttrs
      ⟨idS, sdS, cl, ed, du, pd, cmd, out, inn, eon, ca⟩))) = some "YES".data)) = eon := by
    rw [hEON]
    cases eon <;> simp
  have hCAf : ((attrMap (renderAttrs (writeDateRangeAttrs
      ⟨idS, sdS, cl, ed, du, pd, cmd, out, inn, eon, ca⟩))).filter
        (fun kv => startsWithChars kv.1 "X-".data)).map
      (fun kv => (String.mk kv.1,
        match parseFloatJS kv.2 with
        | some q => ClientAttrVal.num q
        | none => ClientAttrVal.str (String.mk kv.2))) = ca := by
    rw [hFILT, List.map_map]
    have hone : ∀ kv ∈ ca, ((fun kv => ((String.mk kv.1 : String),
        match parseFloatJS kv.2 with
        | some q => ClientAttrVal.num q
        | none => ClientAttrVal.str (String.mk kv.2))) ∘ (fun kv => ((kv.1.data : List Char),
          match kv.2 with
          | ClientAttrVal.str s => escapeQuotes s.data
          | ClientAttrVal.num q => qToChars q))) kv = kv := by
      intro kv hkv
      obtain ⟨hx1, hx2, hx3⟩ := canonClientAttr_spec kv (hca kv hkv)
      obtain ⟨k1, k2⟩ := kv
      cases k2 with
      | str s =>
        dsimp only at hx3
        obtain ⟨_, hqq, hpf⟩ := hx3
        simp only [Function.comp]
        rw [escapeQuotes_eq_self s.data hqq, hpf]
      | num q =>
        dsimp only at hx3
        simp only [Function.comp]
        rw [parseFloatJS_qToChars q hx3]
    rw [List.map_congr_left hone]
    simp
  simp only [parseDateRangeM, hIDT, hSDT, except_pure_bind, hCLf, hEDf, hDUf, hPDf,
    hCMDf, hOUTf, hINNf, hEONf, hCAf, string_mk_data]
  rfl

/-- `trimZeroSuffix` keeps only characters of the input. -/
theorem trimZeroSuffix_subset : ∀ l : List Char, ∀ c ∈ trimZeroSuffix l, c ∈ l := by
  intro l
  induction l with
  | nil => intro c hc; rw [trimZeroSuffix] at hc; exact absurd hc (by simp)
  | cons a as ih =>
    intro c hc
    rw [trimZeroSuffix] at hc
    by_cases hz : zeroSuffixAt (a :: as) = true
    · rw [ifb_pos hz] at hc
      exact absurd hc (by simp)
    · rw [ifb_neg (Bool.not_eq_true _ ▸ hz)] at hc
      rcases List.mem_cons.mp hc with hc | hc
      · exact hc ▸ List.mem_cons_self a as
      · exact List.mem_cons_of_mem a (ih c hc)

/-- Characters of a formatted duration. -/
theorem formatDuration_chars (q : ℚ) (h : 0 ≤ q) :
    ∀ c ∈ formatDuration q, isDigitChar c = true ∨ c = '.' := by
  intro c hc
  simp only [formatDuration] at hc
  obtain ⟨_, hidig, _, _, _⟩ := natToChars_spec ((⌊|q| * 1000 + 1 / 2⌋).toNat / 1000)
  obtain ⟨_, hfdig, _, _, _⟩ := natToChars_spec ((⌊|q| * 1000 + 1 / 2⌋).toNat % 1000)
  have htf : ∀ c ∈ toFixed3 q, isDigitChar c = true ∨ c = '.' := by
    intro x hx
    simp only [toFixed3, if_neg (not_lt.mpr h)] at hx
    rw [List.nil_append] at hx
    rcases List.mem_append.mp hx with hx | hx
    · exact Or.inl (hidig x hx)
    · rcases List.mem_cons.mp hx with hx | hx
      · exact Or.inr hx
      · exact Or.inl (padLeftZeros_digits 3 _ hfdig x hx)
  split at hc
  · rw [List.mem_singleton] at hc
    subst hc
    exact Or.inl (by decide)
  · exact htf c (trimZeroSuffix_subset _ c hc)

/-- A formatted duration is nonempty. -/
theorem formatDuration_ne_nil (q : ℚ) : formatDuration q ≠ [] := by
  simp only [formatDuration]
  split
  · simp
  · next hcond =>
    intro he
    rw [he] at hcond
    exact hcond rfl

/-- The `#EXTINF` regex on a written duration and title tail. -/
theorem extinfMatch_roundtrip (q : ℚ) (h0 : 0 ≤ q) (tl : List Char) :
    extinfMatch (formatDuration q ++ ',' :: tl) = some (formatDuration q, some tl) := by
  have e1 : (formatDuration q ++ ',' :: tl).takeWhile (fun c => isDigitChar c || c = '.')
      = formatDuration q := by
    refine takeWhile_append_stop _ _ ?_ ?_
    · intro c hc
      rcases formatDuration_chars q h0 c hc with h | h
      · simp [h]
      · simp [h]
    · intro x hx
      injection hx with hx
      subst hx
      decide
  have e2 : (formatDuration q ++ ',' :: tl).drop (formatDuration q).length = ',' :: tl :=
    List.drop_left _ _
  simp only [extinfMatch, e1, e2, isEmpty_false_of_ne_nil (formatDuration_ne_nil q)]
  rfl

/-- A trim-stable nonempty string has non-whitespace edges. -/
theorem trimStable_spec (l : List Char) (h : trimChars l = l) :
    (∀ c, l.head? = some c → isWsChar c = false) ∧
    (∀ c, l.getLast? = some c → isWsChar c = false) := by
  constructor
  · intro c hc
    by_contra hws
    rw [Bool.not_eq_false] at hws
    cases l with
    | nil => exact Option.noConfusion hc
    | cons a as =>
      injection hc with hc
      rw [← hc] at hws
      have e1 : (a :: as).dropWhile isWsChar = as.dropWhile isWsChar := by
        rw [List.dropWhile_cons, if_pos hws]
      have hlen : (trimChars (a :: as)).length < (a :: as).length := by
        unfold trimChars
        rw [e1]
        have l2 : (as.dropWhile isWsChar).length ≤ as.length :=
          (List.dropWhile_suffix _).length_le
        have l3 : ((as.dropWhile isWsChar).reverse.dropWhile isWsChar).length
            ≤ (as.dropWhile isWsChar).reverse.length :=
          (List.dropWhile_suffix _).length_le
        rw [List.length_reverse] at l3
        rw [List.length_reverse, List.length_cons]
        omega
      rw [h] at hlen
      omega
  · intro c hc
    by_contra hws
    rw [Bool.not_eq_false] at hws
    have hlen := congrArg List.length h
    unfold trimChars at hlen
    rw [List.length_reverse] at hlen
    have l2 : (l.dropWhile isWsChar).length ≤ l.length :=
      (List.dropWhile_suffix _).length_le
    have l3 : ((l.dropWhile isWsChar).reverse.dropWhile isWsChar).length
        ≤ (l.dropWhile isWsChar).reverse.length :=
      (List.dropWhile_suffix _).length_le
    rw [List.length_reverse] at l3
    have hXlen : (l.dropWhile isWsChar).length = l.length := by omega
    have hX : l.dropWhile isWsChar = l :=
      (List.dropWhile_suffix isWsChar).eq_of_length hXlen
    rw [hX] at hlen
    have hrev : l.reverse.head? = some c := by
      rw [List.head?_reverse]
      exact hc
    cases hr : l.reverse with
    | nil =>
      rw [hr] at hrev
      exact Option.noConfusion hrev
    | cons a as =>
      rw [hr] at hrev
      injection hrev with hrev
      rw [← hrev] at hws
      rw [hr, List.dropWhile_cons, if_pos hws] at hlen
      have l4 : (as.dropWhile isWsChar).length ≤ as.length :=
        (List.dropWhile_suffix _).length_le
      have hlr := congrArg List.length hr
      rw [List.length_reverse, List.length_cons] at hlr
      omega

/-- The last character of a rendered attribute list is not whitespace. -/
theorem renderAttrs_last_not_ws : ∀ (l : List (List Char × AttrForm)),
    (∀ a ∈ l, (match a.2 with
      | AttrForm.quoted _ => True
      | AttrForm.bare v => ∀ c, v.getLast? = some c → isWsChar c = false)) →
    ∀ c, (renderAttrs l).getLast? = some c → isWsChar c = false := by
  intro l
  induction l with
  | nil => intro _ c hc; exact Option.noConfusion hc
  | cons a rest ih =>
    intro hwf c hc
    have ha := hwf a (List.mem_cons_self a rest)
    cases rest with
    | nil =>
      rw [show renderAttrs [a] = renderAttr a from by simp [renderAttrs]] at hc
      obtain ⟨ak, af⟩ := a
      cases af with
      | quoted v =>
        rw [show renderAttr (ak, AttrForm.quoted v) = (ak ++ '=' :: '"' :: v) ++ ['"']
            from by simp [renderAttr, List.append_assoc]] at hc
        rw [List.getLast?_append,
          show ((['"'] : List Char).getLast?).or ((ak ++ '=' :: '"' :: v).getLast?)
            = some '"' from rfl] at hc
        injection hc with hc
        rw [← hc]
        decide
      | bare v =>
        cases hv : v with
        | nil =>
          rw [show renderAttr (ak, AttrForm.bare v) = ak ++ ['='] ++ v from by
            simp [renderAttr, List.append_assoc], hv, List.append_nil,
            List.getLast?_append,
            show ((['='] : List Char).getLast?).or (ak.getLast?) = some '=' from rfl] at hc
          injection hc with hc
          rw [← hc]
          decide
        | cons v0 vs =>
          rw [show renderAttr (ak, AttrForm.bare v) = (ak ++ ['=']) ++ v from by
            simp [renderAttr, List.append_assoc], List.getLast?_append] at hc
          obtain ⟨lc, hlc⟩ : ∃ lc, v.getLast? = some lc := by
            rw [hv]
            exact ⟨(v0 :: vs).getLast (by simp), List.getLast?_eq_getLast _ (by simp)⟩
          rw [hlc, show (some lc).or ((ak ++ ['=']).getLast?) = some lc from rfl] at hc
          injection hc with hc
          rw [← hc]
          exact ha lc hlc
    | cons b bs =>
      rw [show renderAttrs (a :: b :: bs) = (renderAttr a ++ [',']) ++ renderAttrs (b :: bs)
          from by simp [renderAttrs, List.append_assoc], List.getLast?_append] at hc
      cases hR : renderAttrs (b :: bs) with
      | nil =>
        rw [hR, show (([] : List Char).getLast?).or ((renderAttr a ++ [',']).getLast?)
          = (renderAttr a ++ [',']).getLast? from rfl, List.getLast?_append,
          show (([','] : List Char).getLast?).or ((renderAttr a).getLast?)
            = some ',' from rfl] at hc
        injection hc with hc
        rw [← hc]
        decide
      | cons r rs =>
        obtain ⟨lc, hlc⟩ : ∃ lc, (renderAttrs (b :: bs)).getLast? = some lc := by
          rw [hR]
          exact ⟨(r :: rs).getLast (by simp), List.getLast?_eq_getLast _ (by simp)⟩
        rw [hlc, show (some lc).or ((renderAttr a ++ [',']).getLast?) = some lc from rfl] at hc
        injection hc with hc
        rw [← hc]
        exact ih (fun x hx => hwf x (List.mem_cons_of_mem a hx)) lc hlc

/-! ### C7 layer 5: line splitting and joining -/

/-- `splitLinesAux` pushes a non-newline character onto the accumulator. -/
theorem splitLinesAux_cons_ne (acc rest : List Char) (c : Char) (hc : ¬ c = '\n') :
    splitLinesAux acc (c :: rest) = splitLinesAux (c :: acc) rest := by
  conv_lhs => rw [splitLinesAux.eq_def]
  split
  · rename_i heq
    exact absurd heq (by simp)
  · rename_i heq
    injection heq with h1 _
    exact absurd h1 hc
  · rename_i heq
    injection heq with h1 h2
    rw [h1, h2]

/-- `splitLinesAux` flushes at a newline; no CR is eaten when the previous
character (the accumulator's head) is not a CR. -/
theorem splitLinesAux_newline_flush (acc rest : List Char)
    (h : ∀ c, acc.head? = some c → c ≠ '\r') :
    splitLinesAux acc ('\n' :: rest) = acc.reverse :: splitLinesAux [] rest := by
  cases acc with
  | nil => rfl
  | cons a as =>
    have ha : a ≠ '\r' := h a rfl
    conv_lhs => rw [splitLinesAux.eq_def]
    split
    · rename_i heq
      exact absurd heq (by simp)
    · rename_i heq
      injection heq with _ h2
      rw [h2]
      congr 1
      split
      · rename_i heq2
        injection heq2 with h3 _
        exact absurd h3 ha
      · rfl
    · rename_i hne heq
      injection heq with h1 _
      exact absurd h1.symm hne

/-- `splitLinesAux` consumes a newline-free prefix into the accumulator. -/
theorem splitLinesAux_push : ∀ (l : List Char), (∀ c ∈ l, c ≠ '\n') →
    ∀ (acc rest : List Char),
      splitLinesAux acc (l ++ rest) = splitLinesAux (l.reverse ++ acc) rest
  | [], _, acc, rest => rfl
  | c :: cs, h, acc, rest => by
    rw [List.cons_append,
      splitLinesAux_cons_ne acc (cs ++ rest) c (h c (List.mem_cons_self c cs)),
      splitLinesAux_push cs (fun x hx => h x (List.mem_cons_of_mem c hx)) (c :: acc) rest]
    congr 1
    simp

/-- Splitting the writer's join of newline-free, non-CR-terminated lines
recovers the lines, plus the empty line after the final `'\n'`. -/
theorem splitLines_joinLines : ∀ (L : List (List Char)), L ≠ [] →
    (∀ l ∈ L, (∀ c ∈ l, c ≠ '\n') ∧ (∀ c, l.getLast? = some c → c ≠ '\r')) →
    splitLines (joinLines L) = L ++ [[]]
  | [], h, _ => absurd rfl h
  | [l], _, hg => by
    have hl := hg l (List.mem_cons_self l [])
    rw [joinLines, splitLines,
      splitLinesAux_push l hl.1 [] ['\n'],
      List.append_nil,
      splitLinesAux_newline_flush l.reverse [] (fun c hc =>
        hl.2 c (by rwa [List.head?_reverse] at hc))]
    simp [splitLinesAux]
  | l :: l2 :: rest, _, hg => by
    have hl := hg l (List.mem_cons_self l (l2 :: rest))
    have hjoin : joinLines (l :: l2 :: rest) = l ++ '\n' :: joinLines (l2 :: rest) := rfl
    rw [hjoin, splitLines,
      splitLinesAux_push l hl.1 [] ('\n' :: joinLines (l2 :: rest)),
      List.append_nil,
      splitLinesAux_newline_flush l.reverse _ (fun c hc =>
        hl.2 c (by rwa [List.head?_reverse] at hc)),
      List.reverse_reverse]
    have ih := splitLines_joinLines (l2 :: rest) (by simp)
      (fun x hx => hg x (List.mem_cons_of_mem l hx))
    rw [splitLines] at ih
    rw [ih]
    rfl

/-- Every character of a rendered attribute list is an attribute-name
character, a value character, or one of `=`, `"`, `,`. -/
theorem renderAttrs_no_nl : ∀ (l : List (List Char × AttrForm)),
    (∀ a ∈ l, (∀ c ∈ a.1, c ≠ '\n') ∧
      (∀ v, (a.2 = AttrForm.quoted v ∨ a.2 = AttrForm.bare v) → ∀ c ∈ v, c ≠ '\n')) →
    ∀ c ∈ renderAttrs l, c ≠ '\n' := by
  intro l
  induction l with
  | nil =>
    intro _ c hc
    simp [renderAttrs] at hc
  | cons a rest ih =>
    intro h c hc
    have ha := h a (List.mem_cons_self a rest)
    have hra : ∀ c ∈ renderAttr a, c ≠ '\n' := by
      obtain ⟨ak, af⟩ := a
      cases af with
      | quoted v =>
        intro c hc
        simp only [renderAttr, List.mem_append, List.mem_cons,
          List.mem_singleton, List.not_mem_nil, or_false] at hc
        rcases hc with (h1 | h1 | h1 | h1) | h1
        · exact ha.1 c h1
        · subst h1; decide
        · subst h1; decide
        · exact ha.2 v (Or.inl rfl) c h1
        · subst h1; decide
      | bare v =>
        intro c hc
        simp only [renderAttr, List.mem_append, List.mem_cons] at hc
        rcases hc with h1 | h1 | h1
        · exact ha.1 c h1
        · subst h1; decide
        · exact ha.2 v (Or.inr rfl) c h1
    cases rest with
    | nil =>
      rw [show renderAttrs [a] = renderAttr a from rfl] at hc
      exact hra c hc
    | cons b bs =>
      rw [show renderAttrs (a :: b :: bs) = renderAttr a ++ ',' :: renderAttrs (b :: bs)
        from rfl] at hc
      simp only [List.mem_append, List.mem_cons] at hc
      rcases hc with h1 | h1 | h1
      · exact hra c h1
      · subst h1; decide
      · exact ih (fun x hx => h x (List.mem_cons_of_mem a hx)) c h1

/-- A blank line is skipped by the parser loop. -/
theorem parseMediaLine_blank (ln : Nat) (st : MediaParseSt) :
    parseMediaLine ln [] st = pure st := rfl

/-- A bind out of `Except.ok` applies the continuation. -/
theorem except_ok_bind {α β : Type} (a : α) (f : α → Except PErr β) :
    ((Except.ok a : Except PErr α) >>= f) = f a := rfl

/-- The parser's line fold splits over list append. -/
theorem parseMediaLines_append : ∀ (xs ys : List (List Char)) (ln : Nat) (st : MediaParseSt),
    parseMediaLines (xs ++ ys) ln st =
      (parseMediaLines xs ln st) >>= (fun st2 => parseMediaLines ys (ln + xs.length) st2)
  | [], ys, ln, st => by
    rw [List.nil_append, parseMediaLines, except_pure_bind, List.length_nil, Nat.add_zero]
  | x :: xs, ys, ln, st => by
    rw [List.cons_append, parseMediaLines, parseMediaLines]
    cases h : parseMediaLine ln (trimChars x) st with
    | error e => rfl
    | ok st1 =>
      rw [except_ok_bind, except_ok_bind,
        parseMediaLines_append xs ys (ln + 1) st1, List.length_cons,
        show ln + 1 + xs.length = ln + (xs.length + 1) from by omega]

/-! ### C7 layer 6: single-line dispatch of `parseMediaLine` -/

/-- The `#EXTM3U` line is skipped. -/
theorem pml_m3u (ln : Nat) (st : MediaParseSt) :
    parseMediaLine ln "#EXTM3U".data st = pure st := rfl

/-- Dispatch of an `#EXT-X-VERSION:` line. -/
theorem pml_version (ln : Nat) (st : MediaParseSt) (p : List Char) :
    parseMediaLine ln ("#EXT-X-VERSION:".data ++ p) st =
      pure { st with playlist := { st.playlist with version := (parseIntJS p).getD 0 } } := by
  have hnil : ("#EXT-X-VERSION:".data ++ p : List Char) ≠ [] := by simp
  have hM : ("#EXT-X-VERSION:".data ++ p : List Char) ≠ "#EXTM3U".data :=
    take_append_ne _ _ _ (by decide)
  have hdrop : ("#EXT-X-VERSION:".data ++ p).drop 15 = p := by
    rw [show (15 : ℕ) = ("#EXT-X-VERSION:".data : List Char).length from rfl, List.drop_left]
  simp only [parseMediaLine, hnil, hM, decide_False, Bool.or_self, Bool.false_eq_true,
    if_false, startsWith_append_self, if_true, hdrop]

/-- Dispatch of an `#EXT-X-TARGETDURATION:` line. -/
theorem pml_targetduration (ln : Nat) (st : MediaParseSt) (p : List Char) :
    parseMediaLine ln ("#EXT-X-TARGETDURATION:".data ++ p) st =
      pure { st with playlist :=
        { st.playlist with targetDuration := (parseIntJS p).getD 0 } } := by
  have hnil : ("#EXT-X-TARGETDURATION:".data ++ p : List Char) ≠ [] := by simp
  have hM : ("#EXT-X-TARGETDURATION:".data ++ p : List Char) ≠ "#EXTM3U".data :=
    take_append_ne _ _ _ (by decide)
  have h1 : startsWithChars ("#EXT-X-TARGETDURATION:".data ++ p) "#EXT-X-VERSION:".data
      = false := startsWith_append_false _ _ _ (by decide)
  have hdrop : ("#EXT-X-TARGETDURATION:".data ++ p).drop 22 = p := by
    rw [show (22 : ℕ) = ("#EXT-X-TARGETDURATION:".data : List Char).length from rfl,
      List.drop_left]
  simp only [parseMediaLine, hnil, hM, decide_False, Bool.or_self, Bool.false_eq_true,
    if_false, h1, startsWith_append_self, if_true, hdrop]

/-- Dispatch of an `#EXT-X-MEDIA-SEQUENCE:` line. -/
theorem pml_mediasequence (ln : Nat) (st : MediaParseSt) (p : List Char) :
    parseMediaLine ln ("#EXT-X-MEDIA-SEQUENCE:".data ++ p) st =
      pure { st with playlist :=
        { st.playlist with mediaSequence := (parseIntJS p).getD 0 } } := by
  have hnil : ("#EXT-X-MEDIA-SEQUENCE:".data ++ p : List Char) ≠ [] := by simp
  have hM : ("#EXT-X-MEDIA-SEQUENCE:".data ++ p : List Char) ≠ "#EXTM3U".data :=
    take_append_ne _ _ _ (by decide)
  have h1 : startsWithChars ("#EXT-X-MEDIA-SEQUENCE:".data ++ p) "#EXT-X-VERSION:".data
      = false := startsWith_append_false _ _ _ (by decide)
  have h2 : startsWithChars ("#EXT-X-MEDIA-SEQUENCE:".data ++ p) "#EXT-X-TARGETDURATION:".data
      = false := startsWith_append_false _ _ _ (by decide)
  have hdrop : ("#EXT-X-MEDIA-SEQUENCE:".data ++ p).drop 22 = p := by
    rw [show (22 : ℕ) = ("#EXT-X-MEDIA-SEQUENCE:".data : List Char).length from rfl,
      List.drop_left]
  simp only [parseMediaLine, hnil, hM, decide_False, Bool.or_self, Bool.false_eq_true,
    if_false, h1, h2, startsWith_append_self, if_true, hdrop]

/-- Dispatch of an `#EXT-X-DISCONTINUITY-SEQUENCE:` line. -/
theorem pml_discseq (ln : Nat) (st : MediaParseSt) (p : List Char) :
    parseMediaLine ln ("#EXT-X-DISCONTINUITY-SEQUENCE:".data ++ p) st =
      pure { st with playlist :=
        { st.playlist with discontinuitySequence := some ((parseIntJS p).getD 0) } } := by
  have hnil : ("#EXT-X-DISCONTINUITY-SEQUENCE:".data ++ p : List Char) ≠ [] := by simp
  have hM : ("#EXT-X-DISCONTINUITY-SEQUENCE:".data ++ p : List Char) ≠ "#EXTM3U".data :=
    take_append_ne _ _ _ (by decide)
  have h1 : startsWithChars ("#EXT-X-DISCONTINUITY-SEQUENCE:".data ++ p)
      "#EXT-X-VERSION:".data = false := startsWith_append_false _ _ _ (by decide)
  have h2 : startsWithChars ("#EXT-X-DISCONTINUITY-SEQUENCE:".data ++ p)
      "#EXT-X-TARGETDURATION:".data = false := startsWith_append_false _ _ _ (by decide)
  have h3 : startsWithChars ("#EXT-X-DISCONTINUITY-SEQUENCE:".data ++ p)
      "#EXT-X-MEDIA-SEQUENCE:".data = false := startsWith_append_false _ _ _ (by decide)
  have hdrop : ("#EXT-X-DISCONTINUITY-SEQUENCE:".data ++ p).drop 30 = p := by
    rw [show (30 : ℕ) = ("#EXT-X-DISCONTINUITY-SEQUENCE:".data : List Char).length from rfl,
      List.drop_left]
  simp only [parseMediaLine, hnil, hM, decide_False, Bool.or_self, Bool.false_eq_true,
    if_false, h1, h2, h3, startsWith_append_self, if_true, hdrop]

/-- Dispatch of an `#EXT-X-PLAYLIST-TYPE:` line written from a playlist type. -/
theorem pml_playlisttype (ln : Nat) (st : MediaParseSt) (t : PlaylistType) :
    parseMediaLine ln ("#EXT-X-PLAYLIST-TYPE:".data ++ t.chars) st =
      pure { st with playlist := { st.playlist with playlistType := some t } } := by
  cases t <;> rfl

/-- Dispatch of the `#EXT-X-INDEPENDENT-SEGMENTS` line. -/
theorem pml_independent (ln : Nat) (st : MediaParseSt) :
    parseMediaLine ln "#EXT-X-INDEPENDENT-SEGMENTS".data st =
      pure { st with playlist := { st.playlist with independentSegments := true } } := rfl

/-- Dispatch of the `#EXT-X-ENDLIST` line. -/
theorem pml_endlist (ln : Nat) (st : MediaParseSt) :
    parseMediaLine ln "#EXT-X-ENDLIST".data st =
      pure { st with playlist := { st.playlist with endList := true } } := rfl

/-- Dispatch of the `#EXT-X-I-FRAMES-ONLY` line. -/
theorem pml_iframes (ln : Nat) (st : MediaParseSt) :
    parseMediaLine ln "#EXT-X-I-FRAMES-ONLY".data st =
      pure { st with playlist := { st.playlist with iFramesOnly := true } } := rfl

/-- Dispatch of an `#EXTINF:` line with a non-empty title. -/
theorem pml_extinf_title (ln : Nat) (st : MediaParseSt) (q : ℚ) (tl : List Char)
    (hq : canonDuration q = true) (ht : tl ≠ []) :
    parseMediaLine ln ("#EXTINF:".data ++ (formatDuration q ++ ',' :: tl)) st =
      pure { st with pending :=
        { st.pending with duration := some q, title := some (String.mk tl) } } := by
  have h0 : 0 ≤ q := by
    have hq2 := hq
    simp only [canonDuration, Bool.and_eq_true, decide_eq_true_eq] at hq2
    exact hq2.1
  have hnil : ("#EXTINF:".data ++ (formatDuration q ++ ',' :: tl) : List Char) ≠ [] := by simp
  have hM : ("#EXTINF:".data ++ (formatDuration q ++ ',' :: tl) : List Char) ≠ "#EXTM3U".data :=
    take_append_ne _ _ _ (by decide)
  have h1 : startsWithChars ("#EXTINF:".data ++ (formatDuration q ++ ',' :: tl))
      "#EXT-X-VERSION:".data = false := startsWith_append_false _ _ _ (by decide)
  have h2 : startsWithChars ("#EXTINF:".data ++ (formatDuration q ++ ',' :: tl))
      "#EXT-X-TARGETDURATION:".data = false := startsWith_append_false _ _ _ (by decide)
  have h3 : startsWithChars ("#EXTINF:".data ++ (formatDuration q ++ ',' :: tl))
      "#EXT-X-MEDIA-SEQUENCE:".data = false := startsWith_append_false _ _ _ (by decide)
  have h4 : startsWithChars ("#EXTINF:".data ++ (formatDuration q ++ ',' :: tl))
      "#EXT-X-DISCONTINUITY-SEQUENCE:".data = false := startsWith_append_false _ _ _ (by decide)
  have h5 : startsWithChars ("#EXTINF:".data ++ (formatDuration q ++ ',' :: tl))
      "#EXT-X-PLAYLIST-TYPE:".data = false := startsWith_append_false _ _ _ (by decide)
  have h6 : startsWithChars ("#EXTINF:".data ++ (formatDuration q ++ ',' :: tl))
      "#EXT-X-INDEPENDENT-SEGMENTS".data = false := startsWith_append_false _ _ _ (by decide)
  have h7 : ("#EXTINF:".data ++ (formatDuration q ++ ',' :: tl) : List Char) ≠ "#EXT-X-ENDLIST".data :=
    take_append_ne _ _ _ (by decide)
  have h8 : ("#EXTINF:".data ++ (formatDuration q ++ ',' :: tl) : List Char) ≠ "#EXT-X-I-FRAMES-ONLY".data :=
    take_append_ne _ _ _ (by decide)
  have hdrop : ("#EXTINF:".data ++ (formatDuration q ++ ',' :: tl)).drop 8 = (formatDuration q ++ ',' :: tl) := by
    rw [show (8 : ℕ) = ("#EXTINF:".data : List Char).length from rfl, List.drop_left]
  simp only [parseMediaLine, hnil, hM, h1, h2, h3, h4, h5, h6, h7, h8, decide_False, Bool.or_self, Bool.false_eq_true, if_false, startsWith_append_self, if_true, hdrop, extinfMatch_roundtrip q h0 tl, parseFloatJS_formatDuration q hq, isEmpty_false_of_ne_nil ht]

/-- Dispatch of an `#EXTINF:` line with the writer's bare trailing comma. -/
theorem pml_extinf_notitle (ln : Nat) (st : MediaParseSt) (q : ℚ)
    (hq : canonDuration q = true) :
    parseMediaLine ln ("#EXTINF:".data ++ (formatDuration q ++ [','])) st =
      pure { st with pending := { st.pending with duration := some q } } := by
  have h0 : 0 ≤ q := by
    have hq2 := hq
    simp only [canonDuration, Bool.and_eq_true, decide_eq_true_eq] at hq2
    exact hq2.1
  have hnil : ("#EXTINF:".data ++ (formatDuration q ++ [',']) : List Char) ≠ [] := by simp
  have hM : ("#EXTINF:".data ++ (formatDuration q ++ [',']) : List Char) ≠ "#EXTM3U".data :=
    take_append_ne _ _ _ (by decide)
  have h1 : startsWithChars ("#EXTINF:".data ++ (formatDuration q ++ [',']))
      "#EXT-X-VERSION:".data = false := startsWith_append_false _ _ _ (by decide)
  have h2 : startsWithChars ("#EXTINF:".data ++ (formatDuration q ++ [',']))
      "#EXT-X-TARGETDURATION:".data = false := startsWith_append_false _ _ _ (by decide)
  have h3 : startsWithChars ("#EXTINF:".data ++ (formatDuration q ++ [',']))
      "#EXT-X-MEDIA-SEQUENCE:".data = false := startsWith_append_false _ _ _ (by decide)
  have h4 : startsWithChars ("#EXTINF:".data ++ (formatDuration q ++ [',']))
      "#EXT-X-DISCONTINUITY-SEQUENCE:".data = false := startsWith_append_false _ _ _ (by decide)
  have h5 : startsWithChars ("#EXTINF:".data ++ (formatDuration q ++ [',']))
      "#EXT-X-PLAYLIST-TYPE:".data = false := startsWith_append_false _ _ _ (by decide)
  have h6 : startsWithChars ("#EXTINF:".data ++ (formatDuration q ++ [',']))
      "#EXT-X-INDEPENDENT-SEGMENTS".data = false := startsWith_append_false _ _ _ (by decide)
  have h7 : ("#EXTINF:".data ++ (formatDuration q ++ [',']) : List Char) ≠ "#EXT-X-ENDLIST".data :=
    take_append_ne _ _ _ (by decide)
  have h8 : ("#EXTINF:".data ++ (formatDuration q ++ [',']) : List Char) ≠ "#EXT-X-I-FRAMES-ONLY".data :=
    take_append_ne _ _ _ (by decide)
  have hdrop : ("#EXTINF:".data ++ (formatDuration q ++ [','])).drop 8 = (formatDuration q ++ [',']) := by
    rw [show (8 : ℕ) = ("#EXTINF:".data : List Char).length from rfl, List.drop_left]
  simp only [parseMediaLine, hnil, hM, h1, h2, h3, h4, h5, h6, h7, h8, decide_False, Bool.or_self, Bool.false_eq_true, if_false, startsWith_append_self, if_true, hdrop, extinfMatch_roundtrip q h0 [], parseFloatJS_formatDuration q hq, List.isEmpty_nil]

/-- Dispatch of an `#EXT-X-BYTERANGE:` line with an explicit offset. -/
theorem pml_byterange (ln : Nat) (st : MediaParseSt) (len off : Int) :
    parseMediaLine ln ("#EXT-X-BYTERANGE:".data ++ (intToChars len ++ '@' :: intToChars off)) st =
      pure { st with pending :=
        { st.pending with byteRange := some { length := len, offset := some off } } } := by
  have hnil : ("#EXT-X-BYTERANGE:".data ++ (intToChars len ++ '@' :: intToChars off) : List Char) ≠ [] := by simp
  have hM : ("#EXT-X-BYTERANGE:".data ++ (intToChars len ++ '@' :: intToChars off) : List Char) ≠ "#EXTM3U".data :=
    take_append_ne _ _ _ (by decide)
  have h1 : startsWithChars ("#EXT-X-BYTERANGE:".data ++ (intToChars len ++ '@' :: intToChars off))
      "#EXT-X-VERSION:".data = false := startsWith_append_false _ _ _ (by decide)
  have h2 : startsWithChars ("#EXT-X-BYTERANGE:".data ++ (intToChars len ++ '@' :: intToChars off))
      "#EXT-X-TARGETDURATION:".data = false := startsWith_append_false _ _ _ (by decide)
  have h3 : startsWithChars ("#EXT-X-BYTERANGE:".data ++ (intToChars len ++ '@' :: intToChars off))
      "#EXT-X-MEDIA-SEQUENCE:".data = false := startsWith_append_false _ _ _ (by decide)
  have h4 : startsWithChars ("#EXT-X-BYTERANGE:".data ++ (intToChars len ++ '@' :: intToChars off))
      "#EXT-X-DISCONTINUITY-SEQUENCE:".data = false := startsWith_append_false _ _ _ (by decide)
  have h5 : startsWithChars ("#EXT-X-BYTERANGE:".data ++ (intToChars len ++ '@' :: intToChars off))
      "#EXT-X-PLAYLIST-TYPE:".data = false := startsWith_append_false _ _ _ (by decide)
  have h6 : startsWithChars ("#EXT-X-BYTERANGE:".data ++ (intToChars len ++ '@' :: intToChars off))
      "#EXT-X-INDEPENDENT-SEGMENTS".data = false := startsWith_append_false _ _ _ (by decide)
  have h7 : ("#EXT-X-BYTERANGE:".data ++ (intToChars len ++ '@' :: intToChars off) : List Char) ≠ "#EXT-X-ENDLIST".data :=
    take_append_ne _ _ _ (by decide)
  have h8 : ("#EXT-X-BYTERANGE:".data ++ (intToChars len ++ '@' :: intToChars off) : List Char) ≠ "#EXT-X-I-FRAMES-ONLY".data :=
    take_append_ne _ _ _ (by decide)
  have h9 : startsWithChars ("#EXT-X-BYTERANGE:".data ++ (intToChars len ++ '@' :: intToChars off))
      "#EXTINF:".data = false := startsWith_append_false _ _ _ (by decide)
  have hdrop : ("#EXT-X-BYTERANGE:".data ++ (intToChars len ++ '@' :: intToChars off)).drop 17 = (intToChars len ++ '@' :: intToChars off) := by
    rw [show (17 : ℕ) = ("#EXT-X-BYTERANGE:".data : List Char).length from rfl, List.drop_left]
  simp only [parseMediaLine, hnil, hM, h1, h2, h3, h4, h5, h6, h7, h8, h9, decide_False, Bool.or_self, Bool.false_eq_true, if_false, startsWith_append_self, if_true, hdrop, parseByteRangeM_roundtrip len off st.lastByteRangeEnd]

/-- Dispatch of the `#EXT-X-DISCONTINUITY` line. -/
theorem pml_discontinuity (ln : Nat) (st : MediaParseSt) :
    parseMediaLine ln "#EXT-X-DISCONTINUITY".data st =
      pure { st with pending := { st.pending with discontinuity := true } } := rfl

/-- Dispatch of the `#EXT-X-GAP` line. -/
theorem pml_gap (ln : Nat) (st : MediaParseSt) :
    parseMediaLine ln "#EXT-X-GAP".data st =
      pure { st with pending := { st.pending with gap := true } } := rfl

/-- Dispatch of the writer's `#EXT-X-KEY:METHOD=NONE` reset line. -/
theorem pml_key_none (ln : Nat) (st : MediaParseSt) :
    parseMediaLine ln "#EXT-X-KEY:METHOD=NONE".data st =
      pure { st with currentKey := some ⟨KeyMethod.none, none, none, none, none⟩ } := rfl

/-- Dispatch of an `#EXT-X-PROGRAM-DATE-TIME:` line. -/
theorem pml_pdt (ln : Nat) (st : MediaParseSt) (d : List Char) :
    parseMediaLine ln ("#EXT-X-PROGRAM-DATE-TIME:".data ++ d) st =
      pure { st with pending :=
        { st.pending with programDateTime := some (String.mk d) } } := by
  have hnil : ("#EXT-X-PROGRAM-DATE-TIME:".data ++ d : List Char) ≠ [] := by simp
  have hM : ("#EXT-X-PROGRAM-DATE-TIME:".data ++ d : List Char) ≠ "#EXTM3U".data :=
    take_append_ne _ _ _ (by decide)
  have h1 : startsWithChars ("#EXT-X-PROGRAM-DATE-TIME:".data ++ d)
      "#EXT-X-VERSION:".data = false := startsWith_append_false _ _ _ (by decide)
  have h2 : startsWithChars ("#EXT-X-PROGRAM-DATE-TIME:".data ++ d)
      "#EXT-X-TARGETDURATION:".data = false := startsWith_append_false _ _ _ (by decide)
  have h3 : startsWithChars ("#EXT-X-PROGRAM-DATE-TIME:".data ++ d)
      "#EXT-X-MEDIA-SEQUENCE:".data = false := startsWith_append_false _ _ _ (by decide)
  have h4 : startsWithChars ("#EXT-X-PROGRAM-DATE-TIME:".data ++ d)
      "#EXT-X-DISCONTINUITY-SEQUENCE:".data = false := startsWith_append_false _ _ _ (by decide)
  have h5 : startsWithChars ("#EXT-X-PROGRAM-DATE-TIME:".data ++ d)
      "#EXT-X-PLAYLIST-TYPE:".data = false := startsWith_append_false _ _ _ (by decide)
  have h6 : startsWithChars ("#EXT-X-PROGRAM-DATE-TIME:".data ++ d)
      "#EXT-X-INDEPENDENT-SEGMENTS".data = false := startsWith_append_false _ _ _ (by decide)
  have h7 : ("#EXT-X-PROGRAM-DATE-TIME:".data ++ d : List Char) ≠ "#EXT-X-ENDLIST".data :=
    take_append_ne _ _ _ (by decide)
  have h8 : ("#EXT-X-PROGRAM-DATE-TIME:".data ++ d : List Char) ≠ "#EXT-X-I-FRAMES-ONLY".data :=
    take_append_ne _ _ _ (by decide)
  have h9 : startsWithChars ("#EXT-X-PROGRAM-DATE-TIME:".data ++ d)
      "#EXTINF:".data = false := startsWith_append_false _ _ _ (by decide)
  have h10 : startsWithChars ("#EXT-X-PROGRAM-DATE-TIME:".data ++ d)
      "#EXT-X-BYTERANGE:".data = false := startsWith_append_false _ _ _ (by decide)
  have h11 : ("#EXT-X-PROGRAM-DATE-TIME:".data ++ d : List Char) ≠ "#EXT-X-DISCONTINUITY".data :=
    take_append_ne _ _ _ (by decide)
  have hdrop : ("#EXT-X-PROGRAM-DATE-TIME:".data ++ d).drop 25 = d := by
    rw [show (25 : ℕ) = ("#EXT-X-PROGRAM-DATE-TIME:".data : List Char).length from rfl, List.drop_left]
  simp only [parseMediaLine, hnil, hM, h1, h2, h3, h4, h5, h6, h7, h8, h9, h10, h11, decide_False, Bool.or_self, Bool.false_eq_true, if_false, startsWith_append_self, if_true, hdrop]

/-- Dispatch of a written `#EXT-X-KEY:` line. -/
theorem pml_key (ln : Nat) (st : MediaParseSt) (k : EncryptionKey)
    (hk : canonKey k = true) :
    parseMediaLine ln ("#EXT-X-KEY:".data ++ renderAttrs (writeKeyAttrs k)) st =
      pure { st with currentKey := some k } := by
  have hnil : ("#EXT-X-KEY:".data ++ renderAttrs (writeKeyAttrs k) : List Char) ≠ [] := by simp
  have hM : ("#EXT-X-KEY:".data ++ renderAttrs (writeKeyAttrs k) : List Char) ≠ "#EXTM3U".data :=
    take_append_ne _ _ _ (by decide)
  have h1 : startsWithChars ("#EXT-X-KEY:".data ++ renderAttrs (writeKeyAttrs k))
      "#EXT-X-VERSION:".data = false := startsWith_append_false _ _ _ (by decide)
  have h2 : startsWithChars ("#EXT-X-KEY:".data ++ renderAttrs (writeKeyAttrs k))
      "#EXT-X-TARGETDURATION:".data = false := startsWith_append_false _ _ _ (by decide)
  have h3 : startsWithChars ("#EXT-X-KEY:".data ++ renderAttrs (writeKeyAttrs k))
      "#EXT-X-MEDIA-SEQUENCE:".data = false := startsWith_append_false _ _ _ (by decide)
  have h4 : startsWithChars ("#EXT-X-KEY:".data ++ renderAttrs (writeKeyAttrs k))
      "#EXT-X-DISCONTINUITY-SEQUENCE:".data = false := startsWith_append_false _ _ _ (by decide)
  have h5 : startsWithChars ("#EXT-X-KEY:".data ++ renderAttrs (writeKeyAttrs k))
      "#EXT-X-PLAYLIST-TYPE:".data = false := startsWith_append_false _ _ _ (by decide)
  have h6 : startsWithChars ("#EXT-X-KEY:".data ++ renderAttrs (writeKeyAttrs k))
      "#EXT-X-INDEPENDENT-SEGMENTS".data = false := startsWith_append_false _ _ _ (by decide)
  have h7 : ("#EXT-X-KEY:".data ++ renderAttrs (writeKeyAttrs k) : List Char) ≠ "#EXT-X-ENDLIST".data :=
    take_append_ne _ _ _ (by decide)
  have h8 : ("#EXT-X-KEY:".data ++ renderAttrs (writeKeyAttrs k) : List Char) ≠ "#EXT-X-I-FRAMES-ONLY".data :=
    take_append_ne _ _ _ (by decide)
  have h9 : startsWithChars ("#EXT-X-KEY:".data ++ renderAttrs (writeKeyAttrs k))
      "#EXTINF:".data = false := startsWith_append_false _ _ _ (by decide)
  have h10 : startsWithChars ("#EXT-X-KEY:".data ++ renderAttrs (writeKeyAttrs k))
      "#EXT-X-BYTERANGE:".data = false := startsWith_append_false _ _ _ (by decide)
  have h11 : ("#EXT-X-KEY:".data ++ renderAttrs (writeKeyAttrs k) : List Char) ≠ "#EXT-X-DISCONTINUITY".data :=
    take_append_ne _ _ _ (by decide)
  have h12 : startsWithChars ("#EXT-X-KEY:".data ++ renderAttrs (writeKeyAttrs k))
      "#EXT-X-PROGRAM-DATE-TIME:".data = false := startsWith_append_false _ _ _ (by decide)
  have hdrop : ("#EXT-X-KEY:".data ++ renderAttrs (writeKeyAttrs k)).drop 11 = renderAttrs (writeKeyAttrs k) := by
    rw [show (11 : ℕ) = ("#EXT-X-KEY:".data : List Char).length from rfl, List.drop_left]
  simp only [parseMediaLine, hnil, hM, h1, h2, h3, h4, h5, h6, h7, h8, h9, h10, h11, h12, decide_False, Bool.or_self, Bool.false_eq_true, if_false, startsWith_append_self, if_true, hdrop, parseKeyM_roundtrip k hk ln, except_ok_bind]

/-- Dispatch of a written `#EXT-X-MAP:` line. -/
theorem pml_map (ln : Nat) (st : MediaParseSt) (m : InitSegment)
    (hm : canonMap m = true) :
    parseMediaLine ln ("#EXT-X-MAP:".data ++ renderAttrs (writeMapAttrs m)) st =
      pure { st with currentMap := some m } := by
  have hnil : ("#EXT-X-MAP:".data ++ renderAttrs (writeMapAttrs m) : List Char) ≠ [] := by simp
  have hM : ("#EXT-X-MAP:".data ++ renderAttrs (writeMapAttrs m) : List Char) ≠ "#EXTM3U".data :=
    take_append_ne _ _ _ (by decide)
  have h1 : startsWithChars ("#EXT-X-MAP:".data ++ renderAttrs (writeMapAttrs m))
      "#EXT-X-VERSION:".data = false := startsWith_append_false _ _ _ (by decide)
  have h2 : startsWithChars ("#EXT-X-MAP:".data ++ renderAttrs (writeMapAttrs m))
      "#EXT-X-TARGETDURATION:".data = false := startsWith_append_false _ _ _ (by decide)
  have h3 : startsWithChars ("#EXT-X-MAP:".data ++ renderAttrs (writeMapAttrs m))
      "#EXT-X-MEDIA-SEQUENCE:".data = false := startsWith_append_false _ _ _ (by decide)
  have h4 : startsWithChars ("#EXT-X-MAP:".data ++ renderAttrs (writeMapAttrs m))
      "#EXT-X-DISCONTINUITY-SEQUENCE:".data = false := startsWith_append_false _ _ _ (by decide)
  have h5 : startsWithChars ("#EXT-X-MAP:".data ++ renderAttrs (writeMapAttrs m))
      "#EXT-X-PLAYLIST-TYPE:".data = false := startsWith_append_false _ _ _ (by decide)
  have h6 : startsWithChars ("#EXT-X-MAP:".data ++ renderAttrs (writeMapAttrs m))
      "#EXT-X-INDEPENDENT-SEGMENTS".data = false := startsWith_append_false _ _ _ (by decide)
  have h7 : ("#EXT-X-MAP:".data ++ renderAttrs (writeMapAttrs m) : List Char) ≠ "#EXT-X-ENDLIST".data :=
    take_append_ne _ _ _ (by decide)
  have h8 : ("#EXT-X-MAP:".data ++ renderAttrs (writeMapAttrs m) : List Char) ≠ "#EXT-X-I-FRAMES-ONLY".data :=
    take_append_ne _ _ _ (by decide)
  have h9 : startsWithChars ("#EXT-X-MAP:".data ++ renderAttrs (writeMapAttrs m))
      "#EXTINF:".data = false := startsWith_append_false _ _ _ (by decide)
  have h10 : startsWithChars ("#EXT-X-MAP:".data ++ renderAttrs (writeMapAttrs m))
      "#EXT-X-BYTERANGE:".data = false := startsWith_append_false _ _ _ (by decide)
  have h11 : ("#EXT-X-MAP:".data ++ renderAttrs (writeMapAttrs m) : List Char) ≠ "#EXT-X-DISCONTINUITY".data :=
    take_append_ne _ _ _ (by decide)
  have h12 : startsWithChars ("#EXT-X-MAP:".data ++ renderAttrs (writeMapAttrs m))
      "#EXT-X-PROGRAM-DATE-TIME:".data = false := startsWith_append_false _ _ _ (by decide)
  have h13 : startsWithChars ("#EXT-X-MAP:".data ++ renderAttrs (writeMapAttrs m))
      "#EXT-X-KEY:".data = false := startsWith_append_false _ _ _ (by decide)
  have hdrop : ("#EXT-X-MAP:".data ++ renderAttrs (writeMapAttrs m)).drop 11 = renderAttrs (writeMapAttrs m) := by
    rw [show (11 : ℕ) = ("#EXT-X-MAP:".data : List Char).length from rfl, List.drop_left]
  simp only [parseMediaLine, hnil, hM, h1, h2, h3, h4, h5, h6, h7, h8, h9, h10, h11, h12, h13, decide_False, Bool.or_self, Bool.false_eq_true, if_false, startsWith_append_self, if_true, hdrop, parseMapM_roundtrip m hm ln, except_ok_bind]

/-- Dispatch of a written `#EXT-X-BITRATE:` line for a multiple of 1000. -/
theorem pml_bitrate (ln : Nat) (st : MediaParseSt) (b : Int) (hb : b % 1000 = 0) :
    parseMediaLine ln ("#EXT-X-BITRATE:".data ++ intToChars (roundJS ((b : ℚ) / 1000))) st =
      pure { st with pending := { st.pending with bitrate := some b } } := by
  obtain ⟨k, hk⟩ : ∃ k : Int, b = 1000 * k := ⟨b / 1000, by omega⟩
  have h1 : ((b : ℚ)) / 1000 = (k : ℚ) := by
    rw [hk]
    push_cast
    rw [mul_comm]
    exact mul_div_cancel_right₀ _ (by norm_num)
  have hval : roundJS ((b : ℚ) / 1000) * 1000 = b := by
    rw [roundJS, h1, floor_cast_add_half]
    omega
  have hnil : ("#EXT-X-BITRATE:".data ++ intToChars (roundJS ((b : ℚ) / 1000)) : List Char) ≠ [] := by simp
  have hM : ("#EXT-X-BITRATE:".data ++ intToChars (roundJS ((b : ℚ) / 1000)) : List Char) ≠ "#EXTM3U".data :=
    take_append_ne _ _ _ (by decide)
  have h1 : startsWithChars ("#EXT-X-BITRATE:".data ++ intToChars (roundJS ((b : ℚ) / 1000)))
      "#EXT-X-VERSION:".data = false := startsWith_append_false _ _ _ (by decide)
  have h2 : startsWithChars ("#EXT-X-BITRATE:".data ++ intToChars (roundJS ((b : ℚ) / 1000)))
      "#EXT-X-TARGETDURATION:".data = false := startsWith_append_false _ _ _ (by decide)
  have h3 : startsWithChars ("#EXT-X-BITRATE:".data ++ intToChars (roundJS ((b : ℚ) / 1000)))
      "#EXT-X-MEDIA-SEQUENCE:".data = false := startsWith_append_false _ _ _ (by decide)
  have h4 : startsWithChars ("#EXT-X-BITRATE:".data ++ intToChars (roundJS ((b : ℚ) / 1000)))
      "#EXT-X-DISCONTINUITY-SEQUENCE:".data = false := startsWith_append_false _ _ _ (by decide)
  have h5 : startsWithChars ("#EXT-X-BITRATE:".data ++ intToChars (roundJS ((b : ℚ) / 1000)))
      "#EXT-X-PLAYLIST-TYPE:".data = false := startsWith_append_false _ _ _ (by decide)
  have h6 : startsWithChars ("#EXT-X-BITRATE:".data ++ intToChars (roundJS ((b : ℚ) / 1000)))
      "#EXT-X-INDEPENDENT-SEGMENTS".data = false := startsWith_append_false _ _ _ (by decide)
  have h7 : ("#EXT-X-BITRATE:".data ++ intToChars (roundJS ((b : ℚ) / 1000)) : List Char) ≠ "#EXT-X-ENDLIST".data :=
    take_append_ne _ _ _ (by decide)
  have h8 : ("#EXT-X-BITRATE:".data ++ intToChars (roundJS ((b : ℚ) / 1000)) : List Char) ≠ "#EXT-X-I-FRAMES-ONLY".data :=
    take_append_ne _ _ _ (by decide)
  have h9 : startsWithChars ("#EXT-X-BITRATE:".data ++ intToChars (roundJS ((b : ℚ) / 1000)))
      "#EXTINF:".data = false := startsWith_append_false _ _ _ (by decide)
  have h10 : startsWithChars ("#EXT-X-BITRATE:".data ++ intToChars (roundJS ((b : ℚ) / 1000)))
      "#EXT-X-BYTERANGE:".data = false := startsWith_append_false _ _ _ (by decide)
  have h11 : ("#EXT-X-BITRATE:".data ++ intToChars (roundJS ((b : ℚ) / 1000)) : List Char) ≠ "#EXT-X-DISCONTINUITY".data :=
    take_append_ne _ _ _ (by decide)
  have h12 : startsWithChars ("#EXT-X-BITRATE:".data ++ intToChars (roundJS ((b : ℚ) / 1000)))
      "#EXT-X-PROGRAM-DATE-TIME:".data = false := startsWith_append_false _ _ _ (by decide)
  have h13 : startsWithChars ("#EXT-X-BITRATE:".data ++ intToChars (roundJS ((b : ℚ) / 1000)))
      "#EXT-X-KEY:".data = false := startsWith_append_false _ _ _ (by decide)
  have h14 : startsWithChars ("#EXT-X-BITRATE:".data ++ intToChars (roundJS ((b : ℚ) / 1000)))
      "#EXT-X-MAP:".data = false := startsWith_append_false _ _ _ (by decide)
  have h15 : ("#EXT-X-BITRATE:".data ++ intToChars (roundJS ((b : ℚ) / 1000)) : List Char) ≠ "#EXT-X-GAP".data :=
    take_append_ne _ _ _ (by decide)
  have hdrop : ("#EXT-X-BITRATE:".data ++ intToChars (roundJS ((b : ℚ) / 1000))).drop 15 = intToChars (roundJS ((b : ℚ) / 1000)) := by
    rw [show (15 : ℕ) = ("#EXT-X-BITRATE:".data : List Char).length from rfl, List.drop_left]
  simp only [parseMediaLine, hnil, hM, h1, h2, h3, h4, h5, h6, h7, h8, h9, h10, h11, h12, h13, h14, h15, decide_False, Bool.or_self, Bool.false_eq_true, if_false, startsWith_append_self, if_true, hdrop, parseIntJS_intToChars, Option.getD_some, hval]

/-- Dispatch of a written `#EXT-X-DATERANGE:` line. -/
theorem pml_daterange (ln : Nat) (st : MediaParseSt) (d : DateRange)
    (hd : canonDateRange d = true) :
    parseMediaLine ln ("#EXT-X-DATERANGE:".data ++ renderAttrs (writeDateRangeAttrs d)) st =
      pure { st with playlist :=
        { st.playlist with dateRanges := st.playlist.dateRanges ++ [d] } } := by
  have hnil : ("#EXT-X-DATERANGE:".data ++ renderAttrs (writeDateRangeAttrs d) : List Char) ≠ [] := by simp
  have hM : ("#EXT-X-DATERANGE:".data ++ renderAttrs (writeDateRangeAttrs d) : List Char) ≠ "#EXTM3U".data :=
    take_append_ne _ _ _ (by decide)
  have h1 : startsWithChars ("#EXT-X-DATERANGE:".data ++ renderAttrs (writeDateRangeAttrs d))
      "#EXT-X-VERSION:".data = false := startsWith_append_false _ _ _ (by decide)
  have h2 : startsWithChars ("#EXT-X-DATERANGE:".data ++ renderAttrs (writeDateRangeAttrs d))
      "#EXT-X-TARGETDURATION:".data = false := startsWith_append_false _ _ _ (by decide)
  have h3 : startsWithChars ("#EXT-X-DATERANGE:".data ++ renderAttrs (writeDateRangeAttrs d))
      "#EXT-X-MEDIA-SEQUENCE:".data = false := startsWith_append_false _ _ _ (by decide)
  have h4 : startsWithChars ("#EXT-X-DATERANGE:".data ++ renderAttrs (writeDateRangeAttrs d))
      "#EXT-X-DISCONTINUITY-SEQUENCE:".data = false := startsWith_append_false _ _ _ (by decide)
  have h5 : startsWithChars ("#EXT-X-DATERANGE:".data ++ renderAttrs (writeDateRangeAttrs d))
      "#EXT-X-PLAYLIST-TYPE:".data = false := startsWith_append_false _ _ _ (by decide)
  have h6 : startsWithChars ("#EXT-X-DATERANGE:".data ++ renderAttrs (writeDateRangeAttrs d))
      "#EXT-X-INDEPENDENT-SEGMENTS".data = false := startsWith_append_false _ _ _ (by decide)
  have h7 : ("#EXT-X-DATERANGE:".data ++ renderAttrs (writeDateRangeAttrs d) : List Char) ≠ "#EXT-X-ENDLIST".data :=
    take_append_ne _ _ _ (by decide)
  have h8 : ("#EXT-X-DATERANGE:".data ++ renderAttrs (writeDateRangeAttrs d) : List Char) ≠ "#EXT-X-I-FRAMES-ONLY".data :=
    take_append_ne _ _ _ (by decide)
  have h9 : startsWithChars ("#EXT-X-DATERANGE:".data ++ renderAttrs (writeDateRangeAttrs d))
      "#EXTINF:".data = false := startsWith_append_false _ _ _ (by decide)
  have h10 : startsWithChars ("#EXT-X-DATERANGE:".data ++ renderAttrs (writeDateRangeAttrs d))
      "#EXT-X-BYTERANGE:".data = false := startsWith_append_false _ _ _ (by decide)
  have h11 : ("#EXT-X-DATERANGE:".data ++ renderAttrs (writeDateRangeAttrs d) : List Char) ≠ "#EXT-X-DISCONTINUITY".data :=
    take_append_ne _ _ _ (by decide)
  have h12 : startsWithChars ("#EXT-X-DATERANGE:".data ++ renderAttrs (writeDateRangeAttrs d))
      "#EXT-X-PROGRAM-DATE-TIME:".data = false := startsWith_append_false _ _ _ (by decide)
  have h13 : startsWithChars ("#EXT-X-DATERANGE:".data ++ renderAttrs (writeDateRangeAttrs d))
      "#EXT-X-KEY:".data = false := startsWith_append_false _ _ _ (by decide)
  have h14 : startsWithChars ("#EXT-X-DATERANGE:".data ++ renderAttrs (writeDateRangeAttrs d))
      "#EXT-X-MAP:".data = false := startsWith_append_false _ _ _ (by decide)
  have h15 : ("#EXT-X-DATERANGE:".data ++ renderAttrs (writeDateRangeAttrs d) : List Char) ≠ "#EXT-X-GAP".data :=
    take_append_ne _ _ _ (by decide)
  have h16 : startsWithChars ("#EXT-X-DATERANGE:".data ++ renderAttrs (writeDateRangeAttrs d))
      "#EXT-X-BITRATE:".data = false := startsWith_append_false _ _ _ (by decide)
  have hdrop : ("#EXT-X-DATERANGE:".data ++ renderAttrs (writeDateRangeAttrs d)).drop 17 = renderAttrs (writeDateRangeAttrs d) := by
    rw [show (17 : ℕ) = ("#EXT-X-DATERANGE:".data : List Char).length from rfl, List.drop_left]
  simp only [parseMediaLine, hnil, hM, h1, h2, h3, h4, h5, h6, h7, h8, h9, h10, h11, h12, h13, h14, h15, h16, decide_False, Bool.or_self, Bool.false_eq_true, if_false, startsWith_append_self, if_true, hdrop, parseDateRangeM_roundtrip d hd ln, except_ok_bind]

/-- Dispatch of a written `#EXT-X-START:` line. -/
theorem pml_start (ln : Nat) (st : MediaParseSt) (so : StartOffset)
    (hso : canonQ so.timeOffset = true) :
    parseMediaLine ln ("#EXT-X-START:".data
      ++ (renderAttrs ([("TIME-OFFSET".data, .bare (qToChars so.timeOffset))]
        ++ if so.precise then [("PRECISE".data, .bare "YES".data)] else []))) st =
      pure { st with playlist := { st.playlist with start := some so } } := by
  have hnil : ("#EXT-X-START:".data ++ (renderAttrs ([("TIME-OFFSET".data, .bare (qToChars so.timeOffset))] ++ if so.precise then [("PRECISE".data, .bare "YES".data)] else [])) : List Char) ≠ [] := by simp
  have hM : ("#EXT-X-START:".data ++ (renderAttrs ([("TIME-OFFSET".data, .bare (qToChars so.timeOffset))] ++ if so.precise then [("PRECISE".data, .bare "YES".data)] else [])) : List Char) ≠ "#EXTM3U".data :=
    take_append_ne _ _ _ (by decide)
  have h1 : startsWithChars ("#EXT-X-START:".data ++ (renderAttrs ([("TIME-OFFSET".data, .bare (qToChars so.timeOffset))] ++ if so.precise then [("PRECISE".data, .bare "YES".data)] else [])))
      "#EXT-X-VERSION:".data = false := startsWith_append_false _ _ _ (by decide)
  have h2 : startsWithChars ("#EXT-X-START:".data ++ (renderAttrs ([("TIME-OFFSET".data, .bare (qToChars so.timeOffset))] ++ if so.precise then [("PRECISE".data, .bare "YES".data)] else [])))
      "#EXT-X-TARGETDURATION:".data = false := startsWith_append_false _ _ _ (by decide)
  have h3 : startsWithChars ("#EXT-X-START:".data ++ (renderAttrs ([("TIME-OFFSET".data, .bare (qToChars so.timeOffset))] ++ if so.precise then [("PRECISE".data, .bare "YES".data)] else [])))
      "#EXT-X-MEDIA-SEQUENCE:".data = false := startsWith_append_false _ _ _ (by decide)
  have h4 : startsWithChars ("#EXT-X-START:".data ++ (renderAttrs ([("TIME-OFFSET".data, .bare (qToChars so.timeOffset))] ++ if so.precise then [("PRECISE".data, .bare "YES".data)] else [])))
      "#EXT-X-DISCONTINUITY-SEQUENCE:".data = false := startsWith_append_false _ _ _ (by decide)
  have h5 : startsWithChars ("#EXT-X-START:".data ++ (renderAttrs ([("TIME-OFFSET".data, .bare (qToChars so.timeOffset))] ++ if so.precise then [("PRECISE".data, .bare "YES".data)] else [])))
      "#EXT-X-PLAYLIST-TYPE:".data = false := startsWith_append_false _ _ _ (by decide)
  have h6 : startsWithChars ("#EXT-X-START:".data ++ (renderAttrs ([("TIME-OFFSET".data, .bare (qToChars so.timeOffset))] ++ if so.precise then [("PRECISE".data, .bare "YES".data)] else [])))
      "#EXT-X-INDEPENDENT-SEGMENTS".data = false := startsWith_append_false _ _ _ (by decide)
  have h7 : ("#EXT-X-START:".data ++ (renderAttrs ([("TIME-OFFSET".data, .bare (qToChars so.timeOffset))] ++ if so.precise then [("PRECISE".data, .bare "YES".data)] else [])) : List Char) ≠ "#EXT-X-ENDLIST".data :=
    take_append_ne _ _ _ (by decide)
  have h8 : ("#EXT-X-START:".data ++ (renderAttrs ([("TIME-OFFSET".data, .bare (qToChars so.timeOffset))] ++ if so.precise then [("PRECISE".data, .bare "YES".data)] else [])) : List Char) ≠ "#EXT-X-I-FRAMES-ONLY".data :=
    take_append_ne _ _ _ (by decide)
  have h9 : startsWithChars ("#EXT-X-START:".data ++ (renderAttrs ([("TIME-OFFSET".data, .bare (qToChars so.timeOffset))] ++ if so.precise then [("PRECISE".data, .bare "YES".data)] else [])))
      "#EXTINF:".data = false := startsWith_append_false _ _ _ (by decide)
  have h10 : startsWithChars ("#EXT-X-START:".data ++ (renderAttrs ([("TIME-OFFSET".data, .bare (qToChars so.timeOffset))] ++ if so.precise then [("PRECISE".data, .bare "YES".data)] else [])))
      "#EXT-X-BYTERANGE:".data = false := startsWith_append_false _ _ _ (by decide)
  have h11 : ("#EXT-X-START:".data ++ (renderAttrs ([("TIME-OFFSET".data, .bare (qToChars so.timeOffset))] ++ if so.precise then [("PRECISE".data, .bare "YES".data)] else [])) : List Char) ≠ "#EXT-X-DISCONTINUITY".data :=
    take_append_ne _ _ _ (by decide)
  have h12 : startsWithChars ("#EXT-X-START:".data ++ (renderAttrs ([("TIME-OFFSET".data, .bare (qToChars so.timeOffset))] ++ if so.precise then [("PRECISE".data, .bare "YES".data)] else [])))
      "#EXT-X-PROGRAM-DATE-TIME:".data = false := startsWith_append_false _ _ _ (by decide)
  have h13 : startsWithChars ("#EXT-X-START:".data ++ (renderAttrs ([("TIME-OFFSET".data, .bare (qToChars so.timeOffset))] ++ if so.precise then [("PRECISE".data, .bare "YES".data)] else [])))
      "#EXT-X-KEY:".data = false := startsWith_append_false _ _ _ (by decide)
  have h14 : startsWithChars ("#EXT-X-START:".data ++ (renderAttrs ([("TIME-OFFSET".data, .bare (qToChars so.timeOffset))] ++ if so.precise then [("PRECISE".data, .bare "YES".data)] else [])))
      "#EXT-X-MAP:".data = false := startsWith_append_false _ _ _ (by decide)
  have h15 : ("#EXT-X-START:".data ++ (renderAttrs ([("TIME-OFFSET".data, .bare (qToChars so.timeOffset))] ++ if so.precise then [("PRECISE".data, .bare "YES".data)] else [])) : List Char) ≠ "#EXT-X-GAP".data :=
    take_append_ne _ _ _ (by decide)
  have h16 : startsWithChars ("#EXT-X-START:".data ++ (renderAttrs ([("TIME-OFFSET".data, .bare (qToChars so.timeOffset))] ++ if so.precise then [("PRECISE".data, .bare "YES".data)] else [])))
      "#EXT-X-BITRATE:".data = false := startsWith_append_false _ _ _ (by decide)
  have h17 : startsWithChars ("#EXT-X-START:".data ++ (renderAttrs ([("TIME-OFFSET".data, .bare (qToChars so.timeOffset))] ++ if so.precise then [("PRECISE".data, .bare "YES".data)] else [])))
      "#EXT-X-DATERANGE:".data = false := startsWith_append_false _ _ _ (by decide)
  have hdrop : ("#EXT-X-START:".data ++ (renderAttrs ([("TIME-OFFSET".data, .bare (qToChars so.timeOffset))] ++ if so.precise then [("PRECISE".data, .bare "YES".data)] else []))).drop 13 = (renderAttrs ([("TIME-OFFSET".data, .bare (qToChars so.timeOffset))] ++ if so.precise then [("PRECISE".data, .bare "YES".data)] else [])) := by
    rw [show (13 : ℕ) = ("#EXT-X-START:".data : List Char).length from rfl, List.drop_left]
  simp only [parseMediaLine, hnil, hM, h1, h2, h3, h4, h5, h6, h7, h8, h9, h10, h11, h12, h13, h14, h15, h16, h17, decide_False, Bool.or_self, Bool.false_eq_true, if_false, startsWith_append_self, if_true, hdrop, parseStartM_roundtrip so hso]

/-- Dispatch of a URI line when the tracked key has a non-`NONE` method. -/
theorem pml_uri_key (ln : Nat) (st : MediaParseSt) (u : List Char) (k : EncryptionKey)
    (hne : u ≠ []) (hhash : startsWithChars u "#".data = false)
    (hk : st.currentKey = some k) (hmeth : k.method ≠ KeyMethod.none) :
    ∃ lbe, parseMediaLine ln u st = pure { st with
      playlist := { st.playlist with segments := st.playlist.segments ++ [{
        duration := st.pending.duration.getD 0,
        title := st.pending.title,
        uri := String.mk u,
        byteRange := st.pending.byteRange,
        discontinuity := st.pending.discontinuity,
        programDateTime := st.pending.programDateTime,
        key := some k,
        map := st.currentMap,
        gap := st.pending.gap,
        bitrate := st.pending.bitrate }] },
      pending := PendingSegment.empty,
      lastByteRangeEnd := lbe } := by
  have hhash1 : startsWithChars u ['#'] = false := hhash
  have hM : u ≠ "#EXTM3U".data := (startsWith_ne _ u "#".data (by decide) hhash).symm
  have h1 : startsWithChars u "#EXT-X-VERSION:".data = false :=
    startsWith_of_head_ne _ hhash1
  have h2 : startsWithChars u "#EXT-X-TARGETDURATION:".data = false :=
    startsWith_of_head_ne _ hhash1
  have h3 : startsWithChars u "#EXT-X-MEDIA-SEQUENCE:".data = false :=
    startsWith_of_head_ne _ hhash1
  have h4 : startsWithChars u "#EXT-X-DISCONTINUITY-SEQUENCE:".data = false :=
    startsWith_of_head_ne _ hhash1
  have h5 : startsWithChars u "#EXT-X-PLAYLIST-TYPE:".data = false :=
    startsWith_of_head_ne _ hhash1
  have h6 : startsWithChars u "#EXT-X-INDEPENDENT-SEGMENTS".data = false :=
    startsWith_of_head_ne _ hhash1
  have h7 : u ≠ "#EXT-X-ENDLIST".data := (startsWith_ne _ u "#".data (by decide) hhash).symm
  have h8 : u ≠ "#EXT-X-I-FRAMES-ONLY".data :=
    (startsWith_ne _ u "#".data (by decide) hhash).symm
  have h9 : startsWithChars u "#EXTINF:".data = false := startsWith_of_head_ne _ hhash1
  have h10 : startsWithChars u "#EXT-X-BYTERANGE:".data = false :=
    startsWith_of_head_ne _ hhash1
  have h11 : u ≠ "#EXT-X-DISCONTINUITY".data :=
    (startsWith_ne _ u "#".data (by decide) hhash).symm
  have h12 : startsWithChars u "#EXT-X-PROGRAM-DATE-TIME:".data = false :=
    startsWith_of_head_ne _ hhash1
  have h13 : startsWithChars u "#EXT-X-KEY:".data = false := startsWith_of_head_ne _ hhash1
  have h14 : startsWithChars u "#EXT-X-MAP:".data = false := startsWith_of_head_ne _ hhash1
  have h15 : u ≠ "#EXT-X-GAP".data := (startsWith_ne _ u "#".data (by decide) hhash).symm
  have h16 : startsWithChars u "#EXT-X-BITRATE:".data = false :=
    startsWith_of_head_ne _ hhash1
  have h17 : startsWithChars u "#EXT-X-DATERANGE:".data = false :=
    startsWith_of_head_ne _ hhash1
  have h18 : startsWithChars u "#EXT-X-START:".data = false :=
    startsWith_of_head_ne _ hhash1
  rcases hbr : st.pending.byteRange with _ | ⟨blen, _ | boff⟩
  · refine ⟨st.lastByteRangeEnd, ?_⟩
    simp only [parseMediaLine, hne, hM, decide_False, Bool.or_self, Bool.false_eq_true,
      if_false, h1, h2, h3, h4, h5, h6, h7, h8, h9, h10, h11, h12, h13, h14, h15, h16,
      h17, h18, hhash, Bool.not_false, ne_eq, not_false_eq_true, decide_True, Bool.and_self,
      if_true, hk, hbr]
    rw [if_pos hmeth]
  · refine ⟨st.lastByteRangeEnd, ?_⟩
    simp only [parseMediaLine, hne, hM, decide_False, Bool.or_self, Bool.false_eq_true,
      if_false, h1, h2, h3, h4, h5, h6, h7, h8, h9, h10, h11, h12, h13, h14, h15, h16,
      h17, h18, hhash, Bool.not_false, ne_eq, not_false_eq_true, decide_True, Bool.and_self,
      if_true, hk, hbr]
    rw [if_pos hmeth]
  · refine ⟨boff + blen, ?_⟩
    simp only [parseMediaLine, hne, hM, decide_False, Bool.or_self, Bool.false_eq_true,
      if_false, h1, h2, h3, h4, h5, h6, h7, h8, h9, h10, h11, h12, h13, h14, h15, h16,
      h17, h18, hhash, Bool.not_false, ne_eq, not_false_eq_true, decide_True, Bool.and_self,
      if_true, hk, hbr]
    rw [if_pos hmeth]

/-- Dispatch of a URI line when no usable key is tracked. -/
theorem pml_uri_nokey (ln : Nat) (st : MediaParseSt) (u : List Char)
    (hne : u ≠ []) (hhash : startsWithChars u "#".data = false)
    (hk : st.currentKey = none ∨
      ∃ k, st.currentKey = some k ∧ k.method = KeyMethod.none) :
    ∃ lbe, parseMediaLine ln u st = pure { st with
      playlist := { st.playlist with segments := st.playlist.segments ++ [{
        duration := st.pending.duration.getD 0,
        title := st.pending.title,
        uri := String.mk u,
        byteRange := st.pending.byteRange,
        discontinuity := st.pending.discontinuity,
        programDateTime := st.pending.programDateTime,
        key := none,
        map := st.currentMap,
        gap := st.pending.gap,
        bitrate := st.pending.bitrate }] },
      pending := PendingSegment.empty,
      lastByteRangeEnd := lbe } := by
  have hhash1 : startsWithChars u ['#'] = false := hhash
  have hM : u ≠ "#EXTM3U".data := (startsWith_ne _ u "#".data (by decide) hhash).symm
  have h1 : startsWithChars u "#EXT-X-VERSION:".data = false :=
    startsWith_of_head_ne _ hhash1
  have h2 : startsWithChars u "#EXT-X-TARGETDURATION:".data = false :=
    startsWith_of_head_ne _ hhash1
  have h3 : startsWithChars u "#EXT-X-MEDIA-SEQUENCE:".data = false :=
    startsWith_of_head_ne _ hhash1
  have h4 : startsWithChars u "#EXT-X-DISCONTINUITY-SEQUENCE:".data = false :=
    startsWith_of_head_ne _ hhash1
  have h5 : startsWithChars u "#EXT-X-PLAYLIST-TYPE:".data = false :=
    startsWith_of_head_ne _ hhash1
  have h6 : startsWithChars u "#EXT-X-INDEPENDENT-SEGMENTS".data = false :=
    startsWith_of_head_ne _ hhash1
  have h7 : u ≠ "#EXT-X-ENDLIST".data := (startsWith_ne _ u "#".data (by decide) hhash).symm
  have h8 : u ≠ "#EXT-X-I-FRAMES-ONLY".data :=
    (startsWith_ne _ u "#".data (by decide) hhash).symm
  have h9 : startsWithChars u "#EXTINF:".data = false := startsWith_of_head_ne _ hhash1
  have h10 : startsWithChars u "#EXT-X-BYTERANGE:".data = false :=
    startsWith_of_head_ne _ hhash1
  have h11 : u ≠ "#EXT-X-DISCONTINUITY".data :=
    (startsWith_ne _ u "#".data (by decide) hhash).symm
  have h12 : startsWithChars u "#EXT-X-PROGRAM-DATE-TIME:".data = false :=
    startsWith_of_head_ne _ hhash1
  have h13 : startsWithChars u "#EXT-X-KEY:".data = false := startsWith_of_head_ne _ hhash1
  have h14 : startsWithChars u "#EXT-X-MAP:".data = false := startsWith_of_head_ne _ hhash1
  have h15 : u ≠ "#EXT-X-GAP".data := (startsWith_ne _ u "#".data (by decide) hhash).symm
  have h16 : startsWithChars u "#EXT-X-BITRATE:".data = false :=
    startsWith_of_head_ne _ hhash1
  have h17 : startsWithChars u "#EXT-X-DATERANGE:".data = false :=
    startsWith_of_head_ne _ hhash1
  have h18 : startsWithChars u "#EXT-X-START:".data = false :=
    startsWith_of_head_ne _ hhash1
  rcases hk with hk | ⟨k, hk, hmeth⟩
  · rcases hbr : st.pending.byteRange with _ | ⟨blen, _ | boff⟩
    · refine ⟨st.lastByteRangeEnd, ?_⟩
      simp only [parseMediaLine, hne, hM, decide_False, Bool.or_self, Bool.false_eq_true,
      if_false, h1, h2, h3, h4, h5, h6, h7, h8, h9, h10, h11, h12, h13, h14, h15, h16,
      h17, h18, hhash, Bool.not_false, ne_eq, not_false_eq_true, decide_True, Bool.and_self,
      if_true, hk, hbr]
    · refine ⟨st.lastByteRangeEnd, ?_⟩
      simp only [parseMediaLine, hne, hM, decide_False, Bool.or_self, Bool.false_eq_true,
      if_false, h1, h2, h3, h4, h5, h6, h7, h8, h9, h10, h11, h12, h13, h14, h15, h16,
      h17, h18, hhash, Bool.not_false, ne_eq, not_false_eq_true, decide_True, Bool.and_self,
      if_true, hk, hbr]
    · refine ⟨boff + blen, ?_⟩
      simp only [parseMediaLine, hne, hM, decide_False, Bool.or_self, Bool.false_eq_true,
      if_false, h1, h2, h3, h4, h5, h6, h7, h8, h9, h10, h11, h12, h13, h14, h15, h16,
      h17, h18, hhash, Bool.not_false, ne_eq, not_false_eq_true, decide_True, Bool.and_self,
      if_true, hk, hbr]
  · rcases hbr : st.pending.byteRange with _ | ⟨blen, _ | boff⟩
    · refine ⟨st.lastByteRangeEnd, ?_⟩
      simp only [parseMediaLine, hne, hM, decide_False, Bool.or_self, Bool.false_eq_true,
      if_false, h1, h2, h3, h4, h5, h6, h7, h8, h9, h10, h11, h12, h13, h14, h15, h16,
      h17, h18, hhash, Bool.not_false, ne_eq, not_false_eq_true, decide_True, Bool.and_self,
      if_true, hk, hbr, hmeth, not_true_eq_false]
    · refine ⟨st.lastByteRangeEnd, ?_⟩
      simp only [parseMediaLine, hne, hM, decide_False, Bool.or_self, Bool.false_eq_true,
      if_false, h1, h2, h3, h4, h5, h6, h7, h8, h9, h10, h11, h12, h13, h14, h15, h16,
      h17, h18, hhash, Bool.not_false, ne_eq, not_false_eq_true, decide_True, Bool.and_self,
      if_true, hk, hbr, hmeth, not_true_eq_false]
    · refine ⟨boff + blen, ?_⟩
      simp only [parseMediaLine, hne, hM, decide_False, Bool.or_self, Bool.false_eq_true,
      if_false, h1, h2, h3, h4, h5, h6, h7, h8, h9, h10, h11, h12, h13, h14, h15, h16,
      h17, h18, hhash, Bool.not_false, ne_eq, not_false_eq_true, decide_True, Bool.and_self,
      if_true, hk, hbr, hmeth, not_true_eq_false]

/-! ### C7 layer 7: line goodness (no newline, trim-stable) -/

/-- The last element is a member. -/
theorem getLast?_mem_chars {l : List Char} {c : Char} (h : l.getLast? = some c) : c ∈ l := by
  have h2 : l.reverse.head? = some c := by rw [List.head?_reverse]; exact h
  exact List.mem_reverse.mp (head?_mem h2)

/-- A tag-plus-payload line with clean tag and payload is newline-free and
trim-stable. -/
theorem tag_payload_good (tag payload : List Char) (htagne : tag ≠ [])
    (htagnl : ∀ c ∈ tag, c ≠ '\n')
    (hhead : ∀ c, tag.head? = some c → isWsChar c = false)
    (htaglast : ∀ c, tag.getLast? = some c → isWsChar c = false)
    (hpnl : ∀ c ∈ payload, c ≠ '\n')
    (hplast : ∀ c, payload.getLast? = some c → isWsChar c = false) :
    (∀ c ∈ tag ++ payload, c ≠ '\n') ∧ trimChars (tag ++ payload) = tag ++ payload := by
  constructor
  · intro c hc
    rcases List.mem_append.mp hc with h | h
    · exact htagnl c h
    · exact hpnl c h
  · refine trimChars_eq_self _ ?_ ?_
    · intro c hc
      cases tag with
      | nil => exact absurd rfl htagne
      | cons a as =>
        rw [List.cons_append] at hc
        injection hc with hc
        exact hc ▸ hhead a rfl
    · intro c hc
      rw [List.getLast?_append] at hc
      cases hpl : payload.getLast? with
      | some d =>
        rw [hpl, show (some d).or tag.getLast? = some d from rfl] at hc
        injection hc with hc
        exact hc ▸ hplast d hpl
      | none =>
        rw [hpl, show (none : Option Char).or tag.getLast? = tag.getLast? from rfl] at hc
        exact htaglast c hc

/-- Characters of `qToChars` are clean. -/
theorem qToChars_good (q : ℚ) :
    (∀ c ∈ qToChars q, c ≠ '\n') ∧
      ∀ c, (qToChars q).getLast? = some c → isWsChar c = false := by
  constructor
  · intro c hc
    rcases qToChars_chars q c hc with h | h | h
    · exact (digit_ne_syms h).2.2.2.1
    · subst h; decide
    · subst h; decide
  · intro c hc
    rcases qToChars_chars q c (getLast?_mem_chars hc) with h | h | h
    · exact digit_not_ws h
    · subst h; decide
    · subst h; decide

/-- Characters of `intToChars` are clean. -/
theorem intToChars_good (i : Int) :
    (∀ c ∈ intToChars i, c ≠ '\n') ∧
      ∀ c, (intToChars i).getLast? = some c → isWsChar c = false := by
  obtain ⟨_, hdig⟩ := intToChars_spec i
  constructor
  · intro c hc
    rcases hdig c hc with h | h
    · exact (digit_ne_syms h).2.2.2.1
    · subst h; decide
  · intro c hc
    rcases hdig c (getLast?_mem_chars hc) with h | h
    · exact digit_not_ws h
    · subst h; decide

/-- Characters of `formatDuration` are clean for nonnegative durations. -/
theorem formatDuration_good (q : ℚ) (h0 : 0 ≤ q) :
    (∀ c ∈ formatDuration q, c ≠ '\n') ∧
      ∀ c, (formatDuration q).getLast? = some c → isWsChar c = false := by
  constructor
  · intro c hc
    rcases formatDuration_chars q h0 c hc with h | h
    · exact (digit_ne_syms h).2.2.2.1
    · subst h; decide
  · intro c hc
    rcases formatDuration_chars q h0 c (getLast?_mem_chars hc) with h | h
    · exact digit_not_ws h
    · subst h; decide

/-- Characters of `writeByteRange` output are clean. -/
theorem writeByteRangeW_good (br : ByteRange) :
    (∀ c ∈ writeByteRangeW br, c ≠ '\n') ∧
      ∀ c, (writeByteRangeW br).getLast? = some c → isWsChar c = false := by
  obtain ⟨len, off⟩ := br
  cases off with
  | none => exact intToChars_good len
  | some o =>
    obtain ⟨hnl1, _⟩ := intToChars_good len
    obtain ⟨hnl2, hlast2⟩ := intToChars_good o
    obtain ⟨hone, _⟩ := intToChars_spec o
    constructor
    · intro c hc
      rw [show writeByteRangeW ⟨len, some o⟩ = intToChars len ++ '@' :: intToChars o
        from rfl] at hc
      rcases List.mem_append.mp hc with h | h
      · exact hnl1 c h
      · rcases List.mem_cons.mp h with h | h
        · subst h; decide
        · exact hnl2 c h
    · intro c hc
      rw [show writeByteRangeW ⟨len, some o⟩ = intToChars len ++ '@' :: intToChars o
        from rfl, List.getLast?_append] at hc
      cases hX : intToChars o with
      | nil => exact absurd hX hone
      | cons a as =>
        rw [hX, List.getLast?_cons_cons] at hc
        obtain ⟨lc, hlc⟩ : ∃ lc, (a :: as).getLast? = some lc :=
          ⟨(a :: as).getLast (by simp), List.getLast?_eq_getLast _ (by simp)⟩
        rw [hlc, show (some lc).or ((intToChars len).getLast?) = some lc from rfl] at hc
        injection hc with hc
        have hlco : (intToChars o).getLast? = some lc := by rw [hX]; exact hlc
        exact hc ▸ hlast2 lc hlco

/-- `keysEqual` is record equality. -/
theorem keysEqualW_iff (a b : EncryptionKey) : keysEqualW a b = true ↔ a = b := by
  obtain ⟨m1, u1, i1, f1, v1⟩ := a
  obtain ⟨m2, u2, i2, f2, v2⟩ := b
  simp [keysEqualW, EncryptionKey.mk.injEq, and_assoc]

/-- `mapsEqual` is record equality. -/
theorem mapsEqualW_iff (a b : InitSegment) : mapsEqualW a b = true ↔ a = b := by
  obtain ⟨u1, br1⟩ := a
  obtain ⟨u2, br2⟩ := b
  rcases br1 with _ | ⟨l1, o1⟩ <;> rcases br2 with _ | ⟨l2, o2⟩ <;>
    simp [mapsEqualW, InitSegment.mk.injEq, ByteRange.mk.injEq, Option.map_some',
      Option.some.injEq, and_assoc]

/-- Dropping a head before a nonempty tail keeps the last element. -/
theorem getLast?_cons_ne_nil (c : Char) (l : List Char) (h : l ≠ []) :
    (c :: l).getLast? = l.getLast? := by
  cases l with
  | nil => exact absurd rfl h
  | cons a as => exact List.getLast?_cons_cons

/-- The rendered `EXT-X-KEY` attribute payload is newline-free with a
non-whitespace last character. -/
theorem key_line_payload_good (k : EncryptionKey) (hc : canonKey k = true) :
    (∀ c ∈ renderAttrs (writeKeyAttrs k), c ≠ '\n') ∧
    ∀ c, (renderAttrs (writeKeyAttrs k)).getLast? = some c → isWsChar c = false := by
  obtain ⟨m, uri, iv, kf, kfv⟩ := k
  simp only [canonKey, Bool.and_eq_true] at hc
  obtain ⟨⟨⟨hu, hiv⟩, hkf⟩, hkfv⟩ := hc
  have hMnl : ∀ c ∈ KeyMethod.chars m, c ≠ '\n' := by cases m <;> decide
  have hMws : ∀ c ∈ KeyMethod.chars m, isWsChar c = false := by cases m <;> decide
  refine ⟨renderAttrs_no_nl _ ?_, renderAttrs_last_not_ws _ ?_⟩
  all_goals intro a ha
  all_goals simp only [writeKeyAttrs, List.append_assoc, List.cons_append,
    List.nil_append] at ha
  all_goals rcases List.mem_cons.mp ha with ha | ha
  case _ =>
    subst ha
    dsimp only
    refine ⟨by decide, ?_⟩
    intro v hv c hcc
    rcases hv with hv | hv
    · exact AttrForm.noConfusion hv
    · injection hv with hv
      rw [← hv] at hcc
      exact hMnl c hcc
  case _ =>
    rcases List.mem_append.mp ha with ha | ha
    · obtain ⟨x, hx, rfl⟩ := mem_optList ha
      obtain ⟨s, hs, rfl, _⟩ := optTruthy_some_inv hx
      rw [hs] at hu
      obtain ⟨_, hcrlf, _, _⟩ := canonQuotedStr_spec s hu
      dsimp only
      refine ⟨by decide, ?_⟩
      intro v hv c hcc
      rcases hv with hv | hv
      · injection hv with hv
        rw [← hv] at hcc
        exact (hcrlf c hcc).1
      · exact AttrForm.noConfusion hv
    rcases List.mem_append.mp ha with ha | ha
    · obtain ⟨x, hx, rfl⟩ := mem_optList ha
      obtain ⟨s, hs, rfl, _⟩ := optTruthy_some_inv hx
      rw [hs] at hiv
      obtain ⟨_, hcrlf, _, _, _, _⟩ := canonBareStr_spec s hiv
      dsimp only
      refine ⟨by decide, ?_⟩
      intro v hv c hcc
      rcases hv with hv | hv
      · exact AttrForm.noConfusion hv
      · injection hv with hv
        rw [← hv] at hcc
        rcases List.mem_cons.mp hcc with h | h
        · subst h; decide
        rcases List.mem_cons.mp h with h | h
        · subst h; decide
        · exact (hcrlf c h).1
    rcases List.mem_append.mp ha with ha | ha
    · obtain ⟨x, hx, rfl⟩ := mem_optList ha
      obtain ⟨s, hs, rfl, _⟩ := optTruthy_some_inv hx
      rw [hs] at hkf
      obtain ⟨_, hcrlf, _, _⟩ := canonQuotedStr_spec s hkf
      dsimp only
      refine ⟨by decide, ?_⟩
      intro v hv c hcc
      rcases hv with hv | hv
      · injection hv with hv
        rw [← hv] at hcc
        exact (hcrlf c hcc).1
      · exact AttrForm.noConfusion hv
    · obtain ⟨x, hx, rfl⟩ := mem_optList ha
      obtain ⟨s, hs, rfl, _⟩ := optTruthy_some_inv hx
      rw [hs] at hkfv
      obtain ⟨_, hcrlf, _, _⟩ := canonQuotedStr_spec s hkfv
      dsimp only
      refine ⟨by decide, ?_⟩
      intro v hv c hcc
      rcases hv with hv | hv
      · injection hv with hv
        rw [← hv] at hcc
        exact (hcrlf c hcc).1
      · exact AttrForm.noConfusion hv
  case _ =>
    subst ha
    exact fun c hcc => hMws c (getLast?_mem_chars hcc)
  case _ =>
    rcases List.mem_append.mp ha with ha | ha
    · obtain ⟨x, hx, rfl⟩ := mem_optList ha
      exact trivial
    rcases List.mem_append.mp ha with ha | ha
    · obtain ⟨x, hx, rfl⟩ := mem_optList ha
      obtain ⟨s, hs, rfl, _⟩ := optTruthy_some_inv hx
      rw [hs] at hiv
      obtain ⟨hne, _, _, _, hts, _⟩ := canonBareStr_spec s hiv
      intro c hcc
      rw [getLast?_cons_ne_nil _ _ (by simp [hne]),
        getLast?_cons_ne_nil _ _ hne] at hcc
      exact (trimStable_spec s.data hts).2 c hcc
    rcases List.mem_append.mp ha with ha | ha
    · obtain ⟨x, hx, rfl⟩ := mem_optList ha
      exact trivial
    · obtain ⟨x, hx, rfl⟩ := mem_optList ha
      exact trivial

/-- The rendered `EXT-X-MAP` attribute payload is newline-free with a
non-whitespace last character. -/
theorem map_line_payload_good (m : InitSegment) (hc : canonMap m = true) :
    (∀ c ∈ renderAttrs (writeMapAttrs m), c ≠ '\n') ∧
    ∀ c, (renderAttrs (writeMapAttrs m)).getLast? = some c → isWsChar c = false := by
  obtain ⟨uri, br⟩ := m
  simp only [canonMap, Bool.and_eq_true] at hc
  obtain ⟨hu, _⟩ := hc
  obtain ⟨_, hcrlf, _, _⟩ := canonQuotedStr_spec uri hu
  refine ⟨renderAttrs_no_nl _ ?_, renderAttrs_last_not_ws _ ?_⟩
  all_goals intro a ha
  all_goals simp only [writeMapAttrs, List.append_assoc, List.cons_append,
    List.nil_append] at ha
  all_goals rcases List.mem_cons.mp ha with ha | ha
  case _ =>
    subst ha
    dsimp only
    refine ⟨by decide, ?_⟩
    intro v hv c hcc
    rcases hv with hv | hv
    · injection hv with hv
      rw [← hv] at hcc
      exact (hcrlf c hcc).1
    · exact AttrForm.noConfusion hv
  case _ =>
    obtain ⟨x, hx, rfl⟩ := mem_optList ha
    dsimp only
    refine ⟨by decide, ?_⟩
    intro v hv c hcc
    rcases hv with hv | hv
    · injection hv with hv
      rw [← hv] at hcc
      exact (writeByteRangeW_good x).1 c hcc
    · exact AttrForm.noConfusion hv
  case _ =>
    subst ha
    exact trivial
  case _ =>
    obtain ⟨x, hx, rfl⟩ := mem_optList ha
    exact trivial

/-- The rendered `EXT-X-START` attribute payload is newline-free with a
non-whitespace last character. -/
theorem start_line_payload_good (q : ℚ) (pr : Bool) :
    (∀ c ∈ renderAttrs ([("TIME-OFFSET".data, .bare (qToChars q))]
      ++ if pr then [("PRECISE".data, .bare "YES".data)] else []), c ≠ '\n') ∧
    ∀ c, (renderAttrs ([("TIME-OFFSET".data, .bare (qToChars q))]
      ++ if pr then [("PRECISE".data, .bare "YES".data)] else [])).getLast? = some c →
      isWsChar c = false := by
  refine ⟨renderAttrs_no_nl _ ?_, renderAttrs_last_not_ws _ ?_⟩
  all_goals intro a ha
  all_goals rw [List.cons_append, List.nil_append] at ha
  all_goals rcases List.mem_cons.mp ha with ha | ha
  case _ =>
    subst ha
    dsimp only
    refine ⟨by decide, ?_⟩
    intro v hv c hcc
    rcases hv with hv | hv
    · exact AttrForm.noConfusion hv
    · injection hv with hv
      rw [← hv] at hcc
      exact (qToChars_good q).1 c hcc
  case _ =>
    cases pr with
    | false => simp at ha
    | true =>
      rw [if_pos rfl, List.mem_singleton] at ha
      subst ha
      dsimp only
      refine ⟨by decide, ?_⟩
      intro v hv c hcc
      rcases hv with hv | hv
      · exact AttrForm.noConfusion hv
      · injection hv with hv
        rw [← hv] at hcc
        exact (by decide : ∀ x ∈ ("YES".data : List Char), x ≠ '\n') c hcc
  case _ =>
    subst ha
    exact fun c hcc => (qToChars_good q).2 c hcc
  case _ =>
    cases pr with
    | false => simp at ha
    | true =>
      rw [if_pos rfl, List.mem_singleton] at ha
      subst ha
      exact fun c hcc => by
        rw [show ("YES".data : List Char).getLast? = some 'S' from rfl] at hcc
        injection hcc with hcc
        rw [← hcc]
        decide

/-- The rendered `EXT-X-DATERANGE` attribute payload is newline-free with a
non-whitespace last character. -/
theorem dr_line_payload_good (d : DateRange) (hc : canonDateRange d = true) :
    (∀ c ∈ renderAttrs (writeDateRangeAttrs d), c ≠ '\n') ∧
    ∀ c, (renderAttrs (writeDateRangeAttrs d)).getLast? = some c → isWsChar c = false := by
  obtain ⟨idS, sdS, cl, ed, du, pd, cmd, out, inn, eon, ca⟩ := d
  simp only [canonDateRange, Bool.and_eq_true, List.all_eq_true, decide_eq_true_eq] at hc
  obtain ⟨⟨⟨⟨⟨⟨⟨⟨⟨⟨hid, hsd⟩, hcl⟩, hed⟩, _⟩, _⟩, hcmd⟩, hout⟩, hinn⟩, hca⟩, _⟩ := hc
  obtain ⟨_, hidcr, _, _⟩ := canonQuotedStr_spec idS hid
  obtain ⟨_, hsdcr, _, _⟩ := canonQuotedStr_spec sdS hsd
  refine ⟨renderAttrs_no_nl _ ?_, renderAttrs_last_not_ws _ ?_⟩
  all_goals intro a ha
  all_goals simp only [writeDateRangeAttrs, List.append_assoc, List.cons_append,
    List.nil_append] at ha
  all_goals rcases List.mem_cons.mp ha with ha | ha
  case _ =>
    subst ha
    dsimp only
    refine ⟨by decide, ?_⟩
    intro v hv c hcc
    rcases hv with hv | hv
    · injection hv with hv
      rw [← hv] at hcc
      exact (hidcr c hcc).1
    · exact AttrForm.noConfusion hv
  case _ =>
    rcases List.mem_cons.mp ha with ha | ha
    · subst ha
      dsimp only
      refine ⟨by decide, ?_⟩
      intro v hv c hcc
      rcases hv with hv | hv
      · injection hv with hv
        rw [← hv] at hcc
        exact (hsdcr c hcc).1
      · exact AttrForm.noConfusion hv
    rcases List.mem_append.mp ha with ha | ha
    · obtain ⟨x, hx, rfl⟩ := mem_optList ha
      obtain ⟨s, hs, rfl, _⟩ := optTruthy_some_inv hx
      rw [hs] at hcl
      obtain ⟨_, hcrlf, _, _⟩ := canonQuotedStr_spec s hcl
      dsimp only
      refine ⟨by decide, ?_⟩
      intro v hv c hcc
      rcases hv with hv | hv
      · injection hv with hv
        rw [← hv] at hcc
        exact (hcrlf c hcc).1
      · exact AttrForm.noConfusion hv
    rcases List.mem_append.mp ha with ha | ha
    · obtain ⟨e, he, rfl⟩ := mem_optList ha
      rw [he] at hed
      obtain ⟨_, hcrlf, _, _⟩ := canonQuotedStr_spec e hed
      dsimp only
      refine ⟨by decide, ?_⟩
      intro v hv c hcc
      rcases hv with hv | hv
      · injection hv with hv
        rw [← hv] at hcc
        exact (hcrlf c hcc).1
      · exact AttrForm.noConfusion hv
    rcases List.mem_append.mp ha with ha | ha
    · obtain ⟨x, hx, rfl⟩ := mem_optList ha
      dsimp only
      refine ⟨by decide, ?_⟩
      intro v hv c hcc
      rcases hv with hv | hv
      · exact AttrForm.noConfusion hv
      · injection hv with hv
        rw [← hv] at hcc
        exact (qToChars_good x).1 c hcc
    rcases List.mem_append.mp ha with ha | ha
    · obtain ⟨x, hx, rfl⟩ := mem_optList ha
      dsimp only
      refine ⟨by decide, ?_⟩
      intro v hv c hcc
      rcases hv with hv | hv
      · exact AttrForm.noConfusion hv
      · injection hv with hv
        rw [← hv] at hcc
        exact (qToChars_good x).1 c hcc
    rcases List.mem_append.mp ha with ha | ha
    · obtain ⟨x, hx, rfl⟩ := mem_optList ha
      obtain ⟨s, hs, rfl, _⟩ := optTruthy_some_inv hx
      rw [hs] at hcmd
      obtain ⟨_, hcrlf, _, _, _, _⟩ := canonBareStr_spec s hcmd
      dsimp only
      refine ⟨by decide, ?_⟩
      intro v hv c hcc
      rcases hv with hv | hv
      · exact AttrForm.noConfusion hv
      · injection hv with hv
        rw [← hv] at hcc
        exact (hcrlf c hcc).1
    rcases List.mem_append.mp ha with ha | ha
    · obtain ⟨x, hx, rfl⟩ := mem_optList ha
      obtain ⟨s, hs, rfl, _⟩ := optTruthy_some_inv hx
      rw [hs] at hout
      obtain ⟨_, hcrlf, _, _, _, _⟩ := canonBareStr_spec s hout
      dsimp only
      refine ⟨by decide, ?_⟩
      intro v hv c hcc
      rcases hv with hv | hv
      · exact AttrForm.noConfusion hv
      · injection hv with hv
        rw [← hv] at hcc
        exact (hcrlf c hcc).1
    rcases List.mem_append.mp ha with ha | ha
    · obtain ⟨x, hx, rfl⟩ := mem_optList ha
      obtain ⟨s, hs, rfl, _⟩ := optTruthy_some_inv hx
      rw [hs] at hinn
      obtain ⟨_, hcrlf, _, _, _, _⟩ := canonBareStr_spec s hinn
      dsimp only
      refine ⟨by decide, ?_⟩
      intro v hv c hcc
      rcases hv with hv | hv
      · exact AttrForm.noConfusion hv
      · injection hv with hv
        rw [← hv] at hcc
        exact (hcrlf c hcc).1
    rcases List.mem_append.mp ha with ha | ha
    · cases eon with
      | false => simp at ha
      | true =>
        rw [if_pos rfl, List.mem_singleton] at ha
        subst ha
        dsimp only
        refine ⟨by decide, ?_⟩
        intro v hv c hcc
        rcases hv with hv | hv
        · exact AttrForm.noConfusion hv
        · injection hv with hv
          rw [← hv] at hcc
          exact (by decide : ∀ x ∈ ("YES".data : List Char), x ≠ '\n') c hcc
    · obtain ⟨kv, hkv, rfl⟩ := List.mem_map.mp ha
      obtain ⟨ks, kv2⟩ := kv
      have hkvc := hca _ hkv
      simp only [canonClientAttr, Bool.and_eq_true, List.all_eq_true,
        decide_eq_true_eq] at hkvc
      obtain ⟨⟨_, hname⟩, hval⟩ := hkvc
      cases kv2 with
      | str s =>
        simp only [noCRLF, noQuote, Bool.and_eq_true, List.all_eq_true,
          decide_eq_true_eq, Bool.and_eq_true] at hval
        obtain ⟨⟨hcrlf, hq⟩, _⟩ := hval
        dsimp only
        refine ⟨?_, ?_⟩
        · intro c hcc
          have h2 : isAttrNameChar c = true := hname c hcc
          intro he
          rw [he] at h2
          exact absurd h2 (by decide)
        · intro v hv c hcc
          rcases hv with hv | hv
          · injection hv with hv
            rw [← hv, escapeQuotes_eq_self s.data hq] at hcc
            exact (hcrlf c hcc).1
          · exact AttrForm.noConfusion hv
      | num q =>
        dsimp only
        refine ⟨?_, ?_⟩
        · intro c hcc
          have h2 : isAttrNameChar c = true := hname c hcc
          intro he
          rw [he] at h2
          exact absurd h2 (by decide)
        · intro v hv c hcc
          rcases hv with hv | hv
          · exact AttrForm.noConfusion hv
          · injection hv with hv
            rw [← hv] at hcc
            exact (qToChars_good q).1 c hcc
  case _ =>
    subst ha
    exact trivial
  case _ =>
    rcases List.mem_cons.mp ha with ha | ha
    · subst ha
      exact trivial
    rcases List.mem_append.mp ha with ha | ha
    · obtain ⟨x, hx, rfl⟩ := mem_optList ha
      exact trivial
    rcases List.mem_append.mp ha with ha | ha
    · obtain ⟨e, he, rfl⟩ := mem_optList ha
      exact trivial
    rcases List.mem_append.mp ha with ha | ha
    · obtain ⟨x, hx, rfl⟩ := mem_optList ha
      exact fun c hcc => (qToChars_good x).2 c hcc
    rcases List.mem_append.mp ha with ha | ha
    · obtain ⟨x, hx, rfl⟩ := mem_optList ha
      exact fun c hcc => (qToChars_good x).2 c hcc
    rcases List.mem_append.mp ha with ha | ha
    · obtain ⟨x, hx, rfl⟩ := mem_optList ha
      obtain ⟨s, hs, rfl, _⟩ := optTruthy_some_inv hx
      rw [hs] at hcmd
      obtain ⟨_, _, _, _, hts, _⟩ := canonBareStr_spec s hcmd
      exact fun c hcc => (trimStable_spec s.data hts).2 c hcc
    rcases List.mem_append.mp ha with ha | ha
    · obtain ⟨x, hx, rfl⟩ := mem_optList ha
      obtain ⟨s, hs, rfl, _⟩ := optTruthy_some_inv hx
      rw [hs] at hout
      obtain ⟨_, _, _, _, hts, _⟩ := canonBareStr_spec s hout
      exact fun c hcc => (trimStable_spec s.data hts).2 c hcc
    rcases List.mem_append.mp ha with ha | ha
    · obtain ⟨x, hx, rfl⟩ := mem_optList ha
      obtain ⟨s, hs, rfl, _⟩ := optTruthy_some_inv hx
      rw [hs] at hinn
      obtain ⟨_, _, _, _, hts, _⟩ := canonBareStr_spec s hinn
      exact fun c hcc => (trimStable_spec s.data hts).2 c hcc
    rcases List.mem_append.mp ha with ha | ha
    · cases eon with
      | false => simp at ha
      | true =>
        rw [if_pos rfl, List.mem_singleton] at ha
        subst ha
        exact fun c hcc => by
          rw [show ("YES".data : List Char).getLast? = some 'S' from rfl] at hcc
          injection hcc with hcc
          rw [← hcc]
          decide
    · obtain ⟨kv, hkv, rfl⟩ := List.mem_map.mp ha
      obtain ⟨ks, kv2⟩ := kv
      cases kv2 with
      | str s => exact trivial
      | num q => exact fun c hcc => (qToChars_good q).2 c hcc

/-! ### C7 layer 8: per-block parsing of the writer's segment lines -/

/-- Head-character fact for a concrete tag. -/
theorem head_fact_of (l : List Char) (a : Char) (h : l.head? = some a)
    (hws : isWsChar a = false) : ∀ c, l.head? = some c → isWsChar c = false := by
  intro c hc
  rw [h] at hc
  injection hc with hc
  rw [← hc]
  exact hws

/-- Last-character fact for a concrete tag. -/
theorem last_fact_of (l : List Char) (a : Char) (h : l.getLast? = some a)
    (hws : isWsChar a = false) : ∀ c, l.getLast? = some c → isWsChar c = false := by
  intro c hc
  rw [h] at hc
  injection hc with hc
  rw [← hc]
  exact hws

/-- `pure st` presented as an update of `currentKey` by its own value. -/
theorem ok_eta_key (st : MediaParseSt) (v : Option EncryptionKey) (h : st.currentKey = v) :
    (pure st : Except PErr MediaParseSt) = .ok { st with currentKey := v } := by
  rw [← h]
  rfl

/-- `pure st` presented as an update of `currentMap` by its own value. -/
theorem ok_eta_map (st : MediaParseSt) (v : Option InitSegment) (h : st.currentMap = v) :
    (pure st : Except PErr MediaParseSt) = .ok { st with currentMap := v } := by
  rw [← h]
  rfl

/-- The discontinuity block parses to the flag update. -/
theorem parse_disc_block (b : Bool) (ln : Nat) (st : MediaParseSt) :
    (∀ l ∈ (if b then ["#EXT-X-DISCONTINUITY".data] else ([] : List (List Char))),
      (∀ c ∈ l, c ≠ '\n') ∧ trimChars l = l) ∧
    parseMediaLines (if b then ["#EXT-X-DISCONTINUITY".data] else []) ln st =
      .ok { st with pending :=
        { st.pending with discontinuity := st.pending.discontinuity || b } } := by
  cases b with
  | false =>
    refine ⟨by simp, ?_⟩
    rw [if_neg (by simp), Bool.or_false]
    rfl
  | true =>
    constructor
    · intro l hl
      rw [if_pos rfl, List.mem_singleton] at hl
      subst hl
      exact ⟨by decide, by decide⟩
    · rw [if_pos rfl, Bool.or_true]
      have h1 : trimChars "#EXT-X-DISCONTINUITY".data = "#EXT-X-DISCONTINUITY".data := by
        decide
      rw [show parseMediaLines ["#EXT-X-DISCONTINUITY".data] ln st
          = (parseMediaLine ln (trimChars ("#EXT-X-DISCONTINUITY".data)) st)
            >>= (fun st2 => parseMediaLines [] (ln + 1) st2) from rfl,
        h1, pml_discontinuity, except_pure_bind]
      rfl

/-- The gap block parses to the flag update. -/
theorem parse_gap_block (b : Bool) (ln : Nat) (st : MediaParseSt) :
    (∀ l ∈ (if b then ["#EXT-X-GAP".data] else ([] : List (List Char))),
      (∀ c ∈ l, c ≠ '\n') ∧ trimChars l = l) ∧
    parseMediaLines (if b then ["#EXT-X-GAP".data] else []) ln st =
      .ok { st with pending :=
        { st.pending with gap := st.pending.gap || b } } := by
  cases b with
  | false =>
    refine ⟨by simp, ?_⟩
    rw [if_neg (by simp), Bool.or_false]
    rfl
  | true =>
    constructor
    · intro l hl
      rw [if_pos rfl, List.mem_singleton] at hl
      subst hl
      exact ⟨by decide, by decide⟩
    · rw [if_pos rfl, Bool.or_true]
      have h1 : trimChars "#EXT-X-GAP".data = "#EXT-X-GAP".data := by decide
      rw [show parseMediaLines ["#EXT-X-GAP".data] ln st
          = (parseMediaLine ln (trimChars ("#EXT-X-GAP".data)) st)
            >>= (fun st2 => parseMediaLines [] (ln + 1) st2) from rfl,
        h1, pml_gap, except_pure_bind]
      rfl

/-- The program-date-time block parses to the field update. -/
theorem parse_pdt_block (o : Option String) (ln : Nat) (st : MediaParseSt)
    (ho : ∀ d, o = some d → canonRawStr d = true) :
    (∀ l ∈ optList (fun d => "#EXT-X-PROGRAM-DATE-TIME:".data ++ String.data d) o,
      (∀ c ∈ l, c ≠ '\n') ∧ trimChars l = l) ∧
    parseMediaLines (optList (fun d => "#EXT-X-PROGRAM-DATE-TIME:".data ++ String.data d) o)
        ln st =
      .ok { st with pending :=
        { st.pending with programDateTime := o.or st.pending.programDateTime } } := by
  cases o with
  | none => exact ⟨by simp [optList], rfl⟩
  | some d =>
    have hcd := ho d rfl
    obtain ⟨hne, hcrlf, hts, _⟩ := canonRawStr_spec d hcd
    have hgood := tag_payload_good "#EXT-X-PROGRAM-DATE-TIME:".data (String.data d)
      (by decide) (by decide) (head_fact_of _ '#' rfl (by decide))
      (last_fact_of _ ':' rfl (by decide))
      (fun c hc => (hcrlf c hc).1) (trimStable_spec d.data hts).2
    constructor
    · intro l hl
      rw [show optList (fun d => "#EXT-X-PROGRAM-DATE-TIME:".data ++ String.data d) (some d)
          = ["#EXT-X-PROGRAM-DATE-TIME:".data ++ String.data d] from rfl,
        List.mem_singleton] at hl
      subst hl
      exact hgood
    · rw [show optList (fun d => "#EXT-X-PROGRAM-DATE-TIME:".data ++ String.data d) (some d)
        = ["#EXT-X-PROGRAM-DATE-TIME:".data ++ String.data d] from rfl,
        show parseMediaLines ["#EXT-X-PROGRAM-DATE-TIME:".data ++ String.data d] ln st
          = (parseMediaLine ln (trimChars ("#EXT-X-PROGRAM-DATE-TIME:".data ++ String.data d)) st)
            >>= (fun st2 => parseMediaLines [] (ln + 1) st2) from rfl,
        hgood.2, pml_pdt, except_pure_bind]
      rfl

/-- The bitrate block parses to the field update. -/
theorem parse_bitrate_block (o : Option Int) (ln : Nat) (st : MediaParseSt)
    (ho : ∀ b, o = some b → b % 1000 = 0) :
    (∀ l ∈ optList (fun b : Int => "#EXT-X-BITRATE:".data
        ++ intToChars (roundJS ((b : ℚ) / 1000))) o,
      (∀ c ∈ l, c ≠ '\n') ∧ trimChars l = l) ∧
    parseMediaLines (optList (fun b : Int => "#EXT-X-BITRATE:".data
        ++ intToChars (roundJS ((b : ℚ) / 1000))) o) ln st =
      .ok { st with pending :=
        { st.pending with bitrate := o.or st.pending.bitrate } } := by
  cases o with
  | none => exact ⟨by simp [optList], rfl⟩
  | some b =>
    have hgood := tag_payload_good "#EXT-X-BITRATE:".data
      (intToChars (roundJS ((b : ℚ) / 1000)))
      (by decide) (by decide) (head_fact_of _ '#' rfl (by decide))
      (last_fact_of _ ':' rfl (by decide))
      (intToChars_good _).1 (intToChars_good _).2
    constructor
    · intro l hl
      rw [show optList (fun b : Int => "#EXT-X-BITRATE:".data
          ++ intToChars (roundJS ((b : ℚ) / 1000))) (some b)
          = ["#EXT-X-BITRATE:".data ++ intToChars (roundJS ((b : ℚ) / 1000))] from rfl,
        List.mem_singleton] at hl
      subst hl
      exact hgood
    · rw [show optList (fun b : Int => "#EXT-X-BITRATE:".data
        ++ intToChars (roundJS ((b : ℚ) / 1000))) (some b)
        = ["#EXT-X-BITRATE:".data ++ intToChars (roundJS ((b : ℚ) / 1000))] from rfl]
      rw [show parseMediaLines ["#EXT-X-BITRATE:".data ++ intToChars (roundJS ((b : ℚ) / 1000))] ln st
          = (parseMediaLine ln (trimChars ("#EXT-X-BITRATE:".data ++ intToChars (roundJS ((b : ℚ) / 1000)))) st)
            >>= (fun st2 => parseMediaLines [] (ln + 1) st2) from rfl,
        hgood.2, pml_bitrate ln st b (ho b rfl), except_pure_bind]
      rfl

/-- The byte-range block parses to the field update. -/
theorem parse_br_block (o : Option ByteRange) (ln : Nat) (st : MediaParseSt)
    (ho : ∀ br, o = some br → br.offset.isSome = true) :
    (∀ l ∈ optList (fun br => "#EXT-X-BYTERANGE:".data ++ writeByteRangeW br) o,
      (∀ c ∈ l, c ≠ '\n') ∧ trimChars l = l) ∧
    parseMediaLines (optList (fun br => "#EXT-X-BYTERANGE:".data ++ writeByteRangeW br) o)
        ln st =
      .ok { st with pending :=
        { st.pending with byteRange := o.or st.pending.byteRange } } := by
  cases o with
  | none => exact ⟨by simp [optList], rfl⟩
  | some br =>
    obtain ⟨len, off⟩ := br
    have hgood := tag_payload_good "#EXT-X-BYTERANGE:".data (writeByteRangeW ⟨len, off⟩)
      (by decide) (by decide) (head_fact_of _ '#' rfl (by decide))
      (last_fact_of _ ':' rfl (by decide))
      (writeByteRangeW_good _).1 (writeByteRangeW_good _).2
    constructor
    · intro l hl
      rw [show optList (fun br => "#EXT-X-BYTERANGE:".data ++ writeByteRangeW br)
          (some ⟨len, off⟩)
          = ["#EXT-X-BYTERANGE:".data ++ writeByteRangeW ⟨len, off⟩] from rfl,
        List.mem_singleton] at hl
      subst hl
      exact hgood
    · cases off with
      | none => exact absurd (ho ⟨len, none⟩ rfl) (by simp)
      | some o2 =>
        rw [show optList (fun br => "#EXT-X-BYTERANGE:".data ++ writeByteRangeW br)
          (some ⟨len, some o2⟩)
          = ["#EXT-X-BYTERANGE:".data ++ (intToChars len ++ '@' :: intToChars o2)]
          from rfl]
        have hgood2 : trimChars ("#EXT-X-BYTERANGE:".data
            ++ (intToChars len ++ '@' :: intToChars o2))
            = "#EXT-X-BYTERANGE:".data ++ (intToChars len ++ '@' :: intToChars o2) :=
          hgood.2
        rw [show parseMediaLines ["#EXT-X-BYTERANGE:".data ++ (intToChars len ++ '@' :: intToChars o2)] ln st
          = (parseMediaLine ln (trimChars ("#EXT-X-BYTERANGE:".data ++ (intToChars len ++ '@' :: intToChars o2))) st)
            >>= (fun st2 => parseMediaLines [] (ln + 1) st2) from rfl,
          hgood2, pml_byterange, except_pure_bind]
        rfl

/-- The map block parses to the map update; the written state equals the
segment's map. -/
theorem parse_map_block (sm wm : Option InitSegment) (ln : Nat) (st : MediaParseSt)
    (hsm : ∀ m, sm = some m → canonMap m = true)
    (hcur : st.currentMap = wm)
    (hmn : sm = none → wm = none) :
    (∀ l ∈ (segMapBlock sm wm).1, (∀ c ∈ l, c ≠ '\n') ∧ trimChars l = l) ∧
    (segMapBlock sm wm).2 = sm ∧
    parseMediaLines (segMapBlock sm wm).1 ln st = .ok { st with currentMap := sm } := by
  cases sm with
  | none =>
    have hwm := hmn rfl
    refine ⟨by simp [segMapBlock], by rw [show (segMapBlock none wm).2 = wm from rfl, hwm], ?_⟩
    rw [show (segMapBlock none wm).1 = [] from rfl]
    exact ok_eta_map st none (by rw [hcur, hwm])
  | some m =>
    have hcm := hsm m rfl
    have hline := tag_payload_good "#EXT-X-MAP:".data (renderAttrs (writeMapAttrs m))
      (by decide) (by decide) (head_fact_of _ '#' rfl (by decide))
      (last_fact_of _ ':' rfl (by decide))
      (map_line_payload_good m hcm).1 (map_line_payload_good m hcm).2
    cases wm with
    | none =>
      have hblock : segMapBlock (some m) none
          = (["#EXT-X-MAP:".data ++ renderAttrs (writeMapAttrs m)], some m) := rfl
      refine ⟨?_, by rw [hblock], ?_⟩
      · intro l hl
        rw [hblock, List.mem_singleton] at hl
        subst hl
        exact hline
      · rw [hblock]
        rw [show parseMediaLines ["#EXT-X-MAP:".data ++ renderAttrs (writeMapAttrs m)] ln st
          = (parseMediaLine ln (trimChars ("#EXT-X-MAP:".data ++ renderAttrs (writeMapAttrs m))) st)
            >>= (fun st2 => parseMediaLines [] (ln + 1) st2) from rfl,
          hline.2, pml_map ln st m hcm, except_pure_bind]
        rfl
    | some cm =>
      by_cases heq : mapsEqualW m cm = true
      · have hmc : m = cm := (mapsEqualW_iff m cm).mp heq
        have hblock : segMapBlock (some m) (some cm) = ([], some cm) := by
          simp [segMapBlock, heq]
        refine ⟨?_, by rw [hblock, hmc], ?_⟩
        · intro l hl
          rw [hblock] at hl
          exact absurd hl (by simp)
        · rw [hblock]
          exact ok_eta_map st (some m) (by rw [hcur, hmc])
      · have heqf : mapsEqualW m cm = false := by rwa [Bool.not_eq_true] at heq
        have hblock : segMapBlock (some m) (some cm)
            = (["#EXT-X-MAP:".data ++ renderAttrs (writeMapAttrs m)], some m) := by
          simp [segMapBlock, heqf]
        refine ⟨?_, by rw [hblock], ?_⟩
        · intro l hl
          rw [hblock, List.mem_singleton] at hl
          subst hl
          exact hline
        · rw [hblock]
          rw [show parseMediaLines ["#EXT-X-MAP:".data ++ renderAttrs (writeMapAttrs m)] ln st
          = (parseMediaLine ln (trimChars ("#EXT-X-MAP:".data ++ renderAttrs (writeMapAttrs m))) st)
            >>= (fun st2 => parseMediaLines [] (ln + 1) st2) from rfl,
            hline.2, pml_map ln st m hcm, except_pure_bind]
          rfl

/-- The key block parses to a tracked key related to the writer's state. -/
theorem parse_key_block (sk wk : Option EncryptionKey) (ln : Nat) (st : MediaParseSt)
    (hsk : ∀ k, sk = some k → k.method ≠ KeyMethod.none ∧ canonKey k = true)
    (hkeyrel : (∃ k, wk = some k ∧ st.currentKey = some k) ∨
      (wk = none ∧ (st.currentKey = none ∨
        st.currentKey = some ⟨KeyMethod.none, none, none, none, none⟩))) :
    (∀ l ∈ (segKeyBlock sk wk).1, (∀ c ∈ l, c ≠ '\n') ∧ trimChars l = l) ∧
    ∃ pk, parseMediaLines (segKeyBlock sk wk).1 ln st = .ok { st with currentKey := pk } ∧
      ((∃ k, (segKeyBlock sk wk).2 = some k ∧ pk = some k) ∨
        ((segKeyBlock sk wk).2 = none ∧ (pk = none ∨
          pk = some ⟨KeyMethod.none, none, none, none, none⟩))) ∧
      ((∃ k, sk = some k ∧ pk = some k ∧ k.method ≠ KeyMethod.none) ∨
        (sk = none ∧ (pk = none ∨ ∃ k0, pk = some k0 ∧ k0.method = KeyMethod.none))) := by
  cases sk with
  | some k =>
    obtain ⟨hmeth, hck⟩ := hsk k rfl
    have hline := tag_payload_good "#EXT-X-KEY:".data (renderAttrs (writeKeyAttrs k))
      (by decide) (by decide) (head_fact_of _ '#' rfl (by decide))
      (last_fact_of _ ':' rfl (by decide))
      (key_line_payload_good k hck).1 (key_line_payload_good k hck).2
    cases wk with
    | some ck =>
      have hkc : st.currentKey = some ck := by
        rcases hkeyrel with ⟨k2, hk2, hcur⟩ | ⟨hwk, _⟩
        · injection hk2 with h2
          rw [h2]
          exact hcur
        · exact Option.noConfusion hwk
      by_cases heq : keysEqualW k ck = true
      · have hkck : k = ck := (keysEqualW_iff k ck).mp heq
        have hblock : segKeyBlock (some k) (some ck) = ([], some ck) := by
          simp [segKeyBlock, heq]
        constructor
        · intro l hl
          rw [hblock] at hl
          exact absurd hl (by simp)
        · refine ⟨st.currentKey, ?_, ?_, ?_⟩
          · rw [hblock]
            exact ok_eta_key st st.currentKey rfl
          · left
            exact ⟨ck, by rw [hblock], hkc⟩
          · left
            exact ⟨k, rfl, by rw [hkc, hkck], hmeth⟩
      · have heqf : keysEqualW k ck = false := by rwa [Bool.not_eq_true] at heq
        have hblock : segKeyBlock (some k) (some ck)
            = (["#EXT-X-KEY:".data ++ renderAttrs (writeKeyAttrs k)], some k) := by
          simp [segKeyBlock, heqf]
        constructor
        · intro l hl
          rw [hblock, List.mem_singleton] at hl
          subst hl
          exact hline
        · refine ⟨some k, ?_, ?_, ?_⟩
          · rw [hblock]
            rw [show parseMediaLines ["#EXT-X-KEY:".data ++ renderAttrs (writeKeyAttrs k)] ln st
          = (parseMediaLine ln (trimChars ("#EXT-X-KEY:".data ++ renderAttrs (writeKeyAttrs k))) st)
            >>= (fun st2 => parseMediaLines [] (ln + 1) st2) from rfl,
              hline.2, pml_key ln st k hck, except_pure_bind]
            rfl
          · left
            exact ⟨k, by rw [hblock], rfl⟩
          · left
            exact ⟨k, rfl, rfl, hmeth⟩
    | none =>
      have hblock : segKeyBlock (some k) none
          = (["#EXT-X-KEY:".data ++ renderAttrs (writeKeyAttrs k)], some k) := rfl
      constructor
      · intro l hl
        rw [hblock, List.mem_singleton] at hl
        subst hl
        exact hline
      · refine ⟨some k, ?_, ?_, ?_⟩
        · rw [hblock]
          rw [show parseMediaLines ["#EXT-X-KEY:".data ++ renderAttrs (writeKeyAttrs k)] ln st
          = (parseMediaLine ln (trimChars ("#EXT-X-KEY:".data ++ renderAttrs (writeKeyAttrs k))) st)
            >>= (fun st2 => parseMediaLines [] (ln + 1) st2) from rfl,
            hline.2, pml_key ln st k hck, except_pure_bind]
          rfl
        · left
          exact ⟨k, by rw [hblock], rfl⟩
        · left
          exact ⟨k, rfl, rfl, hmeth⟩
  | none =>
    cases wk with
    | some ck =>
      have hblock : segKeyBlock none (some ck)
          = (["#EXT-X-KEY:METHOD=NONE".data], none) := rfl
      constructor
      · intro l hl
        rw [hblock, List.mem_singleton] at hl
        subst hl
        exact ⟨by decide, by decide⟩
      · refine ⟨some ⟨KeyMethod.none, none, none, none, none⟩, ?_, ?_, ?_⟩
        · rw [hblock]
          have h1 : trimChars "#EXT-X-KEY:METHOD=NONE".data
              = "#EXT-X-KEY:METHOD=NONE".data := by decide
          rw [show parseMediaLines ["#EXT-X-KEY:METHOD=NONE".data] ln st
          = (parseMediaLine ln (trimChars ("#EXT-X-KEY:METHOD=NONE".data)) st)
            >>= (fun st2 => parseMediaLines [] (ln + 1) st2) from rfl,
            h1, pml_key_none, except_pure_bind]
          rfl
        · right
          exact ⟨by rw [hblock], Or.inr rfl⟩
        · right
          exact ⟨rfl, Or.inr ⟨⟨KeyMethod.none, none, none, none, none⟩, rfl, rfl⟩⟩
    | none =>
      have hblock : segKeyBlock none none = ([], none) := rfl
      have hcur : st.currentKey = none ∨
          st.currentKey = some ⟨KeyMethod.none, none, none, none, none⟩ := by
        rcases hkeyrel with ⟨k2, hk2, _⟩ | ⟨_, hcur⟩
        · exact Option.noConfusion hk2
        · exact hcur
      constructor
      · intro l hl
        rw [hblock] at hl
        exact absurd hl (by simp)
      · refine ⟨st.currentKey, ?_, ?_, ?_⟩
        · rw [hblock]
          exact ok_eta_key st st.currentKey rfl
        · right
          exact ⟨by rw [hblock], hcur⟩
        · right
          refine ⟨rfl, ?_⟩
          rcases hcur with hcur | hcur
          · exact Or.inl hcur
          · exact Or.inr ⟨⟨KeyMethod.none, none, none, none, none⟩, hcur, rfl⟩

/-- Unfolding the parse of exactly two lines. -/
theorem parseMediaLines_pair (a b : List Char) (ln : Nat) (st : MediaParseSt) :
    parseMediaLines [a, b] ln st
      = (parseMediaLine ln (trimChars a) st) >>= (fun s2 =>
          (parseMediaLine (ln + 1) (trimChars b) s2) >>= (fun s3 => pure s3)) := rfl

/-- The written `#EXTINF` line is newline-free and trim-stable. -/
theorem extinf_line_good (dur : ℚ) (title : Option String)
    (hd0 : 0 ≤ dur) (htit : ∀ t, title = some t → canonRawStr t = true) :
    (∀ c ∈ ("#EXTINF:".data ++ formatDuration dur ++ extinfTitle title : List Char),
      c ≠ '\n') ∧
    trimChars ("#EXTINF:".data ++ formatDuration dur ++ extinfTitle title)
      = "#EXTINF:".data ++ formatDuration dur ++ extinfTitle title := by
  have hextgood : ∀ (t2 : List Char), (∀ c ∈ t2, c ≠ '\n') →
      (∀ c, (',' :: t2).getLast? = some c → isWsChar c = false) →
      (∀ c ∈ "#EXTINF:".data ++ (formatDuration dur ++ ',' :: t2), c ≠ '\n') ∧
        trimChars ("#EXTINF:".data ++ (formatDuration dur ++ ',' :: t2))
          = "#EXTINF:".data ++ (formatDuration dur ++ ',' :: t2) := by
    intro t2 hnl hlast
    refine tag_payload_good "#EXTINF:".data (formatDuration dur ++ ',' :: t2)
      (by decide) (by decide) (head_fact_of _ '#' rfl (by decide))
      (last_fact_of _ ':' rfl (by decide)) ?_ ?_
    · intro c hc
      rcases List.mem_append.mp hc with h | h
      · exact (formatDuration_good dur hd0).1 c h
      · rcases List.mem_cons.mp h with h | h
        · subst h; decide
        · exact hnl c h
    · intro c hc
      rw [List.getLast?_append] at hc
      obtain ⟨lc, hlc⟩ : ∃ lc, (',' :: t2).getLast? = some lc :=
        ⟨(',' :: t2).getLast (by simp), List.getLast?_eq_getLast _ (by simp)⟩
      rw [hlc, show (some lc).or ((formatDuration dur).getLast?) = some lc from rfl] at hc
      injection hc with hc
      exact hc ▸ hlast lc hlc
  rw [List.append_assoc]
  cases title with
  | none =>
    rw [show extinfTitle none = [','] from rfl]
    exact hextgood [] (by simp) (fun c hc => by
      injection hc with hc
      rw [← hc]
      decide)
  | some t =>
    have hct := htit t rfl
    obtain ⟨htne, htcr, htts, hte⟩ := canonRawStr_spec t hct
    rw [show extinfTitle (some t) = ',' :: t.data from by
      rw [extinfTitle, optTruthy_canon t hte]]
    refine hextgood t.data (fun c hc => (htcr c hc).1) ?_
    intro c hc
    rw [getLast?_cons_ne_nil _ _ htne] at hc
    exact (trimStable_spec t.data htts).2 c hc

/-- Parsing the final `#EXTINF`/URI pair from an explicit parser state appends
exactly the intended segment. -/
theorem parse_final_pair (ln : Nat) (P : MediaPlaylist) (pk : Option EncryptionKey)
    (cmap : Option InitSegment) (L : Int)
    (dur : ℚ) (title : Option String) (uri : String) (br : Option ByteRange)
    (disc : Bool) (pdt : Option String) (gap : Bool) (bit : Option Int)
    (key : Option EncryptionKey)
    (hdur : canonDuration dur = true)
    (htit : ∀ t, title = some t → canonRawStr t = true)
    (huri : canonRawStr uri = true)
    (hhsh : startsWithChars uri.data "#".data = false)
    (hsegk : (∃ k0, key = some k0 ∧ pk = some k0 ∧ k0.method ≠ KeyMethod.none) ∨
      (key = none ∧ (pk = none ∨ ∃ k0, pk = some k0 ∧ k0.method = KeyMethod.none))) :
    ∃ lbe, parseMediaLines
      ["#EXTINF:".data ++ formatDuration dur ++ extinfTitle title, uri.data] ln
      { playlist := P, pending := ⟨none, none, br, disc, pdt, gap, bit⟩,
        currentKey := pk, currentMap := cmap, lastByteRangeEnd := L } =
      .ok { playlist := { P with segments := P.segments ++ [⟨dur, title, uri, br, disc, pdt, key, cmap, gap, bit⟩] },
            pending := PendingSegment.empty, currentKey := pk, currentMap := cmap,
            lastByteRangeEnd := lbe } := by
  obtain ⟨hune, hucr, huts, _⟩ := canonRawStr_spec uri huri
  have hd0 : 0 ≤ dur := by
    have hq2 := hdur
    simp only [canonDuration, Bool.and_eq_true, decide_eq_true_eq] at hq2
    exact hq2.1
  have htrim := (extinf_line_good dur title hd0 htit).2
  cases title with
  | none =>
    have hline : ("#EXTINF:".data ++ formatDuration dur ++ extinfTitle none : List Char)
        = "#EXTINF:".data ++ (formatDuration dur ++ [',']) := by
      rw [List.append_assoc]
      rfl
    rcases hsegk with ⟨k0, hk0, hpk0, hm0⟩ | ⟨hkn, hpkn⟩
    · obtain ⟨lbe, hu⟩ := pml_uri_key (ln + 1)
        ({ playlist := P, pending := ⟨some dur, none, br, disc, pdt, gap, bit⟩,
           currentKey := pk, currentMap := cmap, lastByteRangeEnd := L } : MediaParseSt)
        uri.data k0 hune hhsh hpk0 hm0
      refine ⟨lbe, ?_⟩
      rw [parseMediaLines_pair, htrim, huts, hline, pml_extinf_notitle _ _ dur hdur,
        except_pure_bind]
      dsimp only
      rw [hu, except_pure_bind, hk0]
      rfl
    · obtain ⟨lbe, hu⟩ := pml_uri_nokey (ln + 1)
        ({ playlist := P, pending := ⟨some dur, none, br, disc, pdt, gap, bit⟩,
           currentKey := pk, currentMap := cmap, lastByteRangeEnd := L } : MediaParseSt)
        uri.data hune hhsh (by
          rcases hpkn with h | ⟨k0, hp, hm⟩
          · exact Or.inl h
          · exact Or.inr ⟨k0, hp, hm⟩)
      refine ⟨lbe, ?_⟩
      rw [parseMediaLines_pair, htrim, huts, hline, pml_extinf_notitle _ _ dur hdur,
        except_pure_bind]
      dsimp only
      rw [hu, except_pure_bind, hkn]
      rfl
  | some t =>
    have hct := htit t rfl
    obtain ⟨htne, _, _, hte⟩ := canonRawStr_spec t hct
    have hline : ("#EXTINF:".data ++ formatDuration dur ++ extinfTitle (some t) : List Char)
        = "#EXTINF:".data ++ (formatDuration dur ++ ',' :: t.data) := by
      rw [List.append_assoc, show extinfTitle (some t) = ',' :: t.data from by
        rw [extinfTitle, optTruthy_canon t hte]]
    rcases hsegk with ⟨k0, hk0, hpk0, hm0⟩ | ⟨hkn, hpkn⟩
    · obtain ⟨lbe, hu⟩ := pml_uri_key (ln + 1)
        ({ playlist := P, pending := ⟨some dur, some t, br, disc, pdt, gap, bit⟩,
           currentKey := pk, currentMap := cmap, lastByteRangeEnd := L } : MediaParseSt)
        uri.data k0 hune hhsh hpk0 hm0
      refine ⟨lbe, ?_⟩
      rw [parseMediaLines_pair, htrim, huts, hline,
        pml_extinf_title _ _ dur t.data hdur htne, except_pure_bind]
      dsimp only
      rw [hu, except_pure_bind, hk0]
      rfl
    · obtain ⟨lbe, hu⟩ := pml_uri_nokey (ln + 1)
        ({ playlist := P, pending := ⟨some dur, some t, br, disc, pdt, gap, bit⟩,
           currentKey := pk, currentMap := cmap, lastByteRangeEnd := L } : MediaParseSt)
        uri.data hune hhsh (by
          rcases hpkn with h | ⟨k0, hp, hm⟩
          · exact Or.inl h
          · exact Or.inr ⟨k0, hp, hm⟩)
      refine ⟨lbe, ?_⟩
      rw [parseMediaLines_pair, htrim, huts, hline,
        pml_extinf_title _ _ dur t.data hdur htne, except_pure_bind]
      dsimp only
      rw [hu, except_pure_bind, hkn]
      rfl

/-- Parsing the writer's lines for one canonical segment appends exactly that
segment and preserves the key/map elision invariants. -/
theorem parse_segment (s : MediaSegment) (hs : canonSegment s = true)
    (wk : Option EncryptionKey) (wm : Option InitSegment) (ln : Nat) (st : MediaParseSt)
    (hpend : st.pending = PendingSegment.empty)
    (hcur : st.currentMap = wm)
    (hmn : s.map = none → wm = none)
    (hkeyrel : (∃ k, wk = some k ∧ st.currentKey = some k) ∨
      (wk = none ∧ (st.currentKey = none ∨
        st.currentKey = some ⟨KeyMethod.none, none, none, none, none⟩))) :
    (∀ l ∈ (writeSegmentLines s (wk, wm)).1, (∀ c ∈ l, c ≠ '\n') ∧ trimChars l = l) ∧
    ∃ pk lbe, parseMediaLines (writeSegmentLines s (wk, wm)).1 ln st =
      .ok { st with
        playlist := { st.playlist with segments := st.playlist.segments ++ [s] },
        pending := PendingSegment.empty,
        currentKey := pk,
        currentMap := s.map,
        lastByteRangeEnd := lbe } ∧
      (writeSegmentLines s (wk, wm)).2.2 = s.map ∧
      ((∃ k, (writeSegmentLines s (wk, wm)).2.1 = some k ∧ pk = some k) ∨
        ((writeSegmentLines s (wk, wm)).2.1 = none ∧ (pk = none ∨
          pk = some ⟨KeyMethod.none, none, none, none, none⟩))) := by
  obtain ⟨dur, title, uri, br, disc, pdt, key, map, gap, bit⟩ := s
  simp only [canonSegment, Bool.and_eq_true, Bool.not_eq_true'] at hs
  obtain ⟨⟨⟨⟨⟨⟨⟨⟨hdur, htit⟩, huri⟩, hhsh⟩, hbr⟩, hpdt⟩, hkey⟩, hmap⟩, hbit⟩ := hs
  have hsk : ∀ k0, key = some k0 → k0.method ≠ KeyMethod.none ∧ canonKey k0 = true := by
    intro k0 hk0
    rw [hk0] at hkey
    simp only [Bool.and_eq_true, decide_eq_true_eq] at hkey
    exact hkey
  have hsm : ∀ m0, map = some m0 → canonMap m0 = true := by
    intro m0 hm0
    rw [hm0] at hmap
    exact hmap
  have hbr2 : ∀ b0, br = some b0 → b0.offset.isSome = true := by
    intro b0 hb0
    rw [hb0] at hbr
    exact hbr
  have hpdt2 : ∀ d0, pdt = some d0 → canonRawStr d0 = true := by
    intro d0 hd0
    rw [hd0] at hpdt
    exact hpdt
  have htit2 : ∀ t0, title = some t0 → canonRawStr t0 = true := by
    intro t0 ht0
    rw [ht0] at htit
    exact htit
  have hbit2 : ∀ b0, bit = some b0 → b0 % 1000 = 0 := by
    intro b0 hb0
    rw [hb0] at hbit
    simp only [decide_eq_true_eq] at hbit
    exact hbit
  obtain ⟨hune, hucr, huts, _⟩ := canonRawStr_spec uri huri
  have hd0 : 0 ≤ dur := by
    have hq2 := hdur
    simp only [canonDuration, Bool.and_eq_true, decide_eq_true_eq] at hq2
    exact hq2.1
  have hurigood : (∀ c ∈ (uri.data : List Char), c ≠ '\n') ∧ trimChars uri.data = uri.data :=
    ⟨fun c hc => (hucr c hc).1, huts⟩
  have hW1 : (writeSegmentLines ⟨dur, title, uri, br, disc, pdt, key, map, gap, bit⟩
      (wk, wm)).1
      = (segKeyBlock key wk).1
        ++ ((segMapBlock map wm).1
        ++ ((if disc then ["#EXT-X-DISCONTINUITY".data] else [])
        ++ (optList (fun d => "#EXT-X-PROGRAM-DATE-TIME:".data ++ String.data d) pdt
        ++ ((if gap then ["#EXT-X-GAP".data] else [])
        ++ (optList (fun b : Int => "#EXT-X-BITRATE:".data
              ++ intToChars (roundJS ((b : ℚ) / 1000))) bit
        ++ (optList (fun br => "#EXT-X-BYTERANGE:".data ++ writeByteRangeW br) br
        ++ ["#EXTINF:".data ++ formatDuration dur ++ extinfTitle title, uri.data])))))) := by
    simp [writeSegmentLines, List.append_assoc]
  have hW21 : (writeSegmentLines ⟨dur, title, uri, br, disc, pdt, key, map, gap, bit⟩
      (wk, wm)).2.1 = (segKeyBlock key wk).2 := rfl
  have hW22 : (writeSegmentLines ⟨dur, title, uri, br, disc, pdt, key, map, gap, bit⟩
      (wk, wm)).2.2 = (segMapBlock map wm).2 := rfl
  constructor
  · rw [hW1]
    intro l hl
    rcases List.mem_append.mp hl with h | hl
    · exact (parse_key_block key wk ln st hsk hkeyrel).1 l h
    rcases List.mem_append.mp hl with h | hl
    · exact (parse_map_block map wm ln st hsm hcur hmn).1 l h
    rcases List.mem_append.mp hl with h | hl
    · exact (parse_disc_block disc ln st).1 l h
    rcases List.mem_append.mp hl with h | hl
    · exact (parse_pdt_block pdt ln st hpdt2).1 l h
    rcases List.mem_append.mp hl with h | hl
    · exact (parse_gap_block gap ln st).1 l h
    rcases List.mem_append.mp hl with h | hl
    · exact (parse_bitrate_block bit ln st hbit2).1 l h
    rcases List.mem_append.mp hl with h | hl
    · exact (parse_br_block br ln st hbr2).1 l h
    rcases List.mem_cons.mp hl with h | hl
    · subst h
      exact extinf_line_good dur title hd0 htit2
    rcases List.mem_cons.mp hl with h | hl
    · subst h
      exact hurigood
    · exact absurd hl (by simp)
  · obtain ⟨_, pk, hpk, hinv, hsegk⟩ := parse_key_block key wk ln st hsk hkeyrel
    refine ⟨pk, ?_⟩
    rw [hW1, hW21, hW22]
    obtain ⟨_, h2m, hpm⟩ := parse_map_block map wm (ln + ((segKeyBlock key wk).1).length)
      { st with currentKey := pk } hsm hcur hmn
    rw [parseMediaLines_append, hpk, except_ok_bind,
      parseMediaLines_append, hpm, except_ok_bind,
      parseMediaLines_append, (parse_disc_block disc _ _).2, except_ok_bind,
      parseMediaLines_append, (parse_pdt_block pdt _ _ hpdt2).2, except_ok_bind,
      parseMediaLines_append, (parse_gap_block gap _ _).2, except_ok_bind,
      parseMediaLines_append, (parse_bitrate_block bit _ _ hbit2).2, except_ok_bind,
      parseMediaLines_append, (parse_br_block br _ _ hbr2).2, except_ok_bind]
    simp only [hpend, PendingSegment.empty, Option.or_none, Bool.false_or]
    obtain ⟨lbe, hu⟩ := parse_final_pair
      (ln + ((segKeyBlock key wk).1).length + ((segMapBlock map wm).1).length
        + (if disc then ["#EXT-X-DISCONTINUITY".data] else ([] : List (List Char))).length
        + (optList (fun d => "#EXT-X-PROGRAM-DATE-TIME:".data ++ String.data d) pdt).length
        + (if gap then ["#EXT-X-GAP".data] else ([] : List (List Char))).length
        + (optList (fun b : Int => "#EXT-X-BITRATE:".data
            ++ intToChars (roundJS ((b : ℚ) / 1000))) bit).length
        + (optList (fun br => "#EXT-X-BYTERANGE:".data ++ writeByteRangeW br) br).length)
      st.playlist pk map st.lastByteRangeEnd dur title uri br disc pdt gap bit key
      hdur htit2 huri hhsh hsegk
    exact ⟨lbe, hu, h2m, hinv⟩

/-- Parsing the writer's segment loop appends exactly the segments. -/
theorem parse_segments : ∀ (segs : List MediaSegment) (wk : Option EncryptionKey)
    (wm : Option InitSegment) (ln : Nat) (st : MediaParseSt),
    (∀ s2 ∈ segs, canonSegment s2 = true) →
    mapsSuffixClosed wm.isSome segs = true →
    st.pending = PendingSegment.empty →
    st.currentMap = wm →
    ((∃ k, wk = some k ∧ st.currentKey = some k) ∨
      (wk = none ∧ (st.currentKey = none ∨
        st.currentKey = some ⟨KeyMethod.none, none, none, none, none⟩))) →
    (∀ l ∈ writeSegmentsLines segs (wk, wm), (∀ c ∈ l, c ≠ '\n') ∧ trimChars l = l) ∧
    ∃ pk pm lbe, parseMediaLines (writeSegmentsLines segs (wk, wm)) ln st =
      .ok { st with
        playlist := { st.playlist with segments := st.playlist.segments ++ segs },
        pending := PendingSegment.empty,
        currentKey := pk, currentMap := pm, lastByteRangeEnd := lbe }
  | [], wk, wm, ln, st, _, _, hpend, _, _ => by
    refine ⟨by simp [writeSegmentsLines], st.currentKey, st.currentMap,
      st.lastByteRangeEnd, ?_⟩
    rw [show writeSegmentsLines [] (wk, wm) = [] from rfl, List.append_nil, ← hpend]
    rfl
  | s :: rest, wk, wm, ln, st, hall, hclose, hpend, hcur, hkeyrel => by
    have hcans := hall s (List.mem_cons_self s rest)
    have hallr : ∀ s2 ∈ rest, canonSegment s2 = true :=
      fun s2 h => hall s2 (List.mem_cons_of_mem s h)
    rw [mapsSuffixClosed] at hclose
    cases hcb : (wm.isSome && s.map.isNone) with
    | true =>
      rw [hcb] at hclose
      simp at hclose
    | false =>
      rw [hcb] at hclose
      simp only [Bool.false_eq_true, if_false] at hclose
      have hmn : s.map = none → wm = none := by
        intro hsm0
        cases hwm2 : wm with
        | none => rfl
        | some x =>
          rw [hwm2, hsm0] at hcb
          simp at hcb
      obtain ⟨hgood1, pk, lbe, hseq, h22, hrel⟩ :=
        parse_segment s hcans wk wm ln st hpend hcur hmn hkeyrel
      have hcl2 : mapsSuffixClosed
          (((writeSegmentLines s (wk, wm)).2.2).isSome) rest = true := by
        rw [h22]
        have he : (wm.isSome || s.map.isSome) = s.map.isSome := by
          cases hsm3 : s.map with
          | some m3 => simp
          | none =>
            rw [hmn hsm3]
            simp
        rw [he] at hclose
        exact hclose
      obtain ⟨hgood2, pk2, pm2, lbe2, hseq2⟩ := parse_segments rest
        ((writeSegmentLines s (wk, wm)).2.1) ((writeSegmentLines s (wk, wm)).2.2)
        (ln + ((writeSegmentLines s (wk, wm)).1).length)
        ({ st with
          playlist := { st.playlist with segments := st.playlist.segments ++ [s] },
          pending := PendingSegment.empty,
          currentKey := pk,
          currentMap := s.map,
          lastByteRangeEnd := lbe } : MediaParseSt)
        hallr hcl2 rfl h22.symm hrel
      constructor
      · intro l hl
        rw [show writeSegmentsLines (s :: rest) (wk, wm)
            = (writeSegmentLines s (wk, wm)).1
              ++ writeSegmentsLines rest
                ((writeSegmentLines s (wk, wm)).2.1, (writeSegmentLines s (wk, wm)).2.2)
            from rfl] at hl
        rcases List.mem_append.mp hl with h | h
        · exact hgood1 l h
        · exact hgood2 l h
      · refine ⟨pk2, pm2, lbe2, ?_⟩
        rw [show writeSegmentsLines (s :: rest) (wk, wm)
            = (writeSegmentLines s (wk, wm)).1
              ++ writeSegmentsLines rest
                ((writeSegmentLines s (wk, wm)).2.1, (writeSegmentLines s (wk, wm)).2.2)
            from rfl,
          parseMediaLines_append, hseq, except_ok_bind, hseq2]
        simp only [List.append_assoc, List.singleton_append]

/-! ### C7 layer 9: header blocks -/

/-- The `#EXTM3U` line is clean and skipped. -/
theorem parse_m3u_line (ln : Nat) (st : MediaParseSt) :
    (∀ l ∈ (["#EXTM3U".data] : List (List Char)), (∀ c ∈ l, c ≠ '\n') ∧ trimChars l = l) ∧
    parseMediaLines ["#EXTM3U".data] ln st = .ok st := by
  constructor
  · intro l hl
    rw [List.mem_singleton] at hl
    subst hl
    exact ⟨by decide, by decide⟩
  · rw [show parseMediaLines ["#EXTM3U".data] ln st
        = (parseMediaLine ln (trimChars "#EXTM3U".data) st)
          >>= (fun s2 => parseMediaLines [] (ln + 1) s2) from rfl,
      show trimChars "#EXTM3U".data = "#EXTM3U".data from by decide, pml_m3u,
      except_pure_bind]
    rfl

/-- A trailing blank line is skipped. -/
theorem parse_blank_line (ln : Nat) (st : MediaParseSt) :
    parseMediaLines [[]] ln st = .ok st := rfl

/-- The version block parses to the version update. -/
theorem parse_ver_block (v : Int) (ln : Nat) (st : MediaParseSt)
    (hv : 1 ≤ v) (hst : st.playlist.version = 1) :
    (∀ l ∈ verLines v, (∀ c ∈ l, c ≠ '\n') ∧ trimChars l = l) ∧
    parseMediaLines (verLines v) ln st =
      .ok { st with playlist := { st.playlist with version := v } } := by
  have hline := tag_payload_good "#EXT-X-VERSION:".data (intToChars v)
    (by decide) (by decide) (head_fact_of _ '#' rfl (by decide))
    (last_fact_of _ ':' rfl (by decide)) (intToChars_good v).1 (intToChars_good v).2
  by_cases h1 : v > 1
  · constructor
    · intro l hl
      rw [verLines, if_pos h1, List.mem_singleton] at hl
      subst hl
      exact hline
    · rw [verLines, if_pos h1,
        show parseMediaLines ["#EXT-X-VERSION:".data ++ intToChars v] ln st
          = (parseMediaLine ln (trimChars ("#EXT-X-VERSION:".data ++ intToChars v)) st)
            >>= (fun s2 => parseMediaLines [] (ln + 1) s2) from rfl,
        hline.2, pml_version, except_pure_bind, parseIntJS_intToChars]
      rfl
  · have hv1 : v = 1 := by omega
    constructor
    · intro l hl
      rw [verLines, if_neg h1] at hl
      exact absurd hl (by simp)
    · rw [verLines, if_neg h1, hv1, ← hst]
      rfl

/-- The target-duration line parses to the field update. -/
theorem parse_td_block (td : Int) (ln : Nat) (st : MediaParseSt) :
    (∀ l ∈ (["#EXT-X-TARGETDURATION:".data ++ intToChars td] : List (List Char)),
      (∀ c ∈ l, c ≠ '\n') ∧ trimChars l = l) ∧
    parseMediaLines ["#EXT-X-TARGETDURATION:".data ++ intToChars td] ln st =
      .ok { st with playlist := { st.playlist with targetDuration := td } } := by
  have hline := tag_payload_good "#EXT-X-TARGETDURATION:".data (intToChars td)
    (by decide) (by decide) (head_fact_of _ '#' rfl (by decide))
    (last_fact_of _ ':' rfl (by decide)) (intToChars_good td).1 (intToChars_good td).2
  constructor
  · intro l hl
    rw [List.mem_singleton] at hl
    subst hl
    exact hline
  · rw [show parseMediaLines ["#EXT-X-TARGETDURATION:".data ++ intToChars td] ln st
        = (parseMediaLine ln (trimChars ("#EXT-X-TARGETDURATION:".data ++ intToChars td)) st)
          >>= (fun s2 => parseMediaLines [] (ln + 1) s2) from rfl,
      hline.2, pml_targetduration, except_pure_bind, parseIntJS_intToChars]
    rfl

/-- The media-sequence block parses to the field update. -/
theorem parse_ms_block (ms : Int) (ln : Nat) (st : MediaParseSt)
    (hst : st.playlist.mediaSequence = 0) :
    (∀ l ∈ msLines ms, (∀ c ∈ l, c ≠ '\n') ∧ trimChars l = l) ∧
    parseMediaLines (msLines ms) ln st =
      .ok { st with playlist := { st.playlist with mediaSequence := ms } } := by
  have hline := tag_payload_good "#EXT-X-MEDIA-SEQUENCE:".data (intToChars ms)
    (by decide) (by decide) (head_fact_of _ '#' rfl (by decide))
    (last_fact_of _ ':' rfl (by decide)) (intToChars_good ms).1 (intToChars_good ms).2
  by_cases h1 : ms ≠ 0
  · constructor
    · intro l hl
      rw [msLines, if_pos h1, List.mem_singleton] at hl
      subst hl
      exact hline
    · rw [msLines, if_pos h1,
        show parseMediaLines ["#EXT-X-MEDIA-SEQUENCE:".data ++ intToChars ms] ln st
          = (parseMediaLine ln (trimChars ("#EXT-X-MEDIA-SEQUENCE:".data ++ intToChars ms)) st)
            >>= (fun s2 => parseMediaLines [] (ln + 1) s2) from rfl,
        hline.2, pml_mediasequence, except_pure_bind, parseIntJS_intToChars]
      rfl
  · have h0 : ms = 0 := by omega
    constructor
    · intro l hl
      rw [msLines, if_neg h1] at hl
      exact absurd hl (by simp)
    · rw [msLines, if_neg h1, h0, ← hst]
      rfl

/-- The discontinuity-sequence block parses to the field update. -/
theorem parse_ds_block (ds : Option Int) (ln : Nat) (st : MediaParseSt)
    (hd : ∀ d, ds = some d → d ≠ 0)
    (hst : st.playlist.discontinuitySequence = none) :
    (∀ l ∈ dsLines ds, (∀ c ∈ l, c ≠ '\n') ∧ trimChars l = l) ∧
    parseMediaLines (dsLines ds) ln st =
      .ok { st with playlist := { st.playlist with discontinuitySequence := ds } } := by
  cases ds with
  | none =>
    refine ⟨by simp [dsLines], ?_⟩
    rw [show dsLines none = [] from rfl, ← hst]
    rfl
  | some d =>
    have hdn := hd d rfl
    have hline := tag_payload_good "#EXT-X-DISCONTINUITY-SEQUENCE:".data (intToChars d)
      (by decide) (by decide) (head_fact_of _ '#' rfl (by decide))
      (last_fact_of _ ':' rfl (by decide)) (intToChars_good d).1 (intToChars_good d).2
    constructor
    · intro l hl
      rw [show dsLines (some d)
          = if d ≠ 0 then ["#EXT-X-DISCONTINUITY-SEQUENCE:".data ++ intToChars d] else []
          from rfl, if_pos hdn, List.mem_singleton] at hl
      subst hl
      exact hline
    · rw [show dsLines (some d)
          = if d ≠ 0 then ["#EXT-X-DISCONTINUITY-SEQUENCE:".data ++ intToChars d] else []
          from rfl, if_pos hdn,
        show parseMediaLines ["#EXT-X-DISCONTINUITY-SEQUENCE:".data ++ intToChars d] ln st
          = (parseMediaLine ln
              (trimChars ("#EXT-X-DISCONTINUITY-SEQUENCE:".data ++ intToChars d)) st)
            >>= (fun s2 => parseMediaLines [] (ln + 1) s2) from rfl,
        hline.2, pml_discseq, except_pure_bind, parseIntJS_intToChars]
      rfl

/-- The playlist-type block parses to the field update. -/
theorem parse_pt_block (pt : Option PlaylistType) (ln : Nat) (st : MediaParseSt)
    (hst : st.playlist.playlistType = none) :
    (∀ l ∈ ptLines pt, (∀ c ∈ l, c ≠ '\n') ∧ trimChars l = l) ∧
    parseMediaLines (ptLines pt) ln st =
      .ok { st with playlist := { st.playlist with playlistType := pt } } := by
  cases pt with
  | none =>
    refine ⟨by simp [ptLines], ?_⟩
    rw [show ptLines none = [] from rfl, ← hst]
    rfl
  | some t =>
    constructor
    · intro l hl
      rw [show ptLines (some t) = ["#EXT-X-PLAYLIST-TYPE:".data ++ t.chars] from rfl,
        List.mem_singleton] at hl
      subst hl
      cases t with
      | vod => exact ⟨by decide, by decide⟩
      | event => exact ⟨by decide, by decide⟩
    · have htr : trimChars ("#EXT-X-PLAYLIST-TYPE:".data ++ t.chars)
          = "#EXT-X-PLAYLIST-TYPE:".data ++ t.chars := by
        cases t with
        | vod => decide
        | event => decide
      rw [show ptLines (some t) = ["#EXT-X-PLAYLIST-TYPE:".data ++ t.chars] from rfl,
        show parseMediaLines ["#EXT-X-PLAYLIST-TYPE:".data ++ t.chars] ln st
          = (parseMediaLine ln (trimChars ("#EXT-X-PLAYLIST-TYPE:".data ++ t.chars)) st)
            >>= (fun s2 => parseMediaLines [] (ln + 1) s2) from rfl,
        htr, pml_playlisttype, except_pure_bind]
      rfl

/-- The independent-segments block parses to the flag update. -/
theorem parse_is_block (b : Bool) (ln : Nat) (st : MediaParseSt)
    (hst : st.playlist.independentSegments = false) :
    (∀ l ∈ (if b then ["#EXT-X-INDEPENDENT-SEGMENTS".data] else ([] : List (List Char))),
      (∀ c ∈ l, c ≠ '\n') ∧ trimChars l = l) ∧
    parseMediaLines (if b then ["#EXT-X-INDEPENDENT-SEGMENTS".data] else []) ln st =
      .ok { st with playlist := { st.playlist with independentSegments := b } } := by
  cases b with
  | false =>
    refine ⟨by simp, ?_⟩
    rw [if_neg (by simp), ← hst]
    rfl
  | true =>
    constructor
    · intro l hl
      rw [if_pos rfl, List.mem_singleton] at hl
      subst hl
      exact ⟨by decide, by decide⟩
    · rw [if_pos rfl,
        show parseMediaLines ["#EXT-X-INDEPENDENT-SEGMENTS".data] ln st
          = (parseMediaLine ln (trimChars "#EXT-X-INDEPENDENT-SEGMENTS".data) st)
            >>= (fun s2 => parseMediaLines [] (ln + 1) s2) from rfl,
        show trimChars "#EXT-X-INDEPENDENT-SEGMENTS".data
          = "#EXT-X-INDEPENDENT-SEGMENTS".data from by decide,
        pml_independent, except_pure_bind]
      rfl

/-- The i-frames-only block parses to the flag update. -/
theorem parse_ifo_block (b : Bool) (ln : Nat) (st : MediaParseSt)
    (hst : st.playlist.iFramesOnly = false) :
    (∀ l ∈ (if b then ["#EXT-X-I-FRAMES-ONLY".data] else ([] : List (List Char))),
      (∀ c ∈ l, c ≠ '\n') ∧ trimChars l = l) ∧
    parseMediaLines (if b then ["#EXT-X-I-FRAMES-ONLY".data] else []) ln st =
      .ok { st with playlist := { st.playlist with iFramesOnly := b } } := by
  cases b with
  | false =>
    refine ⟨by simp, ?_⟩
    rw [if_neg (by simp), ← hst]
    rfl
  | true =>
    constructor
    · intro l hl
      rw [if_pos rfl, List.mem_singleton] at hl
      subst hl
      exact ⟨by decide, by decide⟩
    · rw [if_pos rfl,
        show parseMediaLines ["#EXT-X-I-FRAMES-ONLY".data] ln st
          = (parseMediaLine ln (trimChars "#EXT-X-I-FRAMES-ONLY".data) st)
            >>= (fun s2 => parseMediaLines [] (ln + 1) s2) from rfl,
        show trimChars "#EXT-X-I-FRAMES-ONLY".data = "#EXT-X-I-FRAMES-ONLY".data
          from by decide,
        pml_iframes, except_pure_bind]
      rfl

/-- The end-list block parses to the flag update. -/
theorem parse_el_block (b : Bool) (ln : Nat) (st : MediaParseSt)
    (hst : st.playlist.endList = false) :
    (∀ l ∈ (if b then ["#EXT-X-ENDLIST".data] else ([] : List (List Char))),
      (∀ c ∈ l, c ≠ '\n') ∧ trimChars l = l) ∧
    parseMediaLines (if b then ["#EXT-X-ENDLIST".data] else []) ln st =
      .ok { st with playlist := { st.playlist with endList := b } } := by
  cases b with
  | false =>
    refine ⟨by simp, ?_⟩
    rw [if_neg (by simp), ← hst]
    rfl
  | true =>
    constructor
    · intro l hl
      rw [if_pos rfl, List.mem_singleton] at hl
      subst hl
      exact ⟨by decide, by decide⟩
    · rw [if_pos rfl,
        show parseMediaLines ["#EXT-X-ENDLIST".data] ln st
          = (parseMediaLine ln (trimChars "#EXT-X-ENDLIST".data) st)
            >>= (fun s2 => parseMediaLines [] (ln + 1) s2) from rfl,
        show trimChars "#EXT-X-ENDLIST".data = "#EXT-X-ENDLIST".data from by decide,
        pml_endlist, except_pure_bind]
      rfl

/-- The start block parses to the field update. -/
theorem parse_start_block (so : Option StartOffset) (ln : Nat) (st : MediaParseSt)
    (hso : ∀ x, so = some x → canonQ x.timeOffset = true)
    (hst : st.playlist.start = none) :
    (∀ l ∈ startLines so, (∀ c ∈ l, c ≠ '\n') ∧ trimChars l = l) ∧
    parseMediaLines (startLines so) ln st =
      .ok { st with playlist := { st.playlist with start := so } } := by
  cases so with
  | none =>
    refine ⟨by simp [startLines], ?_⟩
    rw [show startLines none = [] from rfl, ← hst]
    rfl
  | some x =>
    have hgq := hso x rfl
    have hpay := start_line_payload_good x.timeOffset x.precise
    have hline := tag_payload_good "#EXT-X-START:".data
      (renderAttrs ([("TIME-OFFSET".data, .bare (qToChars x.timeOffset))]
        ++ if x.precise then [("PRECISE".data, .bare "YES".data)] else []))
      (by decide) (by decide) (head_fact_of _ '#' rfl (by decide))
      (last_fact_of _ ':' rfl (by decide)) hpay.1 hpay.2
    constructor
    · intro l hl
      rw [show startLines (some x)
          = ["#EXT-X-START:".data
              ++ renderAttrs ([("TIME-OFFSET".data, .bare (qToChars x.timeOffset))]
                ++ if x.precise then [("PRECISE".data, .bare "YES".data)] else [])]
          from rfl, List.mem_singleton] at hl
      subst hl
      exact hline
    · rw [show startLines (some x)
          = ["#EXT-X-START:".data
              ++ renderAttrs ([("TIME-OFFSET".data, .bare (qToChars x.timeOffset))]
                ++ if x.precise then [("PRECISE".data, .bare "YES".data)] else [])]
          from rfl,
        show parseMediaLines ["#EXT-X-START:".data
              ++ renderAttrs ([("TIME-OFFSET".data, .bare (qToChars x.timeOffset))]
                ++ if x.precise then [("PRECISE".data, .bare "YES".data)] else [])] ln st
          = (parseMediaLine ln (trimChars ("#EXT-X-START:".data
              ++ renderAttrs ([("TIME-OFFSET".data, .bare (qToChars x.timeOffset))]
                ++ if x.precise then [("PRECISE".data, .bare "YES".data)] else []))) st)
            >>= (fun s2 => parseMediaLines [] (ln + 1) s2) from rfl,
        hline.2, pml_start ln st x hgq, except_pure_bind]
      rfl

/-- The date-range block parses to the appended date ranges. -/
theorem parse_dr_block : ∀ (drs : List DateRange) (ln : Nat) (st : MediaParseSt),
    (∀ d ∈ drs, canonDateRange d = true) →
    (∀ l ∈ drs.map (fun d => "#EXT-X-DATERANGE:".data ++ renderAttrs (writeDateRangeAttrs d)),
      (∀ c ∈ l, c ≠ '\n') ∧ trimChars l = l) ∧
    parseMediaLines
        (drs.map (fun d => "#EXT-X-DATERANGE:".data ++ renderAttrs (writeDateRangeAttrs d)))
        ln st =
      .ok { st with playlist :=
        { st.playlist with dateRanges := st.playlist.dateRanges ++ drs } }
  | [], ln, st, _ => by
    refine ⟨by simp, ?_⟩
    rw [List.map_nil, List.append_nil]
    rfl
  | d :: rest, ln, st, hdr => by
    have hcd := hdr d (List.mem_cons_self d rest)
    have hrest : ∀ d2 ∈ rest, canonDateRange d2 = true :=
      fun d2 h => hdr d2 (List.mem_cons_of_mem d h)
    have hpay := dr_line_payload_good d hcd
    have hline := tag_payload_good "#EXT-X-DATERANGE:".data
      (renderAttrs (writeDateRangeAttrs d))
      (by decide) (by decide) (head_fact_of _ '#' rfl (by decide))
      (last_fact_of _ ':' rfl (by decide)) hpay.1 hpay.2
    obtain ⟨hgood2, hseq2⟩ := parse_dr_block rest (ln + 1)
      ({ st with playlist :=
        { st.playlist with dateRanges := st.playlist.dateRanges ++ [d] } } : MediaParseSt)
      hrest
    constructor
    · intro l hl
      rw [List.map_cons] at hl
      rcases List.mem_cons.mp hl with h | h
      · subst h
        exact hline
      · exact hgood2 l h
    · rw [List.map_cons,
        show parseMediaLines
            (("#EXT-X-DATERANGE:".data ++ renderAttrs (writeDateRangeAttrs d))
              :: rest.map (fun d2 =>
                "#EXT-X-DATERANGE:".data ++ renderAttrs (writeDateRangeAttrs d2))) ln st
          = (parseMediaLine ln
              (trimChars ("#EXT-X-DATERANGE:".data ++ renderAttrs (writeDateRangeAttrs d))) st)
            >>= (fun s2 => parseMediaLines
              (rest.map (fun d2 =>
                "#EXT-X-DATERANGE:".data ++ renderAttrs (writeDateRangeAttrs d2)))
              (ln + 1) s2) from rfl,
        hline.2, pml_daterange ln st d hcd, except_pure_bind, hseq2]
      simp only [List.append_assoc, List.singleton_append]

/-- C7 (amended): on canonical media playlists the writer/parser round trip is
exact — `parseMediaPlaylist (writeMediaPlaylist p) = p`. -/
theorem canonical_write_parse_roundtrip (p : MediaPlaylist)
    (h : canonMediaPlaylist p = true) :
    parseMediaPlaylistM (writeMediaPlaylistM p) = .ok p := by
  obtain ⟨ver, td, ms, ds, pt, el, ifo, isb, strt, drs, segs⟩ := p
  simp only [canonMediaPlaylist, Bool.and_eq_true, decide_eq_true_eq,
    List.all_eq_true] at h
  obtain ⟨⟨⟨⟨⟨hver, hds⟩, hstrt⟩, hdrs⟩, hsegs⟩, hclose⟩ := h
  have hds2 : ∀ d, ds = some d → d ≠ 0 := by
    intro d hd
    rw [hd] at hds
    simp only [decide_eq_true_eq] at hds
    exact hds
  have hstrt2 : ∀ x, strt = some x → canonQ x.timeOffset = true := by
    intro x hx
    rw [hx] at hstrt
    exact hstrt
  have hclose2 : mapsSuffixClosed ((none : Option InitSegment)).isSome segs = true := hclose
  have hW : writeMediaPlaylistLines ⟨ver, td, ms, ds, pt, el, ifo, isb, strt, drs, segs⟩
      = ["#EXTM3U".data]
        ++ (verLines ver
        ++ (["#EXT-X-TARGETDURATION:".data ++ intToChars td]
        ++ (msLines ms
        ++ (dsLines ds
        ++ (ptLines pt
        ++ ((if isb then ["#EXT-X-INDEPENDENT-SEGMENTS".data] else [])
        ++ ((if ifo then ["#EXT-X-I-FRAMES-ONLY".data] else [])
        ++ (startLines strt
        ++ (drs.map (fun d => "#EXT-X-DATERANGE:".data
              ++ renderAttrs (writeDateRangeAttrs d))
        ++ (writeSegmentsLines segs (none, none)
        ++ (if el then ["#EXT-X-ENDLIST".data] else []))))))))))) := by
    simp only [writeMediaPlaylistLines, List.append_assoc]
  have hgoodall : ∀ l ∈ writeMediaPlaylistLines
      ⟨ver, td, ms, ds, pt, el, ifo, isb, strt, drs, segs⟩,
      (∀ c ∈ l, c ≠ '\n') ∧ trimChars l = l := by
    rw [hW]
    intro l hl
    rcases List.mem_append.mp hl with h | hl
    · exact (parse_m3u_line 1 initialMediaParseSt).1 l h
    rcases List.mem_append.mp hl with h | hl
    · exact (parse_ver_block ver 1 initialMediaParseSt hver rfl).1 l h
    rcases List.mem_append.mp hl with h | hl
    · exact (parse_td_block td 1 initialMediaParseSt).1 l h
    rcases List.mem_append.mp hl with h | hl
    · exact (parse_ms_block ms 1 initialMediaParseSt rfl).1 l h
    rcases List.mem_append.mp hl with h | hl
    · exact (parse_ds_block ds 1 initialMediaParseSt hds2 rfl).1 l h
    rcases List.mem_append.mp hl with h | hl
    · exact (parse_pt_block pt 1 initialMediaParseSt rfl).1 l h
    rcases List.mem_append.mp hl with h | hl
    · exact (parse_is_block isb 1 initialMediaParseSt rfl).1 l h
    rcases List.mem_append.mp hl with h | hl
    · exact (parse_ifo_block ifo 1 initialMediaParseSt rfl).1 l h
    rcases List.mem_append.mp hl with h | hl
    · exact (parse_start_block strt 1 initialMediaParseSt hstrt2 rfl).1 l h
    rcases List.mem_append.mp hl with h | hl
    · exact (parse_dr_block drs 1 initialMediaParseSt hdrs).1 l h
    rcases List.mem_append.mp hl with h | hl
    · exact (parse_segments segs none none 1 initialMediaParseSt hsegs hclose2 rfl rfl
        (Or.inr ⟨rfl, Or.inl rfl⟩)).1 l h
    · exact (parse_el_block el 1 initialMediaParseSt rfl).1 l hl
  have hne : writeMediaPlaylistLines ⟨ver, td, ms, ds, pt, el, ifo, isb, strt, drs, segs⟩
      ≠ [] := by
    rw [hW]
    simp
  have hsplit := splitLines_joinLines
    (writeMediaPlaylistLines ⟨ver, td, ms, ds, pt, el, ifo, isb, strt, drs, segs⟩) hne
    (by
      intro l hl
      refine ⟨(hgoodall l hl).1, fun c hc he => ?_⟩
      have hws := (trimStable_spec l (hgoodall l hl).2).2 c hc
      rw [he] at hws
      exact absurd hws (by decide))
  have hcond : ∀ tail : List (List Char),
      (!startsWithChars (((["#EXTM3U".data] ++ tail) ++ [[]]).headD [])
        "#EXTM3U".data) = false := fun _ => rfl
  obtain ⟨_, pk, pm, lbe, hseq⟩ := parse_segments segs none none
    (1 + (["#EXTM3U".data] : List (List Char)).length + (verLines ver).length
      + (["#EXT-X-TARGETDURATION:".data ++ intToChars td] : List (List Char)).length
      + (msLines ms).length + (dsLines ds).length + (ptLines pt).length
      + (if isb then ["#EXT-X-INDEPENDENT-SEGMENTS".data]
          else ([] : List (List Char))).length
      + (if ifo then ["#EXT-X-I-FRAMES-ONLY".data] else ([] : List (List Char))).length
      + (startLines strt).length
      + (drs.map (fun d => "#EXT-X-DATERANGE:".data
          ++ renderAttrs (writeDateRangeAttrs d))).length)
    (⟨⟨ver, td, ms, ds, pt, false, ifo, isb, strt, [] ++ drs, []⟩,
      PendingSegment.empty, none, none, 0⟩ : MediaParseSt)
    hsegs hclose2 rfl rfl (Or.inr ⟨rfl, Or.inl rfl⟩)
  rw [writeMediaPlaylistM]
  simp only [parseMediaPlaylistM]
  rw [hsplit, hW, hcond]
  simp only [Bool.false_eq_true, if_false]
  rw [show initialMediaParseSt
      = (⟨⟨1, 0, 0, none, none, false, false, false, none, [], []⟩,
          PendingSegment.empty, none, none, 0⟩ : MediaParseSt) from rfl]
  rw [parseMediaLines_append,
    parseMediaLines_append, (parse_m3u_line _ _).2, except_ok_bind,
    parseMediaLines_append, (parse_ver_block ver _
      (⟨⟨1, 0, 0, none, none, false, false, false, none, [], []⟩,
        PendingSegment.empty, none, none, 0⟩ : MediaParseSt) hver rfl).2, except_ok_bind,
    parseMediaLines_append, (parse_td_block td _
      (⟨⟨ver, 0, 0, none, none, false, false, false, none, [], []⟩,
        PendingSegment.empty, none, none, 0⟩ : MediaParseSt)).2, except_ok_bind,
    parseMediaLines_append, (parse_ms_block ms _
      (⟨⟨ver, td, 0, none, none, false, false, false, none, [], []⟩,
        PendingSegment.empty, none, none, 0⟩ : MediaParseSt) rfl).2, except_ok_bind,
    parseMediaLines_append, (parse_ds_block ds _
      (⟨⟨ver, td, ms, none, none, false, false, false, none, [], []⟩,
        PendingSegment.empty, none, none, 0⟩ : MediaParseSt) hds2 rfl).2, except_ok_bind,
    parseMediaLines_append, (parse_pt_block pt _
      (⟨⟨ver, td, ms, ds, none, false, false, false, none, [], []⟩,
        PendingSegment.empty, none, none, 0⟩ : MediaParseSt) rfl).2, except_ok_bind,
    parseMediaLines_append, (parse_is_block isb _
      (⟨⟨ver, td, ms, ds, pt, false, false, false, none, [], []⟩,
        PendingSegment.empty, none, none, 0⟩ : MediaParseSt) rfl).2, except_ok_bind,
    parseMediaLines_append, (parse_ifo_block ifo _
      (⟨⟨ver, td, ms, ds, pt, false, false, isb, none, [], []⟩,
        PendingSegment.empty, none, none, 0⟩ : MediaParseSt) rfl).2, except_ok_bind,
    parseMediaLines_append, (parse_start_block strt _
      (⟨⟨ver, td, ms, ds, pt, false, ifo, isb, none, [], []⟩,
        PendingSegment.empty, none, none, 0⟩ : MediaParseSt) hstrt2 rfl).2, except_ok_bind,
    parseMediaLines_append, (parse_dr_block drs _
      (⟨⟨ver, td, ms, ds, pt, false, ifo, isb, strt, [], []⟩,
        PendingSegment.empty, none, none, 0⟩ : MediaParseSt) hdrs).2, except_ok_bind,
    parseMediaLines_append, hseq, except_ok_bind,
    (parse_el_block el _
      (⟨⟨ver, td, ms, ds, pt, false, ifo, isb, strt, [] ++ drs, [] ++ segs⟩,
        PendingSegment.empty, pk, pm, lbe⟩ : MediaParseSt) rfl).2, except_ok_bind,
    parse_blank_line]
  rfl

/-- Witness for the amended C7 theorem: a concrete canonical one-segment
playlist round-trips exactly through the writer and parser. -/
theorem canonical_write_parse_roundtrip_witness :
    canonMediaPlaylist ⟨3, 10, 0, none, none, true, false, true, none, [],
      [⟨(19 : ℚ)/2, none, "seg0.ts", none, false, none, none, none, false, none⟩]⟩
      = true ∧
    parseMediaPlaylistM (writeMediaPlaylistM
      ⟨3, 10, 0, none, none, true, false, true, none, [],
        [⟨(19 : ℚ)/2, none, "seg0.ts", none, false, none, none, none, false, none⟩]⟩)
      = .ok ⟨3, 10, 0, none, none, true, false, true, none, [],
        [⟨(19 : ℚ)/2, none, "seg0.ts", none, false, none, none, none, false, none⟩]⟩ :=
  ⟨by decide, canonical_write_parse_roundtrip _ (by decide)⟩

end Mediabunny
